import Mathlib

/-!
# Dirac decoder: arithmetic decoder, header parser and reference management

A shallow embedding of parts of `libavcodec/dirac_arith.c` and
`libavcodec/dirac.c`.  C `unsigned int` values are natural numbers below
`2^32`; every operation that can leave that range is reduced modulo `2^32`
explicitly.  C `int` values are integers.
-/

set_option autoImplicit false

namespace Dirac

/-! ## Machine arithmetic -/

/-- Reduction of a natural number to an `unsigned int`. -/
def u32 (n : Nat) : Nat := n % 4294967296

/-- Subtraction of two `unsigned int` values, wrapping below zero. -/
def usub (a b : Nat) : Nat := (a % 4294967296 + 4294967296 - b % 4294967296) % 4294967296

/-- Conversion of an integer to `unsigned int` (two's complement). -/
def int_to_u32 (z : Int) : Nat := (z % 4294967296).toNat

/-- Conversion of an `unsigned int` bit pattern to `int` (two's complement). -/
def u32_to_int (n : Nat) : Int :=
  if n % 4294967296 < 2147483648 then ((n % 4294967296 : Nat) : Int)
  else ((n % 4294967296 : Nat) : Int) - 4294967296

/-- Wrap of an integer into the range of `int`. -/
def wrap_int (z : Int) : Int := u32_to_int (int_to_u32 z)

/-! ## Bit reader

The bit reader (`bitstream.h`) is not part of the tree.  A cursor is a bit
position in a sequence of bits; fields are read most significant bit first.
-/

/-- Modelled from the spec: the bit cursor of the external bit reader, a
position `index` into the bits `buffer` of the coded unit. -/
structure GetBitContext where
  buffer : Nat → Bool
  index : Nat

/-- Modelled from the spec: `get_bits1` of the external bit reader, the raw
bit under the cursor, which then moves one bit on. -/
def get_bits1 (gb : GetBitContext) : Nat × GetBitContext :=
  ((if gb.buffer gb.index then 1 else 0), { gb with index := gb.index + 1 })

/-- Modelled from the spec: `get_bits(gb, n)` of the external bit reader, an
`n`-bit group fetched most significant bit first. -/
def get_bits (gb : GetBitContext) : Nat → Nat × GetBitContext
  | 0 => (0, gb)
  | n + 1 =>
    let r := get_bits gb n
    let b := get_bits1 r.2
    (2 * r.1 + b.1, b.2)

/-- Modelled from the spec: `get_bits_long` of the external bit reader; it
differs from `get_bits` only in the group widths it accepts. -/
def get_bits_long (gb : GetBitContext) (n : Nat) : Nat × GetBitContext := get_bits gb n

/-- Modelled from the spec: `align_get_bits` of the external bit reader, the
cursor moved up to the next byte boundary. -/
def align_get_bits (gb : GetBitContext) : GetBitContext :=
  { gb with index := (gb.index + 7) / 8 * 8 }

/-- Modelled from the spec: `skip_bits_long` of the external bit reader. -/
def skip_bits_long (gb : GetBitContext) (n : Nat) : GetBitContext :=
  { gb with index := gb.index + n }

/-! ## `dirac_arith.c` -/

/-- The table `arith_lookup[256]`. -/
def arith_lookup : List Nat :=
  [
   0, 2, 5, 8, 11, 15, 20, 24,
   29, 35, 41, 47, 53, 60, 67, 74,
   82, 89, 97, 106, 114, 123, 132, 141,
   150, 160, 170, 180, 190, 201, 211, 222,
   233, 244, 256, 267, 279, 291, 303, 315,
   327, 340, 353, 366, 379, 392, 405, 419,
   433, 447, 461, 475, 489, 504, 518, 533,
   548, 563, 578, 593, 609, 624, 640, 656,
   672, 688, 705, 721, 738, 754, 771, 788,
   805, 822, 840, 857, 875, 892, 910, 928,
   946, 964, 983, 1001, 1020, 1038, 1057, 1076,
   1095, 1114, 1133, 1153, 1172, 1192, 1211, 1231,
   1251, 1271, 1291, 1311, 1332, 1352, 1373, 1393,
   1414, 1435, 1456, 1477, 1498, 1520, 1541, 1562,
   1584, 1606, 1628, 1649, 1671, 1694, 1716, 1738,
   1760, 1783, 1806, 1828, 1851, 1874, 1897, 1920,
   1935, 1942, 1949, 1955, 1961, 1968, 1974, 1980,
   1985, 1991, 1996, 2001, 2006, 2011, 2016, 2021,
   2025, 2029, 2033, 2037, 2040, 2044, 2047, 2050,
   2053, 2056, 2058, 2061, 2063, 2065, 2066, 2068,
   2069, 2070, 2071, 2072, 2072, 2072, 2072, 2072,
   2072, 2071, 2070, 2069, 2068, 2066, 2065, 2063,
   2060, 2058, 2055, 2052, 2049, 2045, 2042, 2038,
   2033, 2029, 2024, 2019, 2013, 2008, 2002, 1996,
   1989, 1982, 1975, 1968, 1960, 1952, 1943, 1934,
   1925, 1916, 1906, 1896, 1885, 1874, 1863, 1851,
   1839, 1827, 1814, 1800, 1786, 1772, 1757, 1742,
   1727, 1710, 1694, 1676, 1659, 1640, 1622, 1602,
   1582, 1561, 1540, 1518, 1495, 1471, 1447, 1422,
   1396, 1369, 1341, 1312, 1282, 1251, 1219, 1186,
   1151, 1114, 1077, 1037, 995, 952, 906, 857,
   805, 750, 690, 625, 553, 471, 376, 255
  ]

/-- A read `arith_lookup[i]`; an index outside the table reads as `0`. -/
def arith_lookup_at (i : Nat) : Nat := arith_lookup.getD i 0

/-- The decoder part of `struct dirac_arith_state`.  The declaration lives in
`dirac_arith.h`, which is not in the tree; the registers are taken as
`unsigned int`, the type of the locals of `dirac_arith_get_bit` that receive
them, and the context array as a map from the context number. -/
structure dirac_arith_state where
  low : Nat
  range : Nat
  code : Nat
  bits_left : Nat
  contexts : Nat → Nat
  gb : GetBitContext

/-- The function `dirac_arith_init`; `length` is the C `int` argument. -/
def dirac_arith_init (gb : GetBitContext) (length : Int) : dirac_arith_state :=
  let gb1 := align_get_bits gb
  let c := get_bits_long gb1 16
  { low := 0
    range := 0x10000
    code := c.1
    bits_left := int_to_u32 (8 * length - 16)
    contexts := fun _ => 0x8000
    gb := c.2 }

/-- The interval split of `dirac_arith_get_bit`: the decoded bit and the
state with `low` and `range` narrowed, before the context update. -/
def arith_split (arith : dirac_arith_state) (context : Nat) : Nat × dirac_arith_state :=
  let prob_zero := arith.contexts context
  let count := usub arith.code arith.low
  let range_times_prob := u32 (arith.range * prob_zero) / 65536
  if count ≥ range_times_prob then
    (1, { arith with low := u32 (arith.low + range_times_prob)
                     range := usub arith.range range_times_prob })
  else
    (0, { arith with range := range_times_prob })

/-- The new value of a context probability `p` after decoding `ret`. -/
def arith_adapt (ret : Nat) (p : Nat) : Nat :=
  if ret ≠ 0 then usub p (arith_lookup_at (p / 256))
  else u32 (p + arith_lookup_at (usub 255 (p / 256)))

/-- The context update of `dirac_arith_get_bit`. -/
def arith_update_context (ret : Nat) (arith : dirac_arith_state) (context : Nat) :
    dirac_arith_state :=
  { arith with contexts := Function.update arith.contexts context
                             (arith_adapt ret (arith.contexts context)) }

/-- One pass through the body of the renormalisation loop of
`dirac_arith_get_bit`. -/
def arith_renorm_step (arith : dirac_arith_state) : dirac_arith_state :=
  let carry := decide ((usub (u32 (arith.low + arith.range)) 1) ^^^ arith.low ≥ 0x8000)
  let code1 := if carry then arith.code ^^^ 0x4000 else arith.code
  let low1 := if carry then arith.low ^^^ 0x4000 else arith.low
  let low2 := u32 (low1 * 2) &&& 0xFFFF
  let range2 := u32 (arith.range * 2)
  let code2 := u32 (code1 * 2)
  if arith.bits_left > 0 then
    let b := get_bits arith.gb 1
    { arith with low := low2, range := range2, code := (code2 ||| b.1) &&& 0xffff
                 bits_left := arith.bits_left - 1, gb := b.2 }
  else
    { arith with low := low2, range := range2, code := (code2 ||| 1) &&& 0xffff }

/-- The loop `while (arith->range <= 0x4000)` run for at most `fuel` passes;
`none` when the loop is still running after them. -/
def arith_renorm : Nat → dirac_arith_state → Option dirac_arith_state
  | 0, arith => if arith.range ≤ 0x4000 then none else some arith
  | fuel + 1, arith =>
    if arith.range ≤ 0x4000 then arith_renorm fuel (arith_renorm_step arith)
    else some arith

/-- The function `dirac_arith_get_bit`.  A range in `1 .. 0x4000` doubles on
every pass of the loop and so leaves it within 15 passes; a range of `0`
never leaves it, and `none` stands for that divergence (see
`arith_renorm_eq_none_iff` and `arith_renorm_fuel`). -/
def dirac_arith_get_bit (arith : dirac_arith_state) (context : Nat) :
    Option (Nat × dirac_arith_state) :=
  let r := arith_split arith context
  (arith_renorm 16 (arith_update_context r.1 r.2 context)).map (fun a => (r.1, a))

/-- A run of `dirac_arith_get_bit` calls, one per listed context, returning
the decoded bits in order. -/
def arith_get_bits : dirac_arith_state → List Nat → Option (List Nat × dirac_arith_state)
  | arith, [] => some ([], arith)
  | arith, c :: cs =>
    match dirac_arith_get_bit arith c with
    | none => none
    | some (b, a1) =>
      match arith_get_bits a1 cs with
      | none => none
      | some (bs, a2) => some (b :: bs, a2)

/-- The type `struct dirac_arith_context_set`; declared in `dirac_arith.h`
(not in the tree), its members taken as `unsigned int`. -/
structure dirac_arith_context_set where
  follow : Nat → Nat
  follow_length : Nat
  data : Nat
  sign : Nat

/-- The function `follow_context`. -/
def follow_context (index : Nat) (context_set : dirac_arith_context_set) : Nat :=
  let pos := min (u32 index) (usub context_set.follow_length 1)
  context_set.follow pos

/-- The loop of `dirac_arith_read_uint` from the state `(arith, ret, index)`,
run for at most `fuel` passes; `ret` is kept as its 32-bit pattern. -/
def read_uint_loop (context_set : dirac_arith_context_set) :
    Nat → dirac_arith_state → Nat → Nat → Option (Nat × dirac_arith_state)
  | 0, _, _, _ => none
  | fuel + 1, arith, ret, index =>
    match dirac_arith_get_bit arith (follow_context index context_set) with
    | none => none
    | some (f, a1) =>
      if f = 0 then
        match dirac_arith_get_bit a1 context_set.data with
        | none => none
        | some (d, a2) =>
          read_uint_loop context_set fuel a2
            (if d ≠ 0 then u32 (u32 (ret * 2) + 1) else u32 (ret * 2)) (index + 1)
      else some (usub ret 1, a1)

/-- The function `dirac_arith_read_uint`, its loop bounded by `fuel`. -/
def dirac_arith_read_uint (fuel : Nat) (arith : dirac_arith_state)
    (context_set : dirac_arith_context_set) : Option (Nat × dirac_arith_state) :=
  read_uint_loop context_set fuel arith 1 0

/-- The function `dirac_arith_read_int`. -/
def dirac_arith_read_int (fuel : Nat) (arith : dirac_arith_state)
    (context_set : dirac_arith_context_set) : Option (Int × dirac_arith_state) :=
  match dirac_arith_read_uint fuel arith context_set with
  | none => none
  | some (u, a1) =>
    let ret := u32_to_int u
    if ret ≠ 0 then
      match dirac_arith_get_bit a1 context_set.sign with
      | none => none
      | some (b, a2) => some ((if b ≠ 0 then wrap_int (-ret) else ret), a2)
    else some (ret, a1)

/-- The function `dirac_arith_flush`. -/
def dirac_arith_flush (arith : dirac_arith_state) : dirac_arith_state :=
  { arith with gb := skip_bits_long arith.gb arith.bits_left, bits_left := 0 }

/-- The invariant of the decoder between two `dirac_arith_get_bit` calls:
the range lies in `(0x4000, 0x10000]` and every context probability is
below `0x10000`. -/
def arith_ok (arith : dirac_arith_state) : Prop :=
  0x4000 < arith.range ∧ arith.range ≤ 0x10000 ∧ ∀ c, arith.contexts c < 0x10000

/-- The decoder state `arith` with the bits under its cursor replaced by
the bits `buf`, the cursor position kept. -/
def arith_rebuffer (arith : dirac_arith_state) (buf : Nat → Bool) : dirac_arith_state :=
  { arith with gb := { arith.gb with buffer := buf } }

/-- The bits `buf` agree with the bits under the cursor of `arith` on the
`bits_left` positions from the cursor on. -/
def arith_window (arith : dirac_arith_state) (buf : Nat → Bool) : Prop :=
  ∀ i, arith.gb.index ≤ i → i < arith.gb.index + arith.bits_left → arith.gb.buffer i = buf i

/-- A sample cursor at bit 3 of a buffer whose bit `i` is set when `3`
divides `i`. -/
def sample_gb : GetBitContext := { buffer := fun i => i % 3 == 0, index := 3 }

/-- A second sample cursor: the bits of `sample_gb` up to bit 24, and ones
from there on. -/
def sample_gb_tail : GetBitContext :=
  { buffer := fun i => if i < 24 then i % 3 == 0 else true, index := 3 }

/-- The contexts of the `dirac_arith_get_bit` calls of a
`dirac_arith_read_uint` loop that starts at position `index` and decodes
`k` literal bits: a follow context and the data context for each of the
`k` positions, then the follow context of the position after them. -/
def read_uint_contexts (context_set : dirac_arith_context_set) : Nat → Nat → List Nat
  | index, 0 => [follow_context index context_set]
  | index, k + 1 =>
    follow_context index context_set :: context_set.data ::
      read_uint_contexts context_set (index + 1) k

/-- The decoded bits of a `dirac_arith_read_uint` loop with literal bits
`ds`: a follow bit `0` before each literal bit, and a closing follow bit `1`. -/
def read_uint_bits : List Nat → List Nat
  | [] => [1]
  | d :: ds => 0 :: d :: read_uint_bits ds

/-- The value accumulated from `v` over the literal bits `ds` by
`value = value * 2 + literal`. -/
def read_uint_value (v : Nat) (ds : List Nat) : Nat := ds.foldl (fun x d => x * 2 + d) v

/-- The reading of `read_uint` in which the unary part ends on the first
follow bit that decodes as `0`, and every follow bit that decodes as `1` is
followed by a literal bit; `value` starts at `1` and the result is
`value - 1`. -/
def read_uint_zero_terminated (context_set : dirac_arith_context_set) :
    Nat → dirac_arith_state → Nat → Nat → Option (Nat × dirac_arith_state)
  | 0, _, _, _ => none
  | fuel + 1, arith, value, index =>
    match dirac_arith_get_bit arith (follow_context index context_set) with
    | none => none
    | some (f, a1) =>
      if f = 0 then some (usub value 1, a1)
      else
        match dirac_arith_get_bit a1 context_set.data with
        | none => none
        | some (d, a2) =>
          read_uint_zero_terminated context_set fuel a2 (u32 (value * 2 + d)) (index + 1)

/-- A sample context set: follow contexts `0 .. 4`, data context `7`, sign
context `8`. -/
def sample_context_set : dirac_arith_context_set :=
  { follow := fun i => i, follow_length := 5, data := 7, sign := 8 }

/-! ## `dirac.c`: parameter records and preset tables -/

/-- The enumeration `transfer_func_t`. -/
inductive transfer_func_t
  | TRANSFER_FUNC_TV
  | TRANSFER_FUNC_EXTENDED_GAMUT
  | TRANSFER_FUNC_LINEAR
  | TRANSFER_FUNC_DCI_GAMMA
  deriving DecidableEq

/-- Modelled from the spec: the rational-number type of the host (`AVRational`). -/
structure AVRational where
  num : Int
  den : Int
  deriving DecidableEq

/-- A `float` constant of the source, kept as the decimal literal written
there: `digits / 10 ^ decimals`.  The decoder only stores and copies these
values. -/
structure float_literal where
  digits : Nat
  decimals : Nat
  deriving DecidableEq

/-- The record `struct source_parameters`. -/
structure source_parameters where
  interlaced : Nat
  top_field_first : Nat
  sequential_fields : Nat
  frame_rate : AVRational
  aspect_ratio : AVRational
  clean_width : Nat
  clean_height : Nat
  clean_left_offset : Nat
  clean_right_offset : Nat
  luma_offset : Nat
  luma_excursion : Nat
  chroma_offset : Nat
  chroma_excursion : Nat
  color_spec : Nat
  color_primaries : Nat
  k_r : float_literal
  k_b : float_literal
  transfer_function : transfer_func_t
  deriving DecidableEq

/-- The record `struct sequence_parameters`. -/
structure sequence_parameters where
  luma_width : Nat
  luma_height : Nat
  chroma_format : Nat
  video_depth : Nat
  chroma_width : Nat
  chroma_height : Nat
  deriving DecidableEq

/-- The values of the C type `uint8_t`. -/
abbrev c_uint8 := { n : Nat // n < 256 }

/-- Conversion of an unsigned value to `uint8_t`. -/
def to_uint8 (n : Nat) : c_uint8 := ⟨n % 256, Nat.mod_lt n (by decide)⟩

/-- The record `struct decoding_parameters`. The block separations and
lengths and `mv_precision` are `uint8_t` members and hold values below
256. The members `wavelet_depth`, `wavelet_idx_intra` and
`wavelet_idx_inter`, `uint8_t` as well, are kept as natural numbers; the
stores of the parser reduce the value modulo 256. -/
structure decoding_parameters where
  wavelet_depth : Nat
  wavelet_idx_intra : Nat
  wavelet_idx_inter : Nat
  luma_xbsep : c_uint8
  luma_xblen : c_uint8
  luma_ybsep : c_uint8
  luma_yblen : c_uint8
  mv_precision : c_uint8
  picture_weight_ref1 : Int
  picture_weight_ref2 : Int
  picture_weight_precision : Nat
  intra_hlevel_012 : Int
  intra_vlevel_012 : Int
  intra_hlevel_other : Int
  intra_vlevel_other : Int
  inter_hlevel_01 : Int
  inter_vlevel_01 : Int
  inter_hlevel_2 : Int
  inter_vlevel_2 : Int
  inter_hlevel_other : Int
  inter_vlevel_other : Int
  slice_width : Int
  slide_height : Int
  slice_bits : Int
  chroma_xbsep : c_uint8
  chroma_xblen : c_uint8
  chroma_ybsep : c_uint8
  chroma_yblen : c_uint8
  deriving DecidableEq

/-- The table `sequence_parameters_defaults[13]`. -/
def sequence_parameters_defaults : List sequence_parameters :=
  [
    { luma_width := 640, luma_height := 480, chroma_format := 2, video_depth := 8, chroma_width := 0, chroma_height := 0 },
    { luma_width := 176, luma_height := 120, chroma_format := 2, video_depth := 8, chroma_width := 0, chroma_height := 0 },
    { luma_width := 176, luma_height := 144, chroma_format := 2, video_depth := 8, chroma_width := 0, chroma_height := 0 },
    { luma_width := 352, luma_height := 240, chroma_format := 2, video_depth := 8, chroma_width := 0, chroma_height := 0 },
    { luma_width := 352, luma_height := 288, chroma_format := 2, video_depth := 8, chroma_width := 0, chroma_height := 0 },
    { luma_width := 704, luma_height := 480, chroma_format := 2, video_depth := 8, chroma_width := 0, chroma_height := 0 },
    { luma_width := 704, luma_height := 576, chroma_format := 2, video_depth := 8, chroma_width := 0, chroma_height := 0 },
    { luma_width := 720, luma_height := 480, chroma_format := 2, video_depth := 8, chroma_width := 0, chroma_height := 0 },
    { luma_width := 720, luma_height := 576, chroma_format := 2, video_depth := 8, chroma_width := 0, chroma_height := 0 },
    { luma_width := 1280, luma_height := 720, chroma_format := 2, video_depth := 8, chroma_width := 0, chroma_height := 0 },
    { luma_width := 1920, luma_height := 1080, chroma_format := 2, video_depth := 8, chroma_width := 0, chroma_height := 0 },
    { luma_width := 2048, luma_height := 1556, chroma_format := 0, video_depth := 16, chroma_width := 0, chroma_height := 0 },
    { luma_width := 4096, luma_height := 3112, chroma_format := 0, video_depth := 16, chroma_width := 0, chroma_height := 0 }
  ]

/-- The table `source_parameters_defaults[13]`. -/
def source_parameters_defaults : List source_parameters :=
  [
    { interlaced := 0, top_field_first := 1, sequential_fields := 0,
      frame_rate := ⟨30, 1⟩, aspect_ratio := ⟨1, 1⟩,
      clean_width := 640, clean_height := 480, clean_left_offset := 0, clean_right_offset := 0,
      luma_offset := 0, luma_excursion := 255, chroma_offset := 128, chroma_excursion := 254,
      color_spec := 0, color_primaries := 0, k_r := ⟨2126, 4⟩, k_b := ⟨722, 4⟩,
      transfer_function := .TRANSFER_FUNC_TV },
    { interlaced := 0, top_field_first := 1, sequential_fields := 0,
      frame_rate := ⟨15000, 1001⟩, aspect_ratio := ⟨10, 11⟩,
      clean_width := 176, clean_height := 120, clean_left_offset := 0, clean_right_offset := 0,
      luma_offset := 0, luma_excursion := 255, chroma_offset := 128, chroma_excursion := 254,
      color_spec := 1, color_primaries := 0, k_r := ⟨299, 3⟩, k_b := ⟨144, 3⟩,
      transfer_function := .TRANSFER_FUNC_TV },
    { interlaced := 0, top_field_first := 1, sequential_fields := 0,
      frame_rate := ⟨25, 2⟩, aspect_ratio := ⟨12, 11⟩,
      clean_width := 176, clean_height := 144, clean_left_offset := 0, clean_right_offset := 0,
      luma_offset := 0, luma_excursion := 255, chroma_offset := 128, chroma_excursion := 254,
      color_spec := 2, color_primaries := 0, k_r := ⟨299, 3⟩, k_b := ⟨144, 3⟩,
      transfer_function := .TRANSFER_FUNC_TV },
    { interlaced := 0, top_field_first := 1, sequential_fields := 0,
      frame_rate := ⟨15000, 1001⟩, aspect_ratio := ⟨10, 11⟩,
      clean_width := 352, clean_height := 240, clean_left_offset := 0, clean_right_offset := 0,
      luma_offset := 0, luma_excursion := 255, chroma_offset := 128, chroma_excursion := 254,
      color_spec := 1, color_primaries := 0, k_r := ⟨299, 3⟩, k_b := ⟨144, 3⟩,
      transfer_function := .TRANSFER_FUNC_TV },
    { interlaced := 0, top_field_first := 1, sequential_fields := 0,
      frame_rate := ⟨25, 2⟩, aspect_ratio := ⟨12, 11⟩,
      clean_width := 352, clean_height := 288, clean_left_offset := 0, clean_right_offset := 0,
      luma_offset := 0, luma_excursion := 255, chroma_offset := 128, chroma_excursion := 254,
      color_spec := 2, color_primaries := 0, k_r := ⟨299, 3⟩, k_b := ⟨144, 3⟩,
      transfer_function := .TRANSFER_FUNC_TV },
    { interlaced := 0, top_field_first := 1, sequential_fields := 0,
      frame_rate := ⟨15000, 1001⟩, aspect_ratio := ⟨10, 11⟩,
      clean_width := 704, clean_height := 480, clean_left_offset := 0, clean_right_offset := 0,
      luma_offset := 0, luma_excursion := 255, chroma_offset := 128, chroma_excursion := 254,
      color_spec := 1, color_primaries := 0, k_r := ⟨299, 3⟩, k_b := ⟨144, 3⟩,
      transfer_function := .TRANSFER_FUNC_TV },
    { interlaced := 0, top_field_first := 1, sequential_fields := 0,
      frame_rate := ⟨25, 2⟩, aspect_ratio := ⟨12, 11⟩,
      clean_width := 704, clean_height := 576, clean_left_offset := 0, clean_right_offset := 0,
      luma_offset := 0, luma_excursion := 255, chroma_offset := 128, chroma_excursion := 254,
      color_spec := 2, color_primaries := 0, k_r := ⟨299, 3⟩, k_b := ⟨144, 3⟩,
      transfer_function := .TRANSFER_FUNC_TV },
    { interlaced := 0, top_field_first := 1, sequential_fields := 0,
      frame_rate := ⟨24000, 1001⟩, aspect_ratio := ⟨10, 11⟩,
      clean_width := 720, clean_height := 480, clean_left_offset := 0, clean_right_offset := 0,
      luma_offset := 16, luma_excursion := 235, chroma_offset := 128, chroma_excursion := 224,
      color_spec := 1, color_primaries := 0, k_r := ⟨299, 3⟩, k_b := ⟨144, 3⟩,
      transfer_function := .TRANSFER_FUNC_TV },
    { interlaced := 0, top_field_first := 1, sequential_fields := 0,
      frame_rate := ⟨35, 1⟩, aspect_ratio := ⟨12, 11⟩,
      clean_width := 720, clean_height := 576, clean_left_offset := 0, clean_right_offset := 0,
      luma_offset := 16, luma_excursion := 235, chroma_offset := 128, chroma_excursion := 224,
      color_spec := 2, color_primaries := 0, k_r := ⟨299, 3⟩, k_b := ⟨144, 3⟩,
      transfer_function := .TRANSFER_FUNC_TV },
    { interlaced := 0, top_field_first := 1, sequential_fields := 0,
      frame_rate := ⟨24, 1⟩, aspect_ratio := ⟨1, 1⟩,
      clean_width := 1280, clean_height := 720, clean_left_offset := 0, clean_right_offset := 0,
      luma_offset := 16, luma_excursion := 235, chroma_offset := 128, chroma_excursion := 224,
      color_spec := 0, color_primaries := 0, k_r := ⟨2126, 4⟩, k_b := ⟨722, 4⟩,
      transfer_function := .TRANSFER_FUNC_TV },
    { interlaced := 0, top_field_first := 1, sequential_fields := 0,
      frame_rate := ⟨24, 1⟩, aspect_ratio := ⟨1, 1⟩,
      clean_width := 1920, clean_height := 1080, clean_left_offset := 0, clean_right_offset := 0,
      luma_offset := 16, luma_excursion := 235, chroma_offset := 128, chroma_excursion := 224,
      color_spec := 0, color_primaries := 0, k_r := ⟨2126, 4⟩, k_b := ⟨722, 4⟩,
      transfer_function := .TRANSFER_FUNC_TV },
    { interlaced := 0, top_field_first := 1, sequential_fields := 0,
      frame_rate := ⟨24, 1⟩, aspect_ratio := ⟨1, 1⟩,
      clean_width := 2048, clean_height := 1536, clean_left_offset := 0, clean_right_offset := 0,
      luma_offset := 0, luma_excursion := 65535, chroma_offset := 32768, chroma_excursion := 65534,
      color_spec := 3, color_primaries := 0, k_r := ⟨25, 2⟩, k_b := ⟨25, 2⟩,
      transfer_function := .TRANSFER_FUNC_LINEAR },
    { interlaced := 0, top_field_first := 1, sequential_fields := 0,
      frame_rate := ⟨24, 1⟩, aspect_ratio := ⟨1, 1⟩,
      clean_width := 4096, clean_height := 3072, clean_left_offset := 0, clean_right_offset := 0,
      luma_offset := 0, luma_excursion := 65535, chroma_offset := 32768, chroma_excursion := 65534,
      color_spec := 3, color_primaries := 0, k_r := ⟨25, 2⟩, k_b := ⟨25, 2⟩,
      transfer_function := .TRANSFER_FUNC_LINEAR }
  ]

/-- One initialiser row of `decoding_parameters_defaults`: the 24 listed
members in declaration order, the four chroma members zero. -/
def decoding_row (wavelet_depth wavelet_idx_intra wavelet_idx_inter luma_xbsep luma_xblen
    luma_ybsep luma_yblen mv_precision : Nat) (picture_weight_ref1 picture_weight_ref2 : Int)
    (picture_weight_precision : Nat)
    (intra_hlevel_012 intra_vlevel_012 intra_hlevel_other intra_vlevel_other inter_hlevel_01
      inter_vlevel_01 inter_hlevel_2 inter_vlevel_2 inter_hlevel_other inter_vlevel_other
      slice_width slide_height slice_bits : Int) : decoding_parameters :=
  { wavelet_depth, wavelet_idx_intra, wavelet_idx_inter,
    luma_xbsep := to_uint8 luma_xbsep, luma_xblen := to_uint8 luma_xblen,
    luma_ybsep := to_uint8 luma_ybsep, luma_yblen := to_uint8 luma_yblen,
    mv_precision := to_uint8 mv_precision, picture_weight_ref1, picture_weight_ref2,
    picture_weight_precision, intra_hlevel_012, intra_vlevel_012, intra_hlevel_other,
    intra_vlevel_other, inter_hlevel_01, inter_vlevel_01, inter_hlevel_2, inter_vlevel_2,
    inter_hlevel_other, inter_vlevel_other, slice_width, slide_height, slice_bits,
    chroma_xbsep := to_uint8 0, chroma_xblen := to_uint8 0, chroma_ybsep := to_uint8 0,
    chroma_yblen := to_uint8 0 }

/-- The table `decoding_parameters_defaults[13]`. -/
def decoding_parameters_defaults : List decoding_parameters :=
  [
    decoding_row 4 0 1 8 12 8 12 2 1 1 1 1 1 4 3 1 1 8 6 12 8 32 32 512,
    decoding_row 4 0 1 4 8 4 8 2 1 1 1 1 1 4 3 1 1 8 6 12 8 16 16 512,
    decoding_row 4 0 1 4 8 4 8 2 1 1 1 1 1 4 3 1 1 8 6 12 8 16 16 512,
    decoding_row 4 0 1 8 12 8 12 2 1 1 1 1 1 4 3 1 1 8 6 12 8 32 32 512,
    decoding_row 4 0 1 8 12 8 12 2 1 1 1 1 1 4 3 1 1 8 6 12 8 32 32 512,
    decoding_row 4 0 1 8 12 8 12 2 1 1 1 1 1 4 3 1 1 8 6 12 8 32 32 512,
    decoding_row 4 0 1 8 12 8 12 2 1 1 1 1 1 4 3 1 1 8 6 12 8 32 32 512,
    decoding_row 4 0 1 8 12 8 12 2 1 1 1 1 1 4 3 1 1 8 6 12 8 32 32 512,
    decoding_row 4 0 1 8 12 8 12 2 1 1 1 1 1 4 3 1 1 8 6 12 8 32 32 512,
    decoding_row 4 0 1 12 16 12 16 2 1 1 1 1 1 4 3 1 1 8 6 12 8 48 48 768,
    decoding_row 4 0 1 16 24 16 24 2 1 1 1 1 1 4 3 1 1 8 6 12 8 48 48 1024,
    decoding_row 4 6 1 16 24 16 24 2 1 1 1 1 1 4 3 1 1 8 6 12 8 48 48 1024,
    decoding_row 4 6 0 16 24 16 24 2 1 1 1 1 1 4 3 1 1 8 6 12 8 48 48 1024
  ]

/-- The table `preset_aspect_ratios[3]`. -/
def preset_aspect_ratios : List AVRational := [⟨1, 1⟩, ⟨10, 11⟩, ⟨12, 11⟩]

/-- The table `preset_luma_offset[3]`. -/
def preset_luma_offset : List Nat := [0, 16, 64]

/-- The table `preset_luma_excursion[3]`. -/
def preset_luma_excursion : List Nat := [255, 235, 876]

/-- The table `preset_chroma_offset[3]`. -/
def preset_chroma_offset : List Nat := [128, 128, 512]

/-- The table `preset_chroma_excursion[3]`. -/
def preset_chroma_excursion : List Nat := [255, 224, 896]

/-- The table `preset_primaries[4]`. -/
def preset_primaries : List Nat := [0, 1, 2, 3]

/-- The table `preset_matrix[4]`. -/
def preset_matrix : List Nat := [0, 1, 1, 2]

/-- The table `preset_transfer_func[4]`. -/
def preset_transfer_func : List transfer_func_t :=
  [.TRANSFER_FUNC_TV, .TRANSFER_FUNC_TV, .TRANSFER_FUNC_TV, .TRANSFER_FUNC_DCI_GAMMA]

/-- The table `preset_kr[3]`. -/
def preset_kr : List float_literal := [⟨2126, 4⟩, ⟨299, 3⟩, ⟨0, 0⟩]

/-- The table `preset_kb[3]`. -/
def preset_kb : List float_literal := [⟨722, 4⟩, ⟨114, 3⟩, ⟨0, 0⟩]

/-- The all-zero `struct sequence_parameters`, read for an index outside a table. -/
def sequence_parameters_zero : sequence_parameters :=
  { luma_width := 0, luma_height := 0, chroma_format := 0, video_depth := 0,
    chroma_width := 0, chroma_height := 0 }

/-- The all-zero `struct source_parameters`, read for an index outside a table. -/
def source_parameters_zero : source_parameters :=
  { interlaced := 0, top_field_first := 0, sequential_fields := 0,
    frame_rate := ⟨0, 0⟩, aspect_ratio := ⟨0, 0⟩,
    clean_width := 0, clean_height := 0, clean_left_offset := 0, clean_right_offset := 0,
    luma_offset := 0, luma_excursion := 0, chroma_offset := 0, chroma_excursion := 0,
    color_spec := 0, color_primaries := 0, k_r := ⟨0, 0⟩, k_b := ⟨0, 0⟩,
    transfer_function := .TRANSFER_FUNC_TV }

/-- The all-zero `struct decoding_parameters`, read for an index outside a table. -/
def decoding_parameters_zero : decoding_parameters :=
  decoding_row 0 0 0 0 0 0 0 0 0 0 0 0 0 0 0 0 0 0 0 0 0 0 0 0

/-! ## `dirac.c`: decoder context -/

/-- The values of the C type `int`. -/
abbrev c_int := { z : Int // -2147483648 ≤ z ∧ z < 2147483648 }

/-- Conversion of an `unsigned int` bit pattern to `int`, with its range. -/
def u32_to_c_int (n : Nat) : c_int :=
  ⟨u32_to_int n, by unfold u32_to_int; split <;> omega⟩

/-- The value `0` of type `int`. -/
def c_int_zero : c_int := ⟨0, by omega⟩

/-- The members of the host type `AVFrame` that the decoder's bookkeeping
reads and writes: the first plane pointer `data[0]` as a buffer handle
(`0` for `NULL`), `display_picture_number` and `reference`. -/
structure AVFrame where
  data0 : Nat
  display_picture_number : c_int
  reference : Int
  deriving DecidableEq

/-- The constant `REFFRAME_CNT`. -/
def REFFRAME_CNT : Nat := 20

/-- The members of `DiracContext` used by the header parser, the picture
parser and the reference bookkeeping of `decode_frame`.  Arrays are maps
from the index.  The member `oob` is not in the source: it records that
some array was accessed outside its declared bounds, from which point on
the behaviour of the C program is undefined.  `refcnt` is an `int` in the
source; it is only incremented, and decremented after an entry was found,
so it is kept as a natural number. -/
structure DiracContext where
  profile : Nat
  level : Nat
  gb : GetBitContext
  picture : AVFrame
  picnum : Nat
  refcnt : Nat
  refframes : Nat → AVFrame
  retirecnt : Int
  retireframe : Nat → Nat
  source : source_parameters
  sequence : sequence_parameters
  decoding : decoding_parameters
  frame_decoding : decoding_parameters
  codeblocksh : Nat → Nat
  codeblocksv : Nat → Nat
  padded_luma_width : Int
  padded_luma_height : Int
  padded_chroma_width : Int
  padded_chroma_height : Int
  chroma_hshift : Nat
  chroma_vshift : Nat
  zero_res : Nat
  refs : Nat
  ref : Nat → Nat
  wavelet_idx : Nat
  oob : Bool

/-- The parts of the decoder and of its host that are passed in: the
Exp-Golomb readers of `golomb.h` and the table `ff_frame_rate_tab` of
`mpeg12data.h` (neither in the tree), the motion-field unpackers and the
picture decoder of `dirac.c` with the members they write among those
modelled (the working decoding parameters and the bit cursor; the picture
decoder writes pixel buffers and half-pel caches only), the host's
dimension check and `sizeof(AVFrame)`. -/
structure dirac_host where
  svq3_get_ue_golomb : GetBitContext → Int × GetBitContext
  dirac_get_se_golomb : GetBitContext → Int × GetBitContext
  ff_frame_rate_tab : Nat → AVRational
  dirac_unpack_prediction_parameters : DiracContext → Int × decoding_parameters × GetBitContext
  dirac_unpack_prediction_data : DiracContext → Int × GetBitContext
  avcodec_check_dimensions : Nat → Nat → Int
  dirac_decode_frame : DiracContext → Int
  sizeof_AVFrame : Int

/-! ## `dirac.c`: access unit header -/

/-- The function `parse_sequence_parameters`. -/
def parse_sequence_parameters (h : dirac_host) (s : DiracContext) : DiracContext :=
  let b1 := get_bits1 s.gb
  let s1 : DiracContext :=
    if b1.1 ≠ 0 then
      let w := h.svq3_get_ue_golomb b1.2
      let ht := h.svq3_get_ue_golomb w.2
      { s with gb := ht.2
               sequence := { s.sequence with luma_width := int_to_u32 w.1
                                             luma_height := int_to_u32 ht.1 } }
    else { s with gb := b1.2 }
  let b2 := get_bits1 s1.gb
  let s2 : DiracContext :=
    if b2.1 ≠ 0 then
      let c := h.svq3_get_ue_golomb b2.2
      { s1 with gb := c.2, sequence := { s1.sequence with chroma_format := int_to_u32 c.1 } }
    else { s1 with gb := b2.2 }
  let hshift := if s2.sequence.chroma_format > 0 then 1 else 0
  let vshift := if s2.sequence.chroma_format > 1 then 1 else 0
  let s3 : DiracContext :=
    { s2 with chroma_hshift := hshift, chroma_vshift := vshift
              sequence := { s2.sequence with
                chroma_width := s2.sequence.luma_width >>> hshift
                chroma_height := s2.sequence.luma_height >>> vshift } }
  let b3 := get_bits1 s3.gb
  if b3.1 ≠ 0 then
    let d := h.svq3_get_ue_golomb b3.2
    { s3 with gb := d.2, sequence := { s3.sequence with video_depth := int_to_u32 d.1 % 256 } }
  else { s3 with gb := b3.2 }

/-- The block of `parse_source_parameters` under "Access Unit Source
parameters": the interlace flags. -/
def parse_source_interlace (s : DiracContext) : DiracContext :=
  let b := get_bits1 s.gb
  if b.1 ≠ 0 then
    let i := get_bits1 b.2
    let s1 : DiracContext := { s with gb := i.2, source := { s.source with interlaced := i.1 } }
    if i.1 ≠ 0 then
      let t := get_bits1 s1.gb
      let s2 : DiracContext :=
        if t.1 ≠ 0 then
          let v := get_bits1 t.2
          { s1 with gb := v.2, source := { s1.source with top_field_first := v.1 } }
        else { s1 with gb := t.2 }
      let q := get_bits1 s2.gb
      if q.1 ≠ 0 then
        let v := get_bits1 q.2
        { s2 with gb := v.2, source := { s2.source with sequential_fields := v.1 } }
      else { s2 with gb := q.2 }
    else s1
  else { s with gb := b.2 }

/-- The block of `parse_source_parameters` under "Framerate". -/
def parse_source_frame_rate (h : dirac_host) (s : DiracContext) : Int × DiracContext :=
  let b := get_bits1 s.gb
  if b.1 ≠ 0 then
    let i := h.svq3_get_ue_golomb b.2
    let idx := int_to_u32 i.1
    if idx > 8 then (-1, { s with gb := i.2 })
    else if idx = 0 then
      let n := h.svq3_get_ue_golomb i.2
      let d := h.svq3_get_ue_golomb n.2
      (0, { s with gb := d.2, source := { s.source with frame_rate := ⟨n.1, d.1⟩ } })
    else
      (0, { s with gb := i.2, source := { s.source with frame_rate := h.ff_frame_rate_tab idx } })
  else (0, { s with gb := b.2 })

/-- The block of `parse_source_parameters` under "Override aspect ratio". -/
def parse_source_aspect_ratio (h : dirac_host) (s : DiracContext) : Int × DiracContext :=
  let b := get_bits1 s.gb
  if b.1 ≠ 0 then
    let i := h.svq3_get_ue_golomb b.2
    let idx := int_to_u32 i.1
    if idx > 3 then (-1, { s with gb := i.2 })
    else if idx = 0 then
      let n := h.svq3_get_ue_golomb i.2
      let d := h.svq3_get_ue_golomb n.2
      (0, { s with gb := d.2, source := { s.source with aspect_ratio := ⟨n.1, d.1⟩ } })
    else
      (0, { s with gb := i.2
                   source := { s.source with
                     aspect_ratio := preset_aspect_ratios.getD (idx - 1) ⟨0, 0⟩ } })
  else (0, { s with gb := b.2 })

/-- The block of `parse_source_parameters` under "Override clean area";
the members are `uint16_t`. -/
def parse_source_clean_area (h : dirac_host) (s : DiracContext) : DiracContext :=
  let b := get_bits1 s.gb
  if b.1 ≠ 0 then
    let w := h.svq3_get_ue_golomb b.2
    let ht := h.svq3_get_ue_golomb w.2
    let l := h.svq3_get_ue_golomb ht.2
    let r := h.svq3_get_ue_golomb l.2
    { s with gb := r.2
             source := { s.source with clean_width := int_to_u32 w.1 % 65536
                                       clean_height := int_to_u32 ht.1 % 65536
                                       clean_left_offset := int_to_u32 l.1 % 65536
                                       clean_right_offset := int_to_u32 r.1 % 65536 } }
  else { s with gb := b.2 }

/-- The block of `parse_source_parameters` under "Override signal range";
the members are `uint16_t`. -/
def parse_source_signal_range (h : dirac_host) (s : DiracContext) : Int × DiracContext :=
  let b := get_bits1 s.gb
  if b.1 ≠ 0 then
    let i := h.svq3_get_ue_golomb b.2
    let idx := int_to_u32 i.1
    if idx > 3 then (-1, { s with gb := i.2 })
    else if idx = 0 then
      let lo := h.svq3_get_ue_golomb i.2
      let le := h.svq3_get_ue_golomb lo.2
      let co := h.svq3_get_ue_golomb le.2
      let ce := h.svq3_get_ue_golomb co.2
      (0, { s with gb := ce.2
                   source := { s.source with luma_offset := int_to_u32 lo.1 % 65536
                                             luma_excursion := int_to_u32 le.1 % 65536
                                             chroma_offset := int_to_u32 co.1 % 65536
                                             chroma_excursion := int_to_u32 ce.1 % 65536 } })
    else
      (0, { s with gb := i.2
                   source := { s.source with
                     luma_offset := preset_luma_offset.getD (idx - 1) 0
                     luma_excursion := preset_luma_excursion.getD (idx - 1) 0
                     chroma_offset := preset_chroma_offset.getD (idx - 1) 0
                     chroma_excursion := preset_chroma_excursion.getD (idx - 1) 0 } })
  else (0, { s with gb := b.2 })

/-- The sub-block "Color primaries" of the colour specification. -/
def parse_source_primaries (h : dirac_host) (s : DiracContext) : Int × DiracContext :=
  let b := get_bits1 s.gb
  if b.1 ≠ 0 then
    let i := h.svq3_get_ue_golomb b.2
    let primaries_idx := int_to_u32 i.1
    if primaries_idx > 3 then (-1, { s with gb := i.2 })
    else
      (0, { s with gb := i.2
                   source := { s.source with
                     color_primaries := preset_primaries.getD primaries_idx 0 } })
  else (0, { s with gb := b.2 })

/-- The sub-block "Override matrix" of the colour specification. -/
def parse_source_matrix (h : dirac_host) (s : DiracContext) : Int × DiracContext :=
  let b := get_bits1 s.gb
  if b.1 ≠ 0 then
    let i := h.svq3_get_ue_golomb b.2
    let matrix_idx := int_to_u32 i.1
    if matrix_idx > 3 then (-1, { s with gb := i.2 })
    else
      (0, { s with gb := i.2
                   source := { s.source with
                     k_r := preset_kr.getD (preset_matrix.getD matrix_idx 0) ⟨0, 0⟩
                     k_b := preset_kb.getD (preset_matrix.getD matrix_idx 0) ⟨0, 0⟩ } })
  else (0, { s with gb := b.2 })

/-- The sub-block "Transfer function" of the colour specification. -/
def parse_source_transfer (h : dirac_host) (s : DiracContext) : Int × DiracContext :=
  let b := get_bits1 s.gb
  if b.1 ≠ 0 then
    let i := h.svq3_get_ue_golomb b.2
    let tf_idx := int_to_u32 i.1
    if tf_idx > 3 then (-1, { s with gb := i.2 })
    else
      (0, { s with gb := i.2
                   source := { s.source with
                     transfer_function :=
                       preset_transfer_func.getD tf_idx .TRANSFER_FUNC_TV } })
  else (0, { s with gb := b.2 })

/-- The block of `parse_source_parameters` under "Color spec". -/
def parse_source_color_spec (h : dirac_host) (s : DiracContext) : Int × DiracContext :=
  let b := get_bits1 s.gb
  if b.1 ≠ 0 then
    let i := h.svq3_get_ue_golomb b.2
    let idx := int_to_u32 i.1
    if idx > 3 then (-1, { s with gb := i.2 })
    else
      let s1 : DiracContext :=
        { s with gb := i.2
                 source := { s.source with
                   color_primaries := preset_primaries.getD idx 0
                   k_r := preset_kr.getD (preset_matrix.getD idx 0) ⟨0, 0⟩
                   k_b := preset_kb.getD (preset_matrix.getD idx 0) ⟨0, 0⟩
                   transfer_function := preset_transfer_func.getD idx .TRANSFER_FUNC_TV } }
      if idx = 0 then
        let p := parse_source_primaries h s1
        if p.1 ≠ 0 then (-1, p.2)
        else
          let m := parse_source_matrix h p.2
          if m.1 ≠ 0 then (-1, m.2)
          else
            let t := parse_source_transfer h m.2
            if t.1 ≠ 0 then (-1, t.2) else (0, t.2)
      else (0, s1)
  else (0, { s with gb := b.2 })

/-- The function `parse_source_parameters`. -/
def parse_source_parameters (h : dirac_host) (s : DiracContext) : Int × DiracContext :=
  let s1 := parse_source_interlace s
  let f := parse_source_frame_rate h s1
  if f.1 ≠ 0 then (-1, f.2)
  else
    let a := parse_source_aspect_ratio h f.2
    if a.1 ≠ 0 then (-1, a.2)
    else
      let s2 := parse_source_clean_area h a.2
      let r := parse_source_signal_range h s2
      if r.1 ≠ 0 then (-1, r.2)
      else
        let c := parse_source_color_spec h r.2
        if c.1 ≠ 0 then (-1, c.2) else (0, c.2)

/-- The function `parse_access_unit_header`. -/
def parse_access_unit_header (h : dirac_host) (s : DiracContext) : Int × DiracContext :=
  let version_major := h.svq3_get_ue_golomb s.gb
  let version_minor := h.svq3_get_ue_golomb version_major.2
  let profile := h.svq3_get_ue_golomb version_minor.2
  let level := h.svq3_get_ue_golomb profile.2
  let vf := h.svq3_get_ue_golomb level.2
  let video_format := int_to_u32 vf.1
  let s1 : DiracContext :=
    { s with profile := int_to_u32 profile.1, level := int_to_u32 level.1, gb := vf.2 }
  if video_format > 12 then (-1, s1)
  else
    let s2 := parse_sequence_parameters h
      { s1 with sequence := sequence_parameters_defaults.getD video_format
                              sequence_parameters_zero }
    let r := parse_source_parameters h
      { s2 with source := source_parameters_defaults.getD video_format source_parameters_zero }
    if r.1 ≠ 0 then (-1, r.2)
    else
      (0, { r.2 with decoding := decoding_parameters_defaults.getD video_format
                                   decoding_parameters_zero })

/-! ### The enumerants carried by an access unit header -/

/-- The enumerant indices of an access unit header in wire order; `none`
for an index whose present flag is clear, or whose block is absent. -/
structure header_indices where
  video_format : Nat
  frame_rate : Option Nat
  aspect_ratio : Option Nat
  signal_range : Option Nat
  colour_spec : Option Nat
  primaries : Option Nat
  matrix : Option Nat
  transfer_function : Option Nat

/-- The cursor after the sequence parameter overrides of a header. -/
def layout_sequence (h : dirac_host) (gb : GetBitContext) : GetBitContext :=
  let b1 := get_bits1 gb
  let g1 := if b1.1 ≠ 0 then (h.svq3_get_ue_golomb (h.svq3_get_ue_golomb b1.2).2).2 else b1.2
  let b2 := get_bits1 g1
  let g2 := if b2.1 ≠ 0 then (h.svq3_get_ue_golomb b2.2).2 else b2.2
  let b3 := get_bits1 g2
  if b3.1 ≠ 0 then (h.svq3_get_ue_golomb b3.2).2 else b3.2

/-- The cursor after the interlace flags of a header. -/
def layout_interlace (gb : GetBitContext) : GetBitContext :=
  let b := get_bits1 gb
  if b.1 ≠ 0 then
    let i := get_bits1 b.2
    if i.1 ≠ 0 then
      let t := get_bits1 i.2
      let g := if t.1 ≠ 0 then (get_bits1 t.2).2 else t.2
      let q := get_bits1 g
      if q.1 ≠ 0 then (get_bits1 q.2).2 else q.2
    else i.2
  else b.2

/-- An index behind a present flag, followed by `extra` explicit values when
the index is `0`: the index, if present, and the cursor after the block. -/
def layout_index (h : dirac_host) (extra : Nat) (gb : GetBitContext) :
    Option Nat × GetBitContext :=
  let b := get_bits1 gb
  if b.1 ≠ 0 then
    let i := h.svq3_get_ue_golomb b.2
    if int_to_u32 i.1 = 0 then
      (some 0, Nat.iterate (fun g => (h.svq3_get_ue_golomb g).2) extra i.2)
    else (some (int_to_u32 i.1), i.2)
  else (none, b.2)

/-- The cursor after the clean area override of a header. -/
def layout_clean_area (h : dirac_host) (gb : GetBitContext) : GetBitContext :=
  let b := get_bits1 gb
  if b.1 ≠ 0 then Nat.iterate (fun g => (h.svq3_get_ue_golomb g).2) 4 b.2 else b.2

/-- The enumerant indices of the access unit header under the cursor `gb`,
each read at its place in the wire format, whatever its value. -/
def read_header_indices (h : dirac_host) (gb : GetBitContext) : header_indices :=
  let g0 := Nat.iterate (fun g => (h.svq3_get_ue_golomb g).2) 4 gb
  let vf := h.svq3_get_ue_golomb g0
  let g1 := layout_interlace (layout_sequence h vf.2)
  let fr := layout_index h 2 g1
  let ar := layout_index h 2 fr.2
  let sr := layout_index h 4 (layout_clean_area h ar.2)
  let cs := layout_index h 0 sr.2
  let pr := layout_index h 0 cs.2
  let mx := layout_index h 0 pr.2
  let tf := layout_index h 0 mx.2
  { video_format := int_to_u32 vf.1
    frame_rate := fr.1
    aspect_ratio := ar.1
    signal_range := sr.1
    colour_spec := cs.1
    primaries := if cs.1 = some 0 then pr.1 else none
    matrix := if cs.1 = some 0 then mx.1 else none
    transfer_function := if cs.1 = some 0 then tf.1 else none }

/-- An index is present and greater than `bound`. -/
def index_exceeds (i : Option Nat) (bound : Nat) : Prop :=
  ∃ n, i = some n ∧ bound < n

/-- Some enumerant of the header is out of range: the video format is
greater than 12, the frame rate index greater than 8, or the aspect ratio,
signal range, colour specification, primaries, matrix or transfer function
index greater than 3. -/
def header_out_of_range (x : header_indices) : Prop :=
  12 < x.video_format ∨ index_exceeds x.frame_rate 8 ∨ index_exceeds x.aspect_ratio 3 ∨
  index_exceeds x.signal_range 3 ∨ index_exceeds x.colour_spec 3 ∨
  index_exceeds x.primaries 3 ∨ index_exceeds x.matrix 3 ∨
  index_exceeds x.transfer_function 3

/-! ## `dirac.c`: picture parsing -/

/-- The macro `CALC_PADDING(size, depth)` on an `unsigned int` size. -/
def CALC_PADDING (size depth : Nat) : Nat :=
  u32 (usub (u32 (size + u32 (2 ^ depth))) 1 / 2 ^ depth * 2 ^ depth)

/-- The loop `for (i = 0; i < s->refs; i++)` of `parse_frame` with `n`
passes left, writing `s->ref[i]`; the array `ref` has two elements. -/
def parse_frame_refs (h : dirac_host) : Nat → Nat → DiracContext → DiracContext
  | 0, _, s => s
  | n + 1, i, s =>
    let v := h.dirac_get_se_golomb s.gb
    parse_frame_refs h n (i + 1)
      { s with gb := v.2
               ref := Function.update s.ref i (int_to_u32 (v.1 + s.picnum))
               oob := s.oob || decide (2 ≤ i) }

/-- The loop `for (i = 0; i < retire; i++)` of `parse_frame` with `n`
passes left, writing `s->retireframe[i]`. -/
def parse_frame_retire (h : dirac_host) : Nat → Nat → DiracContext → DiracContext
  | 0, _, s => s
  | n + 1, i, s =>
    let v := h.dirac_get_se_golomb s.gb
    parse_frame_retire h n (i + 1)
      { s with gb := v.2
               retireframe := Function.update s.retireframe i (int_to_u32 (v.1 + s.picnum))
               oob := s.oob || decide (REFFRAME_CNT ≤ i) }

/-- The loop of `parse_frame` that reads an explicit codeblock partition,
with `n` passes left; the arrays `codeblocksh` and `codeblocksv` have seven
elements. -/
def parse_frame_codeblocks (h : dirac_host) : Nat → Nat → DiracContext → DiracContext
  | 0, _, s => s
  | n + 1, i, s =>
    let a := h.svq3_get_ue_golomb s.gb
    let b := h.svq3_get_ue_golomb a.2
    parse_frame_codeblocks h n (i + 1)
      { s with gb := b.2
               codeblocksh := Function.update s.codeblocksh i (int_to_u32 a.1)
               codeblocksv := Function.update s.codeblocksv i (int_to_u32 b.1)
               oob := s.oob || decide (7 ≤ i) }

/-- The loop of `parse_frame` that sets the default codeblock partition,
with `n` passes left. -/
def parse_frame_codeblock_defaults : Nat → Nat → DiracContext → DiracContext
  | 0, _, s => s
  | n + 1, i, s =>
    let hv : Nat × Nat :=
      if s.refs = 0 then ((if i ≤ 2 then 1 else 4), (if i ≤ 2 then 1 else 3))
      else if i ≤ 1 then (1, 1)
      else if i = 2 then (8, 6)
      else (12, 8)
    parse_frame_codeblock_defaults n (i + 1)
      { s with codeblocksh := Function.update s.codeblocksh i hv.1
               codeblocksv := Function.update s.codeblocksv i hv.2
               oob := s.oob || decide (7 ≤ i) }

/-- The part of `parse_frame` under `if (!s->zero_res)`: the wavelet filter,
depth and codeblock partition overrides. -/
def parse_frame_wavelet (h : dirac_host) (s : DiracContext) : Int × DiracContext :=
  let f := get_bits1 s.gb
  let s1 : DiracContext :=
    if f.1 ≠ 0 then
      let w := h.svq3_get_ue_golomb f.2
      { s with gb := w.2, wavelet_idx := int_to_u32 w.1 }
    else
      { s with gb := f.2
               wavelet_idx := if s.refs = 0 then s.frame_decoding.wavelet_idx_intra
                              else s.frame_decoding.wavelet_idx_inter }
  if s1.wavelet_idx > 7 then (-1, s1)
  else
    let d := get_bits1 s1.gb
    let s2 : DiracContext :=
      if d.1 ≠ 0 then
        let v := h.svq3_get_ue_golomb d.2
        { s1 with gb := v.2
                  frame_decoding := { s1.frame_decoding with
                    wavelet_depth := int_to_u32 v.1 % 256 } }
      else { s1 with gb := d.2 }
    let p := get_bits1 s2.gb
    if p.1 ≠ 0 then
      let o := get_bits1 p.2
      let s3 : DiracContext :=
        if o.1 ≠ 0 then
          parse_frame_codeblocks h (s2.frame_decoding.wavelet_depth + 1) 0 { s2 with gb := o.2 }
        else
          parse_frame_codeblock_defaults (s2.frame_decoding.wavelet_depth + 1) 0
            { s2 with gb := o.2 }
      let idx := h.svq3_get_ue_golomb s3.gb
      (0, { s3 with gb := idx.2 })
    else (0, { s2 with gb := p.2 })

/-- The end of `parse_frame`: the padded dimensions. -/
def parse_frame_padding (s : DiracContext) : DiracContext :=
  { s with
    padded_luma_width :=
      u32_to_int (CALC_PADDING s.sequence.luma_width s.frame_decoding.wavelet_depth)
    padded_luma_height :=
      u32_to_int (CALC_PADDING s.sequence.luma_height s.frame_decoding.wavelet_depth)
    padded_chroma_width :=
      u32_to_int (CALC_PADDING s.sequence.chroma_width s.frame_decoding.wavelet_depth)
    padded_chroma_height :=
      u32_to_int (CALC_PADDING s.sequence.chroma_height s.frame_decoding.wavelet_depth) }

/-- The part of `parse_frame` under `if (s->refs)`: the two motion-field
unpackers, each behind `align_get_bits`. -/
def parse_frame_prediction (h : dirac_host) (s : DiracContext) : Int × DiracContext :=
  if s.refs ≠ 0 then
    let p := h.dirac_unpack_prediction_parameters { s with gb := align_get_bits s.gb }
    let s1 : DiracContext := { s with gb := p.2.2, frame_decoding := p.2.1 }
    if p.1 ≠ 0 then (-1, s1)
    else
      let d := h.dirac_unpack_prediction_data { s1 with gb := align_get_bits s1.gb }
      let s2 : DiracContext := { s1 with gb := d.2 }
      if d.1 ≠ 0 then (-1, s2) else (0, s2)
  else (0, s)

/-- The function `parse_frame`. -/
def parse_frame (h : dirac_host) (s : DiracContext) : Int × DiracContext :=
  let s0 : DiracContext := { s with frame_decoding := s.decoding }
  let pn := get_bits_long s0.gb 32
  let s1 : DiracContext := { s0 with gb := pn.2, picnum := pn.1 }
  let s2 := parse_frame_refs h s1.refs 0 s1
  let rt := h.svq3_get_ue_golomb s2.gb
  let retire := int_to_u32 rt.1
  let s3 : DiracContext := { s2 with gb := rt.2, retirecnt := u32_to_int retire }
  let s4 := parse_frame_retire h retire 0 s3
  let m := parse_frame_prediction h s4
  if m.1 ≠ 0 then (-1, m.2)
  else
    let s5 : DiracContext := { m.2 with gb := align_get_bits m.2.gb }
    let s6 : DiracContext :=
      if s5.refs = 0 then { s5 with zero_res := 0 }
      else
        let z := get_bits1 s5.gb
        { s5 with gb := z.2, zero_res := z.1 }
    let w : Int × DiracContext :=
      if s6.zero_res = 0 then parse_frame_wavelet h s6 else (0, s6)
    if w.1 ≠ 0 then (-1, w.2) else (0, parse_frame_padding w.2)

/-! ## `dirac.c`: `decode_frame` and the reference collection -/

/-- The parse code `pc_access_unit_header`. -/
def pc_access_unit_header : Nat := 0x00

/-- The array elements `a[i], ..., a[i + n - 1]`, in order. -/
def slots_from {α : Type} (a : Nat → α) : Nat → Nat → List α
  | _, 0 => []
  | i, n + 1 => a i :: slots_from a (i + 1) n

/-- The retained entries `refframes[0 .. refcnt - 1]`, in order. -/
def refframes_list (s : DiracContext) : List AVFrame :=
  slots_from s.refframes 0 s.refcnt

/-- The retire targets `retireframe[0 .. retirecnt - 1]`, in order. -/
def retire_targets (s : DiracContext) : List Nat :=
  slots_from s.retireframe 0 s.retirecnt.toNat

/-- The loop of `reference_frame_idx` from index `i` with `n` entries left. -/
def reference_frame_idx_loop (frames : Nat → AVFrame) (frameno : Int) : Nat → Nat → Option Nat
  | 0, _ => none
  | n + 1, i =>
    if (frames i).display_picture_number.val = frameno then some i
    else reference_frame_idx_loop frames frameno n (i + 1)

/-- The function `reference_frame_idx`; `none` stands for the result `-1`. -/
def reference_frame_idx (s : DiracContext) (frameno : Int) : Option Nat :=
  reference_frame_idx_loop s.refframes frameno s.refcnt 0

/-- The four statements that store `s->picture` at `refframes[refcnt++]`. -/
def refframes_append (s : DiracContext) : DiracContext :=
  { s with refframes := Function.update s.refframes s.refcnt s.picture
           refcnt := s.refcnt + 1
           oob := s.oob || decide (REFFRAME_CNT ≤ s.refcnt) }

/-- The statement `s->retireframe[s->retirecnt++] = v`. -/
def retire_push (s : DiracContext) (v : Nat) : DiracContext :=
  { s with retireframe :=
             if 0 ≤ s.retirecnt then Function.update s.retireframe s.retirecnt.toNat v
             else s.retireframe
           retirecnt := wrap_int (s.retirecnt + 1)
           oob := s.oob || decide (s.retirecnt < 0 ∨ (REFFRAME_CNT : Int) ≤ s.retirecnt) }

/-- The loop of `decode_frame` that schedules for retirement the entries
that are no reference and were displayed, from index `i` with `n` entries
left. -/
def retire_scan (frame_number : Int) : Nat → Nat → DiracContext → DiracContext
  | 0, _, s => s
  | n + 1, i, s =>
    let f := s.refframes i
    retire_scan frame_number n (i + 1)
      (if f.reference = 0 ∧ f.display_picture_number.val < frame_number then
        retire_push s (int_to_u32 f.display_picture_number.val)
      else s)

/-- The loop `for (j = idx; j < idx + s->refcnt; j++)` of `decode_frame`
from index `j` with `n` passes left; each pass reads `refframes[j + 1]`. -/
def refframes_shift : Nat → Nat → DiracContext → DiracContext
  | 0, _, s => s
  | n + 1, j, s =>
    refframes_shift n (j + 1)
      { s with refframes := Function.update s.refframes j (s.refframes (j + 1))
               oob := s.oob || decide (REFFRAME_CNT ≤ j + 1) }

/-- The body of the retire loop of `decode_frame` for the target
`retireframe[i] = target`. -/
def retire_frame (frame_number : Int) (s : DiracContext) (target : Nat) : DiracContext :=
  match reference_frame_idx s (u32_to_int target) with
  | none => s
  | some idx =>
    let f := s.refframes idx
    if f.display_picture_number.val ≥ frame_number then
      { s with refframes := Function.update s.refframes idx { f with reference := 0 } }
    else
      let s1 : DiracContext := { s with refcnt := s.refcnt - 1 }
      refframes_shift s1.refcnt idx s1

/-- The retire loop `for (i = 0; i < s->retirecnt; i++)` of `decode_frame`
from index `i` with `n` passes left. -/
def retire_loop (frame_number : Int) : Nat → Nat → DiracContext → DiracContext
  | 0, _, s => s
  | n + 1, i, s => retire_loop frame_number n (i + 1) (retire_frame frame_number s (s.retireframe i))

/-- Modelled from the spec: the host's `release_buffer`, after which the frame
holds no picture buffer. -/
def release_buffer (f : AVFrame) : AVFrame := { f with data0 := 0 }

/-- Modelled from the spec: the host's `avcodec_get_frame_defaults`, which
clears the frame. -/
def avcodec_get_frame_defaults : AVFrame :=
  { data0 := 0, display_picture_number := c_int_zero, reference := 0 }

/-- The inputs of one `decode_frame` call: the host's `frame_number`,
`buf_size`, the parse code `buf[4]`, the bits of the unit from `buf[13]`
on, the outcome of the host's `get_buffer` with the handle of the buffer it
supplies, and `*data_size` on entry. -/
structure decode_call where
  frame_number : Int
  buf_size : Int
  parse_code : Nat
  payload : Nat → Bool
  get_buffer_ret : Int
  get_buffer_data : Nat
  data_size : Int

/-- The outputs of one `decode_frame` call: the return value, `*data_size`,
the frame written to `*picture` if one was, and the context. -/
structure decode_result where
  ret : Int
  data_size : Int
  picture : Option AVFrame
  s : DiracContext

/-- The first store of `decode_frame`: the decoded picture is appended to
the collection when it is a reference or is not the picture the host asks
for (the capacity test that comes before is in `decode_frame_references`). -/
def references_store (s : DiracContext) (c : decode_call) : DiracContext :=
  if s.picture.reference ≠ 0 ∨ s.picture.display_picture_number.val ≠ c.frame_number then
    refframes_append s
  else s

/-- The second store of `decode_frame`: a picture that lies in the display
future and is no reference is appended to the collection. -/
def references_hold (s : DiracContext) (c : decode_call) : DiracContext :=
  if s.picture.display_picture_number.val > c.frame_number ∧ s.picture.reference = 0 then
    refframes_append s
  else s

/-- The part of `decode_frame` after `dirac_decode_frame` has succeeded and
the display number is set: the reference collection is updated and the
output picture chosen. -/
def decode_frame_references (h : dirac_host) (s : DiracContext) (c : decode_call) :
    decode_result :=
  if (s.picture.reference ≠ 0 ∨ s.picture.display_picture_number.val ≠ c.frame_number) ∧
      s.refcnt + 1 = REFFRAME_CNT then
    { ret := -1, data_size := c.data_size, picture := none, s := s }
  else
    let s1 := references_store s c
    let s2 := retire_scan c.frame_number s1.refcnt 0 s1
    let s3 := retire_loop c.frame_number s2.retirecnt.toNat 0 s2
    let s4 := references_hold s3 c
    let out : Int × Option AVFrame :=
      if s3.picture.display_picture_number.val > c.frame_number then
        match reference_frame_idx s4 c.frame_number with
        | none => (0, none)
        | some idx => (h.sizeof_AVFrame, some (s4.refframes idx))
      else (h.sizeof_AVFrame, some s3.picture)
    let s5 : DiracContext :=
      if s4.picture.reference ≠ 0 ∨
          s4.picture.display_picture_number.val < c.frame_number then
        { s4 with picture := avcodec_get_frame_defaults }
      else s4
    { ret := c.buf_size, data_size := out.1, picture := out.2, s := s5 }

/-- The context of `decode_frame` on a picture parse code after
`s->refs = parse_code & 0x03` and `parse_frame`, whose result is not looked
at, as in the source. -/
def decode_frame_parsed (h : dirac_host) (s : DiracContext) (c : decode_call) : DiracContext :=
  (parse_frame h { s with refs := c.parse_code &&& 0x03 }).2

/-- The context of `decode_frame` after the previous picture buffer is
released and `s->picture.reference` is set from the parse code. -/
def decode_frame_flagged (h : dirac_host) (s : DiracContext) (c : decode_call) : DiracContext :=
  let s1 := decode_frame_parsed h s c
  let p0 := if s1.picture.data0 ≠ 0 then release_buffer s1.picture else s1.picture
  { s1 with picture := { p0 with reference := if c.parse_code &&& 0x04 = 0x04 then 1 else 0 } }

/-- The context of `decode_frame` after `get_buffer` has supplied a buffer. -/
def decode_frame_buffered (h : dirac_host) (s : DiracContext) (c : decode_call) :
    DiracContext :=
  let s1 := decode_frame_flagged h s c
  { s1 with picture := { s1.picture with data0 := c.get_buffer_data } }

/-- The context of `decode_frame` after `dirac_decode_frame` and
`s->picture.display_picture_number = s->picnum`. -/
def decode_frame_decoded (h : dirac_host) (s : DiracContext) (c : decode_call) : DiracContext :=
  let s2 := decode_frame_buffered h s c
  { s2 with picture := { s2.picture with display_picture_number := u32_to_c_int s2.picnum } }

/-- The part of `decode_frame` for a picture parse code, from
`s->refs = parse_code & 0x03` on. -/
def decode_frame_picture (h : dirac_host) (s : DiracContext) (c : decode_call) :
    decode_result :=
  let s1 := decode_frame_parsed h s c
  if h.avcodec_check_dimensions s1.sequence.luma_width s1.sequence.luma_height ≠ 0 then
    { ret := -1, data_size := c.data_size, picture := none, s := s1 }
  else if c.get_buffer_ret < 0 then
    { ret := -1, data_size := c.data_size, picture := none, s := decode_frame_flagged h s c }
  else if h.dirac_decode_frame (decode_frame_buffered h s c) ≠ 0 then
    { ret := -1, data_size := c.data_size, picture := none, s := decode_frame_buffered h s c }
  else decode_frame_references h (decode_frame_decoded h s c) c

/-- The function `decode_frame`. -/
def decode_frame (h : dirac_host) (s : DiracContext) (c : decode_call) : decode_result :=
  if c.buf_size = 0 then
    match reference_frame_idx s c.frame_number with
    | none => { ret := 0, data_size := 0, picture := none, s := s }
    | some idx =>
      { ret := 0, data_size := h.sizeof_AVFrame, picture := some (s.refframes idx), s := s }
  else
    let s0 : DiracContext := { s with gb := { buffer := c.payload, index := 0 } }
    if c.parse_code = pc_access_unit_header then
      let r := parse_access_unit_header h s0
      if r.1 ≠ 0 then { ret := -1, data_size := c.data_size, picture := none, s := r.2 }
      else { ret := 0, data_size := c.data_size, picture := none, s := r.2 }
    else if c.parse_code &&& 0x08 ≠ 0x08 then
      { ret := 0, data_size := c.data_size, picture := none, s := s0 }
    else decode_frame_picture h s0 c

/-- Modelled from the spec: `avcodec_check_dimensions(avctx, w, h)` of the
host library, on its `unsigned int` arguments: the result is 0 when both
are positive as `int` values and `(w + 128) * (h + 128)` is below
`INT_MAX / 4`, and -1 otherwise. -/
def avcodec_check_dimensions (w h : Nat) : Int :=
  if 0 < u32_to_int w ∧ 0 < u32_to_int h
      ∧ (u32 w + 128) * (u32 h + 128) < 2147483647 / 4 then 0
  else -1

/-- The return value of `dirac_decode_frame`: -1 when one of the two
dimension checks of the padded luma size or one of the two allocations
fails, or when `dirac_motion_compensation` fails for a component of a
picture with references, and 0 otherwise (`decode_component` and
`dirac_idwt` cannot make the call fail). `check` is the dimension check,
`av_malloc_ok` tells whether the allocations of the host succeed and
`motion_compensation s comp` is the result of `dirac_motion_compensation`
for the component `comp`. -/
def dirac_decode_frame_ret (check : Nat → Nat → Int) (av_malloc_ok : Bool)
    (motion_compensation : DiracContext → Nat → Int) (s : DiracContext) : Int :=
  if check (int_to_u32 s.padded_luma_width) (int_to_u32 s.padded_luma_height) ≠ 0 then -1
  else if av_malloc_ok = false then -1
  else if check (int_to_u32 s.padded_luma_width) (int_to_u32 s.padded_luma_height) ≠ 0 then -1
  else if av_malloc_ok = false then -1
  else if s.refs ≠ 0 ∧ motion_compensation s 0 ≠ 0 then -1
  else if s.refs ≠ 0 ∧ motion_compensation s 1 ≠ 0 then -1
  else if s.refs ≠ 0 ∧ motion_compensation s 2 ≠ 0 then -1
  else 0

/-- A sequence of `decode_frame` calls, each on the context the previous
one left. -/
def decode_frames (h : dirac_host) : DiracContext → List decode_call → DiracContext
  | s, [] => s
  | s, c :: cs => decode_frames h (decode_frame h s c).s cs

/-- The context of a picture decoding call of `decode_frame` at the point
where the retire scan runs: the picture is decoded and, when the first
store applies, appended to the collection. -/
def decode_frame_at_scan (h : dirac_host) (s : DiracContext) (c : decode_call) : DiracContext :=
  references_store
    (decode_frame_decoded h { s with gb := { buffer := c.payload, index := 0 } } c) c

/-- An entry that is no reference and was displayed before the host frame
number `frame_number`. -/
def expired (frame_number : Int) (f : AVFrame) : Prop :=
  f.reference = 0 ∧ f.display_picture_number.val < frame_number

/-- The identity of an entry apart from its reference flag: the buffer
handle and the display number. -/
def frame_key (f : AVFrame) : Nat × Int := (f.data0, f.display_picture_number.val)

/-- The retirement of one target display number `t` from a list of entries:
the first entry with that number is dropped when it was displayed before
`frame_number`, and loses its reference flag otherwise. -/
def retire_first (frame_number : Int) (t : Int) : List AVFrame → List AVFrame
  | [] => []
  | f :: fs =>
    if f.display_picture_number.val = t then
      (if f.display_picture_number.val ≥ frame_number then { f with reference := 0 } :: fs
       else fs)
    else f :: retire_first frame_number t fs

/-! ## Sample inputs -/

/-- The bit sequence that holds the listed bits and zeros after them. -/
def bits_of (l : List Nat) : Nat → Bool := fun i => l.getD i 0 = 1

/-- An interleaved Exp-Golomb reader with at most `fuel` data bits: a bit
`0` announces a data bit, which is shifted into `value`; a bit `1` ends the
code, whose value is `value - 1`. -/
def sample_exp_golomb : Nat → Nat → GetBitContext → Nat × GetBitContext
  | 0, value, gb => (value - 1, gb)
  | fuel + 1, value, gb =>
    let f := get_bits1 gb
    if f.1 ≠ 0 then (value - 1, f.2)
    else
      let d := get_bits1 f.2
      sample_exp_golomb fuel (2 * value + d.1) d.2

/-- A sample unsigned Exp-Golomb reader. -/
def sample_ue (gb : GetBitContext) : Int × GetBitContext :=
  let r := sample_exp_golomb 31 1 gb
  ((r.1 : Int), r.2)

/-- A sample signed Exp-Golomb reader: the magnitude, then a sign bit when
the magnitude is not zero. -/
def sample_se (gb : GetBitContext) : Int × GetBitContext :=
  let r := sample_exp_golomb 31 1 gb
  if r.1 = 0 then (0, r.2)
  else
    let sg := get_bits1 r.2
    ((if sg.1 ≠ 0 then -(r.1 : Int) else (r.1 : Int)), sg.2)

/-- A permissive sample host: the sample Exp-Golomb readers,
motion-field unpackers that read nothing and succeed, and a dimension
check and a picture decoder that accept every context, a picture of size
0x0 included. It is used where the result does not depend on the checks;
`checking_host` has the checks of the decoder. -/
def sample_host : dirac_host :=
  { svq3_get_ue_golomb := sample_ue
    dirac_get_se_golomb := sample_se
    ff_frame_rate_tab := fun _ => ⟨0, 0⟩
    dirac_unpack_prediction_parameters := fun s => (0, s.frame_decoding, s.gb)
    dirac_unpack_prediction_data := fun s => (0, s.gb)
    avcodec_check_dimensions := fun _ _ => 0
    dirac_decode_frame := fun _ => 0
    sizeof_AVFrame := 1 }

/-- The decoder context as the host allocates it: every member zero. -/
def dirac_context_zero : DiracContext :=
  { profile := 0, level := 0, gb := { buffer := fun _ => false, index := 0 }
    picture := avcodec_get_frame_defaults, picnum := 0, refcnt := 0
    refframes := fun _ => avcodec_get_frame_defaults
    retirecnt := 0, retireframe := fun _ => 0
    source := source_parameters_zero, sequence := sequence_parameters_zero
    decoding := decoding_parameters_zero, frame_decoding := decoding_parameters_zero
    codeblocksh := fun _ => 0, codeblocksv := fun _ => 0
    padded_luma_width := 0, padded_luma_height := 0
    padded_chroma_width := 0, padded_chroma_height := 0
    chroma_hshift := 0, chroma_vshift := 0, zero_res := 0, refs := 0
    ref := fun _ => 0, wavelet_idx := 0, oob := false }

/-- The payload of an intra picture: the 32-bit picture number `picnum`
(below 256), an empty retire list, and after the byte alignment the bits
`tail` of the wavelet parameters. -/
def intra_payload (picnum : Nat) (tail : List Nat) : Nat → Bool :=
  bits_of (List.replicate 24 0 ++
    [picnum / 128 % 2, picnum / 64 % 2, picnum / 32 % 2, picnum / 16 % 2,
     picnum / 8 % 2, picnum / 4 % 2, picnum / 2 % 2, picnum % 2] ++
    [1, 0, 0, 0, 0, 0, 0, 0] ++ tail)

/-- A call that decodes a picture unit: parse code `parse_code`, payload
`payload`, a buffer with handle `data` from the host, at the host frame
number `frame_number`. -/
def picture_call (frame_number : Int) (parse_code : Nat) (payload : Nat → Bool) (data : Nat) :
    decode_call :=
  { frame_number := frame_number, buf_size := 64, parse_code := parse_code
    payload := payload, get_buffer_ret := 0, get_buffer_data := data, data_size := 0 }

/-- A host for examples with the checks of the decoder: the dimension
check is `avcodec_check_dimensions` and the picture decoder returns what
`dirac_decode_frame` returns when the allocations succeed. The pictures
of the examples are intra pictures, for which `dirac_decode_frame` does
not call the motion compensation. -/
def checking_host : dirac_host :=
  { sample_host with
    avcodec_check_dimensions := avcodec_check_dimensions
    dirac_decode_frame := dirac_decode_frame_ret avcodec_check_dimensions true (fun _ _ => 0) }

/-- The unit of an access unit header: version 0.1, profile 0, level 0,
video format 0 and no override, which makes the sequence 640x480 with
4:2:0 chroma and a wavelet depth of 4. -/
def header_call : decode_call :=
  { frame_number := 0, buf_size := 64, parse_code := 0x00
    payload := bits_of [1, 0, 0, 1, 1, 1, 1, 0, 0, 0, 0, 0, 0, 0, 0, 0]
    get_buffer_ret := 0, get_buffer_data := 0, data_size := 0 }

/-- The context of a decoder that has read the access unit header
`header_call`. -/
def sequence_context : DiracContext := decode_frames checking_host dirac_context_zero [header_call]

/-- The coefficient data of a picture without residue: for each of the
three components the 13 subbands of a wavelet of depth 4, each the
Exp-Golomb code of the length 0 and the padding to the next byte. -/
def zero_subbands : List Nat := (List.replicate 39 [1, 0, 0, 0, 0, 0, 0, 0]).flatten

/-- The payload of an intra picture with the default wavelet parameters
and no residue. -/
def plain_payload (picnum : Nat) : Nat → Bool :=
  intra_payload picnum ([0, 0, 0, 0, 0, 0, 0, 0] ++ zero_subbands)

/-- The payload of an intra picture with the "non default filter" flag
and the Exp-Golomb code of the filter index 8, and no residue. -/
def bad_filter_payload (picnum : Nat) : Nat → Bool :=
  intra_payload picnum ([1, 0, 0, 0, 0, 0, 1, 1] ++ zero_subbands)

/-- The context of a decoder that has read the header and decoded, at
host frame number 0, the intra reference picture number 0. -/
def first_picture_context : DiracContext :=
  decode_frames checking_host dirac_context_zero
    [header_call, picture_call 0 0x0C (plain_payload 0) 7]

/-- A picture unit with filter index 8: the intra reference picture
number 1, decoded at host frame number 1. -/
def bad_filter_call : decode_call := picture_call 1 0x0C (bad_filter_payload 1) 8

/-- The first `n` of a run of picture units decoded at host frame number 0:
intra pictures that are no references, numbered `1, 2, ...`, each with the
default wavelet parameters and no residue. -/
def future_pictures (n : Nat) : List decode_call :=
  (List.range n).map (fun k => picture_call 0 0x08 (plain_payload (k + 1)) (k + 1))

/-- A run of units in which the picture number 3 comes twice: after the
header the pictures 0, 1 and 2, no references, and the reference picture
3, each decoded and shown at the host frame number of its own number;
then, at host frame number 4, a picture that is no reference and carries
the number 3 again. -/
def repeated_number_calls : List decode_call :=
  [header_call,
   picture_call 0 0x08 (plain_payload 0) 1,
   picture_call 1 0x08 (plain_payload 1) 2,
   picture_call 2 0x08 (plain_payload 2) 3,
   picture_call 3 0x0C (plain_payload 3) 4,
   picture_call 4 0x08 (plain_payload 3) 5]

/-- The context after the header and three picture units: the picture 1,
no reference, decoded at host frame number 0 and held for later display;
the picture 0, decoded and shown at host frame number 0; the reference
picture 2, decoded at host frame number 1, where the held picture 1 is
shown. -/
def held_picture_context : DiracContext :=
  decode_frames checking_host dirac_context_zero
    [header_call,
     picture_call 0 0x08 (plain_payload 1) 1,
     picture_call 0 0x08 (plain_payload 0) 2,
     picture_call 1 0x0C (plain_payload 2) 3]

/-- A picture unit decoded at host frame number 2: the intra picture
number 3, no reference. -/
def second_picture_call : decode_call := picture_call 2 0x08 (plain_payload 3) 4

/-! ## `dirac.c`: subband geometry -/

/-- The function `subband_width(s, level)`; `padded_width` is
`s->padded_width` and `wavelet_depth` is `s->frame_decoding.wavelet_depth`.
The operator `>>` on `int` is the arithmetic shift. -/
def subband_width (padded_width : Int) (wavelet_depth : Nat) (level : Int) : Int :=
  if level = 0 then padded_width >>> wavelet_depth
  else padded_width >>> ((wavelet_depth : Int) - level + 1).toNat

/-- The function `subband_height(s, level)`. -/
def subband_height (padded_height : Int) (wavelet_depth : Nat) (level : Int) : Int :=
  if level = 0 then padded_height >>> wavelet_depth
  else padded_height >>> ((wavelet_depth : Int) - level + 1).toNat

/-- The area `subband_width(level) * subband_height(level)` of one subband
of a level. -/
def subband_area (padded_width padded_height : Int) (wavelet_depth : Nat) (level : Int) : Int :=
  subband_width padded_width wavelet_depth level
    * subband_height padded_height wavelet_depth level

/-- The areas of the subbands of a component: the LL subband of level 0 and
the HL, LH and HH subbands of every level `1, ..., wavelet_depth`. -/
def subband_area_total (padded_width padded_height : Int) (wavelet_depth : Nat) : Int :=
  subband_area padded_width padded_height wavelet_depth 0
    + ((List.range wavelet_depth).map (fun (k : Nat) =>
        subband_area padded_width padded_height wavelet_depth ((k : Int) + 1)
          + subband_area padded_width padded_height wavelet_depth ((k : Int) + 1)
          + subband_area padded_width padded_height wavelet_depth ((k : Int) + 1))).sum

/-! ## `dirac.c`: the motion field -/

/-- The mask `DIRAC_REF_MASK_REF1`. -/
def DIRAC_REF_MASK_REF1 : Nat := 1

/-- The mask `DIRAC_REF_MASK_REF2`. -/
def DIRAC_REF_MASK_REF2 : Nat := 2

/-- The mask `DIRAC_REF_MASK_GLOBAL`. -/
def DIRAC_REF_MASK_GLOBAL : Nat := 4

/-- The record `struct dirac_blockmotion`: `use_ref` is a `uint8_t`,
`vect[ref][dir]` and `dc[comp]` are `int16_t` values. -/
structure dirac_blockmotion where
  use_ref : Nat
  vect : Nat → Nat → Int
  dc : Nat → Int

/-- Modelled from the spec: `mid_pred(a, b, c)` is the median of its three
arguments (the function is defined outside the files of this development). -/
def mid_pred (a b c : Int) : Int :=
  if a > b then
    if c > b then (if c > a then a else c) else b
  else
    if b > c then (if c > a then c else a) else b

/-- The median of three values, as the sum without the least and the
greatest. -/
def median3 (a b c : Int) : Int :=
  a + b + c - min a (min b c) - max a (max b c)

/-- The function `motion_vector_prediction(s, x, y, ref, dir)`; `blmotion`
is the array `s->blmotion`, indexed from its first element, and `blwidth`
is `s->blwidth`. -/
def motion_vector_prediction (blmotion : Int → dirac_blockmotion) (blwidth : Int)
    (x y : Int) (ref dir : Nat) : Int :=
  let refmask : Nat := ref + 1
  let mask : Nat := refmask ||| DIRAC_REF_MASK_GLOBAL
  let block : Int := y * blwidth + x
  let hit_left : Bool := decide (x > 0) && ((blmotion (block - 1)).use_ref &&& mask == refmask)
  let left : Int := if hit_left then (blmotion (block - 1)).vect ref dir else 0
  let cnt1 : Nat := if hit_left then 1 else 0
  if x > 0 ∧ y = 0 then left
  else
    let hit_top : Bool :=
      decide (y > 0) && ((blmotion (block - blwidth)).use_ref &&& mask == refmask)
    let top : Int := if hit_top then (blmotion (block - blwidth)).vect ref dir else 0
    let cnt2 : Nat := if hit_top then cnt1 + 1 else cnt1
    if y > 0 ∧ x = 0 then top
    else
      let hit_lefttop : Bool :=
        decide (y > 0) && decide (x > 0)
          && ((blmotion (block - blwidth - 1)).use_ref &&& mask == refmask)
      let lefttop : Int :=
        if hit_lefttop then (blmotion (block - blwidth - 1)).vect ref dir else 0
      let cnt : Nat := if hit_lefttop then cnt2 + 1 else cnt2
      if cnt = 0 then 0
      else if cnt = 1 then left + top + lefttop
      else if cnt = 2 then (left + top + lefttop + 1) >>> 1
      else mid_pred left top lefttop

/-- The test `(use_ref & (refmask | DIRAC_REF_MASK_GLOBAL)) == refmask` of
`motion_vector_prediction` on the block at index `k`. -/
def has_vector (blmotion : Int → dirac_blockmotion) (ref : Nat) (k : Int) : Bool :=
  (blmotion k).use_ref &&& ((ref + 1) ||| DIRAC_REF_MASK_GLOBAL) == ref + 1

/-- A block with the given `use_ref` and the same vector component
everywhere. -/
def sample_block (use_ref : Nat) (v : Int) : dirac_blockmotion :=
  { use_ref := use_ref, vect := fun _ _ => v, dc := fun _ => 0 }

/-- A motion field of width 2: the blocks 0, 1 and 2 refer to reference 1
with the vector components -5, 0 and 100. -/
def sample_motion_field : Int → dirac_blockmotion := fun k =>
  if k = 0 then sample_block 1 (-5)
  else if k = 1 then sample_block 1 0
  else if k = 2 then sample_block 1 100
  else sample_block 0 7

/-- The field `sample_motion_field` with the top block intra coded. -/
def sample_motion_field_two : Int → dirac_blockmotion := fun k =>
  if k = 0 then sample_block 1 (-5)
  else if k = 1 then sample_block 0 0
  else if k = 2 then sample_block 1 100
  else sample_block 0 7

/-- The function `propagate_block_data(s, step, x, y)` on the array
`s->blmotion`: the two nested loops assign the element at `(x, y)` to the
elements of the square of side `step` at `(x, y)`. -/
def propagate_block_data {β : Type} (blmotion : Int → β) (blwidth : Int) (step : Int)
    (x y : Int) : Int → β :=
  (List.range step.toNat).foldl (fun bl (dj : Nat) =>
    (List.range step.toNat).foldl (fun bl (di : Nat) =>
      Function.update bl ((y + (dj : Int)) * blwidth + (x + (di : Int)))
        (bl (y * blwidth + x))) bl) blmotion

/-- A block decoder of a pass of `dirac_unpack_prediction_data`
(`blockmode_prediction` followed by `blockglob_prediction`,
`dirac_unpack_motion_vector` for one reference and direction, or
`unpack_block_dc` for one component): from the state of the arithmetic
decoder, the motion field and the position `(x, y)` it gives the next
decoder state and the new value of the element at `(x, y)`, the only
element it assigns. -/
structure block_decoder (σ β : Type) where
  run : σ → (Int → β) → Int → Int → σ × β

/-- The body of the loops over `q` and `p`: the block decoder at `(x, y)`
followed by `propagate_block_data(s, step, x, y)`. -/
def unpack_unit {σ β : Type} (dec : block_decoder σ β) (blwidth : Int) (step : Int)
    (x y : Int) (p : σ × (Int → β)) : σ × (Int → β) :=
  let r := dec.run p.1 p.2 x y
  (r.1, propagate_block_data (Function.update p.2 (y * blwidth + x) r.2) blwidth step x y)

/-- The body of the loops over the superblocks: the loops over `q` and `p`
for the superblock `(x, y)` whose split value is `split`. -/
def unpack_superblock {σ β : Type} (dec : block_decoder σ β) (blwidth : Int) (split : Int)
    (x y : Nat) (p : σ × (Int → β)) : σ × (Int → β) :=
  let blkcnt : Nat := 1 <<< split.toNat
  let step : Nat := 4 >>> split.toNat
  (List.range blkcnt).foldl (fun p1 (q : Nat) =>
    (List.range blkcnt).foldl (fun p2 (pp : Nat) =>
      unpack_unit dec blwidth step (4 * (x : Int) + (pp : Int) * step)
        (4 * (y : Int) + (q : Int) * step) p2) p1) p

/-- One pass of `dirac_unpack_prediction_data` over the superblocks, with
`s->blwidth = s->sbwidth << 2`; `sbsplit` is the array `s->sbsplit`. -/
def unpack_pass {σ β : Type} (dec : block_decoder σ β) (sbwidth sbheight : Nat)
    (sbsplit : Int → Int) (p : σ × (Int → β)) : σ × (Int → β) :=
  (List.range sbheight).foldl (fun p1 (y : Nat) =>
    (List.range sbwidth).foldl (fun p2 (x : Nat) =>
      unpack_superblock dec ((sbwidth : Int) * 4)
        (sbsplit ((y : Int) * sbwidth + x)) x y p2) p1) p

/-- A block decoder for examples: it counts the blocks it decodes and
stores the count. -/
def sample_block_decoder : block_decoder Nat Nat :=
  { run := fun n _ _ _ => (n + 1, n + 1) }

/-- A split map for examples with the values 0, 1, 2 in turn. -/
def sample_sbsplit : Int → Int := fun k => k % 3

/-- The elements assigned by `propagate_block_data(s, step, x, y)`, in the
order of assignment. -/
def propagate_cells (blwidth : Int) (step : Int) (x y : Int) : List Int :=
  (List.range step.toNat).flatMap (fun (dj : Nat) =>
    (List.range step.toNat).map (fun (di : Nat) =>
      (y + (dj : Int)) * blwidth + (x + (di : Int))))

/-- The index `r * s->blwidth + k` of the block in row `r` and column `k`,
with `s->blwidth = s->sbwidth << 2`. -/
def block_index (sbwidth : Nat) (r k : Nat) : Int :=
  (r : Int) * ((sbwidth : Int) * 4) + (k : Int)

/-- The step `4 >> s->sbsplit[...]` of the superblock that holds the block
in row `r` and column `k`. -/
def block_step (sbwidth : Nat) (sbsplit : Int → Int) (r k : Nat) : Nat :=
  4 >>> (sbsplit (((r / 4 : Nat) : Int) * sbwidth + ((k / 4 : Nat) : Int))).toNat

/-- The row and the column of the coded unit that covers the block in row
`r` and column `k`. -/
def covering_unit (sbwidth : Nat) (sbsplit : Int → Int) (r k : Nat) : Nat × Nat :=
  (r / block_step sbwidth sbsplit r k * block_step sbwidth sbsplit r k,
   k / block_step sbwidth sbsplit r k * block_step sbwidth sbsplit r k)

/-- The coded units of a pass in the order of decoding, each with its
column, its row and its step. -/
def pass_units (sbwidth sbheight : Nat) (sbsplit : Int → Int) : List (Nat × Nat × Nat) :=
  (List.range sbheight).flatMap (fun (y : Nat) =>
    (List.range sbwidth).flatMap (fun (x : Nat) =>
      (List.range (1 <<< (sbsplit ((y : Int) * sbwidth + x)).toNat)).flatMap (fun (q : Nat) =>
        (List.range (1 <<< (sbsplit ((y : Int) * sbwidth + x)).toNat)).map (fun (pp : Nat) =>
          (4 * x + pp * (4 >>> (sbsplit ((y : Int) * sbwidth + x)).toNat),
           4 * y + q * (4 >>> (sbsplit ((y : Int) * sbwidth + x)).toNat),
           4 >>> (sbsplit ((y : Int) * sbwidth + x)).toNat)))))

/-- A coded unit of the superblock `(sx, sy)`: its column, row and step for
the indices `pp` and `q` of the loops. -/
def unit_at (sbwidth : Nat) (sbsplit : Int → Int) (sx sy pp q : Nat) : Nat × Nat × Nat :=
  (4 * sx + pp * (4 >>> (sbsplit ((sy : Int) * sbwidth + sx)).toNat),
   4 * sy + q * (4 >>> (sbsplit ((sy : Int) * sbwidth + sx)).toNat),
   4 >>> (sbsplit ((sy : Int) * sbwidth + sx)).toNat)

/-- The coded units of the superblocks of a picture `sbwidth` superblocks
wide, for the split map `sbsplit`. -/
def is_unit (sbwidth : Nat) (sbsplit : Int → Int) (u : Nat × Nat × Nat) : Prop :=
  ∃ sx sy pp q : Nat, sx < sbwidth
    ∧ q < 1 <<< (sbsplit ((sy : Int) * sbwidth + sx)).toNat
    ∧ pp < 1 <<< (sbsplit ((sy : Int) * sbwidth + sx)).toNat
    ∧ u = unit_at sbwidth sbsplit sx sy pp q

/-- The indices `j * 4 + i` of the sub-positions of one superblock that
the loops over `q` and `p` assign for the split value `split`, in the order
of assignment (a motion field one superblock wide). -/
def superblock_cells (split : Nat) : List Int :=
  (List.range (1 <<< split)).flatMap (fun (q : Nat) =>
    (List.range (1 <<< split)).flatMap (fun (pp : Nat) =>
      propagate_cells 4 ((4 >>> split : Nat) : Int) ((pp : Int) * ((4 >>> split : Nat) : Int))
        ((q : Int) * ((4 >>> split : Nat) : Int))))

/-! ## `dwt.c`: the rows of the inverse wavelet transform -/

/-- The values of `enum dwt_type` that `ff_spatial_idwt_init2` supports. -/
inductive dwt_type where
  | DWT_DIRAC_DD9_7
  | DWT_DIRAC_LEGALL5_3
  | DWT_DIRAC_DD13_7
  | DWT_DIRAC_HAAR0
  | DWT_DIRAC_HAAR1
  | DWT_DIRAC_DAUB9_7
  deriving DecidableEq

/-- The function `mirror(v, m)`. -/
def mirror (v m : Int) : Int :=
  if v < 0 then -v else if v > m then 2 * m - v else v

/-- The function `extend(v, m)`. -/
def extend (v m : Int) : Int :=
  if v < 0 then 0 else if v > m then m else v

/-- The function `extend_odd(v, m)`. -/
def extend_odd (v m : Int) : Int :=
  if v < 1 then 1 else if v > m then m else v

/-- The record `DWTCompose`: the row pointers `b[i]`, each held as the row
index `r` of the pointer `buffer + r*stride`, and the row counter `y`. -/
structure DWTCompose where
  b : List Int
  y : Int

/-- The function `spatial_compose97i_init`. -/
def spatial_compose97i_init (height : Int) : DWTCompose :=
  { b := [mirror (-3 - 1) (height - 1), mirror (-3) (height - 1),
          mirror (-3 + 1) (height - 1), mirror (-3 + 2) (height - 1)],
    y := -3 }

/-- The function `spatial_compose53i_init`. -/
def spatial_compose53i_init (height : Int) : DWTCompose :=
  { b := [mirror (-1 - 1) (height - 1), mirror (-1) (height - 1)], y := -1 }

/-- The function `spatial_compose_dd97i_init`. -/
def spatial_compose_dd97i_init (height : Int) : DWTCompose :=
  { b := [extend (-5 - 1) (height - 2), mirror (-5) (height - 1),
          extend (-5 + 1) (height - 2), mirror (-5 + 2) (height - 1),
          extend (-5 + 3) (height - 2), mirror (-5 + 4) (height - 1)],
    y := -5 }

/-- The function `spatial_compose_dd137i_init`. -/
def spatial_compose_dd137i_init (height : Int) : DWTCompose :=
  { b := [extend (-5 - 1) (height - 2), extend_odd (-5) (height - 1),
          extend (-5 + 1) (height - 2), extend_odd (-5 + 2) (height - 1),
          extend (-5 + 3) (height - 2), extend_odd (-5 + 4) (height - 1),
          extend (-5 + 5) (height - 2), extend_odd (-5 + 6) (height - 1)],
    y := -5 }

/-- The function `spatial_compose_dd97i_dy`: the rows and the counter after
the call (the rows `b[2], ..., b[7]` are kept), and the rows `b[6]` and
`b[7]` that the call computes with `extend` and `mirror`. -/
def spatial_compose_dd97i_dy (cs : DWTCompose) (height : Int) : DWTCompose × List Int :=
  let b6 := extend (cs.y + 5) (height - 2)
  let b7 := mirror (cs.y + 6) (height - 1)
  ({ b := (cs.b.take 6 ++ [b6, b7]).drop 2, y := cs.y + 2 }, [b6, b7])

/-- The function `spatial_compose_dirac53i_dy`: the state after the call
and the rows `b[2]` and `b[3]` that the call computes. -/
def spatial_compose_dirac53i_dy (cs : DWTCompose) (height : Int) : DWTCompose × List Int :=
  let b2 := mirror (cs.y + 1) (height - 1)
  let b3 := mirror (cs.y + 2) (height - 1)
  ({ b := (cs.b.take 2 ++ [b2, b3]).drop 2, y := cs.y + 2 }, [b2, b3])

/-- The function `spatial_compose_dd137i_dy`: the state after the call and
the rows `b[8]` and `b[9]` that the call computes. -/
def spatial_compose_dd137i_dy (cs : DWTCompose) (height : Int) : DWTCompose × List Int :=
  let b8 := extend (cs.y + 7) (height - 2)
  let b9 := extend_odd (cs.y + 8) (height - 1)
  ({ b := (cs.b.take 8 ++ [b8, b9]).drop 2, y := cs.y + 2 }, [b8, b9])

/-- The function `spatial_compose_haari_dy`: the state after the call; the
function takes its rows `y - 1` and `y` without `mirror` or `extend`. -/
def spatial_compose_haari_dy (cs : DWTCompose) (_height : Int) : DWTCompose × List Int :=
  ({ cs with y := cs.y + 2 }, [])

/-- The function `spatial_compose_daub97i_dy`: the state after the call and
the rows `b[4]` and `b[5]` that the call computes. -/
def spatial_compose_daub97i_dy (cs : DWTCompose) (height : Int) : DWTCompose × List Int :=
  let b4 := mirror (cs.y + 3) (height - 1)
  let b5 := mirror (cs.y + 4) (height - 1)
  ({ b := (cs.b.take 4 ++ [b4, b5]).drop 2, y := cs.y + 2 }, [b4, b5])

/-- The function `d->spatial_compose` that `ff_spatial_idwt_init2` sets for
the kernel. -/
def spatial_compose_step (type : dwt_type) (cs : DWTCompose) (height : Int) :
    DWTCompose × List Int :=
  match type with
  | dwt_type.DWT_DIRAC_DD9_7 => spatial_compose_dd97i_dy cs height
  | dwt_type.DWT_DIRAC_LEGALL5_3 => spatial_compose_dirac53i_dy cs height
  | dwt_type.DWT_DIRAC_DD13_7 => spatial_compose_dd137i_dy cs height
  | dwt_type.DWT_DIRAC_HAAR0 => spatial_compose_haari_dy cs height
  | dwt_type.DWT_DIRAC_HAAR1 => spatial_compose_haari_dy cs height
  | dwt_type.DWT_DIRAC_DAUB9_7 => spatial_compose_daub97i_dy cs height

/-- The rows that a call of the `spatial_compose_*_dy` function of the
kernel computes with `mirror`, `extend` or `extend_odd`. -/
def spatial_compose_rows (type : dwt_type) (cs : DWTCompose) (height : Int) : List Int :=
  (spatial_compose_step type cs height).2

/-- The record `DWTContext`: the fields that steer the rows. The field
`rows` is not in the source: it lists, in the order of computation, every
row that `mirror`, `extend` or `extend_odd` has returned, with the height
of its level. -/
structure DWTContext where
  height : Int
  decomposition_count : Int
  type : dwt_type
  support : Int
  cs : Nat → DWTCompose
  rows : List (Int × Int)

/-- The call `d->spatial_compose(d, level, wl, hl, stride_l)`. -/
def spatial_compose (d : DWTContext) (level : Nat) (hl : Int) : DWTContext :=
  let r := spatial_compose_step d.type (d.cs level) hl
  { d with
    cs := Function.update d.cs level r.1
    rows := d.rows ++ r.2.map (fun x => (hl, x)) }

/-- The value of `d->support` that `ff_spatial_idwt_init2` sets. -/
def dwt_support (type : dwt_type) : Int :=
  match type with
  | dwt_type.DWT_DIRAC_DD9_7 => 7
  | dwt_type.DWT_DIRAC_LEGALL5_3 => 3
  | dwt_type.DWT_DIRAC_DD13_7 => 7
  | dwt_type.DWT_DIRAC_HAAR0 => 1
  | dwt_type.DWT_DIRAC_HAAR1 => 1
  | dwt_type.DWT_DIRAC_DAUB9_7 => 5

/-- The body of the loop over the levels in `ff_spatial_idwt_init2`. -/
def idwt_init_level (type : dwt_type) (height : Int) (d : DWTContext) (level : Nat) :
    DWTContext :=
  let hl := height >>> level
  let cs : DWTCompose :=
    match type with
    | dwt_type.DWT_DIRAC_DD9_7 => spatial_compose_dd97i_init hl
    | dwt_type.DWT_DIRAC_LEGALL5_3 => spatial_compose53i_init hl
    | dwt_type.DWT_DIRAC_DD13_7 => spatial_compose_dd137i_init hl
    | dwt_type.DWT_DIRAC_HAAR0 => { d.cs level with y := 1 }
    | dwt_type.DWT_DIRAC_HAAR1 => { d.cs level with y := 1 }
    | dwt_type.DWT_DIRAC_DAUB9_7 => spatial_compose97i_init hl
  let rows : List Int :=
    match type with
    | dwt_type.DWT_DIRAC_HAAR0 => []
    | dwt_type.DWT_DIRAC_HAAR1 => []
    | _ => cs.b
  { d with
    cs := Function.update d.cs level cs
    rows := d.rows ++ rows.map (fun r => (hl, r)) }

/-- The levels `decomposition_count - 1, ..., 0` in the order of the loops
`for (level = decomposition_count - 1; level >= 0; level--)`. -/
def idwt_levels (decomposition_count : Int) : List Nat :=
  (List.range decomposition_count.toNat).reverse

/-- The function `ff_spatial_idwt_init2` on a context whose rows are not
yet set. -/
def ff_spatial_idwt_init2 (height : Int) (type : dwt_type) (decomposition_count : Int) :
    DWTContext :=
  (idwt_levels decomposition_count).foldl (idwt_init_level type height)
    { height := height, decomposition_count := decomposition_count, type := type,
      support := dwt_support type, cs := fun _ => { b := [], y := 0 }, rows := [] }

/-- The loop `while (d->cs[level].y <= FFMIN((y>>level)+support, hl))` of
`ff_spatial_idwt_slice2` with at most `fuel` passes. -/
def idwt_slice_while (level : Nat) (y hl : Int) : Nat → DWTContext → DWTContext
  | 0, d => d
  | fuel + 1, d =>
    if (d.cs level).y ≤ min ((y >>> level) + d.support) hl then
      idwt_slice_while level y hl fuel (spatial_compose d level hl)
    else d

/-- The number of passes of the loop of `ff_spatial_idwt_slice2` for a
level: the counter grows by 2 in each pass. -/
def idwt_slice_passes (d : DWTContext) (level : Nat) (y hl : Int) : Nat :=
  ((min ((y >>> level) + d.support) hl - (d.cs level).y + 2) / 2).toNat

/-- The function `ff_spatial_idwt_slice2(d, y)`. -/
def ff_spatial_idwt_slice2 (d : DWTContext) (y : Int) : DWTContext :=
  (idwt_levels d.decomposition_count).foldl (fun (d1 : DWTContext) (level : Nat) =>
    idwt_slice_while level y (d1.height >>> level)
      (idwt_slice_passes d1 level y (d1.height >>> level)) d1) d

/-- The function `ff_spatial_idwt2`: the context after the loop
`for (y = 0; y < d.height; y += 4)`. -/
def ff_spatial_idwt2 (height : Int) (type : dwt_type) (decomposition_count : Int) :
    DWTContext :=
  (List.range ((height + 3) / 4).toNat).foldl (fun (d : DWTContext) (i : Nat) =>
    ff_spatial_idwt_slice2 d (4 * (i : Int)))
    (ff_spatial_idwt_init2 height type decomposition_count)

/-- The least level height for which the rows of a kernel stay inside the
level. -/
def dwt_min_height (type : dwt_type) : Int :=
  match type with
  | dwt_type.DWT_DIRAC_DD9_7 => 8
  | dwt_type.DWT_DIRAC_LEGALL5_3 => 4
  | dwt_type.DWT_DIRAC_DD13_7 => 2
  | dwt_type.DWT_DIRAC_HAAR0 => 0
  | dwt_type.DWT_DIRAC_HAAR1 => 0
  | dwt_type.DWT_DIRAC_DAUB9_7 => 6

/-- A lower bound of the row counter `cs->y` of a kernel during
`ff_spatial_idwt2`. -/
def dwt_low_y (type : dwt_type) : Int :=
  match type with
  | dwt_type.DWT_DIRAC_DD9_7 => -5
  | dwt_type.DWT_DIRAC_LEGALL5_3 => -1
  | dwt_type.DWT_DIRAC_DD13_7 => -5
  | dwt_type.DWT_DIRAC_HAAR0 => 0
  | dwt_type.DWT_DIRAC_HAAR1 => 0
  | dwt_type.DWT_DIRAC_DAUB9_7 => -3

/-- The rows of a context lie inside their levels: each entry holds the
height `height >> level` of a level below `dc` and a row of that level. -/
def rows_in_range (height dc : Int) (rows : List (Int × Int)) : Prop :=
  ∀ p ∈ rows, (0 ≤ p.2 ∧ p.2 ≤ p.1 - 1)
    ∧ ∃ level : Nat, (level : Int) < dc ∧ p.1 = height >>> level

/-- The invariant of `ff_spatial_idwt2` for a kernel, a height and a number
of levels. -/
def idwt_inv (type : dwt_type) (height : Int) (dc : Int) (d : DWTContext) : Prop :=
  d.type = type ∧ d.support = dwt_support type ∧ d.height = height
    ∧ d.decomposition_count = dc ∧ rows_in_range height dc d.rows
    ∧ ∀ level : Nat, dwt_low_y type ≤ (d.cs level).y

/-! ## `i386/mpegvideo_mmx.c`: MMX registers and instructions -/

/-- The 16-bit word `i` of a 64-bit MMX register, word 0 the lowest. -/
def mmx_word (r i : Nat) : Nat := (r >>> (16 * i)) % 65536

/-- The 32-bit doubleword `i` of a 64-bit MMX register. -/
def mmx_dword (r i : Nat) : Nat := (r >>> (32 * i)) % 4294967296

/-- The register with the four 16-bit words `w0` (lowest) to `w3`. -/
def mmx_pack (w0 w1 w2 w3 : Nat) : Nat :=
  w0 % 65536 + 65536 * (w1 % 65536 + 65536 * (w2 % 65536 + 65536 * (w3 % 65536)))

/-- A word-wise instruction: the word `i` of the result is `f` of the words
`i` of the destination and of the source. -/
def mmx_lanes (f : Nat → Nat → Nat) (src dst : Nat) : Nat :=
  mmx_pack (f (mmx_word dst 0) (mmx_word src 0)) (f (mmx_word dst 1) (mmx_word src 1))
    (f (mmx_word dst 2) (mmx_word src 2)) (f (mmx_word dst 3) (mmx_word src 3))

/-- The value of a 16-bit word as a signed integer. -/
def s16 (w : Nat) : Int := if w % 65536 < 32768 then ((w % 65536 : Nat) : Int)
  else ((w % 65536 : Nat) : Int) - 65536

/-- The 16-bit word of an integer (two's complement, wrapping). -/
def to_u16 (z : Int) : Nat := (z % 65536).toNat

/-- The instruction `pxor src, dst`. -/
def pxor (src dst : Nat) : Nat := dst ^^^ src

/-- The instruction `por src, dst`. -/
def por (src dst : Nat) : Nat := dst ||| src

/-- The instruction `pandn src, dst`: the complement of the destination
and the source. -/
def pandn (src dst : Nat) : Nat := (dst ^^^ 18446744073709551615) &&& src

/-- The instruction `paddw src, dst`. -/
def paddw (src dst : Nat) : Nat := mmx_lanes (fun d s => (d + s) % 65536) src dst

/-- The instruction `psubw src, dst`. -/
def psubw (src dst : Nat) : Nat := mmx_lanes (fun d s => (d + 65536 - s) % 65536) src dst

/-- The instruction `pmullw src, dst`: the low 16 bits of the products. -/
def pmullw (src dst : Nat) : Nat := mmx_lanes (fun d s => (d * s) % 65536) src dst

/-- The instruction `pcmpgtw src, dst`: all ones where the destination word
is greater than the source word as signed values. -/
def pcmpgtw (src dst : Nat) : Nat :=
  mmx_lanes (fun d s => if s16 d > s16 s then 65535 else 0) src dst

/-- The instruction `pcmpeqw src, dst`. -/
def pcmpeqw (src dst : Nat) : Nat :=
  mmx_lanes (fun d s => if d = s then 65535 else 0) src dst

/-- The instruction `psrlw $n, dst`. -/
def psrlw (n dst : Nat) : Nat := mmx_lanes (fun d _ => d >>> n) 0 dst

/-- The instruction `psraw $n, dst`: the arithmetic shift of each word. -/
def psraw (n dst : Nat) : Nat := mmx_lanes (fun d _ => to_u16 (s16 d >>> n)) 0 dst

/-- The instruction `psrlq $n, dst`. -/
def psrlq (n dst : Nat) : Nat := dst >>> n

/-- The instruction `pslld $n, dst`: each doubleword is shifted left. -/
def pslld (n dst : Nat) : Nat :=
  (mmx_dword dst 0 <<< n) % 4294967296 + 4294967296 * ((mmx_dword dst 1 <<< n) % 4294967296)

/-- Signed saturation of a doubleword to a 16-bit word. -/
def sat16 (d : Nat) : Nat :=
  if d < 2147483648 then (if d > 32767 then 32767 else d)
  else (if d < 4294934528 then 32768 else d - 4294901760)

/-- The instruction `packssdw src, dst`. -/
def packssdw (src dst : Nat) : Nat :=
  mmx_pack (sat16 (mmx_dword dst 0)) (sat16 (mmx_dword dst 1))
    (sat16 (mmx_dword src 0)) (sat16 (mmx_dword src 1))

/-- The instruction `movd r, mm` for a 32-bit integer operand. -/
def movd (z : Int) : Nat := int_to_u32 z

/-- The instruction `movq disp(base, index), mm` on an array of 16-bit
words; `addr` is the byte address relative to the first word. -/
def movq_load (mem : Int → Nat) (addr : Int) : Nat :=
  mmx_pack (mem (addr / 2)) (mem (addr / 2 + 1)) (mem (addr / 2 + 2)) (mem (addr / 2 + 3))

/-- The instruction `movq mm, disp(base, index)`. -/
def movq_store (mem : Int → Nat) (addr : Int) (r : Nat) : Int → Nat := fun k =>
  if k = addr / 2 then mmx_word r 0
  else if k = addr / 2 + 1 then mmx_word r 1
  else if k = addr / 2 + 2 then mmx_word r 2
  else if k = addr / 2 + 3 then mmx_word r 3
  else mem k

/-- The instruction `movd disp(base, index), mm`. -/
def movd_load (mem : Int → Nat) (addr : Int) : Nat :=
  mem (addr / 2) % 65536 + 65536 * (mem (addr / 2 + 1) % 65536)

/-- The instruction `movd mm, disp(base, index)`. -/
def movd_store (mem : Int → Nat) (addr : Int) (r : Nat) : Int → Nat := fun k =>
  if k = addr / 2 then mmx_word r 0
  else if k = addr / 2 + 1 then mmx_word r 1
  else mem k

/-- The loop `1: ...; addl $16, index; js 1b` with at most `fuel` passes:
the body runs, the index grows by 16, and the loop goes on while the index
is negative. -/
def asm_loop {σ : Type} (body : Int → σ → σ) : Nat → Int → σ → σ
  | 0, _, s => s
  | fuel + 1, index, s =>
    if index + 16 < 0 then asm_loop body fuel (index + 16) (body index s)
    else body index s

/-- The number of passes of `asm_loop` from the index `index`. -/
def asm_loop_passes (index : Int) : Nat := max 1 ((15 - index) / 16).toNat

/-! ## `i386/mpegvideo_mmx.c`: the dequantisers -/

/-- The fields of `MpegEncContext` that the dequantisers read. -/
structure MpegEncContext where
  qscale : Int
  h263_aic : Int
  mb_intra : Int
  y_dc_scale : Int
  c_dc_scale : Int
  alternate_scan : Int
  block_last_index : Int → Int
  intra_matrix : Int → Nat
  non_intra_matrix : Int → Nat

/-- The body of the loop `for(i=1; i<8; i++)` of `dct_unquantize_h263_mmx`
on the array `block` of 16-bit words. -/
def h263_scalar_step (qmul qadd : Int) (block : Int → Nat) (i : Int) : Int → Nat :=
  let level := s16 (block i)
  if level ≠ 0 then
    if level < 0 then Function.update block i (to_u16 (wrap_int (wrap_int (level * qmul) - qadd)))
    else Function.update block i (to_u16 (wrap_int (wrap_int (level * qmul) + qadd)))
  else block

/-- One pass of the loop of the `asm` statement of
`dct_unquantize_h263_mmx`; `base` is the byte offset of the operand `%0`
from `block` and `index` is the operand `%3`. -/
def h263_asm_body (mm4 mm6 mm7 : Nat) (base : Int) (index : Int) (block : Int → Nat) :
    Int → Nat :=
  let mm0 := movq_load block (base + index)
  let mm1 := movq_load block (8 + base + index)
  let mm0 := pmullw mm6 mm0
  let mm1 := pmullw mm6 mm1
  let mm2 := movq_load block (base + index)
  let mm3 := movq_load block (8 + base + index)
  let mm2 := pcmpgtw mm4 mm2
  let mm3 := pcmpgtw mm4 mm3
  let mm0 := pxor mm2 mm0
  let mm1 := pxor mm3 mm1
  let mm0 := paddw mm7 mm0
  let mm1 := paddw mm7 mm1
  let mm2 := pxor mm0 mm2
  let mm3 := pxor mm1 mm3
  let mm0 := pcmpeqw mm7 mm0
  let mm1 := pcmpeqw mm7 mm1
  let mm0 := pandn mm2 mm0
  let mm1 := pandn mm3 mm1
  movq_store (movq_store block (base + index) mm0) (8 + base + index) mm1

/-- The `asm` statement of `dct_unquantize_h263_mmx` with the operands
`block + nCoeffs`, `qmul`, `qadd` and `2*(i - nCoeffs)`. -/
def h263_asm (block : Int → Nat) (nCoeffs qmul qadd i : Int) : Int → Nat :=
  let mm6 := movd qmul
  let mm6 := packssdw mm6 mm6
  let mm6 := packssdw mm6 mm6
  let mm5 := movd qadd
  let mm7 := pxor 0 0
  let mm5 := packssdw mm5 mm5
  let mm5 := packssdw mm5 mm5
  let mm7 := psubw mm5 mm7
  let mm4 := pxor 0 0
  asm_loop (h263_asm_body mm4 mm6 mm7 (2 * nCoeffs))
    (asm_loop_passes (wrap_int (2 * (i - nCoeffs)))) (wrap_int (2 * (i - nCoeffs))) block

/-- The function `dct_unquantize_h263_mmx(s, block, n, qscale)`;
`zigzag_end` is the table of that name, declared `extern` in the file. -/
def dct_unquantize_h263_mmx (zigzag_end : Int → Int) (s : MpegEncContext)
    (block : Int → Nat) (n : Int) (_qscale : Int) : Int → Nat :=
  let qmul := wrap_int (s.qscale * 2)
  let qadd : Int := if s.h263_aic ≠ 0 ∧ s.mb_intra ≠ 0 then 0 else Int.lor (s.qscale - 1) 1
  if s.mb_intra ≠ 0 then
    let block1 : Int → Nat :=
      if s.h263_aic = 0 then
        if n < 4 then Function.update block 0 (to_u16 (wrap_int (s16 (block 0) * s.y_dc_scale)))
        else Function.update block 0 (to_u16 (wrap_int (s16 (block 0) * s.c_dc_scale)))
      else block
    let block2 := ([1, 2, 3, 4, 5, 6, 7] : List Int).foldl (h263_scalar_step qmul qadd) block1
    h263_asm block2 64 qmul qadd 8
  else
    h263_asm block (zigzag_end (s.block_last_index n)) qmul qadd 0

/-- A context for examples: an intra macroblock without adaptive intra
coding at `qscale` 16. -/
def sample_h263_context : MpegEncContext :=
  { qscale := 16, h263_aic := 0, mb_intra := 1, y_dc_scale := 8, c_dc_scale := 8,
    alternate_scan := 0, block_last_index := fun _ => 63,
    intra_matrix := fun _ => 16, non_intra_matrix := fun _ => 16 }

/-- A block for examples: the level -2048 at the indices 1 and 8, the level
3 at the index 9. -/
def sample_h263_block : Int → Nat := fun k =>
  if k = 1 then 63488 else if k = 8 then 63488 else if k = 9 then 3 else 0

/-- One pass of the loop of the `asm` statement of the intra branch of
`dct_unquantize_mpeg2_mmx`; `base` is the byte offset of the operands `%0`
and `%1` from `block` and `quant_matrix`. -/
def mpeg2_intra_asm_body (mm6 : Nat) (quant_matrix : Int → Nat) (base : Int) (eax : Int)
    (block : Int → Nat) : Int → Nat :=
  let mm0 := movq_load block (base + eax)
  let mm1 := movq_load block (8 + base + eax)
  let mm4 := movq_load quant_matrix (base + eax)
  let mm5 := movq_load quant_matrix (8 + base + eax)
  let mm4 := pmullw mm6 mm4
  let mm5 := pmullw mm6 mm5
  let mm2 := pxor 0 0
  let mm3 := pxor 0 0
  let mm2 := pcmpgtw mm0 mm2
  let mm3 := pcmpgtw mm1 mm3
  let mm0 := pxor mm2 mm0
  let mm1 := pxor mm3 mm1
  let mm0 := psubw mm2 mm0
  let mm1 := psubw mm3 mm1
  let mm0 := pmullw mm4 mm0
  let mm1 := pmullw mm5 mm1
  let mm4 := pxor 0 0
  let mm5 := pxor 0 0
  let mm4 := pcmpeqw (movq_load block (base + eax)) mm4
  let mm5 := pcmpeqw (movq_load block (8 + base + eax)) mm5
  let mm0 := psraw 3 mm0
  let mm1 := psraw 3 mm1
  let mm0 := pxor mm2 mm0
  let mm1 := pxor mm3 mm1
  let mm0 := psubw mm2 mm0
  let mm1 := psubw mm3 mm1
  let mm4 := pandn mm0 mm4
  let mm5 := pandn mm1 mm5
  movq_store (movq_store block (base + eax) mm4) (8 + base + eax) mm5

/-- The instructions of one pass of the loop of the non-intra branch of
`dct_unquantize_mpeg2_mmx` from the loads to the two `pandn`: the results
`mm4` and `mm5`. A register that is compared or combined with itself
(`pxor %%mm2, %%mm2`) is taken with the content 0. -/
def mpeg2_inter_asm_words (mm6 : Nat) (quant_matrix : Int → Nat) (base : Int) (eax : Int)
    (block : Int → Nat) : Nat × Nat :=
  let mm0 := movq_load block (base + eax)
  let mm1 := movq_load block (8 + base + eax)
  let mm4 := movq_load quant_matrix (base + eax)
  let mm5 := movq_load quant_matrix (8 + base + eax)
  let mm4 := pmullw mm6 mm4
  let mm5 := pmullw mm6 mm5
  let mm2 := pxor 0 0
  let mm3 := pxor 0 0
  let mm2 := pcmpgtw mm0 mm2
  let mm3 := pcmpgtw mm1 mm3
  let mm0 := pxor mm2 mm0
  let mm1 := pxor mm3 mm1
  let mm0 := psubw mm2 mm0
  let mm1 := psubw mm3 mm1
  let mm0 := paddw mm0 mm0
  let mm1 := paddw mm1 mm1
  let mm0 := pmullw mm4 mm0
  let mm1 := pmullw mm5 mm1
  let mm0 := paddw mm4 mm0
  let mm1 := paddw mm5 mm1
  let mm4 := pxor 0 0
  let mm5 := pxor 0 0
  let mm4 := pcmpeqw (movq_load block (base + eax)) mm4
  let mm5 := pcmpeqw (movq_load block (8 + base + eax)) mm5
  let mm0 := psrlw 4 mm0
  let mm1 := psrlw 4 mm1
  let mm0 := pxor mm2 mm0
  let mm1 := pxor mm3 mm1
  let mm0 := psubw mm2 mm0
  let mm1 := psubw mm3 mm1
  let mm4 := pandn mm0 mm4
  let mm5 := pandn mm1 mm5
  (mm4, mm5)

/-- One pass of the loop of the `asm` statement of the non-intra branch of
`dct_unquantize_mpeg2_mmx` on the register `mm7` and the block. -/
def mpeg2_inter_asm_body (mm6 : Nat) (quant_matrix : Int → Nat) (base : Int) (eax : Int)
    (st : Nat × (Int → Nat)) : Nat × (Int → Nat) :=
  let r := mpeg2_inter_asm_words mm6 quant_matrix base eax st.2
  let mm7 := pxor r.1 st.1
  let mm7 := pxor r.2 mm7
  (mm7, movq_store (movq_store st.2 (base + eax) r.1) (8 + base + eax) r.2)

/-- The instructions after the loop of the non-intra branch of
`dct_unquantize_mpeg2_mmx`, from `movd 124(%0, %3), %%mm0` to
`movd %%mm0, 124(%0, %3)`; `addr` is the byte offset `124 + base + %3`. -/
def mpeg2_inter_asm_tail (addr : Int) (st : Nat × (Int → Nat)) : Int → Nat :=
  let mm7 := st.1
  let mm0 := movd_load st.2 addr
  let mm6 := mm7
  let mm7 := psrlq 32 mm7
  let mm7 := pxor mm6 mm7
  let mm6 := mm7
  let mm7 := psrlq 16 mm7
  let mm7 := pxor mm6 mm7
  let mm7 := pslld 31 mm7
  let mm7 := psrlq 15 mm7
  let mm0 := pxor mm7 mm0
  movd_store st.2 addr mm0

/-- The register `mm6` of the `asm` statements of
`dct_unquantize_mpeg2_mmx`: `movd %2, %%mm6` and two `packssdw`. -/
def mpeg2_asm_qscale (qscale : Int) : Nat :=
  let mm6 := movd qscale
  let mm6 := packssdw mm6 mm6
  packssdw mm6 mm6

/-- One 16-bit lane of a pass of the loop of the non-intra branch of
`dct_unquantize_mpeg2_mmx`: the word stored for the coefficient `level`
with the quantiser matrix entry `quant`, `q` being the word of `mm6`. -/
def mpeg2_inter_coeff (q level quant : Nat) : Nat :=
  let l := level % 65536
  let qm := (quant % 65536 * q) % 65536
  let neg := if s16 0 > s16 l then 65535 else 0
  let a := ((l ^^^ neg) + 65536 - neg) % 65536
  let a := (a + a) % 65536
  let a := (a * qm) % 65536
  let a := (a + qm) % 65536
  let z := if 0 = l then 65535 else 0
  let a := (a >>> 4) % 65536
  let a := a ^^^ neg
  let a := (a + 65536 - neg) % 65536
  (z ^^^ 65535) &&& a

/-- The word of the register `mm6` of `dct_unquantize_mpeg2_mmx`: the four
words of the register are equal. -/
def mpeg2_qscale_word (qscale : Int) : Nat := mmx_word (mpeg2_asm_qscale qscale) 0

/-- The state after the loop of the non-intra branch of
`dct_unquantize_mpeg2_mmx`: the register `mm7` and the block. -/
def mpeg2_inter_asm_loop (block quant_matrix : Int → Nat) (nCoeffs qscale : Int) :
    Nat × (Int → Nat) :=
  let mm7 := pcmpeqw 0 0
  let mm7 := psrlq 48 mm7
  asm_loop (mpeg2_inter_asm_body (mpeg2_asm_qscale qscale) quant_matrix (2 * nCoeffs))
    (asm_loop_passes (wrap_int (-2 * nCoeffs))) (wrap_int (-2 * nCoeffs)) (mm7, block)

/-- The function `dct_unquantize_mpeg2_mmx(s, block, n, qscale)`;
`zigzag_end` is the table of that name, declared `extern` in the file. -/
def dct_unquantize_mpeg2_mmx (zigzag_end : Int → Int) (s : MpegEncContext)
    (block : Int → Nat) (n : Int) (qscale : Int) : Int → Nat :=
  let nCoeffs : Int := if s.alternate_scan ≠ 0 then 64 else zigzag_end (s.block_last_index n)
  if s.mb_intra ≠ 0 then
    let block0 : Int :=
      if n < 4 then wrap_int (s16 (block 0) * s.y_dc_scale)
      else wrap_int (s16 (block 0) * s.c_dc_scale)
    let block1 := asm_loop
      (mpeg2_intra_asm_body (mpeg2_asm_qscale qscale) s.intra_matrix (2 * nCoeffs))
      (asm_loop_passes (wrap_int (-2 * nCoeffs))) (wrap_int (-2 * nCoeffs)) block
    Function.update block1 0 (to_u16 block0)
  else
    mpeg2_inter_asm_tail (124 + 2 * nCoeffs + wrap_int (-2 * nCoeffs))
      (mpeg2_inter_asm_loop block s.non_intra_matrix nCoeffs qscale)

/-- The XOR of the low bits of the `n` words of `mem` from the index
`start` on. -/
def low_bits_xor (mem : Int → Nat) (start : Int) : Nat → Bool
  | 0 => false
  | n + 1 => Bool.xor (low_bits_xor mem start n) ((mem (start + (n : Int))).testBit 0)

/-- The XOR of the low bits of the four words of a register. -/
def fold_bit (q : Nat) : Bool :=
  Bool.xor (Bool.xor (Bool.xor (q.testBit 0) (q.testBit 16)) (q.testBit 32)) (q.testBit 48)

/-- The value of `nCoeffs` in `dct_unquantize_mpeg2_mmx`. -/
def mpeg2_nCoeffs (zigzag_end : Int → Int) (s : MpegEncContext) (n : Int) : Int :=
  if s.alternate_scan ≠ 0 then 64 else zigzag_end (s.block_last_index n)

/-- The number of coefficients that the loop of the non-intra branch of
`dct_unquantize_mpeg2_mmx` stores: eight in each pass, from the index 0. -/
def mpeg2_emitted (nCoeffs : Int) : Nat := 8 * asm_loop_passes (wrap_int (-2 * nCoeffs))

/-- A context for examples: a non-intra block in zigzag scan. -/
def sample_mpeg2_context : MpegEncContext :=
  { qscale := 2, h263_aic := 0, mb_intra := 0, y_dc_scale := 8, c_dc_scale := 8,
    alternate_scan := 0, block_last_index := fun _ => 0,
    intra_matrix := fun _ => 16, non_intra_matrix := fun _ => 16 }

/-- A block for examples: the level 1 at the index 0. -/
def sample_mpeg2_block : Int → Nat := fun k => if k = 0 then 1 else 0

/-! ## `dirac.c`: motion compensation -/

/-- Modelled from the spec: the macro `FFMAX` of the host library, the
greater of two values. -/
def FFMAX (a b : Int) : Int := if a > b then a else b

/-- Modelled from the spec: the macro `FFMIN` of the host library, the
smaller of two values. -/
def FFMIN (a b : Int) : Int := if a > b then b else a

/-- Modelled from the spec: the macro `FFABS` of the host library, the
absolute value. -/
def FFABS (a : Int) : Int := if a ≥ 0 then a else -a

/-- Modelled from the spec: `av_clip(a, amin, amax)` of the host library,
the value `a` clipped into `[amin, amax]`. -/
def av_clip (a amin amax : Int) : Int :=
  if a < amin then amin else if a > amax then amax else a

/-- Modelled from the spec: `av_log2(v)` of the host library, the position
of the highest set bit of `v` (0 for `v = 0`). -/
def av_log2 (v : Int) : Int :=
  (((List.range 31).filter (fun (k : Nat) => decide (2 ^ (k + 1) ≤ int_to_u32 v))).length : Int)

/-- The value of an `int` stored into an `int16_t` element. -/
def to_int16 (z : Int) : Int := s16 (to_u16 z)

/-- The table `qpel_weights`. -/
def qpel_weights : List (List Int) :=
  [[4, 0, 0, 0], [2, 0, 2, 0], [2, 2, 0, 0], [1, 1, 1, 1]]

/-- The table `eighthpel_weights`. -/
def eighthpel_weights : List (List Int) :=
  [[16, 0, 0, 0], [12, 0, 4, 0], [8, 0, 8, 0], [4, 0, 12, 0],
   [12, 4, 0, 0], [9, 3, 3, 1], [6, 2, 6, 2], [3, 1, 9, 3],
   [8, 8, 0, 0], [6, 6, 2, 2], [4, 4, 4, 4], [2, 2, 6, 6],
   [4, 12, 0, 0], [3, 9, 1, 3], [2, 6, 2, 6], [1, 3, 3, 9]]

/-- The element `w[k]` of the row `idx` of a table of weights. -/
def weight_at (table : List (List Int)) (idx : Int) (k : Nat) : Int :=
  (table.getD idx.toNat []).getD k 0

/-- The fields of `DiracContext` that motion compensation reads, as
`dirac_motion_compensation` sets them for one component. -/
structure mc_context where
  width : Int
  height : Int
  xblen : Int
  yblen : Int
  xbsep : Int
  ybsep : Int
  xoffset : Int
  yoffset : Int
  refwidth : Int
  refheight : Int
  current_blwidth : Int
  current_blheight : Int
  blwidth : Int
  padded_width : Int
  chroma_hshift : Nat
  chroma_vshift : Nat
  mv_precision : Int
  picture_weight_ref1 : Int
  picture_weight_ref2 : Int
  picture_weight_precision : Nat
  spatialwt : Int → Int

/-- The function `spatial_wt(i, x, bsep, blen, offset, blocks)`. -/
def spatial_wt (i x bsep blen offset blocks : Int) : Int :=
  let pos := x - (i * bsep - offset)
  let max := 2 * (blen - bsep)
  if i = 0 ∧ pos < blen >>> 1 then max
  else if i = blocks - 1 ∧ pos ≥ blen >>> 1 then max
  else av_clip (blen - FFABS (2 * pos - (blen - 1))) 0 max

/-- The element `spatialwt[bx]` that the block functions read through
their pointer `uint16_t *spatialwt` into the `int16_t` array. -/
def spatialwt_read (table : Int → Int) (k : Int) : Int := ((to_u16 (table k) : Nat) : Int)

/-- The weight of the pixel `(x, y)` in the block `(i, j)`: the element
`spatialwt[bx]` of the row of the table when `border` is set, the product
of the two calls of `spatial_wt` otherwise. -/
def mc_weight (s : mc_context) (i j xstart ystart x y border : Int) : Int :=
  if border ≠ 0 then spatialwt_read s.spatialwt (s.xblen * (y - ystart) + (x - xstart))
  else spatial_wt i x s.xbsep s.xblen s.xoffset s.current_blwidth
    * spatial_wt j y s.ybsep s.yblen s.yoffset s.current_blheight

/-- The rows `ys, ..., ystop - 1` or the columns `xs, ..., xstop - 1` of a
loop `for (y = ys; y < ystop; y++)`. -/
def loop_range (start stop : Int) : List Int :=
  (List.range (stop - start).toNat).map (fun (k : Nat) => start + (k : Int))

/-- The sample of one reference in the loops of `motion_comp_block1ref`
and `motion_comp_block2refs`, before the picture weight: `refline` is the
offset of the row pointer from the reference frame, `vx` the horizontal
vector, `w` the row of weights and `xfix` the correction of the column. -/
def mc_sample (s : mc_context) (refframe : Int → Int) (refline : Int) (x vx : Int)
    (w : Nat → Int) (xfix : Int) : Int :=
  if s.mv_precision = 0 then refframe (refline + (x + vx) * 2)
  else if s.mv_precision = 1 then refframe (refline + (x * 2 + vx))
  else
    let hx : Int :=
      (if s.mv_precision = 2 then (x * 4 + vx) >>> 1 else (x * 8 + vx) >>> 2) + xfix
    let val0 : Int := if s.mv_precision = 2 then 2 else 4
    let val := val0 + w 0 * refframe (refline + hx)
    let val := val + w 1 * refframe (refline + hx + 1)
    let val := val + w 2 * refframe (refline + hx + s.refwidth)
    let val := val + w 3 * refframe (refline + hx + s.refwidth + 1)
    val >>> s.mv_precision.toNat

/-- The function `motion_comp_block1ref`: the buffer `coeffs` after the
call. The array `refframe` is indexed from the pointer `refframe`; the
elements of `coeffs` are `int16_t` values. -/
def motion_comp_block1ref (s : mc_context) (coeffs : Int → Int) (i j xstart xstop ystart ystop : Int)
    (refframe : Int → Int) (ref : Nat) (currblock : dirac_blockmotion) (comp : Int)
    (border : Int) : Int → Int :=
  let vect0 : Int := if comp ≠ 0 then currblock.vect ref 0 >>> s.chroma_hshift
    else currblock.vect ref 0
  let vect1 : Int := if comp ≠ 0 then currblock.vect ref 1 >>> s.chroma_vshift
    else currblock.vect ref 1
  let xs := FFMAX xstart 0
  let ys := FFMAX ystart 0
  if s.mv_precision < 0 ∨ s.mv_precision > 3 then coeffs
  else
    let refxstart : Int :=
      if s.mv_precision = 0 then (xs + vect0) * 2
      else if s.mv_precision = 1 then xs * 2 + vect0
      else if s.mv_precision = 2 then (xs * 4 + vect0) >>> 1
      else (xs * 8 + vect0) >>> 2
    let refystart0 : Int :=
      if s.mv_precision = 0 then (ys + vect1) * 2
      else if s.mv_precision = 1 then ys * 2 + vect1
      else if s.mv_precision = 2 then (ys * 4 + vect1) >>> 1
      else (ys * 8 + vect1) >>> 2
    let w : Nat → Int :=
      if s.mv_precision = 2 then
        weight_at qpel_weights (Int.lor (Int.land vect0 1 * 2) (Int.land vect1 1))
      else if s.mv_precision = 3 then
        weight_at eighthpel_weights (Int.lor (Int.land vect0 3 * 4) (Int.land vect1 3))
      else fun _ => 0
    let refystart := av_clip refystart0 (-s.yblen * 2) (s.height * 2 - 1)
    let xfix : Int :=
      if refxstart < -s.xblen * 2 then -s.xblen - refxstart
      else if refxstart ≥ (s.width - 1) * 2 then (s.width - 1) * 2 - refxstart
      else 0
    (loop_range ys ystop).foldl (fun (c1 : Int → Int) (y : Int) =>
      (loop_range xs xstop).foldl (fun (c2 : Int → Int) (x : Int) =>
        let val := mc_sample s refframe (refystart * s.refwidth + (y - ys) * (s.refwidth * 2))
          x vect0 w xfix
        let val := val * (s.picture_weight_ref1 + s.picture_weight_ref2)
        let val := val * mc_weight s i j xstart ystart x y border
        Function.update c2 (s.width * y + x) (to_int16 (c2 (s.width * y + x) + val))) c1) coeffs

/-- The function `motion_comp_dc_block`. -/
def motion_comp_dc_block (s : mc_context) (coeffs : Int → Int) (i j xstart xstop ystart ystop : Int)
    (dcval : Int) (border : Int) : Int → Int :=
  let ys := FFMAX ystart 0
  let xs := FFMAX xstart 0
  let dcval := dcval * 2 ^ s.picture_weight_precision
  (loop_range ys ystop).foldl (fun (c1 : Int → Int) (y : Int) =>
    (loop_range xs xstop).foldl (fun (c2 : Int → Int) (x : Int) =>
      let val := dcval * mc_weight s i j xstart ystart x y border
      Function.update c2 (s.width * y + x) (to_int16 (c2 (s.width * y + x) + val))) c1) coeffs

/-- The function `motion_comp_block2refs`. -/
def motion_comp_block2refs (s : mc_context) (coeffs : Int → Int) (i j xstart xstop ystart ystop : Int)
    (ref1 ref2 : Int → Int) (currblock : dirac_blockmotion) (comp : Int) (border : Int) :
    Int → Int :=
  let vect10 : Int := if comp ≠ 0 then currblock.vect 0 0 >>> s.chroma_hshift
    else currblock.vect 0 0
  let vect11 : Int := if comp ≠ 0 then currblock.vect 0 1 >>> s.chroma_vshift
    else currblock.vect 0 1
  let vect20 : Int := if comp ≠ 0 then currblock.vect 1 0 >>> s.chroma_hshift
    else currblock.vect 1 0
  let vect21 : Int := if comp ≠ 0 then currblock.vect 1 1 >>> s.chroma_vshift
    else currblock.vect 1 1
  let xs := FFMAX xstart 0
  let ys := FFMAX ystart 0
  if s.mv_precision < 0 ∨ s.mv_precision > 3 then coeffs
  else
    let refstart (p v : Int) : Int :=
      if s.mv_precision = 0 then (p + v) * 2
      else if s.mv_precision = 1 then p * 2 + v
      else if s.mv_precision = 2 then (p * 4 + v) >>> 1
      else (p * 8 + v) >>> 2
    let refxstart1 := refstart xs vect10
    let refystart1 := refstart ys vect11
    let refxstart2 := refstart xs vect20
    let refystart2 := refstart ys vect21
    let w1 : Nat → Int :=
      if s.mv_precision = 2 then
        weight_at qpel_weights (Int.lor (Int.land vect10 1 * 2) (Int.land vect11 1))
      else if s.mv_precision = 3 then
        weight_at eighthpel_weights (Int.lor (Int.land vect10 3 * 4) (Int.land vect11 3))
      else fun _ => 0
    let w2 : Nat → Int :=
      if s.mv_precision = 2 then
        weight_at qpel_weights (Int.lor (Int.land vect20 1 * 2) (Int.land vect21 1))
      else if s.mv_precision = 3 then
        weight_at eighthpel_weights (Int.lor (Int.land vect20 3 * 4) (Int.land vect20 3))
      else fun _ => 0
    let refystart1 := av_clip refystart1 (-s.yblen) (s.height * 2 - 1)
    let refystart2 := av_clip refystart2 (-s.yblen) (s.height * 2 - 1)
    let xfix1 : Int :=
      if refxstart1 < -s.xblen then -s.xblen - refxstart1
      else if refxstart1 ≥ (s.width - 1) * 2 then (s.width - 1) * 2 - refxstart1
      else 0
    let xfix2 : Int :=
      if refxstart2 < -s.xblen * 2 then -s.xblen * 2 - refxstart2
      else if refxstart2 ≥ (s.width - 1) * 2 then (s.width - 1) * 2 - refxstart2
      else 0
    (loop_range ys ystop).foldl (fun (c1 : Int → Int) (y : Int) =>
      (loop_range xs xstop).foldl (fun (c2 : Int → Int) (x : Int) =>
        let val1 := mc_sample s ref1 (refystart1 * s.refwidth + (y - ys) * (s.refwidth * 2))
          x vect10 w1 xfix1
        let val2 := mc_sample s ref2 (refystart2 * s.refwidth + (y - ys) * (s.refwidth * 2))
          x vect20 w2 xfix2
        let val := val1 * s.picture_weight_ref1 + val2 * s.picture_weight_ref2
        let val := val * mc_weight s i j xstart ystart x y border
        Function.update c2 (s.width * y + x) (to_int16 (c2 (s.width * y + x) + val))) c1) coeffs

/-- The loops of `dirac_motion_compensation` that set up the spatial
weighting matrix `s->spatialwt`, an array of `int16_t`, from the array
`table` that `av_malloc` returned. -/
def spatialwt_loops (xblen yblen xbsep ybsep : Int) (table : Int → Int) : Int → Int :=
  (loop_range 0 xblen).foldl (fun (t1 : Int → Int) (x : Int) =>
    (loop_range 0 yblen).foldl (fun (t2 : Int → Int) (y : Int) =>
      let xmax := 2 * (xblen - xbsep)
      let ymax := 2 * (yblen - ybsep)
      let wh := av_clip (xblen - FFABS (2 * x - (xblen - 1))) 0 xmax
      let wv := av_clip (yblen - FFABS (2 * y - (yblen - 1))) 0 ymax
      Function.update t2 (x + y * xblen) (to_int16 (wh * wv))) t1) table

/-- The table `s->spatialwt` after the loops of `dirac_motion_compensation`
that set it, in closed form: the element `x + y * xblen` holds `wh * wv`
as an `int16_t` (see `spatialwt_loops_eq`). -/
def mc_spatialwt (xblen yblen xbsep ybsep : Int) : Int → Int := fun k =>
  if 0 ≤ k ∧ k < xblen * yblen then
    let x := k % xblen
    let y := k / xblen
    to_int16 (av_clip (xblen - FFABS (2 * x - (xblen - 1))) 0 (2 * (xblen - xbsep))
      * av_clip (yblen - FFABS (2 * y - (yblen - 1))) 0 (2 * (yblen - ybsep)))
  else 0

/-- The fields that `dirac_motion_compensation` sets before the loop over
the blocks, for the component `comp`. -/
def mc_setup (sequence : sequence_parameters) (frame_decoding : decoding_parameters)
    (chroma_hshift chroma_vshift : Nat) (blwidth padded_width : Int) (comp : Int) : mc_context :=
  let width : Int := if comp = 0 then u32_to_int sequence.luma_width
    else u32_to_int sequence.chroma_width
  let height : Int := if comp = 0 then u32_to_int sequence.luma_height
    else u32_to_int sequence.chroma_height
  let xblen : Int :=
    if comp = 0 then (frame_decoding.luma_xblen.val : Int) else frame_decoding.chroma_xblen.val
  let yblen : Int :=
    if comp = 0 then (frame_decoding.luma_yblen.val : Int) else frame_decoding.chroma_yblen.val
  let xbsep : Int :=
    if comp = 0 then (frame_decoding.luma_xbsep.val : Int) else frame_decoding.chroma_xbsep.val
  let ybsep : Int :=
    if comp = 0 then (frame_decoding.luma_ybsep.val : Int) else frame_decoding.chroma_ybsep.val
  let xoffset := Int.tdiv (xblen - xbsep) 2
  let yoffset := Int.tdiv (yblen - ybsep) 2
  { width := width, height := height, xblen := xblen, yblen := yblen, xbsep := xbsep,
    ybsep := ybsep, xoffset := xoffset, yoffset := yoffset,
    refwidth := (width + 2 * xblen) * 2, refheight := (height + 2 * yblen) * 2,
    current_blwidth := Int.tdiv (width - xoffset) xbsep + 1,
    current_blheight := Int.tdiv (height - yoffset) ybsep + 1,
    blwidth := blwidth, padded_width := padded_width,
    chroma_hshift := chroma_hshift, chroma_vshift := chroma_vshift,
    mv_precision := (frame_decoding.mv_precision.val : Int),
    picture_weight_ref1 := frame_decoding.picture_weight_ref1,
    picture_weight_ref2 := frame_decoding.picture_weight_ref2,
    picture_weight_precision := frame_decoding.picture_weight_precision,
    spatialwt := mc_spatialwt xblen yblen xbsep ybsep }

/-- The value of `total_wt_bits` in `dirac_motion_compensation`. -/
def mc_total_wt_bits (s : mc_context) : Int :=
  (av_log2 s.xoffset + 2) + (av_log2 s.yoffset + 2) + (s.picture_weight_precision : Int)

/-- The body of the loops over `j` and `i` of `dirac_motion_compensation`:
the block `(i, j)` is added to `mcpic`. The arrays `refdata 0` and
`refdata 1` are the half-pel frames `s->refdata[0]` and `s->refdata[1]`. -/
def mc_block (s : mc_context) (refdata : Nat → Int → Int) (blmotion : Int → dirac_blockmotion)
    (comp : Int) (mcpic : Int → Int) (i j : Int) : Int → Int :=
  let block := blmotion (j * s.blwidth + i)
  let xstart := i * s.xbsep - s.xoffset
  let ystart := j * s.ybsep - s.yoffset
  let xstop := FFMIN (xstart + s.xblen) s.width
  let ystop := FFMIN (ystart + s.yblen) s.height
  let border : Int :=
    if i > 0 ∧ j > 0 ∧ i < s.current_blwidth - 1 ∧ j < s.current_blheight - 1 then 1 else 0
  let padding := 2 * ((s.xblen * 2 + s.width) * 2 * s.yblen + s.xblen)
  if block.use_ref &&& 3 = 0 then
    motion_comp_dc_block s mcpic i j xstart xstop ystart ystop (block.dc comp.toNat) border
  else if block.use_ref &&& 3 = DIRAC_REF_MASK_REF1 then
    motion_comp_block1ref s mcpic i j xstart xstop ystart ystop
      (fun k => refdata 0 (padding + k)) 0 block comp border
  else if block.use_ref &&& 3 = DIRAC_REF_MASK_REF2 then
    motion_comp_block1ref s mcpic i j xstart xstop ystart ystop
      (fun k => refdata 1 (padding + k)) 1 block comp border
  else
    motion_comp_block2refs s mcpic i j xstart xstop ystart ystop
      (fun k => refdata 0 (padding + k)) (fun k => refdata 1 (padding + k)) block comp border

/-- The buffer `mcpic` after the loops over the blocks, from the buffer
that `memset` has cleared. -/
def mc_blocks (s : mc_context) (refdata : Nat → Int → Int) (blmotion : Int → dirac_blockmotion)
    (comp : Int) : Int → Int :=
  (loop_range 0 s.current_blheight).foldl (fun (m1 : Int → Int) (j : Int) =>
    (loop_range 0 s.current_blwidth).foldl (fun (m2 : Int → Int) (i : Int) =>
      mc_block s refdata blmotion comp m2 i j) m1) (fun _ => 0)

/-- The value that the last loops of `dirac_motion_compensation` add to
the coefficient at `(x, y)`: `coeff >> total_wt_bits` for the `int16_t`
value `coeff = mcline[x] + (1 << (total_wt_bits - 1))`. -/
def mc_prediction (s : mc_context) (mcpic : Int → Int) (x y : Int) : Int :=
  to_int16 (mcpic (s.width * y + x) + 2 ^ (mc_total_wt_bits s - 1).toNat)
    >>> (mc_total_wt_bits s).toNat

/-- The function `dirac_motion_compensation(s, coeffs, comp)` when the
allocations succeed: the result and the coefficients after the call. The
half-pel frames `s->refdata[i]` of the references are given by `refdata`,
as `interpolate_frame_halfpel` or the cache of the reference supplies
them. -/
def dirac_motion_compensation (h : dirac_host) (sequence : sequence_parameters)
    (frame_decoding : decoding_parameters) (chroma_hshift chroma_vshift : Nat)
    (blwidth padded_width : Int) (refdata : Nat → Int → Int)
    (blmotion : Int → dirac_blockmotion) (coeffs : Int → Int) (comp : Int) :
    Int × (Int → Int) :=
  let s := mc_setup sequence frame_decoding chroma_hshift chroma_vshift blwidth padded_width comp
  if h.avcodec_check_dimensions (int_to_u32 s.refwidth) (int_to_u32 s.refheight) ≠ 0 then
    (-1, coeffs)
  else if h.avcodec_check_dimensions (int_to_u32 s.width) (int_to_u32 s.height) ≠ 0 then
    (-1, coeffs)
  else
    let mcpic := mc_blocks s refdata blmotion comp
    (0, (loop_range 0 s.height).foldl (fun (c1 : Int → Int) (y : Int) =>
      (loop_range 0 s.width).foldl (fun (c2 : Int → Int) (x : Int) =>
        Function.update c2 (s.padded_width * y + x)
          (to_int16 (c2 (s.padded_width * y + x) + mc_prediction s mcpic x y))) c1) coeffs)

/-- A picture for examples: the luma component is 32 pixels wide and
high. -/
def sample_mc_sequence : sequence_parameters :=
  { sequence_parameters_zero with
    luma_width := 32
    luma_height := 32
    chroma_width := 16
    chroma_height := 16 }

/-- Frame parameters for examples: blocks of length 24 and separation 16,
motion vectors of full pixels and the picture weights of one reference. -/
def sample_mc_decoding : decoding_parameters :=
  { decoding_parameters_zero with
    luma_xblen := to_uint8 24
    luma_yblen := to_uint8 24
    luma_xbsep := to_uint8 16
    luma_ybsep := to_uint8 16
    mv_precision := to_uint8 0
    picture_weight_ref1 := 1
    picture_weight_ref2 := 0
    picture_weight_precision := 0 }

/-- Frame parameters for examples: as `sample_mc_decoding` with blocks of
length 12 and separation 8. -/
def sample_mc_decoding_small : decoding_parameters :=
  { sample_mc_decoding with
    luma_xblen := to_uint8 12
    luma_yblen := to_uint8 12
    luma_xbsep := to_uint8 8
    luma_ybsep := to_uint8 8 }

/-- The geometry of motion compensation for examples with long blocks:
the luma component of a 640x480 picture with blocks of length 250 and
separation 100 (`uint8_t` values), which gives an offset of 75 and 6 by 5
blocks. -/
def sample_mc_large : mc_context :=
  mc_setup { sample_mc_sequence with luma_width := 640, luma_height := 480 }
    { sample_mc_decoding with
      luma_xblen := to_uint8 250
      luma_yblen := to_uint8 250
      luma_xbsep := to_uint8 100
      luma_ybsep := to_uint8 100 } 1 1 7 640 0

/-- A motion field for examples: every block uses the reference 1 with the
vector `(0, 0)`. -/
def sample_mc_field : Int → dirac_blockmotion := fun _ => sample_block 1 0

/-- Frame parameters for examples: as `sample_mc_decoding_small` with
motion vectors of eighths of a pixel and the picture weights 0 and 1. -/
def sample_mc_decoding_eighth : decoding_parameters :=
  { sample_mc_decoding_small with
    mv_precision := to_uint8 3
    picture_weight_ref1 := 0
    picture_weight_ref2 := 1 }

/-- Reference frames for examples: the pixels of the half-pel frame of the
second reference grow by 4 from one row of 112 pixels to the next; the
first reference is black. -/
def sample_mc_refdata : Nat → Int → Int := fun r k =>
  if r = 1 then (k / 112) % 64 * 4 else 0

/-- A block for examples: `use_ref` as given, the first vector `(0, 0)` and
the second vector `(vx2, vy2)`. -/
def sample_block_vect2 (use_ref : Nat) (vx2 vy2 : Int) : dirac_blockmotion :=
  { use_ref := use_ref
    vect := fun r d => if r = 1 then (if d = 0 then vx2 else vy2) else 0
    dc := fun _ => 0 }

/-! ## `dirac.c`: weights of the sub-pel interpolation and of the blocks -/

/-- The bilinear products `(n-rx)(n-ry)`, `rx(n-ry)`, `(n-rx)ry`, `rx*ry`
of the sub-pel phases `rx` and `ry` on a grid of `n` steps. -/
def bilinear_weights (n rx ry : Int) : List Int :=
  [(n - rx) * (n - ry), rx * (n - ry), (n - rx) * ry, rx * ry]

/-- The rows of a table of weights, with the phases `rx` and `ry` that
select them (`idx = rx * n + ry`), are the bilinear products and add up
to `total`. -/
def weights_bilinear (table : List (List Int)) (n : Nat) (total : Int) : Bool :=
  decide (table.length = n * n)
    && (List.range n).all (fun (rx : Nat) =>
      (List.range n).all (fun (ry : Nat) =>
        decide (table.getD (rx * n + ry) [] = bilinear_weights n rx ry)
          && decide ((table.getD (rx * n + ry) []).sum = total)))

/-- The sum of the horizontal weights `spatial_wt` over the blocks of
`dirac_motion_compensation` whose columns `FFMAX(xstart, 0), ...,
xstop - 1` hold the column `x`, for a component of `width` columns:
`xstart = i * xbsep - xoffset`, `xstop = FFMIN(xstart + xblen, width)`,
`xoffset = (xblen - xbsep) / 2` and there are
`(width - xoffset) / xbsep + 1` blocks in a row. -/
def spatial_wt_sum (width xblen xbsep x : Int) : Int :=
  let xoffset := Int.tdiv (xblen - xbsep) 2
  let blocks := Int.tdiv (width - xoffset) xbsep + 1
  (((loop_range 0 blocks).filter (fun (i : Int) =>
      decide (FFMAX (i * xbsep - xoffset) 0 ≤ x
        ∧ x < FFMIN (i * xbsep - xoffset + xblen) width))).map
    (fun (i : Int) => spatial_wt i x xbsep xblen xoffset blocks)).sum

/-- The block lengths and separations of `block_param_defaults`. -/
def block_presets : List (Int × Int) := [(8, 4), (12, 8), (16, 12), (24, 16)]

/-! ## `dirac.c`: intra DC prediction -/

/-- The function `intra_dc_coeff_prediction(s, coeff, x, y)`: `data` is the
array of coefficients, `pos` the offset of the pointer `coeff` in it and
`padded_width` is `s->padded_width`. The operator `/` is the division of
C, which truncates. -/
def intra_dc_coeff_prediction (padded_width : Int) (data : Int → Int) (pos x y : Int) : Int :=
  if x > 0 ∧ y > 0 then
    let pred := data (pos - 1) + data (pos - padded_width) + data (pos - padded_width - 1)
    if pred > 0 then Int.tdiv (pred + 1) 3
    else Int.tdiv (-((-pred) + 1)) 3
  else if x > 0 then data (pos - 1)
  else if y > 0 then data (pos - padded_width)
  else 0

/-- The values `n - 1, ..., 0` of a loop `for (y = n - 1; y >= 0; y--)`. -/
def loop_down (n : Int) : List Int :=
  (List.range n.toNat).reverse.map (fun (k : Nat) => (k : Int))

/-- The inner loop of `intra_dc_prediction` for the row `y`, the pointer
`line` at the offset `line`; a store into an `int16_t` element wraps. -/
def intra_dc_prediction_line (padded_width width : Int) (data : Int → Int) (line y : Int) :
    Int → Int :=
  (loop_range 0 width).foldl (fun (d : Int → Int) (x : Int) =>
    Function.update d (line + x)
      (to_int16 (d (line + x) + intra_dc_coeff_prediction padded_width d (line + x) x y))) data

/-- The function `intra_dc_prediction(s, data)`: the array after the call.
The state of the outer loop is the array and the offset of the pointer
`line`. -/
def intra_dc_prediction (padded_width padded_height : Int) (wavelet_depth : Nat)
    (data : Int → Int) : Int → Int :=
  ((loop_range 0 (subband_height padded_height wavelet_depth 0)).foldl
    (fun (st : (Int → Int) × Int) (y : Int) =>
      (intra_dc_prediction_line padded_width (subband_width padded_width wavelet_depth 0)
        st.1 st.2 y, st.2 + padded_width)) (data, 0)).1

/-- The inner loop of `intra_dc_coding` for the row `y`. -/
def intra_dc_coding_line (padded_width width : Int) (coeffs : Int → Int) (line y : Int) :
    Int → Int :=
  (loop_down width).foldl (fun (d : Int → Int) (x : Int) =>
    Function.update d (line + x)
      (to_int16 (d (line + x) - intra_dc_coeff_prediction padded_width d (line + x) x y))) coeffs

/-- The function `intra_dc_coding(s, coeffs)`: the array after the call. -/
def intra_dc_coding (padded_width padded_height : Int) (wavelet_depth : Nat)
    (coeffs : Int → Int) : Int → Int :=
  ((loop_down (subband_height padded_height wavelet_depth 0)).foldl
    (fun (st : (Int → Int) × Int) (y : Int) =>
      (intra_dc_coding_line padded_width (subband_width padded_width wavelet_depth 0)
        st.1 st.2 y, st.2 - padded_width))
    (coeffs, (subband_height padded_height wavelet_depth 0 - 1) * padded_width)).1

/-- A DC subband for examples: 4 coefficients wide and 2 high in an array
of width 8, with values around the ends of the range of `int16_t`. -/
def sample_dc_band : Int → Int := fun k =>
  if k = 0 then 32767 else if k = 1 then -32768 else if k = 2 then 5 else if k = 3 then -7
  else if k = 8 then 32767 else if k = 9 then 32766 else if k = 10 then -1
  else if k = 11 then 12345 else 0

/-! ## `dirac_arith.c`: the registers of the decoder -/

/-- The registers of the decoder between two `dirac_arith_get_bit` calls:
the invariant `arith_ok`, the interval from `low` of length `range` inside
`[0, 0x10000]` and a code below `0x10000`. -/
def arith_regs (arith : dirac_arith_state) : Prop :=
  arith_ok arith ∧ arith.low + arith.range ≤ 0x10000 ∧ arith.code < 0x10000

/-! ## `dirac.c`: the wavelet filter of the encoder -/

/-- A call of one of the subband transforms, which are declared outside
`dirac.c`: the function called and its arguments `width`, `height`,
`padded_width` and `level`; or the message of `dirac_idwt` for an index
without a transform. -/
inductive wavelet_call where
  | dirac_subband_idwt_95 (width height padded_width level : Int)
  | dirac_subband_idwt_53 (width height padded_width level : Int)
  | dirac_subband_dwt_53 (width height padded_width level : Int)
  | unknown_idwt_index (wavelet_idx : Nat)
deriving DecidableEq

/-- The function `dirac_idwt(s, coeffs, synth)`: the calls of the subband
transforms in the order of the loop, for `level = 1, ..., wavelet_depth`. -/
def dirac_idwt (padded_width padded_height : Int) (wavelet_depth wavelet_idx : Nat) :
    List wavelet_call :=
  (loop_range 1 ((wavelet_depth : Int) + 1)).map (fun (level : Int) =>
    let width := subband_width padded_width wavelet_depth level
    let height := subband_height padded_height wavelet_depth level
    if wavelet_idx = 0 then
      wavelet_call.dirac_subband_idwt_95 width height padded_width level
    else if wavelet_idx = 1 then
      wavelet_call.dirac_subband_idwt_53 width height padded_width level
    else wavelet_call.unknown_idwt_index wavelet_idx)

/-- The function `dirac_dwt(s, coeffs)`: the calls of the subband
transform in the order of the loop, for
`level = wavelet_depth, ..., 1`. -/
def dirac_dwt (padded_width padded_height : Int) (wavelet_depth : Nat) : List wavelet_call :=
  (loop_range 1 ((wavelet_depth : Int) + 1)).reverse.map (fun (level : Int) =>
    wavelet_call.dirac_subband_dwt_53 (subband_width padded_width wavelet_depth level)
      (subband_height padded_height wavelet_depth level) padded_width level)

/-- Modelled from the spec: a write of the external bit writer, one of
`put_bits(pb, n, value)`, `dirac_set_ue_golomb(pb, value)` and
`align_put_bits(pb)`. -/
inductive put_op where
  | put_bits (n : Nat) (value : Int)
  | dirac_set_ue_golomb (value : Int)
  | align_put_bits
deriving DecidableEq

/-- The writes of the picture header in `dirac_encode_frame`, from the
picture number to the codeblock mode; `frame_number` is
`s->avctx->frame_number`. -/
def dirac_encode_frame_header (frame_number : Int) : List put_op :=
  [put_op.put_bits 32 (frame_number - 1),
   put_op.dirac_set_ue_golomb 0,
   put_op.align_put_bits,
   put_op.put_bits 1 1,
   put_op.dirac_set_ue_golomb 1,
   put_op.put_bits 1 0,
   put_op.put_bits 1 1,
   put_op.put_bits 1 0,
   put_op.dirac_set_ue_golomb 0]

/-- The writes of `dirac_encode_frame_header` that `parse_frame` reads as
the wavelet filter: the flag of the override and the index that follows
it. -/
def encoded_wavelet_filter (frame_number : Int) : List put_op :=
  ((dirac_encode_frame_header frame_number).drop 3).take 2

/-! ## `dirac.c`: quantisers -/

/-- The function `coeff_quant_factor(idx)`: `1 << (idx / 4)` is an `int`
that is converted to the `uint64_t` `base`, the arithmetic on `base` is
modulo `2^64`, and the result is returned as an `int`. -/
def coeff_quant_factor (idx : Int) : Int :=
  let idx := FFMAX idx 0
  let base : Nat := (wrap_int (2 ^ (Int.tdiv idx 4).toNat) % 18446744073709551616).toNat
  let r : Nat :=
    if Int.land idx 3 = 0 then base * 4 % 18446744073709551616
    else if Int.land idx 3 = 1 then (503829 * base + 52958) % 18446744073709551616 / 105917
    else if Int.land idx 3 = 2 then (665857 * base + 58854) % 18446744073709551616 / 117708
    else (440253 * base + 32722) % 18446744073709551616 / 65444
  u32_to_int r

/-- The function `coeff_quant_offset(s, idx)`; `refs` is `s->refs`. -/
def coeff_quant_offset (refs : Nat) (idx : Int) : Int :=
  if idx = 0 then 1
  else if refs = 0 then
    if idx = 1 then 2
    else (coeff_quant_factor idx + 1) >>> (1 : Nat)
  else Int.tdiv (coeff_quant_factor idx * 3 + 4) 8

/-- The function `coeff_dequant(coeff, qoffset, qfactor)` in `int`
arithmetic. -/
def coeff_dequant (coeff qoffset qfactor : Int) : Int :=
  if coeff = 0 then 0
  else wrap_int (wrap_int (coeff * qfactor) + qoffset) >>> (2 : Nat)

/-- The values `qfactor` and `qoffset` of `subband` and `subband_dc` for
the quantiser index `quant`, as the `unsigned int` locals hold them. -/
def subband_quant (refs : Nat) (quant : Nat) : Nat × Nat :=
  (int_to_u32 (coeff_quant_factor (u32_to_int quant)),
   int_to_u32 (wrap_int (coeff_quant_offset refs (u32_to_int quant) + 2)))

/-- The quantiser index that `encode_subband` writes after the length:
`dirac_set_ue_golomb(&s->pb, 0)`. -/
def encode_subband_quant : Int := 0

/-! ## `dirac.c`: codeblocks -/

/-- The bound `(size * x) / count` of `codeblock` and `encode_codeblock`:
`size` is `subband_width(s, level)` or `subband_height(s, level)`, an
`int`, and `count` is `s->codeblocksh[level]` or `s->codeblocksv[level]`,
an `unsigned int`, so the product is converted and the division is
unsigned; the quotient is stored in an `int`. -/
def codeblock_bound (size : Int) (count : Nat) (x : Int) : Int :=
  u32_to_int (int_to_u32 (wrap_int (size * x)) / count)

/-- The positions `(v, h)` of the calls of `coeff_unpack` in `codeblock`
and of `encode_coeff` in `encode_codeblock` for the codeblock `(x, y)` of
a subband of `width` columns and `height` rows, in the order of the two
loops. -/
def codeblock_cells (width height : Int) (codeblocksh codeblocksv : Nat) (x y : Int) :
    List (Int × Int) :=
  let left := codeblock_bound width codeblocksh x
  let right := codeblock_bound width codeblocksh (x + 1)
  let top := codeblock_bound height codeblocksv y
  let bottom := codeblock_bound height codeblocksv (y + 1)
  (loop_range top bottom).flatMap (fun (v : Int) =>
    (loop_range left right).map (fun (h : Int) => (v, h)))

/-! ## `dirac_arith.c`: calls between `dirac_arith_init` and `dirac_arith_flush` -/

/-- A call of one of the three reading functions of the decoder. -/
inductive arith_call where
  | get_bit (context : Nat)
  | read_uint (context_set : dirac_arith_context_set)
  | read_int (context_set : dirac_arith_context_set)

/-- The state after one call; the loops of `dirac_arith_read_uint` are
bounded by `fuel`. -/
def arith_call_run (fuel : Nat) (arith : dirac_arith_state) :
    arith_call → Option dirac_arith_state
  | arith_call.get_bit context => (dirac_arith_get_bit arith context).map (fun r => r.2)
  | arith_call.read_uint context_set =>
    (dirac_arith_read_uint fuel arith context_set).map (fun r => r.2)
  | arith_call.read_int context_set =>
    (dirac_arith_read_int fuel arith context_set).map (fun r => r.2)

/-- The state after a sequence of calls. -/
def arith_calls (fuel : Nat) : dirac_arith_state → List arith_call → Option dirac_arith_state
  | arith, [] => some arith
  | arith, c :: cs =>
    match arith_call_run fuel arith c with
    | none => none
    | some a1 => arith_calls fuel a1 cs

/-- Calls for examples: a bit, an unsigned and a signed integer. -/
def sample_arith_calls : List arith_call :=
  [arith_call.get_bit 0, arith_call.read_uint sample_context_set,
   arith_call.read_int sample_context_set, arith_call.get_bit 3]

/-! ## `dirac.c`: access unit header, records after a failure -/

/-- The reads of `parse_access_unit_header` before the tables of defaults
are indexed: the value of `video_format`, and the context with `profile`,
`level` and the cursor after the five Exp-Golomb values. -/
def access_unit_parse_parameters (h : dirac_host) (s : DiracContext) : Nat × DiracContext :=
  let version_major := h.svq3_get_ue_golomb s.gb
  let version_minor := h.svq3_get_ue_golomb version_major.2
  let profile := h.svq3_get_ue_golomb version_minor.2
  let level := h.svq3_get_ue_golomb profile.2
  let vf := h.svq3_get_ue_golomb level.2
  (int_to_u32 vf.1,
   { s with profile := int_to_u32 profile.1, level := int_to_u32 level.1, gb := vf.2 })

/-- The context of `parse_access_unit_header` after its call of
`parse_sequence_parameters`, for a video format within the tables. -/
def access_unit_sequence (h : dirac_host) (s : DiracContext) : DiracContext :=
  parse_sequence_parameters h
    { (access_unit_parse_parameters h s).2 with
      sequence := sequence_parameters_defaults.getD (access_unit_parse_parameters h s).1
                    sequence_parameters_zero }

/-- The members `decoding`, `sequence`, `chroma_hshift` and
`chroma_vshift` of a context. -/
def header_records (s : DiracContext) : decoding_parameters × sequence_parameters × Nat × Nat :=
  (s.decoding, s.sequence, s.chroma_hshift, s.chroma_vshift)

/-- A context for examples: a decoder that holds the parameters of a
sequence of 320x240 pictures at 25 frames per second, with the cursor on
a header of video format 0 whose frame rate index is 9. -/
def sample_bad_header_context : DiracContext :=
  { dirac_context_zero with
    sequence := { luma_width := 320, luma_height := 240, chroma_format := 2, video_depth := 8
                  chroma_width := 160, chroma_height := 120 }
    source := { (source_parameters_defaults.getD 0 source_parameters_zero) with
                frame_rate := ⟨25, 1⟩, clean_width := 320, clean_height := 240 }
    chroma_hshift := 1
    chroma_vshift := 1
    gb := { buffer := bits_of [1, 1, 1, 1, 1, 0, 0, 0, 0, 1, 0, 0, 0, 1, 0, 0, 1], index := 0 } }

/-! ## `dirac.c`: encoder, access unit header -/

/-- Modelled from the spec: `av_cmp_q(a, b)` of the host library, the sign
of `a - b` for two rationals with positive denominators, `0` when they are
equal as rationals. -/
def av_cmp_q (a b : AVRational) : Int :=
  let tmp := a.num * b.den - b.num * a.den
  if tmp < 0 then -1 else if tmp > 0 then 1 else 0

/-- The members of the host type `AVCodecContext` that the encoder of the
access unit header reads. -/
structure AVCodecContext where
  width : Int
  height : Int
  time_base : AVRational
  sample_aspect_ratio : AVRational

/-- The function `dirac_encode_sequence_parameters`: the record stored in
`s->sequence` and the writes, in order. -/
def dirac_encode_sequence_parameters (avctx : AVCodecContext) :
    sequence_parameters × List put_op :=
  let video_format : Nat := 0
  let seqdef := sequence_parameters_defaults.getD video_format sequence_parameters_zero
  let seq : sequence_parameters :=
    { seqdef with
      luma_width := int_to_u32 avctx.width
      luma_height := int_to_u32 avctx.height
      chroma_width := int_to_u32 (Int.tdiv avctx.width 2)
      chroma_height := int_to_u32 (Int.tdiv avctx.height 2)
      video_depth := 8
      chroma_format := 2 }
  (seq,
   [put_op.dirac_set_ue_golomb video_format]
   ++ (if seq.luma_width ≠ seqdef.luma_width ∨ seq.luma_height ≠ seqdef.luma_height then
        [put_op.put_bits 1 1, put_op.dirac_set_ue_golomb (u32_to_int seq.luma_width),
         put_op.dirac_set_ue_golomb (u32_to_int seq.luma_height)]
       else [put_op.put_bits 1 0])
   ++ (if seq.chroma_format ≠ seqdef.chroma_format then
        [put_op.put_bits 1 1, put_op.dirac_set_ue_golomb 2]
       else [put_op.put_bits 1 0])
   ++ (if seq.video_depth ≠ seqdef.video_depth then
        [put_op.put_bits 1 1, put_op.dirac_set_ue_golomb seq.video_depth]
       else [put_op.put_bits 1 0]))

/-- The function `dirac_encode_source_parameters`: the record stored in
`s->source` and the writes, in order. The members of the clean area are
`uint16_t`. -/
def dirac_encode_source_parameters (avctx : AVCodecContext) :
    source_parameters × List put_op :=
  let video_format : Nat := 0
  let sourcedef := source_parameters_defaults.getD video_format source_parameters_zero
  let source : source_parameters :=
    { sourcedef with
      interlaced := 0
      frame_rate := ⟨avctx.time_base.den, avctx.time_base.num⟩
      clean_width := int_to_u32 avctx.width % 65536
      clean_height := int_to_u32 avctx.height % 65536 }
  let source : source_parameters :=
    if avctx.sample_aspect_ratio.num ≠ 0 then
      { source with aspect_ratio := avctx.sample_aspect_ratio }
    else source
  (source,
   (if source.interlaced ≠ sourcedef.interlaced then
      [put_op.put_bits 1 1, put_op.put_bits 1 source.interlaced]
      ++ (if source.top_field_first ≠ sourcedef.top_field_first then
            [put_op.put_bits 1 1, put_op.put_bits 1 source.top_field_first]
          else [put_op.put_bits 1 0])
      ++ (if source.sequential_fields ≠ sourcedef.sequential_fields then
            [put_op.put_bits 1 1, put_op.put_bits 1 source.sequential_fields]
          else [put_op.put_bits 1 0])
    else [put_op.put_bits 1 0])
   ++ (if av_cmp_q source.frame_rate sourcedef.frame_rate ≠ 0 then
        [put_op.put_bits 1 1, put_op.dirac_set_ue_golomb 0,
         put_op.dirac_set_ue_golomb source.frame_rate.num,
         put_op.dirac_set_ue_golomb source.frame_rate.den]
       else [put_op.put_bits 1 0])
   ++ (if av_cmp_q source.aspect_ratio sourcedef.aspect_ratio ≠ 0 then
        [put_op.put_bits 1 1, put_op.dirac_set_ue_golomb 0,
         put_op.dirac_set_ue_golomb source.aspect_ratio.num,
         put_op.dirac_set_ue_golomb source.aspect_ratio.den]
       else [put_op.put_bits 1 0])
   ++ (if source.clean_width ≠ sourcedef.clean_width
          ∨ source.clean_height ≠ sourcedef.clean_height
          ∨ source.clean_left_offset ≠ sourcedef.clean_left_offset
          ∨ source.clean_right_offset ≠ sourcedef.clean_right_offset then
        [put_op.put_bits 1 1, put_op.dirac_set_ue_golomb source.clean_width,
         put_op.dirac_set_ue_golomb source.clean_height,
         put_op.dirac_set_ue_golomb source.clean_left_offset,
         put_op.dirac_set_ue_golomb source.clean_right_offset]
       else [put_op.put_bits 1 1])
   ++ (if source.luma_offset ≠ sourcedef.luma_offset
          ∨ source.luma_excursion ≠ sourcedef.luma_excursion
          ∨ source.chroma_offset ≠ sourcedef.chroma_offset
          ∨ source.chroma_excursion ≠ sourcedef.chroma_excursion then
        [put_op.put_bits 1 1, put_op.dirac_set_ue_golomb 0,
         put_op.dirac_set_ue_golomb source.luma_offset,
         put_op.dirac_set_ue_golomb source.luma_excursion,
         put_op.dirac_set_ue_golomb source.chroma_offset,
         put_op.dirac_set_ue_golomb source.chroma_excursion]
       else [put_op.put_bits 1 0])
   ++ [put_op.put_bits 1 0])

/-- The records of the encoder's context after
`dirac_encode_access_unit_header`. -/
structure encoded_header where
  sequence : sequence_parameters
  source : source_parameters
  decoding : decoding_parameters
  writes : List put_op

/-- The function `dirac_encode_access_unit_header`. -/
def dirac_encode_access_unit_header (avctx : AVCodecContext) : encoded_header :=
  let seq := dirac_encode_sequence_parameters avctx
  let src := dirac_encode_source_parameters avctx
  { sequence := seq.1
    source := src.1
    decoding := decoding_parameters_defaults.getD 0 decoding_parameters_zero
    writes :=
      [put_op.dirac_set_ue_golomb 0, put_op.dirac_set_ue_golomb 1,
       put_op.dirac_set_ue_golomb 0, put_op.dirac_set_ue_golomb 0]
      ++ seq.2 ++ src.2 }

/-- The data bits of the interleaved Exp-Golomb code of `n - 1`, each
after a bit `0`: the bits of `n` below its leading one, most significant
first. -/
def sample_ue_data : Nat → Nat → List Nat
  | 0, _ => []
  | fuel + 1, n => if n ≤ 1 then [] else sample_ue_data fuel (n / 2) ++ [0, n % 2]

/-- A sample bit writer, the counterpart of `sample_ue`: the bits that a
write appends to the `written` ones. -/
def sample_put (written : List Nat) : put_op → List Nat
  | put_op.put_bits n value =>
    written ++ (List.range n).map (fun (k : Nat) => int_to_u32 value / 2 ^ (n - 1 - k) % 2)
  | put_op.dirac_set_ue_golomb value =>
    written ++ sample_ue_data 32 (int_to_u32 value + 1) ++ [1]
  | put_op.align_put_bits =>
    written ++ List.replicate ((8 - written.length % 8) % 8) 0

/-- The payload that a list of writes leaves in the buffer, with zeros
after the last bit written. -/
def sample_payload (writes : List put_op) : Nat → Bool :=
  bits_of (writes.foldl sample_put [])

/-- The call of `parse_access_unit_header` on the payload that
`dirac_encode_access_unit_header` wrote. -/
def parse_encoded_header (avctx : AVCodecContext) : Int × DiracContext :=
  parse_access_unit_header sample_host
    { dirac_context_zero with
      gb := { buffer := sample_payload (dirac_encode_access_unit_header avctx).writes
              index := 0 } }

/-- An encoder configuration for examples: the given picture size, 25
frames per second and no sample aspect ratio. -/
def sample_avctx (width height : Int) : AVCodecContext :=
  { width := width, height := height, time_base := ⟨1, 25⟩, sample_aspect_ratio := ⟨0, 1⟩ }

/-! ## `cavsdata.h` -/

/-- The macro `MV_BWD_OFFS`. -/
def MV_BWD_OFFS : Nat := 12

/-- The macro `MV_STRIDE`. -/
def MV_STRIDE : Nat := 4

/-- The enumerator `MV_FWD_D3` of `enum mv_loc_t`. -/
def MV_FWD_D3 : Nat := 0

/-- The enumerator `MV_FWD_B2`: one more than the enumerator before it. -/
def MV_FWD_B2 : Nat := MV_FWD_D3 + 1

/-- The enumerator `MV_FWD_B3`. -/
def MV_FWD_B3 : Nat := MV_FWD_B2 + 1

/-- The enumerator `MV_FWD_C2`. -/
def MV_FWD_C2 : Nat := MV_FWD_B3 + 1

/-- The enumerator `MV_FWD_A1`. -/
def MV_FWD_A1 : Nat := MV_FWD_C2 + 1

/-- The enumerator `MV_FWD_X0`. -/
def MV_FWD_X0 : Nat := MV_FWD_A1 + 1

/-- The enumerator `MV_FWD_X1`. -/
def MV_FWD_X1 : Nat := MV_FWD_X0 + 1

/-- The enumerator `MV_FWD_A3 = 8`. -/
def MV_FWD_A3 : Nat := 8

/-- The enumerator `MV_FWD_X2`. -/
def MV_FWD_X2 : Nat := MV_FWD_A3 + 1

/-- The enumerator `MV_FWD_X3`. -/
def MV_FWD_X3 : Nat := MV_FWD_X2 + 1

/-- The enumerator `MV_BWD_D3 = MV_BWD_OFFS`. -/
def MV_BWD_D3 : Nat := MV_BWD_OFFS

/-- The enumerator `MV_BWD_B2`. -/
def MV_BWD_B2 : Nat := MV_BWD_D3 + 1

/-- The enumerator `MV_BWD_B3`. -/
def MV_BWD_B3 : Nat := MV_BWD_B2 + 1

/-- The enumerator `MV_BWD_C2`. -/
def MV_BWD_C2 : Nat := MV_BWD_B3 + 1

/-- The enumerator `MV_BWD_A1`. -/
def MV_BWD_A1 : Nat := MV_BWD_C2 + 1

/-- The enumerator `MV_BWD_X0`. -/
def MV_BWD_X0 : Nat := MV_BWD_A1 + 1

/-- The enumerator `MV_BWD_X1`. -/
def MV_BWD_X1 : Nat := MV_BWD_X0 + 1

/-- The enumerator `MV_BWD_A3 = MV_BWD_OFFS+8`. -/
def MV_BWD_A3 : Nat := MV_BWD_OFFS + 8

/-- The enumerator `MV_BWD_X2`. -/
def MV_BWD_X2 : Nat := MV_BWD_A3 + 1

/-- The enumerator `MV_BWD_X3`. -/
def MV_BWD_X3 : Nat := MV_BWD_X2 + 1

/-- The forward enumerators of `enum mv_loc_t` in the order of their
declaration. -/
def mv_loc_fwd : List Nat :=
  [MV_FWD_D3, MV_FWD_B2, MV_FWD_B3, MV_FWD_C2, MV_FWD_A1, MV_FWD_X0, MV_FWD_X1, MV_FWD_A3,
   MV_FWD_X2, MV_FWD_X3]

/-- The backward enumerators of `enum mv_loc_t` in the order of their
declaration. -/
def mv_loc_bwd : List Nat :=
  [MV_BWD_D3, MV_BWD_B2, MV_BWD_B3, MV_BWD_C2, MV_BWD_A1, MV_BWD_X0, MV_BWD_X1, MV_BWD_A3,
   MV_BWD_X2, MV_BWD_X3]

/-- The table `scan3x3`. -/
def scan3x3 : List Nat := [4, 5, 7, 8]

/-- The table `mv_scan`. -/
def mv_scan : List Nat := [MV_FWD_X0, MV_FWD_X1, MV_FWD_X2, MV_FWD_X3]

/-- The table `dequant_shift[64]`. -/
def dequant_shift : List Nat :=
  [14, 14, 14, 14, 14, 14, 14, 14,
   13, 13, 13, 13, 13, 13, 13, 13,
   13, 12, 12, 12, 12, 12, 12, 12,
   11, 11, 11, 11, 11, 11, 11, 11,
   11, 10, 10, 10, 10, 10, 10, 10,
   10, 9, 9, 9, 9, 9, 9, 9,
   9, 8, 8, 8, 8, 8, 8, 8,
   7, 7, 7, 7, 7, 7, 7, 7]

/-- A read `dequant_shift[qp]`; an index outside the table reads as `0`. -/
def dequant_shift_at (qp : Nat) : Nat := dequant_shift.getD qp 0

/-- The row and the column of a slot of the neighbour cache, `MV_STRIDE`
slots to a row. -/
def mv_slot_cell (slot : Nat) : Nat × Nat := (slot / MV_STRIDE, slot % MV_STRIDE)

/-! ## `motion_est_template.c` -/

/-- The arguments that the search functions of the template pass on
unchanged; `mv_penalty` is the table of that name. -/
structure me_args where
  pred_x : Int
  pred_y : Int
  penalty_factor : Int
  xmin : Int
  ymin : Int
  xmax : Int
  ymax : Int
  shift : Nat
  map_generation : Int
  mv_penalty : Int → Int

/-- The variables that the search functions change: the vector `best`,
the score `dmin` and the arrays `map` and `score_map` of `uint32_t`. -/
structure me_search where
  best0 : Int
  best1 : Int
  dmin : Int
  map : Int → Nat
  score_map : Int → Nat

/-- What the template takes from the file that includes it: the constants
`ME_MAP_SIZE`, `ME_MAP_SHIFT` and `ME_MAP_MV_BITS`, the score `cmp x y` that
the macro `CMP(d, x, y, size)` stores in `d`, the function
`update_map_generation`, which returns the generation and may clear the
map, and the three diamond searches of the template whose bodies are not
modelled here. -/
structure me_host where
  ME_MAP_SIZE : Int
  ME_MAP_SHIFT : Nat
  ME_MAP_MV_BITS : Nat
  cmp : Int → Int → Int
  update_map_generation : (Int → Nat) → Int × (Int → Nat)
  funny_diamond_search : me_args → me_search → me_search
  sab_diamond_search : me_args → me_search → me_search
  var_diamond_search : me_args → me_search → me_search

/-- The fields of `MpegEncContext` and of its `AVCodecContext` that
`epzs_motion_search` reads. -/
structure me_context where
  quarter_sample : Int
  penalty_factor : Int
  mb_stride : Int
  mb_x : Int
  mb_y : Int
  mb_width : Int
  mb_height : Int
  pre_pass : Int
  last_predictor_count : Int
  dia_size : Int
  skip : Int
  map : Int → Nat
  score_map : Int → Nat

/-- The value `key` of the macros `CHECK_MV` and `CHECK_MV_DIR`, as the
`uint32_t` that is compared with `map[index]`. -/
def me_key (h : me_host) (a : me_args) (x y : Int) : Nat :=
  int_to_u32 (y * 2 ^ h.ME_MAP_MV_BITS + x + a.map_generation)

/-- The value `index` of the macros `CHECK_MV` and `CHECK_MV_DIR`. -/
def me_index (h : me_host) (x y : Int) : Int :=
  Int.land (y * 2 ^ h.ME_MAP_SHIFT + x) (h.ME_MAP_SIZE - 1)

/-- The score `d` of the macro `CHECK_MV` after the penalty of the vector
is added. -/
def me_score (h : me_host) (a : me_args) (x y : Int) : Int :=
  h.cmp x y + (a.mv_penalty (x * 2 ^ a.shift - a.pred_x)
    + a.mv_penalty (y * 2 ^ a.shift - a.pred_y)) * a.penalty_factor

/-- The macro `CHECK_MV(x, y)`; the macro `COPY3_IF_LT` of the host library
replaces `dmin` and `best` when the score is below `dmin`. -/
def CHECK_MV (h : me_host) (a : me_args) (st : me_search) (x y : Int) : me_search :=
  if st.map (me_index h x y) ≠ me_key h a x y then
    let map := Function.update st.map (me_index h x y) (me_key h a x y)
    let score_map := Function.update st.score_map (me_index h x y) (int_to_u32 (h.cmp x y))
    if me_score h a x y < st.dmin then
      { best0 := x, best1 := y, dmin := me_score h a x y, map := map, score_map := score_map }
    else { st with map := map, score_map := score_map }
  else st

/-- The macro `CHECK_CLIPED_MV(ax, ay)`. -/
def CHECK_CLIPED_MV (h : me_host) (a : me_args) (st : me_search) (ax ay : Int) : me_search :=
  CHECK_MV h a st (FFMAX a.xmin (FFMIN ax a.xmax)) (FFMAX a.ymin (FFMIN ay a.ymax))

/-- The macro `CHECK_MV_DIR(x, y, new_dir)` on the search variables and
the variable `next_dir`. -/
def CHECK_MV_DIR (h : me_host) (a : me_args) (p : me_search × Int) (x y new_dir : Int) :
    me_search × Int :=
  if p.1.map (me_index h x y) ≠ me_key h a x y then
    let map := Function.update p.1.map (me_index h x y) (me_key h a x y)
    let score_map := Function.update p.1.score_map (me_index h x y) (int_to_u32 (h.cmp x y))
    if me_score h a x y < p.1.dmin then
      ({ best0 := x, best1 := y, dmin := me_score h a x y, map := map, score_map := score_map },
        new_dir)
    else ({ p.1 with map := map, score_map := score_map }, p.2)
  else p

/-- The loop `for(;;)` of `small_diamond_search` with at most `fuel`
passes, from the value `next_dir`; `none` when the loop is still running
after them. -/
def small_diamond_loop (h : me_host) (a : me_args) : Nat → Int → me_search → Option me_search
  | 0, _, _ => none
  | fuel + 1, next_dir, st =>
    let dir := next_dir
    let x := st.best0
    let y := st.best1
    let p : me_search × Int := (st, -1)
    let p := if dir ≠ 2 ∧ x > a.xmin then CHECK_MV_DIR h a p (x - 1) y 0 else p
    let p := if dir ≠ 3 ∧ y > a.ymin then CHECK_MV_DIR h a p x (y - 1) 1 else p
    let p := if dir ≠ 0 ∧ x < a.xmax then CHECK_MV_DIR h a p (x + 1) y 2 else p
    let p := if dir ≠ 1 ∧ y < a.ymax then CHECK_MV_DIR h a p x (y + 1) 3 else p
    if p.2 = -1 then some p.1
    else small_diamond_loop h a fuel p.2 p.1

/-- The function `small_diamond_search`. -/
def small_diamond_search (h : me_host) (a : me_args) (fuel : Nat) (st : me_search) :
    Option me_search :=
  let st1 : me_search :=
    if st.map (me_index h st.best0 st.best1) ≠ me_key h a st.best0 st.best1 then
      { st with
        score_map := Function.update st.score_map (me_index h st.best0 st.best1)
          (int_to_u32 (h.cmp st.best0 st.best1))
        map := Function.update st.map (me_index h st.best0 st.best1)
          (me_key h a st.best0 st.best1) }
    else st
  small_diamond_loop h a fuel (-1) st1

/-- The vector `(last_mv[xy][0]*ref_mv_scale + (1<<15))>>16` and its
second component. -/
def scaled_last_mv (last_mv : Int → Nat → Int) (ref_mv_scale xy : Int) (d : Nat) : Int :=
  (last_mv xy d * ref_mv_scale + 2 ^ 15) >>> 16

/-- The result of `epzs_motion_search`: the value returned, the values
stored through `mx_ptr` and `my_ptr`, the flag `s->me.skip` and the arrays
`map` and `score_map` after the call. -/
structure epzs_result where
  ret : Int
  mx : Int
  my : Int
  skip : Int
  map : Int → Nat
  score_map : Int → Nat

/-- The loops over `mb_y` and `mb_x` of `epzs_motion_search` under
`if(s->avctx->last_predictor_count)`. -/
def epzs_last_predictors (h : me_host) (a : me_args) (s : me_context)
    (last_mv : Int → Nat → Int) (ref_mv_scale : Int) (st : me_search) : me_search :=
  let count := s.last_predictor_count
  let xstart := FFMAX 0 (s.mb_x - count)
  let ystart := FFMAX 0 (s.mb_y - count)
  let xend := FFMIN s.mb_width (s.mb_x + count + 1)
  let yend := FFMIN s.mb_height (s.mb_y + count + 1)
  (loop_range ystart yend).foldl (fun (s1 : me_search) (mb_y : Int) =>
    (loop_range xstart xend).foldl (fun (s2 : me_search) (mb_x : Int) =>
      let xy := mb_x + 1 + (mb_y + 1) * s.mb_stride
      let mx := scaled_last_mv last_mv ref_mv_scale xy 0
      let my := scaled_last_mv last_mv ref_mv_scale xy 1
      if mx > a.xmax ∨ mx < a.xmin ∨ my > a.ymax ∨ my < a.ymin then s2
      else CHECK_MV h a s2 mx my) s1) st

/-- The part of `epzs_motion_search` after the first candidates, from
`if(dmin>256*4)` to the end. -/
def epzs_search_tail (h : me_host) (a : me_args) (fuel : Nat) (s : me_context)
    (last_mv : Int → Nat → Int) (ref_mv_scale : Int) (st1 : me_search) : Option epzs_result :=
  let ref_mv_stride := s.mb_stride
  let ref_mv_xy := s.mb_x + s.mb_y * ref_mv_stride
  let last (xy : Int) (st : me_search) : me_search :=
    CHECK_CLIPED_MV h a st (scaled_last_mv last_mv ref_mv_scale xy 0)
      (scaled_last_mv last_mv ref_mv_scale xy 1)
  let st2 : me_search :=
    if st1.dmin > 256 * 4 then
      if s.pre_pass ≠ 0 then last (ref_mv_xy - ref_mv_stride) (last (ref_mv_xy - 1) st1)
      else last (ref_mv_xy + ref_mv_stride) (last (ref_mv_xy + 1) st1)
    else st1
  let st3 : me_search :=
    if s.last_predictor_count ≠ 0 then epzs_last_predictors h a s last_mv ref_mv_scale st2
    else st2
  let st4 : Option me_search :=
    if s.dia_size = -1 then some (h.funny_diamond_search a st3)
    else if s.dia_size < -1 then some (h.sab_diamond_search a st3)
    else if s.dia_size < 2 then small_diamond_search h a fuel st3
    else some (h.var_diamond_search a st3)
  st4.map (fun (st : me_search) =>
    { ret := st.dmin, mx := st.best0, my := st.best1, skip := s.skip, map := st.map,
      score_map := st.score_map })

/-- The function `epzs_motion_search`; `P_LEFT`, `P_TOP`, `P_TOPRIGHT` and
`P_MEDIAN` are the rows of the array `P` that the macros of these names
select, and `fuel` bounds the loop of `small_diamond_search`. -/
def epzs_motion_search (h : me_host) (fuel : Nat) (s : me_context)
    (P_LEFT P_TOP P_TOPRIGHT P_MEDIAN : Nat → Int) (pred_x pred_y : Int)
    (xmin ymin xmax ymax : Int) (last_mv : Int → Nat → Int) (ref_mv_scale : Int)
    (mv_penalty : Int → Int) : Option epzs_result :=
  let shift : Nat := (1 + s.quarter_sample).toNat
  let ref_mv_stride := s.mb_stride
  let ref_mv_xy := s.mb_x + s.mb_y * ref_mv_stride
  let g := h.update_map_generation s.map
  let a : me_args :=
    { pred_x := pred_x, pred_y := pred_y, penalty_factor := s.penalty_factor, xmin := xmin,
      ymin := ymin, xmax := xmax, ymax := ymax, shift := shift, map_generation := g.1,
      mv_penalty := mv_penalty }
  let dmin := h.cmp 0 0
  let st : me_search :=
    { best0 := 0, best1 := 0, dmin := dmin,
      map := Function.update g.2 0 (int_to_u32 g.1),
      score_map := Function.update s.score_map 0 (int_to_u32 dmin) }
  let last (xy : Int) (st : me_search) : me_search :=
    CHECK_CLIPED_MV h a st (scaled_last_mv last_mv ref_mv_scale xy 0)
      (scaled_last_mv last_mv ref_mv_scale xy 1)
  if s.mb_y = 0 then
    epzs_search_tail h a fuel s last_mv ref_mv_scale
      (last ref_mv_xy (CHECK_MV h a st (P_LEFT 0 >>> shift) (P_LEFT 1 >>> shift)))
  else
    if dmin < 256
        ∧ Int.lor (Int.lor (Int.lor (Int.lor (Int.lor (P_LEFT 0) (P_LEFT 1)) (P_TOP 0))
            (P_TOP 1)) (P_TOPRIGHT 0)) (P_TOPRIGHT 1) = 0 then
      some { ret := dmin, mx := 0, my := 0, skip := 1, map := st.map, score_map := st.score_map }
    else
      let st := CHECK_MV h a st (P_MEDIAN 0 >>> shift) (P_MEDIAN 1 >>> shift)
      let st : me_search :=
        if st.dmin > 256 * 2 then
          let st := last ref_mv_xy st
          let st := CHECK_MV h a st (P_LEFT 0 >>> shift) (P_LEFT 1 >>> shift)
          let st := CHECK_MV h a st (P_TOP 0 >>> shift) (P_TOP 1 >>> shift)
          CHECK_MV h a st (P_TOPRIGHT 0 >>> shift) (P_TOPRIGHT 1 >>> shift)
        else st
      epzs_search_tail h a fuel s last_mv ref_mv_scale st

/-- A host for examples: every vector has the score 100, no penalty, a map
of 64 entries and the generation 4096. -/
def sample_me_host : me_host :=
  { ME_MAP_SIZE := 64, ME_MAP_SHIFT := 3, ME_MAP_MV_BITS := 11,
    cmp := fun _ _ => 100,
    update_map_generation := fun m => (4096, m),
    funny_diamond_search := fun _ st => st,
    sab_diamond_search := fun _ st => st,
    var_diamond_search := fun _ st => st }

/-- A context for examples: the macroblock `(2, mb_y)` of a picture of 8
by 8 macroblocks, the small diamond and cleared arrays. -/
def sample_me_context (mb_y : Int) : me_context :=
  { quarter_sample := 0, penalty_factor := 1, mb_stride := 9, mb_x := 2, mb_y := mb_y,
    mb_width := 8, mb_height := 8, pre_pass := 0, last_predictor_count := 0, dia_size := 1,
    skip := 0, map := fun _ => 0, score_map := fun _ => 0 }

/-- The call of `epzs_motion_search` for examples: zero predictors, the
range `-16 .. 15` in both directions and zero vectors in `last_mv`. -/
def sample_epzs (mb_y : Int) : Option epzs_result :=
  epzs_motion_search sample_me_host 8 (sample_me_context mb_y) (fun _ => 0) (fun _ => 0)
    (fun _ => 0) (fun _ => 0) 0 0 (-16) (-16) 15 15 (fun _ _ => 0) 0 (fun _ => 0)

/-! ## `motion_est_template.c`: quarter-pel parabolic fit -/

/-- The coefficients `cx`, `cx2`, `cy`, `cy2` and `cxy` that
`qpel_motion_search` fits to the costs `t`, `l`, `r`, `b` of the four
neighbours, `c` of the centre and `tl` of the top-left neighbour. -/
structure qpel_fit where
  cx : Int
  cx2 : Int
  cy : Int
  cy2 : Int
  cxy : Int
deriving DecidableEq

/-- The assignments of `qpel_motion_search` before its assertions; the
division of `int` values truncates. -/
def qpel_fit_coeffs (t l r b c tl : Int) : qpel_fit :=
  let cx := 4 * (r - l)
  let cx2 := r + l - 2 * c
  let cy := 4 * (b - t)
  let cy2 := b + t - 2 * c
  let cxy := 2 * tl + Int.tdiv (cx + cy) 4 - (cx2 + cy2) - 2 * c
  { cx := cx, cx2 := cx2, cy := cy, cy2 := cy2, cxy := cxy }

/-- The five conditions that `qpel_motion_search` asserts, in the order
of the source. -/
def qpel_fit_asserts (f : qpel_fit) (t l r b c tl : Int) : List Bool :=
  [decide (16 * f.cx2 + 4 * f.cx + 32 * c = 32 * r),
   decide (16 * f.cx2 - 4 * f.cx + 32 * c = 32 * l),
   decide (16 * f.cy2 + 4 * f.cy + 32 * c = 32 * b),
   decide (16 * f.cy2 - 4 * f.cy + 32 * c = 32 * t),
   decide (16 * f.cxy + 16 * f.cy2 + 16 * f.cx2 - 4 * f.cy - 4 * f.cx + 32 * c = 32 * tl)]

/-! ## `motion_est_template.c`: half-pel refinement -/

/-- The arguments of `hpel_motion_search` and the fields of the context
that it reads: the vector `(*mx_ptr, *my_ptr)` on entry, `dmin`, the
window, the predictor, `s->me.skip`, the two comparison selectors of the
`AVCodecContext`, `size`, the two penalty factors, the table
`mv_penalty` and the array `s->me.score_map`. -/
structure hpel_args where
  mx : Int
  my : Int
  dmin : Int
  xmin : Int
  ymin : Int
  xmax : Int
  ymax : Int
  pred_x : Int
  pred_y : Int
  size : Int
  skip : Int
  me_cmp : Int
  me_sub_cmp : Int
  sub_penalty_factor : Int
  penalty_factor : Int
  mv_penalty : Int → Int
  score_map : Int → Nat

/-- The values that `hpel_motion_search` leaves: the vector in
`(*mx_ptr, *my_ptr)`, the returned score, and whether the condition of
the `assert` before the return held when it was reached. -/
structure hpel_result where
  mx : Int
  my : Int
  dmin : Int
  window_assert : Bool
deriving DecidableEq

/-- The macro `CHECK_HALF_MV(dx, dy, x, y)` on the variables
`(dmin, bx, by)`; `cmp_hpel dx dy x y` is the score that the macro
`CMP_HPEL(d, dx, dy, x, y, size)` of the including file stores in `d`. -/
def CHECK_HALF_MV (cmp_hpel : Int → Int → Int → Int → Int) (a : hpel_args)
    (st : Int × Int × Int) (dx dy x y : Int) : Int × Int × Int :=
  let hx := 2 * x + dx
  let hy := 2 * y + dy
  let d := cmp_hpel dx dy x y
  let d := d + (a.mv_penalty (hx - a.pred_x) + a.mv_penalty (hy - a.pred_y))
    * a.sub_penalty_factor
  if d < st.1 then (d, hx, hy) else st

/-- The value of `dmin` in `hpel_motion_search` before the test of the
window: the score of the full-pel vector, computed again with the
sub-pel comparison when the two comparison functions differ. -/
def hpel_start_dmin (cmp_hpel : Int → Int → Int → Int → Int) (a : hpel_args) : Int :=
  if a.me_cmp ≠ a.me_sub_cmp then
    let dmin := cmp_hpel 0 0 a.mx a.my
    if a.mx ≠ 0 ∨ a.my ≠ 0 ∨ a.size > 0 then
      dmin + (a.mv_penalty (2 * a.mx - a.pred_x) + a.mv_penalty (2 * a.my - a.pred_y))
        * a.sub_penalty_factor
    else dmin
  else a.dmin

/-- The score of a neighbour in `hpel_motion_search`: the element of
`score_map` (a `uint32_t`) at `index + offset` plus the penalty of the
vector `(hx, hy)`, stored in an `int`. -/
def hpel_neighbour (h : me_host) (a : hpel_args) (offset hx hy : Int) : Int :=
  wrap_int ((a.score_map (Int.land (a.my * 2 ^ h.ME_MAP_SHIFT + a.mx + offset)
      (h.ME_MAP_SIZE - 1)) : Int)
    + (a.mv_penalty (hx - a.pred_x) + a.mv_penalty (hy - a.pred_y)) * a.penalty_factor)

/-- The function `hpel_motion_search` (the variant that is compiled). -/
def hpel_motion_search (h : me_host) (cmp_hpel : Int → Int → Int → Int → Int)
    (a : hpel_args) : hpel_result :=
  let mx := a.mx
  let my := a.my
  let bx := 2 * mx
  let cy := 2 * my
  if a.skip ≠ 0 then { mx := 0, my := 0, dmin := a.dmin, window_assert := true }
  else
    let dmin := hpel_start_dmin cmp_hpel a
    if mx > a.xmin ∧ mx < a.xmax ∧ my > a.ymin ∧ my < a.ymax then
      let t := hpel_neighbour h a (-(2 ^ h.ME_MAP_SHIFT)) bx (cy - 2)
      let l := hpel_neighbour h a (-1) (bx - 2) cy
      let r := hpel_neighbour h a 1 (bx + 2) cy
      let b := hpel_neighbour h a (2 ^ h.ME_MAP_SHIFT) bx (cy + 2)
      let st : Int × Int × Int := (dmin, bx, cy)
      let chk := CHECK_HALF_MV cmp_hpel a
      let st : Int × Int × Int :=
        if t ≤ b then
          let st := chk st 0 1 mx (my - 1)
          if l ≤ r then
            let st := chk st 1 1 (mx - 1) (my - 1)
            let st :=
              if wrap_int (t + r) ≤ wrap_int (b + l) then chk st 1 1 mx (my - 1)
              else chk st 1 1 (mx - 1) my
            chk st 1 0 (mx - 1) my
          else
            let st := chk st 1 1 mx (my - 1)
            let st :=
              if wrap_int (t + l) ≤ wrap_int (b + r) then chk st 1 1 (mx - 1) (my - 1)
              else chk st 1 1 mx my
            chk st 1 0 mx my
        else
          let st :=
            if l ≤ r then
              let st :=
                if wrap_int (t + l) ≤ wrap_int (b + r) then chk st 1 1 (mx - 1) (my - 1)
                else chk st 1 1 mx my
              let st := chk st 1 0 (mx - 1) my
              chk st 1 1 (mx - 1) my
            else
              let st :=
                if wrap_int (t + r) ≤ wrap_int (b + l) then chk st 1 1 mx (my - 1)
                else chk st 1 1 (mx - 1) my
              let st := chk st 1 0 mx my
              chk st 1 1 mx my
          chk st 0 1 mx my
      { mx := st.2.1, my := st.2.2, dmin := st.1
        window_assert := decide (st.2.1 ≥ a.xmin * 2 ∧ st.2.1 ≤ a.xmax * 2
          ∧ st.2.2 ≥ a.ymin * 2 ∧ st.2.2 ≤ a.ymax * 2) }
    else { mx := bx, my := cy, dmin := dmin, window_assert := true }

/-- Arguments for examples: the full-pel vector `(1, 0)` with the score
10 in the window `[-4, 4] x [-4, 4]`, no penalties and an empty score
map. -/
def sample_hpel_args : hpel_args :=
  { mx := 1, my := 0, dmin := 10, xmin := -4, ymin := -4, xmax := 4, ymax := 4
    pred_x := 0, pred_y := 0, size := 0, skip := 0, me_cmp := 0, me_sub_cmp := 0
    sub_penalty_factor := 1, penalty_factor := 1
    mv_penalty := fun _ => 0, score_map := fun _ => 0 }

/-- A sub-pel score for examples: the distance of the half-pel vector
from `(3, -1)`. -/
def sample_cmp_hpel (dx dy x y : Int) : Int :=
  (2 * x + dx - 3).natAbs + (2 * y + dy + 1).natAbs

/-- The condition that the proofs carry through the calls of
`CHECK_HALF_MV`: the score is at most `d0` and the vector is within one
half-pel step of `(2 * mx, 2 * my)`. -/
def hpel_near (d0 mx my : Int) (st : Int × Int × Int) : Prop :=
  st.1 ≤ d0 ∧ 2 * mx - 1 ≤ st.2.1 ∧ st.2.1 ≤ 2 * mx + 1
    ∧ 2 * my - 1 ≤ st.2.2 ∧ st.2.2 ≤ 2 * my + 1

/-! ## `motion_est_template.c`: small diamond search -/

/-- One pass through the body of the loop of `small_diamond_search`,
from the value `dir` of `next_dir`: the search variables and `next_dir`
after the four tests (see `small_diamond_loop_succ`). -/
def small_diamond_pass (h : me_host) (a : me_args) (dir : Int) (st : me_search) :
    me_search × Int :=
  let x := st.best0
  let y := st.best1
  let p : me_search × Int := (st, -1)
  let p := if dir ≠ 2 ∧ x > a.xmin then CHECK_MV_DIR h a p (x - 1) y 0 else p
  let p := if dir ≠ 3 ∧ y > a.ymin then CHECK_MV_DIR h a p x (y - 1) 1 else p
  let p := if dir ≠ 0 ∧ x < a.xmax then CHECK_MV_DIR h a p (x + 1) y 2 else p
  if dir ≠ 1 ∧ y < a.ymax then CHECK_MV_DIR h a p x (y + 1) 3 else p

/-- The vectors of the window `[xmin, xmax] x [ymin, ymax]`. -/
def me_window (a : me_args) : List (Int × Int) :=
  (loop_range a.xmin (a.xmax + 1)).flatMap (fun (x : Int) =>
    (loop_range a.ymin (a.ymax + 1)).map (fun (y : Int) => (x, y)))

/-- The number of vectors of the window whose score is below `d`. -/
def me_below (h : me_host) (a : me_args) (d : Int) : Nat :=
  (me_window a).countP (fun (p : Int × Int) => decide (me_score h a p.1 p.2 < d))

/-- The vector `best` of the search variables lies in the window. -/
def me_in_window (a : me_args) (st : me_search) : Prop :=
  a.xmin ≤ st.best0 ∧ st.best0 ≤ a.xmax ∧ a.ymin ≤ st.best1 ∧ st.best1 ≤ a.ymax

/-- The condition that the proofs carry through the calls of
`CHECK_MV_DIR` of one pass that started with the score `d0`. -/
def me_pass_inv (h : me_host) (a : me_args) (d0 : Int) (p : me_search × Int) : Prop :=
  p.1.dmin ≤ d0 ∧ me_in_window a p.1
    ∧ (p.2 ≠ -1 → p.1.dmin < d0 ∧ p.1.dmin = me_score h a p.1.best0 p.1.best1)

/-- A host for examples: as `sample_me_host`, with the distance of the
vector from `(2, -1)` as the score. -/
def sample_diamond_host : me_host :=
  { sample_me_host with cmp := fun x y => (x - 2).natAbs + (y + 1).natAbs }

/-- Arguments for examples: the window `[-3, 3] x [-3, 3]`, no penalty. -/
def sample_diamond_args : me_args :=
  { pred_x := 0, pred_y := 0, penalty_factor := 1, xmin := -3, ymin := -3, xmax := 3, ymax := 3
    shift := 0, map_generation := 4096, mv_penalty := fun _ => 0 }

/-- Search variables for examples: the vector `(0, 0)` with the score 3
and cleared arrays. -/
def sample_diamond_start : me_search :=
  { best0 := 0, best1 := 0, dmin := 3, map := fun _ => 0, score_map := fun _ => 0 }

/-! ## Theorems: arithmetic decoder -/

set_option maxRecDepth 100000 in
theorem arith_lookup_all_le :
    (List.range 256).all (fun j => decide (arith_lookup_at j ≤ 256 * j)) = true := by
  decide

theorem arith_lookup_at_le (j : Nat) (h : j < 256) : arith_lookup_at j ≤ 256 * j := by
  have h1 := arith_lookup_all_le
  rw [List.all_eq_true] at h1
  have h2 := h1 j (List.mem_range.mpr h)
  simpa using h2

/-- Facts about one adaptation step of a probability below `0x10000`. -/
theorem arith_adapt_facts (p : Nat) (hp : p < 65536) :
    p / 256 < 256 ∧ usub 255 (p / 256) = 255 - p / 256 ∧ 255 - p / 256 < 256 ∧
    arith_lookup_at (p / 256) ≤ p ∧ p + arith_lookup_at (255 - p / 256) < 65536 := by
  have h1 : p / 256 < 256 := by omega
  have h2 := arith_lookup_at_le (p / 256) h1
  have h3 := arith_lookup_at_le (255 - p / 256) (by omega)
  refine ⟨h1, ?_, by omega, by omega, by omega⟩
  unfold usub
  omega

theorem arith_adapt_lt (ret p : Nat) (hp : p < 65536) : arith_adapt ret p < 65536 := by
  obtain ⟨_, h2, _, h4, h5⟩ := arith_adapt_facts p hp
  unfold arith_adapt
  split
  · unfold usub
    omega
  · rw [h2]
    unfold u32
    omega

theorem arith_renorm_step_range (a : dirac_arith_state) :
    (arith_renorm_step a).range = u32 (a.range * 2) := by
  unfold arith_renorm_step
  simp only []
  split <;> rfl

theorem arith_renorm_step_contexts (a : dirac_arith_state) :
    (arith_renorm_step a).contexts = a.contexts := by
  unfold arith_renorm_step
  simp only []
  split <;> rfl

/-- A loop that has left within `n` passes has left within `n + k` passes,
in the same state. -/
theorem arith_renorm_mono (k : Nat) :
    ∀ (n : Nat) (a a1 : dirac_arith_state),
      arith_renorm n a = some a1 → arith_renorm (n + k) a = some a1 := by
  intro n
  induction n with
  | zero =>
    intro a a1 h
    simp only [arith_renorm] at h
    split at h
    · exact absurd h (by simp)
    · rename_i hr
      cases k with
      | zero => simp [arith_renorm, hr, h]
      | succ k => simpa [arith_renorm, hr] using h
  | succ n ih =>
    intro a a1 h
    have e : n + 1 + k = (n + k) + 1 := by omega
    rw [e]
    simp only [arith_renorm] at h ⊢
    split
    · rename_i hr
      rw [if_pos hr] at h
      exact ih _ _ h
    · rename_i hr
      rw [if_neg hr] at h
      exact h

/-- With a range of `0` the loop is still running after any number of passes. -/
theorem arith_renorm_zero (n : Nat) :
    ∀ a : dirac_arith_state, a.range = 0 → arith_renorm n a = none := by
  induction n with
  | zero => intro a h; simp [arith_renorm, h]
  | succ n ih =>
    intro a h
    simp only [arith_renorm, h, Nat.zero_le, if_true]
    apply ih
    rw [arith_renorm_step_range, h]
    rfl

/-- A non-zero range that reaches above `0x4000` within `n` doublings leaves
the loop within `n` passes, the contexts untouched. -/
theorem arith_renorm_some (n : Nat) :
    ∀ a : dirac_arith_state, 0 < a.range → 16384 < a.range * 2 ^ n →
      ∃ a1, arith_renorm n a = some a1 ∧ 16384 < a1.range ∧
        (a1.range ≤ 32768 ∨ a1 = a) ∧ a1.contexts = a.contexts := by
  induction n with
  | zero =>
    intro a _ h
    refine ⟨a, ?_, by omega, Or.inr rfl, rfl⟩
    have : ¬ a.range ≤ 16384 := by omega
    simp [arith_renorm, this]
  | succ n ih =>
    intro a h0 h
    by_cases hr : a.range ≤ 16384
    · have hs : (arith_renorm_step a).range = a.range * 2 := by
        rw [arith_renorm_step_range]
        unfold u32
        omega
      have h2 : 16384 < (arith_renorm_step a).range * 2 ^ n := by
        rw [hs]
        have : a.range * 2 * 2 ^ n = a.range * 2 ^ (n + 1) := by ring
        omega
      obtain ⟨a1, e1, e2, e3, e4⟩ := ih (arith_renorm_step a) (by omega) h2
      refine ⟨a1, ?_, e2, ?_, ?_⟩
      · simp [arith_renorm, hr, e1]
      · rcases e3 with e3 | e3
        · exact Or.inl e3
        · left
          rw [e3, hs]
          omega
      · rw [e4, arith_renorm_step_contexts]
    · refine ⟨a, ?_, by omega, Or.inr rfl, rfl⟩
      simp [arith_renorm, hr]

/-- The 16 passes allowed in `dirac_arith_get_bit` fail exactly on a range
of `0`, on which the loop of the source never ends. -/
theorem arith_renorm_eq_none_iff (a : dirac_arith_state) :
    arith_renorm 16 a = none ↔ a.range = 0 := by
  constructor
  · intro h
    by_contra h0
    obtain ⟨a1, e1, _⟩ := arith_renorm_some 16 a (by omega) (by omega)
    rw [e1] at h
    exact absurd h (by simp)
  · exact arith_renorm_zero 16 a

/-- More than 16 passes give the result of 16 passes. -/
theorem arith_renorm_fuel (n : Nat) (a : dirac_arith_state) :
    arith_renorm (16 + n) a = arith_renorm 16 a := by
  cases h : arith_renorm 16 a with
  | none => exact arith_renorm_zero _ a ((arith_renorm_eq_none_iff a).mp h)
  | some a1 => exact arith_renorm_mono n 16 a a1 h

theorem range_times_prob_lt (r p : Nat) (hr0 : 0 < r) (hr : r ≤ 65536) (hp : p < 65536) :
    u32 (r * p) / 65536 < r := by
  have h1 : r * p < 65536 * r := by
    have : r * p < r * 65536 := Nat.mul_lt_mul_of_pos_left hp hr0
    simpa [Nat.mul_comm] using this
  have h2 : r * p < 4294967296 := by
    have : 65536 * r ≤ 65536 * 65536 := Nat.mul_le_mul_left _ hr
    omega
  have h3 : u32 (r * p) = r * p := by
    unfold u32
    exact Nat.mod_eq_of_lt h2
  rw [h3]
  exact Nat.div_lt_of_lt_mul h1

theorem arith_split_fst_lt (a : dirac_arith_state) (c : Nat) : (arith_split a c).1 < 2 := by
  unfold arith_split
  simp only []
  split <;> simp

theorem arith_split_contexts (a : dirac_arith_state) (c : Nat) :
    (arith_split a c).2.contexts = a.contexts := by
  unfold arith_split
  simp only []
  split <;> rfl

theorem arith_split_range (a : dirac_arith_state) (c : Nat) (hr0 : 0 < a.range)
    (hr : a.range ≤ 65536) (hp : a.contexts c < 65536) :
    0 < (arith_split a c).2.range ∧ (arith_split a c).2.range ≤ a.range := by
  have h := range_times_prob_lt a.range (a.contexts c) hr0 hr hp
  unfold arith_split
  simp only []
  split
  · simp only [usub]
    omega
  · rename_i hc
    simp only []
    omega

/-- From a state that satisfies the invariant `dirac_arith_get_bit` returns,
with a bit `0` or `1`, in a state that satisfies the invariant. -/
theorem dirac_arith_get_bit_ok (a : dirac_arith_state) (c : Nat) (h : arith_ok a) :
    ∃ b a1, dirac_arith_get_bit a c = some (b, a1) ∧ b < 2 ∧ arith_ok a1 := by
  obtain ⟨h1, h2, h3⟩ := h
  have hs := arith_split_range a c (by omega) h2 (h3 c)
  have hc := arith_split_contexts a c
  let u := arith_update_context (arith_split a c).1 (arith_split a c).2 c
  have hur : u.range = (arith_split a c).2.range := rfl
  have huc : ∀ k, u.contexts k < 65536 := by
    intro k
    show Function.update (arith_split a c).2.contexts c _ k < 65536
    rw [hc]
    by_cases hk : k = c
    · subst hk
      rw [Function.update_same]
      exact arith_adapt_lt _ _ (h3 k)
    · rw [Function.update_noteq hk]
      exact h3 k
  obtain ⟨a1, e1, e2, e3, e4⟩ := arith_renorm_some 16 u (by omega) (by omega)
  refine ⟨(arith_split a c).1, a1, ?_, arith_split_fst_lt a c, ?_, ?_, ?_⟩
  · show Option.map _ (arith_renorm 16 u) = _
    rw [e1]
    rfl
  · exact e2
  · rcases e3 with e3 | e3
    · omega
    · rw [e3, hur]
      omega
  · intro k
    rw [e4]
    exact huc k

theorem dirac_arith_init_ok (gb : GetBitContext) (length : Int) :
    arith_ok (dirac_arith_init gb length) := by
  refine ⟨?_, ?_, ?_⟩ <;> simp [dirac_arith_init]

/-- From a state that satisfies the invariant every run of
`dirac_arith_get_bit` calls returns, in a state that satisfies it. -/
theorem arith_get_bits_ok (cs : List Nat) :
    ∀ a : dirac_arith_state, arith_ok a →
      ∃ bs a1, arith_get_bits a cs = some (bs, a1) ∧ bs.length = cs.length ∧ arith_ok a1 := by
  induction cs with
  | nil => intro a h; exact ⟨[], a, rfl, rfl, h⟩
  | cons c cs ih =>
    intro a h
    obtain ⟨b, a1, e1, _, h1⟩ := dirac_arith_get_bit_ok a c h
    obtain ⟨bs, a2, e2, e3, h2⟩ := ih a1 h1
    refine ⟨b :: bs, a2, ?_, by simp [e3], h2⟩
    simp [arith_get_bits, e1, e2]

/-- C3: after `dirac_arith_init` and any run of `dirac_arith_get_bit` calls,
on any contexts and any input bits, the run has returned and every context
probability `p` is below `0x10000`; so `p >> 8` and `255 - (p >> 8)` index
inside the table, `p - arith_lookup[p >> 8]` does not underflow and
`p + arith_lookup[255 - (p >> 8)]` stays below `0x10000`. -/
theorem context_probability_bounds (gb : GetBitContext) (length : Int) (cs : List Nat) :
    ∃ bs a1, arith_get_bits (dirac_arith_init gb length) cs = some (bs, a1) ∧
      ∀ c, a1.contexts c < 0x10000 ∧
        a1.contexts c / 256 < 256 ∧ usub 255 (a1.contexts c / 256) < 256 ∧
        arith_lookup_at (a1.contexts c / 256) ≤ a1.contexts c ∧
        a1.contexts c + arith_lookup_at (usub 255 (a1.contexts c / 256)) < 0x10000 := by
  obtain ⟨bs, a1, e1, _, h1⟩ := arith_get_bits_ok cs (dirac_arith_init gb length)
    (dirac_arith_init_ok gb length)
  refine ⟨bs, a1, e1, ?_⟩
  intro c
  have hp := h1.2.2 c
  obtain ⟨f1, f2, f3, f4, f5⟩ := arith_adapt_facts (a1.contexts c) hp
  refine ⟨hp, f1, ?_, f4, ?_⟩
  · rw [f2]; exact f3
  · rw [f2]; exact f5

theorem get_bits_index (gb : GetBitContext) (n : Nat) :
    (get_bits gb n).2 = { gb with index := gb.index + n } := by
  induction n with
  | zero => rfl
  | succ n ih =>
    simp only [get_bits, get_bits1, ih]
    rfl

theorem get_bits_congr (b1 b2 : Nat → Bool) (idx : Nat) (n : Nat)
    (h : ∀ i, i < n → b1 (idx + i) = b2 (idx + i)) :
    (get_bits { buffer := b1, index := idx } n).1 = (get_bits { buffer := b2, index := idx } n).1 := by
  induction n with
  | zero => rfl
  | succ n ih =>
    have ih1 := ih (fun i hi => h i (by omega))
    simp only [get_bits, get_bits1, get_bits_index, ih1, h n (by omega)]

theorem arith_split_rebuffer (a : dirac_arith_state) (buf : Nat → Bool) (c : Nat) :
    arith_split (arith_rebuffer a buf) c
      = ((arith_split a c).1, arith_rebuffer (arith_split a c).2 buf) := by
  unfold arith_split arith_rebuffer
  simp only []
  split <;> rfl

theorem arith_renorm_step_rebuffer (a : dirac_arith_state) (buf : Nat → Bool)
    (h : arith_window a buf) :
    arith_renorm_step (arith_rebuffer a buf) = arith_rebuffer (arith_renorm_step a) buf ∧
    arith_window (arith_renorm_step a) buf := by
  unfold arith_renorm_step arith_rebuffer
  simp only []
  by_cases hb : a.bits_left > 0
  · have e : a.gb.buffer a.gb.index = buf a.gb.index := h _ (le_refl _) (by omega)
    simp only [if_pos hb, get_bits, get_bits1, e]
    refine ⟨trivial, ?_⟩
    intro i h1 h2
    simp only [] at h1 h2
    exact h i (by omega) (by omega)
  · simp only [if_neg hb]
    refine ⟨trivial, ?_⟩
    intro i h1 h2
    exact h i h1 h2

theorem arith_renorm_rebuffer (buf : Nat → Bool) (n : Nat) :
    ∀ a : dirac_arith_state, arith_window a buf →
      arith_renorm n (arith_rebuffer a buf) = (arith_renorm n a).map (fun x => arith_rebuffer x buf) ∧
      ∀ a1, arith_renorm n a = some a1 → arith_window a1 buf := by
  induction n with
  | zero =>
    intro a h
    have e : (arith_rebuffer a buf).range = a.range := rfl
    simp only [arith_renorm, e]
    split
    · simp
    · refine ⟨rfl, ?_⟩
      intro a1 h1
      simp only [Option.some.injEq] at h1
      rw [← h1]
      exact h
  | succ n ih =>
    intro a h
    have e : (arith_rebuffer a buf).range = a.range := rfl
    simp only [arith_renorm, e]
    split
    · obtain ⟨s1, s2⟩ := arith_renorm_step_rebuffer a buf h
      rw [s1]
      exact ih _ s2
    · refine ⟨rfl, ?_⟩
      intro a1 h1
      simp only [Option.some.injEq] at h1
      rw [← h1]
      exact h

theorem dirac_arith_get_bit_rebuffer (buf : Nat → Bool) (a : dirac_arith_state) (c : Nat)
    (h : arith_window a buf) :
    dirac_arith_get_bit (arith_rebuffer a buf) c
      = (dirac_arith_get_bit a c).map (fun x => (x.1, arith_rebuffer x.2 buf)) ∧
    ∀ b a1, dirac_arith_get_bit a c = some (b, a1) → arith_window a1 buf := by
  have hw : arith_window (arith_update_context (arith_split a c).1 (arith_split a c).2 c) buf := by
    have e1 : (arith_update_context (arith_split a c).1 (arith_split a c).2 c).gb = a.gb := by
      unfold arith_update_context arith_split
      simp only []
      split <;> rfl
    have e2 : (arith_update_context (arith_split a c).1 (arith_split a c).2 c).bits_left
        = a.bits_left := by
      unfold arith_update_context arith_split
      simp only []
      split <;> rfl
    intro i h1 h2
    rw [e1] at h1 h2 ⊢
    rw [e2] at h2
    exact h i h1 h2
  obtain ⟨r1, r2⟩ := arith_renorm_rebuffer buf 16 _ hw
  constructor
  · unfold dirac_arith_get_bit
    simp only [arith_split_rebuffer]
    have e : arith_update_context (arith_split a c).1 (arith_rebuffer (arith_split a c).2 buf) c
        = arith_rebuffer (arith_update_context (arith_split a c).1 (arith_split a c).2 c) buf := rfl
    rw [e, r1]
    cases arith_renorm 16 (arith_update_context (arith_split a c).1 (arith_split a c).2 c) <;> rfl
  · intro b a1 hb
    unfold dirac_arith_get_bit at hb
    simp only [Option.map_eq_some', Prod.mk.injEq] at hb
    obtain ⟨x, hx, _, hx2⟩ := hb
    rw [← hx2]
    exact r2 x hx

theorem arith_get_bits_rebuffer (buf : Nat → Bool) (cs : List Nat) :
    ∀ a : dirac_arith_state, arith_window a buf →
      arith_get_bits (arith_rebuffer a buf) cs
        = (arith_get_bits a cs).map (fun x => (x.1, arith_rebuffer x.2 buf)) := by
  induction cs with
  | nil => intro a _; rfl
  | cons c cs ih =>
    intro a h
    obtain ⟨g1, g2⟩ := dirac_arith_get_bit_rebuffer buf a c h
    simp only [arith_get_bits, g1]
    cases hg : dirac_arith_get_bit a c with
    | none => rfl
    | some x =>
      obtain ⟨b, a1⟩ := x
      simp only [Option.map_some']
      rw [ih a1 (g2 b a1 hg)]
      cases arith_get_bits a1 cs with
      | none => rfl
      | some y => rfl

theorem int_to_u32_le (z : Int) (hz : 0 ≤ z) : int_to_u32 z ≤ z.toNat := by
  unfold int_to_u32
  omega

theorem dirac_arith_init_rebuffer (gb1 gb2 : GetBitContext) (length : Int) (hlen : 2 ≤ length)
    (hidx : gb1.index = gb2.index)
    (hagree : ∀ i, i < (8 * length).toNat →
      gb1.buffer ((align_get_bits gb1).index + i) = gb2.buffer ((align_get_bits gb1).index + i)) :
    dirac_arith_init gb2 length = arith_rebuffer (dirac_arith_init gb1 length) gb2.buffer ∧
    arith_window (dirac_arith_init gb1 length) gb2.buffer := by
  have hc := get_bits_congr gb1.buffer gb2.buffer ((gb1.index + 7) / 8 * 8) 16
    (fun i hi => hagree i (by omega))
  constructor
  · unfold dirac_arith_init arith_rebuffer get_bits_long align_get_bits
    simp only [get_bits_index, ← hidx]
    rw [← hc]
  · intro i h1 h2
    have hb := int_to_u32_le (8 * length - 16) (by omega)
    simp only [dirac_arith_init, get_bits_long, get_bits_index, align_get_bits] at h1 h2 ⊢
    have := hagree (i - (gb1.index + 7) / 8 * 8) (by omega)
    simp only [align_get_bits] at this
    rw [show (gb1.index + 7) / 8 * 8 + (i - (gb1.index + 7) / 8 * 8) = i by omega] at this
    exact this

theorem or_and_low_bit (x b : Nat) (hb : b < 2) : ((u32 (x * 2) ||| b) &&& 0xffff) % 2 = b := by
  have h1 : (u32 (x * 2)) % 2 = 0 := by unfold u32; omega
  have e : ((u32 (x * 2) ||| b) &&& 0xffff) = (u32 (x * 2) ||| b) % 2 ^ 16 :=
    Nat.and_pow_two_sub_one_eq_mod _ 16
  rw [e]
  have h2 : (u32 (x * 2) ||| b) % 2 = b := by
    have : b = 0 ∨ b = 1 := by omega
    rcases this with hb0 | hb1
    · subst hb0
      simpa using h1
    · subst hb1
      rw [Nat.or_mod_two_eq_one]
      right
      rfl
  omega

/-- C4: in a pass of the renormalisation loop the decoder takes the raw bit
under the cursor when `bits_left > 0`, moving the cursor and decrementing
`bits_left`, and shifts in a `1` with the cursor untouched otherwise.  Hence
for two inputs that agree on the `8 * length` bits of the segment, with
`length >= 2`, every run of `dirac_arith_get_bit` calls after
`dirac_arith_init` returns on both, with the same bits and the same `low`,
`range`, `code`, contexts, `bits_left` and cursor position. -/
theorem get_bit_segment_determinism (gb1 gb2 : GetBitContext) (length : Int)
    (hlen : 2 ≤ length) (hidx : gb1.index = gb2.index)
    (hagree : ∀ i, i < (8 * length).toNat →
      gb1.buffer ((align_get_bits gb1).index + i) = gb2.buffer ((align_get_bits gb1).index + i))
    (cs : List Nat) :
    (∀ a : dirac_arith_state, 0 < a.bits_left →
      (arith_renorm_step a).code % 2 = (if a.gb.buffer a.gb.index then 1 else 0) ∧
      (arith_renorm_step a).bits_left = a.bits_left - 1 ∧
      (arith_renorm_step a).gb.index = a.gb.index + 1) ∧
    (∀ a : dirac_arith_state, a.bits_left = 0 →
      (arith_renorm_step a).code % 2 = 1 ∧ (arith_renorm_step a).bits_left = 0 ∧
      (arith_renorm_step a).gb.index = a.gb.index) ∧
    ∃ bs a1 a2,
      arith_get_bits (dirac_arith_init gb1 length) cs = some (bs, a1) ∧
      arith_get_bits (dirac_arith_init gb2 length) cs = some (bs, a2) ∧
      a1.low = a2.low ∧ a1.range = a2.range ∧ a1.code = a2.code ∧
      a1.contexts = a2.contexts ∧ a1.bits_left = a2.bits_left ∧
      a1.gb.index = a2.gb.index := by
  refine ⟨?_, ?_, ?_⟩
  · intro a ha
    unfold arith_renorm_step
    simp only [if_pos ha, get_bits, get_bits1]
    refine ⟨?_, trivial, ?_⟩
    · simp only [Nat.mul_zero, Nat.zero_add]
      apply or_and_low_bit
      split <;> omega
    · trivial
  · intro a ha
    unfold arith_renorm_step
    have : ¬ a.bits_left > 0 := by omega
    simp only [if_neg this]
    exact ⟨or_and_low_bit _ 1 (by omega), ha, trivial⟩
  · obtain ⟨e1, e2⟩ := dirac_arith_init_rebuffer gb1 gb2 length hlen hidx hagree
    obtain ⟨bs, a1, r1, _, _⟩ := arith_get_bits_ok cs (dirac_arith_init gb1 length)
      (dirac_arith_init_ok gb1 length)
    refine ⟨bs, a1, arith_rebuffer a1 gb2.buffer, r1, ?_, rfl, rfl, rfl, rfl, rfl, rfl⟩
    rw [e1, arith_get_bits_rebuffer gb2.buffer cs _ e2, r1]
    rfl

theorem get_bit_segment_determinism_witness :
    (2 : Int) ≤ 2 ∧ sample_gb.index = sample_gb_tail.index ∧
    ∃ bs a1 a2,
      arith_get_bits (dirac_arith_init sample_gb 2) [0, 1, 0, 0, 1] = some (bs, a1) ∧
      arith_get_bits (dirac_arith_init sample_gb_tail 2) [0, 1, 0, 0, 1] = some (bs, a2) ∧
      a1.low = a2.low ∧ a1.range = a2.range ∧ a1.code = a2.code ∧
      a1.contexts = a2.contexts ∧ a1.bits_left = a2.bits_left ∧
      a1.gb.index = a2.gb.index :=
  ⟨by decide, rfl,
    (get_bit_segment_determinism sample_gb sample_gb_tail 2 (by decide) rfl
      (by
        intro i hi
        have hi2 : i < 16 := by simpa using hi
        have hi3 : 8 + i < 24 := by omega
        simp [sample_gb, sample_gb_tail, align_get_bits, hi3])
      [0, 1, 0, 0, 1]).2.2⟩

theorem dirac_arith_get_bit_lt_two (a : dirac_arith_state) (c b : Nat) (a1 : dirac_arith_state)
    (h : dirac_arith_get_bit a c = some (b, a1)) : b < 2 := by
  unfold dirac_arith_get_bit at h
  simp only [Option.map_eq_some', Prod.mk.injEq] at h
  obtain ⟨_, _, hb, _⟩ := h
  rw [← hb]
  exact arith_split_fst_lt a c

theorem arith_get_bits_cons (a a2 : dirac_arith_state) (c : Nat) (cs bs : List Nat) :
    arith_get_bits a (c :: cs) = some (bs, a2) ↔
      ∃ b a1 bs1, dirac_arith_get_bit a c = some (b, a1) ∧
        arith_get_bits a1 cs = some (bs1, a2) ∧ bs = b :: bs1 := by
  constructor
  · intro h
    simp only [arith_get_bits] at h
    cases hg : dirac_arith_get_bit a c with
    | none => rw [hg] at h; simp at h
    | some x =>
      obtain ⟨b, a1⟩ := x
      rw [hg] at h
      simp only [] at h
      cases hr : arith_get_bits a1 cs with
      | none => rw [hr] at h; simp at h
      | some y =>
        obtain ⟨bs1, a3⟩ := y
        rw [hr] at h
        simp only [Option.some.injEq, Prod.mk.injEq] at h
        exact ⟨b, a1, bs1, rfl, by rw [hr, h.2], h.1.symm⟩
  · rintro ⟨b, a1, bs1, h1, h2, h3⟩
    simp [arith_get_bits, h1, h2, h3]

theorem read_uint_value_mod (ds : List Nat) :
    ∀ v w : Nat, v % 4294967296 = w % 4294967296 →
      read_uint_value v ds % 4294967296 = read_uint_value w ds % 4294967296 := by
  induction ds with
  | nil => intro v w h; exact h
  | cons d ds ih =>
    intro v w h
    simp only [read_uint_value, List.foldl_cons]
    apply ih
    omega

theorem read_uint_value_pos (ds : List Nat) : ∀ v : Nat, 0 < v → 0 < read_uint_value v ds := by
  induction ds with
  | nil => intro v h; exact h
  | cons d ds ih =>
    intro v h
    simp only [read_uint_value, List.foldl_cons]
    apply ih
    omega

theorem usub_one_of_pos (v : Nat) (h : 0 < v) : usub v 1 = (v - 1) % 4294967296 := by
  unfold usub
  omega

/-- The loop of `dirac_arith_read_uint` returns `v` in the state `a2` exactly
when its `dirac_arith_get_bit` calls decode follow bits `0` before each of
some literal bits `ds` and a closing follow bit `1`, ending in `a2`, and `v`
is the value accumulated over `ds`, less one. -/
theorem read_uint_loop_iff (cs : dirac_arith_context_set) (fuel : Nat) :
    ∀ (a : dirac_arith_state) (ret index v : Nat) (a2 : dirac_arith_state),
      read_uint_loop cs fuel a ret index = some (v, a2) ↔
        ∃ ds : List Nat, ds.length < fuel ∧
          arith_get_bits a (read_uint_contexts cs index ds.length)
            = some (read_uint_bits ds, a2) ∧
          v = usub (read_uint_value ret ds) 1 := by
  induction fuel with
  | zero =>
    intro a ret index v a2
    simp [read_uint_loop]
  | succ fuel ih =>
    intro a ret index v a2
    constructor
    · intro h
      simp only [read_uint_loop] at h
      cases hf : dirac_arith_get_bit a (follow_context index cs) with
      | none => rw [hf] at h; exact absurd h (by simp)
      | some x =>
        obtain ⟨f, a1⟩ := x
        rw [hf] at h
        simp only [] at h
        have hf2 := dirac_arith_get_bit_lt_two _ _ _ _ hf
        by_cases hz : f = 0
        · rw [if_pos hz] at h
          cases hd : dirac_arith_get_bit a1 cs.data with
          | none => rw [hd] at h; exact absurd h (by simp)
          | some y =>
            obtain ⟨d, a3⟩ := y
            rw [hd] at h
            simp only [] at h
            have hd2 := dirac_arith_get_bit_lt_two _ _ _ _ hd
            obtain ⟨ds, l1, r1, v1⟩ := (ih _ _ _ _ _).mp h
            refine ⟨d :: ds, by simp; omega, ?_, ?_⟩
            · simp only [List.length_cons, read_uint_contexts, read_uint_bits]
              rw [arith_get_bits_cons]
              refine ⟨f, a1, d :: read_uint_bits ds, hf, ?_, by rw [hz]⟩
              rw [arith_get_bits_cons]
              exact ⟨d, a3, read_uint_bits ds, hd, r1, rfl⟩
            · rw [v1]
              simp only [read_uint_value, List.foldl_cons]
              unfold usub
              have := read_uint_value_mod ds
                (if d ≠ 0 then u32 (u32 (ret * 2) + 1) else u32 (ret * 2)) (ret * 2 + d)
                (by
                  unfold u32
                  split <;> omega)
              simp only [read_uint_value] at this
              rw [this]
        · rw [if_neg hz] at h
          simp only [Option.some.injEq, Prod.mk.injEq] at h
          refine ⟨[], by simp, ?_, ?_⟩
          · simp only [List.length_nil, read_uint_contexts, read_uint_bits]
            rw [arith_get_bits_cons]
            refine ⟨f, a1, [], hf, ?_, ?_⟩
            · rw [← h.2]; rfl
            · have : f = 1 := by omega
              rw [this]
          · rw [← h.1]; rfl
    · rintro ⟨ds, l1, r1, v1⟩
      cases ds with
      | nil =>
        simp only [List.length_nil, read_uint_contexts, read_uint_bits] at r1
        rw [arith_get_bits_cons] at r1
        obtain ⟨b, a1, bs1, hf, hr, hb⟩ := r1
        simp only [List.cons.injEq] at hb
        simp only [arith_get_bits, Option.some.injEq, Prod.mk.injEq] at hr
        simp only [read_uint_loop, hf]
        rw [← hb.1, if_neg (by omega)]
        rw [v1, ← hr.2]
        rfl
      | cons d ds =>
        simp only [List.length_cons, read_uint_contexts, read_uint_bits] at r1
        rw [arith_get_bits_cons] at r1
        obtain ⟨b, a1, bs1, hf, hr, hb⟩ := r1
        simp only [List.cons.injEq] at hb
        rw [← hb.2, arith_get_bits_cons] at hr
        obtain ⟨d0, a3, bs2, hd, hr2, hb2⟩ := hr
        simp only [List.cons.injEq] at hb2
        have hd2 := dirac_arith_get_bit_lt_two _ _ _ _ hd
        simp only [read_uint_loop, hf]
        rw [← hb.1, if_pos rfl]
        simp only [hd]
        rw [ih]
        refine ⟨ds, by simp at l1; omega, ?_, ?_⟩
        · rw [hr2, hb2.2]
        · rw [v1]
          simp only [read_uint_value, List.foldl_cons]
          unfold usub
          have := read_uint_value_mod ds
            (if d0 ≠ 0 then u32 (u32 (ret * 2) + 1) else u32 (ret * 2)) (ret * 2 + d)
            (by
              rw [hb2.1]
              unfold u32
              split <;> omega)
          simp only [read_uint_value] at this
          rw [this]

/-- C5 (amended): `dirac_arith_read_uint` returns `v` in the state `a2`
exactly when its `dirac_arith_get_bit` calls, the follow bit of position `i`
decoded with `follow_context i` and the literal bits with the data context,
decode a follow bit `0` before each of some literal bits `ds` and end on the
first follow bit that decodes as `1`, in the state `a2`; `v` is then
`value - 1` as an `unsigned int`, where `value` starts at `1` and takes
`value * 2 + literal` for each literal bit. -/
theorem dirac_arith_read_uint_iff (cs : dirac_arith_context_set) (fuel : Nat)
    (a : dirac_arith_state) (v : Nat) (a2 : dirac_arith_state) :
    dirac_arith_read_uint fuel a cs = some (v, a2) ↔
      ∃ ds : List Nat, ds.length < fuel ∧
        arith_get_bits a (read_uint_contexts cs 0 ds.length) = some (read_uint_bits ds, a2) ∧
        v = (read_uint_value 1 ds - 1) % 4294967296 := by
  unfold dirac_arith_read_uint
  rw [read_uint_loop_iff]
  constructor
  · rintro ⟨ds, h1, h2, h3⟩
    exact ⟨ds, h1, h2, by rw [h3, usub_one_of_pos _ (read_uint_value_pos ds 1 (by omega))]⟩
  · rintro ⟨ds, h1, h2, h3⟩
    exact ⟨ds, h1, h2, by rw [h3, usub_one_of_pos _ (read_uint_value_pos ds 1 (by omega))]⟩

/-- C5 (as stated) fails: on the sample input the first follow bit decodes
as `0`, and `dirac_arith_read_uint` does not end there with `0`, as the
reading that ends on a follow bit `0` does, but goes on to the literal bits
`1, 0` and returns `5`. -/
theorem read_uint_not_zero_terminated :
    (dirac_arith_get_bit (dirac_arith_init sample_gb 4)
        (follow_context 0 sample_context_set)).map Prod.fst = some 0 ∧
    (read_uint_zero_terminated sample_context_set 10 (dirac_arith_init sample_gb 4) 1 0).map
        Prod.fst = some 0 ∧
    (dirac_arith_read_uint 10 (dirac_arith_init sample_gb 4) sample_context_set).map
        Prod.fst = some 5 ∧
    (arith_get_bits (dirac_arith_init sample_gb 4)
        (read_uint_contexts sample_context_set 0 2)).map Prod.fst
      = some (read_uint_bits [1, 0]) := by
  decide

/-! ## Theorems: access unit header -/

theorem parse_sequence_parameters_gb (h : dirac_host) (s : DiracContext) :
    (parse_sequence_parameters h s).gb = layout_sequence h s.gb := by
  unfold parse_sequence_parameters layout_sequence
  simp only []
  split <;> split <;> split <;> rfl

theorem parse_source_interlace_gb (s : DiracContext) :
    (parse_source_interlace s).gb = layout_interlace s.gb := by
  unfold parse_source_interlace layout_interlace
  simp only []
  split
  · split
    · split <;> split <;> rfl
    · rfl
  · rfl

theorem parse_source_clean_area_gb (h : dirac_host) (s : DiracContext) :
    (parse_source_clean_area h s).gb = layout_clean_area h s.gb := by
  unfold parse_source_clean_area layout_clean_area
  simp only []
  split <;> rfl

theorem index_exceeds_none (b : Nat) : ¬ index_exceeds none b := by
  rintro ⟨n, h, _⟩
  exact absurd h (by simp)

theorem index_exceeds_some (n b : Nat) : index_exceeds (some n) b ↔ b < n := by
  constructor
  · rintro ⟨m, h, hm⟩
    simp only [Option.some.injEq] at h
    omega
  · intro h
    exact ⟨n, rfl, h⟩

theorem parse_source_frame_rate_spec (h : dirac_host) (s : DiracContext) :
    ((parse_source_frame_rate h s).1 = -1 ∨ (parse_source_frame_rate h s).1 = 0) ∧
    ((parse_source_frame_rate h s).1 = -1 ↔ index_exceeds (layout_index h 2 s.gb).1 8) ∧
    ((parse_source_frame_rate h s).1 = 0 →
      (parse_source_frame_rate h s).2.gb = (layout_index h 2 s.gb).2) := by
  unfold parse_source_frame_rate layout_index
  simp only []
  by_cases hb : (get_bits1 s.gb).1 ≠ 0
  · simp only [if_pos hb]
    by_cases h8 : int_to_u32 (h.svq3_get_ue_golomb (get_bits1 s.gb).2).1 > 8
    · have h0 : ¬ int_to_u32 (h.svq3_get_ue_golomb (get_bits1 s.gb).2).1 = 0 := by omega
      simp only [if_pos h8, if_neg h0, index_exceeds_some]
      simp
      omega
    · simp only [if_neg h8]
      by_cases h0 : int_to_u32 (h.svq3_get_ue_golomb (get_bits1 s.gb).2).1 = 0
      · simp only [if_pos h0, index_exceeds_some]
        simp [Nat.iterate]
      · simp only [if_neg h0, index_exceeds_some]
        simp
        omega
  · simp only [if_neg hb]
    simp [index_exceeds_none]

theorem parse_source_aspect_ratio_spec (h : dirac_host) (s : DiracContext) :
    ((parse_source_aspect_ratio h s).1 = -1 ∨ (parse_source_aspect_ratio h s).1 = 0) ∧
    ((parse_source_aspect_ratio h s).1 = -1 ↔ index_exceeds (layout_index h 2 s.gb).1 3) ∧
    ((parse_source_aspect_ratio h s).1 = 0 →
      (parse_source_aspect_ratio h s).2.gb = (layout_index h 2 s.gb).2) := by
  unfold parse_source_aspect_ratio layout_index
  simp only []
  by_cases hb : (get_bits1 s.gb).1 ≠ 0
  · simp only [if_pos hb]
    by_cases h8 : int_to_u32 (h.svq3_get_ue_golomb (get_bits1 s.gb).2).1 > 3
    · have h0 : ¬ int_to_u32 (h.svq3_get_ue_golomb (get_bits1 s.gb).2).1 = 0 := by omega
      simp only [if_pos h8, if_neg h0, index_exceeds_some]
      simp
      omega
    · simp only [if_neg h8]
      by_cases h0 : int_to_u32 (h.svq3_get_ue_golomb (get_bits1 s.gb).2).1 = 0
      · simp only [if_pos h0, index_exceeds_some]
        simp [Nat.iterate]
      · simp only [if_neg h0, index_exceeds_some]
        simp
        omega
  · simp only [if_neg hb]
    simp [index_exceeds_none]

theorem parse_source_signal_range_spec (h : dirac_host) (s : DiracContext) :
    ((parse_source_signal_range h s).1 = -1 ∨ (parse_source_signal_range h s).1 = 0) ∧
    ((parse_source_signal_range h s).1 = -1 ↔ index_exceeds (layout_index h 4 s.gb).1 3) ∧
    ((parse_source_signal_range h s).1 = 0 →
      (parse_source_signal_range h s).2.gb = (layout_index h 4 s.gb).2) := by
  unfold parse_source_signal_range layout_index
  simp only []
  by_cases hb : (get_bits1 s.gb).1 ≠ 0
  · simp only [if_pos hb]
    by_cases h8 : int_to_u32 (h.svq3_get_ue_golomb (get_bits1 s.gb).2).1 > 3
    · have h0 : ¬ int_to_u32 (h.svq3_get_ue_golomb (get_bits1 s.gb).2).1 = 0 := by omega
      simp only [if_pos h8, if_neg h0, index_exceeds_some]
      simp
      omega
    · simp only [if_neg h8]
      by_cases h0 : int_to_u32 (h.svq3_get_ue_golomb (get_bits1 s.gb).2).1 = 0
      · simp only [if_pos h0, index_exceeds_some]
        simp [Nat.iterate]
      · simp only [if_neg h0, index_exceeds_some]
        simp
        omega
  · simp only [if_neg hb]
    simp [index_exceeds_none]

theorem parse_source_primaries_spec (h : dirac_host) (s : DiracContext) :
    ((parse_source_primaries h s).1 = -1 ∨ (parse_source_primaries h s).1 = 0) ∧
    ((parse_source_primaries h s).1 = -1 ↔ index_exceeds (layout_index h 0 s.gb).1 3) ∧
    ((parse_source_primaries h s).1 = 0 →
      (parse_source_primaries h s).2.gb = (layout_index h 0 s.gb).2) := by
  unfold parse_source_primaries layout_index
  simp only []
  by_cases hb : (get_bits1 s.gb).1 ≠ 0
  · simp only [if_pos hb]
    by_cases h8 : int_to_u32 (h.svq3_get_ue_golomb (get_bits1 s.gb).2).1 > 3
    · have h0 : ¬ int_to_u32 (h.svq3_get_ue_golomb (get_bits1 s.gb).2).1 = 0 := by omega
      simp only [if_pos h8, if_neg h0, index_exceeds_some]
      simp
      omega
    · simp only [if_neg h8]
      by_cases h0 : int_to_u32 (h.svq3_get_ue_golomb (get_bits1 s.gb).2).1 = 0
      · simp only [if_pos h0, index_exceeds_some]
        simp [Nat.iterate]
      · simp only [if_neg h0, index_exceeds_some]
        simp
        omega
  · simp only [if_neg hb]
    simp [index_exceeds_none]

theorem parse_source_matrix_spec (h : dirac_host) (s : DiracContext) :
    ((parse_source_matrix h s).1 = -1 ∨ (parse_source_matrix h s).1 = 0) ∧
    ((parse_source_matrix h s).1 = -1 ↔ index_exceeds (layout_index h 0 s.gb).1 3) ∧
    ((parse_source_matrix h s).1 = 0 →
      (parse_source_matrix h s).2.gb = (layout_index h 0 s.gb).2) := by
  unfold parse_source_matrix layout_index
  simp only []
  by_cases hb : (get_bits1 s.gb).1 ≠ 0
  · simp only [if_pos hb]
    by_cases h8 : int_to_u32 (h.svq3_get_ue_golomb (get_bits1 s.gb).2).1 > 3
    · have h0 : ¬ int_to_u32 (h.svq3_get_ue_golomb (get_bits1 s.gb).2).1 = 0 := by omega
      simp only [if_pos h8, if_neg h0, index_exceeds_some]
      simp
      omega
    · simp only [if_neg h8]
      by_cases h0 : int_to_u32 (h.svq3_get_ue_golomb (get_bits1 s.gb).2).1 = 0
      · simp only [if_pos h0, index_exceeds_some]
        simp [Nat.iterate]
      · simp only [if_neg h0, index_exceeds_some]
        simp
        omega
  · simp only [if_neg hb]
    simp [index_exceeds_none]

theorem parse_source_transfer_spec (h : dirac_host) (s : DiracContext) :
    ((parse_source_transfer h s).1 = -1 ∨ (parse_source_transfer h s).1 = 0) ∧
    ((parse_source_transfer h s).1 = -1 ↔ index_exceeds (layout_index h 0 s.gb).1 3) ∧
    ((parse_source_transfer h s).1 = 0 →
      (parse_source_transfer h s).2.gb = (layout_index h 0 s.gb).2) := by
  unfold parse_source_transfer layout_index
  simp only []
  by_cases hb : (get_bits1 s.gb).1 ≠ 0
  · simp only [if_pos hb]
    by_cases h8 : int_to_u32 (h.svq3_get_ue_golomb (get_bits1 s.gb).2).1 > 3
    · have h0 : ¬ int_to_u32 (h.svq3_get_ue_golomb (get_bits1 s.gb).2).1 = 0 := by omega
      simp only [if_pos h8, if_neg h0, index_exceeds_some]
      simp
      omega
    · simp only [if_neg h8]
      by_cases h0 : int_to_u32 (h.svq3_get_ue_golomb (get_bits1 s.gb).2).1 = 0
      · simp only [if_pos h0, index_exceeds_some]
        simp [Nat.iterate]
      · simp only [if_neg h0, index_exceeds_some]
        simp
        omega
  · simp only [if_neg hb]
    simp [index_exceeds_none]

theorem parse_source_color_spec_spec (h : dirac_host) (s : DiracContext) :
    ((parse_source_color_spec h s).1 = -1 ∨ (parse_source_color_spec h s).1 = 0) ∧
    ((parse_source_color_spec h s).1 = -1 ↔
      (index_exceeds (layout_index h 0 s.gb).1 3 ∨
        ((layout_index h 0 s.gb).1 = some 0 ∧
          (index_exceeds (layout_index h 0 (layout_index h 0 s.gb).2).1 3 ∨
           index_exceeds (layout_index h 0 (layout_index h 0 (layout_index h 0 s.gb).2).2).1 3 ∨
           index_exceeds (layout_index h 0
             (layout_index h 0 (layout_index h 0 (layout_index h 0 s.gb).2).2).2).1 3)))) := by
  by_cases hb : (get_bits1 s.gb).1 ≠ 0
  · by_cases h3 : int_to_u32 (h.svq3_get_ue_golomb (get_bits1 s.gb).2).1 > 3
    · have h0 : ¬ int_to_u32 (h.svq3_get_ue_golomb (get_bits1 s.gb).2).1 = 0 := by omega
      have e1 : (layout_index h 0 s.gb).1
          = some (int_to_u32 (h.svq3_get_ue_golomb (get_bits1 s.gb).2).1) := by
        simp only [layout_index, if_pos hb, if_neg h0]
      have e2 : (parse_source_color_spec h s).1 = -1 := by
        simp only [parse_source_color_spec, if_pos hb, if_pos h3]
      rw [e1, e2, index_exceeds_some]
      simp
      left
      omega
    · by_cases h0 : int_to_u32 (h.svq3_get_ue_golomb (get_bits1 s.gb).2).1 = 0
      · have e1 : layout_index h 0 s.gb = (some 0, (h.svq3_get_ue_golomb (get_bits1 s.gb).2).2) := by
          simp only [layout_index, if_pos hb, if_pos h0, Nat.iterate]
        rw [e1]
        simp only [index_exceeds_some]
        obtain ⟨p1, p2, p3⟩ := parse_source_primaries_spec h
          { s with gb := (h.svq3_get_ue_golomb (get_bits1 s.gb).2).2
                   source := { s.source with
                     color_primaries := preset_primaries.getD
                       (int_to_u32 (h.svq3_get_ue_golomb (get_bits1 s.gb).2).1) 0
                     k_r := preset_kr.getD (preset_matrix.getD
                       (int_to_u32 (h.svq3_get_ue_golomb (get_bits1 s.gb).2).1) 0) ⟨0, 0⟩
                     k_b := preset_kb.getD (preset_matrix.getD
                       (int_to_u32 (h.svq3_get_ue_golomb (get_bits1 s.gb).2).1) 0) ⟨0, 0⟩
                     transfer_function := preset_transfer_func.getD
                       (int_to_u32 (h.svq3_get_ue_golomb (get_bits1 s.gb).2).1)
                       .TRANSFER_FUNC_TV } }
        simp only [] at p1 p2 p3
        simp only [parse_source_color_spec, if_pos hb, if_neg h3, if_pos h0]
        generalize parse_source_primaries h _ = p at p1 p2 p3 ⊢
        by_cases hp : p.1 ≠ 0
        · simp only [if_pos hp]
          have : p.1 = -1 := by rcases p1 with q | q <;> [exact q; exact absurd q hp]
          have := p2.mp this
          simp [this]
        · simp only [if_neg hp]
          have hp0 : p.1 = 0 := by simpa using hp
          have np : ¬ index_exceeds (layout_index h 0 (h.svq3_get_ue_golomb (get_bits1 s.gb).2).2).1 3 := by
            intro q
            have := p2.mpr q
            omega
          rw [← p3 hp0]
          obtain ⟨m1, m2, m3⟩ := parse_source_matrix_spec h p.2
          generalize parse_source_matrix h p.2 = m at m1 m2 m3 ⊢
          by_cases hm : m.1 ≠ 0
          · simp only [if_pos hm]
            have : m.1 = -1 := by rcases m1 with q | q <;> [exact q; exact absurd q hm]
            have := m2.mp this
            simp [this]
          · simp only [if_neg hm]
            have hm0 : m.1 = 0 := by simpa using hm
            have nm : ¬ index_exceeds (layout_index h 0 p.2.gb).1 3 := by
              intro q
              have := m2.mpr q
              omega
            rw [← m3 hm0]
            obtain ⟨t1, t2, _⟩ := parse_source_transfer_spec h m.2
            generalize parse_source_transfer h m.2 = t at t1 t2 ⊢
            by_cases ht : t.1 ≠ 0
            · simp only [if_pos ht]
              have : t.1 = -1 := by rcases t1 with q | q <;> [exact q; exact absurd q ht]
              have := t2.mp this
              simp [this]
            · simp only [if_neg ht]
              have nt : ¬ index_exceeds (layout_index h 0 m.2.gb).1 3 := by
                intro q
                have := t2.mpr q
                have ht0 : t.1 = 0 := by simpa using ht
                omega
              simp [np, nm, nt]
      · have e1 : (layout_index h 0 s.gb).1
            = some (int_to_u32 (h.svq3_get_ue_golomb (get_bits1 s.gb).2).1) := by
          simp only [layout_index, if_pos hb, if_neg h0]
        have e2 : (parse_source_color_spec h s).1 = 0 := by
          simp only [parse_source_color_spec, if_pos hb, if_neg h3, if_neg h0]
        rw [e1, e2, index_exceeds_some]
        simp
        omega
  · have e1 : (layout_index h 0 s.gb).1 = none := by
      simp only [layout_index, if_neg hb]
    have e2 : (parse_source_color_spec h s).1 = 0 := by
      simp only [parse_source_color_spec, if_neg hb]
    rw [e1, e2]
    simp [index_exceeds_none]

/-- The enumerants of the source parameters are out of range, read from the
cursor `gb` at the start of the source parameters. -/
theorem parse_source_parameters_spec (h : dirac_host) (s : DiracContext) :
    ((parse_source_parameters h s).1 = -1 ∨ (parse_source_parameters h s).1 = 0) ∧
    ((parse_source_parameters h s).1 = -1 ↔
      let fr := layout_index h 2 (layout_interlace s.gb)
      let ar := layout_index h 2 fr.2
      let sr := layout_index h 4 (layout_clean_area h ar.2)
      let cs := layout_index h 0 sr.2
      let pr := layout_index h 0 cs.2
      let mx := layout_index h 0 pr.2
      let tf := layout_index h 0 mx.2
      index_exceeds fr.1 8 ∨ index_exceeds ar.1 3 ∨ index_exceeds sr.1 3 ∨
      index_exceeds cs.1 3 ∨
      (cs.1 = some 0 ∧ (index_exceeds pr.1 3 ∨ index_exceeds mx.1 3 ∨ index_exceeds tf.1 3))) := by
  simp only []
  unfold parse_source_parameters
  simp only []
  obtain ⟨f1, f2, f3⟩ := parse_source_frame_rate_spec h (parse_source_interlace s)
  rw [parse_source_interlace_gb] at f2 f3
  generalize parse_source_frame_rate h (parse_source_interlace s) = f at f1 f2 f3 ⊢
  by_cases hf : f.1 ≠ 0
  · simp only [if_pos hf]
    have : f.1 = -1 := by rcases f1 with q | q <;> [exact q; exact absurd q hf]
    have := f2.mp this
    simp [this]
  · simp only [if_neg hf]
    have hf0 : f.1 = 0 := by simpa using hf
    have nf : ¬ index_exceeds (layout_index h 2 (layout_interlace s.gb)).1 8 := by
      intro q
      have := f2.mpr q
      omega
    rw [← f3 hf0]
    obtain ⟨a1, a2, a3⟩ := parse_source_aspect_ratio_spec h f.2
    generalize parse_source_aspect_ratio h f.2 = a at a1 a2 a3 ⊢
    by_cases ha : a.1 ≠ 0
    · simp only [if_pos ha]
      have : a.1 = -1 := by rcases a1 with q | q <;> [exact q; exact absurd q ha]
      have := a2.mp this
      simp [this]
    · simp only [if_neg ha]
      have ha0 : a.1 = 0 := by simpa using ha
      have na : ¬ index_exceeds (layout_index h 2 f.2.gb).1 3 := by
        intro q
        have := a2.mpr q
        omega
      rw [← a3 ha0, ← parse_source_clean_area_gb]
      obtain ⟨r1, r2, r3⟩ := parse_source_signal_range_spec h (parse_source_clean_area h a.2)
      generalize parse_source_signal_range h (parse_source_clean_area h a.2) = r at r1 r2 r3 ⊢
      by_cases hr : r.1 ≠ 0
      · simp only [if_pos hr]
        have : r.1 = -1 := by rcases r1 with q | q <;> [exact q; exact absurd q hr]
        have := r2.mp this
        simp [this]
      · simp only [if_neg hr]
        have hr0 : r.1 = 0 := by simpa using hr
        have nr : ¬ index_exceeds (layout_index h 4 (parse_source_clean_area h a.2).gb).1 3 := by
          intro q
          have := r2.mpr q
          omega
        rw [← r3 hr0]
        obtain ⟨c1, c2⟩ := parse_source_color_spec_spec h r.2
        generalize parse_source_color_spec h r.2 = c at c1 c2 ⊢
        by_cases hc : c.1 ≠ 0
        · simp only [if_pos hc]
          have : c.1 = -1 := by rcases c1 with q | q <;> [exact q; exact absurd q hc]
          have := c2.mp this
          simp only [true_iff, true_or, true_and]
          right; right; right
          exact this
        · simp only [if_neg hc]
          have hc0 : c.1 = 0 := by simpa using hc
          have nc := mt c2.mpr (by omega : ¬ c.1 = -1)
          simp only [not_or, not_and] at nc
          simp only [nf, na, nr, false_or]
          refine ⟨Or.inr trivial, ?_⟩
          constructor
          · intro q
            exact absurd q (by simp)
          · rintro (q | ⟨q1, q2⟩)
            · exact absurd q nc.1
            · have := nc.2 q1
              rcases q2 with q2 | q2 | q2
              · exact absurd q2 this.1
              · exact absurd q2 this.2.1
              · exact absurd q2 this.2.2

/-- C6: `parse_access_unit_header` returns `-1` exactly when an enumerant of
the header is out of range (the video format greater than 12, a present
frame rate index greater than 8, a present aspect ratio, signal range or
colour specification index greater than 3 or, under colour specification
index 0, a present primaries, matrix or transfer function index greater
than 3), and returns `0` on every other input. -/
theorem parse_access_unit_header_failure (h : dirac_host) (s : DiracContext) :
    ((parse_access_unit_header h s).1 = -1 ↔
      header_out_of_range (read_header_indices h s.gb)) ∧
    ((parse_access_unit_header h s).1 = 0 ↔
      ¬ header_out_of_range (read_header_indices h s.gb)) := by
  have key : ((parse_access_unit_header h s).1 = -1 ∨ (parse_access_unit_header h s).1 = 0) ∧
      ((parse_access_unit_header h s).1 = -1 ↔
        header_out_of_range (read_header_indices h s.gb)) := by
    let vf := h.svq3_get_ue_golomb (h.svq3_get_ue_golomb (h.svq3_get_ue_golomb
      (h.svq3_get_ue_golomb (h.svq3_get_ue_golomb s.gb).2).2).2).2
    let s1 : DiracContext :=
      { s with profile := int_to_u32 (h.svq3_get_ue_golomb (h.svq3_get_ue_golomb
                 (h.svq3_get_ue_golomb s.gb).2).2).1
               level := int_to_u32 (h.svq3_get_ue_golomb (h.svq3_get_ue_golomb
                 (h.svq3_get_ue_golomb (h.svq3_get_ue_golomb s.gb).2).2).2).1
               gb := vf.2 }
    let s2 := parse_sequence_parameters h
      { s1 with sequence := sequence_parameters_defaults.getD (int_to_u32 vf.1)
                              sequence_parameters_zero }
    let s3 : DiracContext :=
      { s2 with source := source_parameters_defaults.getD (int_to_u32 vf.1)
                            source_parameters_zero }
    have hgb : s3.gb = layout_sequence h vf.2 := parse_sequence_parameters_gb h _
    obtain ⟨r1, r2⟩ := parse_source_parameters_spec h s3
    rw [hgb] at r2
    have hdef : parse_access_unit_header h s
        = if int_to_u32 vf.1 > 12 then (-1, s1)
          else if (parse_source_parameters h s3).1 ≠ 0 then (-1, (parse_source_parameters h s3).2)
          else (0, { (parse_source_parameters h s3).2 with
                       decoding := decoding_parameters_defaults.getD (int_to_u32 vf.1)
                                     decoding_parameters_zero }) := rfl
    have hidx : header_out_of_range (read_header_indices h s.gb) ↔
        (12 < int_to_u32 vf.1 ∨
          (let fr := layout_index h 2 (layout_interlace (layout_sequence h vf.2))
           let ar := layout_index h 2 fr.2
           let sr := layout_index h 4 (layout_clean_area h ar.2)
           let cs := layout_index h 0 sr.2
           let pr := layout_index h 0 cs.2
           let mx := layout_index h 0 pr.2
           let tf := layout_index h 0 mx.2
           index_exceeds fr.1 8 ∨ index_exceeds ar.1 3 ∨ index_exceeds sr.1 3 ∨
           index_exceeds cs.1 3 ∨
           (cs.1 = some 0 ∧
             (index_exceeds pr.1 3 ∨ index_exceeds mx.1 3 ∨ index_exceeds tf.1 3)))) := by
      unfold header_out_of_range read_header_indices
      simp only [Nat.iterate]
      by_cases hcs : (layout_index h 0 (layout_index h 4 (layout_clean_area h (layout_index h 2
          (layout_index h 2 (layout_interlace (layout_sequence h vf.2))).2).2)).2).1 = some 0
      · simp only [vf] at hcs
        simp only [hcs, if_true, true_and]
      · simp only [vf] at hcs
        simp only [hcs, if_false, false_and, or_false, index_exceeds_none]
    rw [hidx, hdef]
    by_cases hv : int_to_u32 vf.1 > 12
    · simp only [if_pos hv]
      simp
      left
      omega
    · simp only [if_neg hv]
      have hv2 : ¬ 12 < int_to_u32 vf.1 := by omega
      simp only [hv2, false_or]
      generalize parse_source_parameters h s3 = r at r1 r2 ⊢
      by_cases hr : r.1 ≠ 0
      · simp only [if_pos hr]
        have : r.1 = -1 := by rcases r1 with q | q <;> [exact q; exact absurd q hr]
        exact ⟨Or.inl trivial, ⟨fun _ => r2.mp this, fun _ => trivial⟩⟩
      · simp only [if_neg hr]
        have hr0 : r.1 = 0 := by simpa using hr
        refine ⟨Or.inr trivial, ⟨fun q => absurd q (by decide), fun q => ?_⟩⟩
        have := r2.mpr q
        omega
  refine ⟨key.2, fun q hn => ?_, fun hn => ?_⟩
  · have := key.2.mpr hn
    omega
  · rcases key.1 with q | q
    · exact absurd (key.2.mp q) hn
    · exact q

/-! ## Theorems: picture decoding and the reference collection -/

set_option maxRecDepth 100000 in
/-- C7 (code defect): a decoder that has read the header of a 640x480
sequence and decoded the reference picture 0 gets, at host frame number
1, a picture unit whose wavelet filter index is 8. `parse_frame` returns
`-1`, and `decode_frame`, which does not look at that result, passes the
dimension checks with the padded size of the picture before, returns
`buf_size`, emits the picture and appends it to the reference collection.
Only as the first picture of a sequence, where the padded size is still
0, the same unit ends in a failure, in `dirac_decode_frame`. -/
theorem decode_frame_ignores_parse_frame_failure :
    first_picture_context.sequence.luma_width = 640 ∧
    first_picture_context.padded_luma_width = 640 ∧
    first_picture_context.refcnt = 1 ∧
    (parse_frame checking_host
      { first_picture_context with gb := { buffer := bad_filter_call.payload, index := 0 }
                                   refs := bad_filter_call.parse_code &&& 0x03 }).1 = -1 ∧
    (decode_frame checking_host first_picture_context bad_filter_call).s.wavelet_idx = 8 ∧
    (decode_frame checking_host first_picture_context bad_filter_call).ret = 64 ∧
    (decode_frame checking_host first_picture_context bad_filter_call).data_size = 1 ∧
    (decode_frame checking_host first_picture_context bad_filter_call).picture
      = some { data0 := 8, display_picture_number := u32_to_c_int 1, reference := 1 } ∧
    (decode_frame checking_host first_picture_context bad_filter_call).s.refcnt = 2 ∧
    refframes_list (decode_frame checking_host first_picture_context bad_filter_call).s
      = [{ data0 := 7, display_picture_number := u32_to_c_int 0, reference := 1 },
         { data0 := 8, display_picture_number := u32_to_c_int 1, reference := 1 }] ∧
    sequence_context.padded_luma_width = 0 ∧
    (decode_frame checking_host sequence_context
      (picture_call 0 0x0C (bad_filter_payload 0) 8)).ret = -1 := by
  decide!

set_option maxRecDepth 100000 in
/-- C9 (code defect): after the header of a 640x480 sequence, ten picture
units that are no references and lie in the display future are each
stored twice, which fills the 20 entries without a failure; the eleventh
call does not fail either: it writes `refframes[20]` and `refframes[21]`
and leaves `refcnt = 22`. -/
theorem refframes_overrun :
    sequence_context.refcnt = 0 ∧
    (decode_frames checking_host sequence_context (future_pictures 10)).refcnt = 20 ∧
    (decode_frames checking_host sequence_context (future_pictures 10)).oob = false ∧
    (decode_frame checking_host (decode_frames checking_host sequence_context (future_pictures 10))
      (picture_call 0 0x08 (plain_payload 11) 11)).ret = 64 ∧
    (decode_frames checking_host sequence_context (future_pictures 11)).refcnt = 22 ∧
    ((decode_frames checking_host sequence_context (future_pictures 11)).refframes 20).data0
      = 11 ∧
    ((decode_frames checking_host sequence_context (future_pictures 11)).refframes 21).data0
      = 11 ∧
    (decode_frames checking_host sequence_context (future_pictures 11)).oob = true := by
  decide!

set_option maxRecDepth 100000 in
/-- C10 (as stated) fails: after the header of a 640x480 sequence the
pictures 0, 1, 2 and the reference picture 3 are decoded and shown at the
host frame numbers 0 to 3; a later picture that is no reference carries
the picture number 3 again. When it is decoded at host frame number 4 the
retire scan schedules number 3, the lookup finds the reference picture
first and removes it, and the entry with `reference == 0` and display
number `3 < 4` is still in the collection after the call, which returns
`buf_size`. -/
theorem retire_misses_repeated_number :
    refframes_list (decode_frames checking_host dirac_context_zero
        (repeated_number_calls.take 5))
      = [{ data0 := 4, display_picture_number := u32_to_c_int 3, reference := 1 }] ∧
    refframes_list (decode_frame_at_scan checking_host
        (decode_frames checking_host dirac_context_zero (repeated_number_calls.take 5))
        (picture_call 4 0x08 (plain_payload 3) 5))
      = [{ data0 := 4, display_picture_number := u32_to_c_int 3, reference := 1 },
         { data0 := 5, display_picture_number := u32_to_c_int 3, reference := 0 }] ∧
    (decode_frame checking_host
      (decode_frames checking_host dirac_context_zero (repeated_number_calls.take 5))
      (picture_call 4 0x08 (plain_payload 3) 5)).ret = 64 ∧
    (decode_frames checking_host dirac_context_zero repeated_number_calls).refcnt = 1 ∧
    (decode_frames checking_host dirac_context_zero repeated_number_calls).oob = false ∧
    refframes_list (decode_frames checking_host dirac_context_zero repeated_number_calls)
      = [{ data0 := 5, display_picture_number := u32_to_c_int 3, reference := 0 }] := by
  decide!

/-! ### Retirement on lists of entries -/

theorem retire_first_mem (F t : Int) (L : List AVFrame) (e : AVFrame)
    (h : e ∈ retire_first F t L) :
    e ∈ L ∨ ∃ f ∈ L, f.display_picture_number.val ≥ F ∧ e = { f with reference := 0 } := by
  induction L with
  | nil => simp [retire_first] at h
  | cons f fs ih =>
    simp only [retire_first] at h
    split at h
    · split at h
      · rename_i h1 h2
        simp only [List.mem_cons] at h
        rcases h with h | h
        · right
          exact ⟨f, by simp, h2, h⟩
        · left
          simp [h]
      · left
        simp [h]
    · simp only [List.mem_cons] at h
      rcases h with h | h
      · left
        simp [h]
      · rcases ih h with q | ⟨g, hg, q1, q2⟩
        · left
          simp [q]
        · right
          exact ⟨g, by simp [hg], q1, q2⟩

/-- An entry displayed before `F` that is in the list after a retirement was
in it before. -/
theorem retire_first_mem_old (F t : Int) (L : List AVFrame) (e : AVFrame)
    (h : e ∈ retire_first F t L) (hd : e.display_picture_number.val < F) : e ∈ L := by
  rcases retire_first_mem F t L e h with q | ⟨f, _, q1, q2⟩
  · exact q
  · rw [q2] at hd
    simp only [] at hd
    omega

theorem retire_fold_mem_old (F : Int) (T : List Int) :
    ∀ (L : List AVFrame) (e : AVFrame),
      e ∈ T.foldl (fun l t => retire_first F t l) L →
      e.display_picture_number.val < F → e ∈ L := by
  induction T with
  | nil => intro L e h _; exact h
  | cons t T ih =>
    intro L e h hd
    simp only [List.foldl_cons] at h
    exact retire_first_mem_old F t L e (ih _ e h hd) hd

/-- The number of entries with display number `d`. -/
theorem retire_first_count (F t d : Int) (hd : d < F) (L : List AVFrame) :
    (retire_first F t L).countP (fun f => decide (f.display_picture_number.val = d))
      = L.countP (fun f => decide (f.display_picture_number.val = d))
        - (if t = d then 1 else 0) := by
  induction L with
  | nil => simp [retire_first]
  | cons f fs ih =>
    simp only [retire_first]
    by_cases h1 : f.display_picture_number.val = t
    · simp only [if_pos h1]
      by_cases h2 : f.display_picture_number.val ≥ F
      · simp only [if_pos h2]
        have : ¬ t = d := by omega
        simp only [if_neg this, List.countP_cons, Nat.sub_zero]
      · simp only [if_neg h2]
        by_cases h3 : t = d
        · have : f.display_picture_number.val = d := by omega
          simp [List.countP_cons, h3, this]
        · have : ¬ f.display_picture_number.val = d := by omega
          simp [List.countP_cons, h3, this]
    · simp only [if_neg h1, List.countP_cons, ih]
      by_cases h3 : t = d
      · have : ¬ f.display_picture_number.val = d := by omega
        simp [h3, this]
      · simp [h3]

theorem retire_fold_count (F d : Int) (hd : d < F) (T : List Int) :
    ∀ L : List AVFrame,
      (T.foldl (fun l t => retire_first F t l) L).countP
          (fun f => decide (f.display_picture_number.val = d))
        = L.countP (fun f => decide (f.display_picture_number.val = d)) - T.count d := by
  induction T with
  | nil => intro L; simp
  | cons t T ih =>
    intro L
    simp only [List.foldl_cons, ih, retire_first_count F t d hd, List.count_cons]
    by_cases h3 : t = d
    · simp [h3]
      omega
    · simp [h3]

theorem retire_first_sublist (F t : Int) (L : List AVFrame) :
    List.Sublist ((retire_first F t L).map frame_key) (L.map frame_key) := by
  induction L with
  | nil => simp [retire_first]
  | cons f fs ih =>
    simp only [retire_first]
    split
    · split
      · simp [frame_key]
      · simp only [List.map_cons]
        exact List.sublist_cons_self _ _
    · simp only [List.map_cons]
      exact List.Sublist.cons₂ _ ih

theorem retire_fold_sublist (F : Int) (T : List Int) :
    ∀ L : List AVFrame,
      List.Sublist ((T.foldl (fun l t => retire_first F t l) L).map frame_key)
        (L.map frame_key) := by
  induction T with
  | nil => intro L; exact List.Sublist.refl _
  | cons t T ih =>
    intro L
    simp only [List.foldl_cons]
    exact List.Sublist.trans (ih _) (retire_first_sublist F t L)

/-- The scheduled numbers of the expired entries count every entry with
display number `d`, when every such entry is expired. -/
theorem expired_count (F d : Int) (L : List AVFrame)
    (h : ∀ f ∈ L, f.display_picture_number.val = d → f.reference = 0 ∧ d < F) :
    ((L.filter (fun f => decide (f.reference = 0 ∧ f.display_picture_number.val < F))).map
        (fun f => f.display_picture_number.val)).count d
      = L.countP (fun f => decide (f.display_picture_number.val = d)) := by
  induction L with
  | nil => simp
  | cons f fs ih =>
    have ih1 := ih (fun g hg => h g (by simp [hg]))
    by_cases h2 : f.reference = 0 ∧ f.display_picture_number.val < F
    · have e1 : (f :: fs).filter (fun f => decide (f.reference = 0 ∧
          f.display_picture_number.val < F))
          = f :: fs.filter (fun f => decide (f.reference = 0 ∧
              f.display_picture_number.val < F)) :=
        List.filter_cons_of_pos (by simpa using h2)
      rw [e1, List.map_cons, List.count_cons, List.countP_cons, ih1]
      by_cases h1 : f.display_picture_number.val = d
      · simp [h1]
      · simp [h1]
    · have e1 : (f :: fs).filter (fun f => decide (f.reference = 0 ∧
          f.display_picture_number.val < F))
          = fs.filter (fun f => decide (f.reference = 0 ∧
              f.display_picture_number.val < F)) :=
        List.filter_cons_of_neg (by simpa using h2)
      rw [e1, List.countP_cons, ih1]
      have h1 : ¬ f.display_picture_number.val = d := by
        intro q
        obtain ⟨q1, q2⟩ := h f (by simp) q
        exact h2 ⟨q1, by omega⟩
      simp [h1]

/-- After the retire targets `T1` followed by the scheduled numbers of the
expired entries are processed, no expired entry is left, provided entries
with the same display number agree on being references. -/
theorem retire_fold_no_expired (F : Int) (L : List AVFrame) (T1 : List Int)
    (hdup : ∀ e1 ∈ L, ∀ e2 ∈ L,
      e1.display_picture_number.val = e2.display_picture_number.val →
      (e1.reference = 0 ↔ e2.reference = 0))
    (e : AVFrame)
    (he : e ∈ (T1 ++ (L.filter (fun f => decide (f.reference = 0 ∧
        f.display_picture_number.val < F))).map (fun f => f.display_picture_number.val)).foldl
        (fun l t => retire_first F t l) L) :
    ¬ expired F e := by
  rintro ⟨hr, hd⟩
  have hL : e ∈ L := retire_fold_mem_old F _ L e he hd
  have hc := retire_fold_count F e.display_picture_number.val hd
    (T1 ++ (L.filter (fun f => decide (f.reference = 0 ∧
        f.display_picture_number.val < F))).map (fun f => f.display_picture_number.val)) L
  have hx := expired_count F e.display_picture_number.val L (by
    intro f hf hfd
    exact ⟨(hdup f hf e hL hfd).mpr hr, hd⟩)
  rw [List.count_append, hx] at hc
  have hpos : 0 < ((T1 ++ (L.filter (fun f => decide (f.reference = 0 ∧
        f.display_picture_number.val < F))).map (fun f => f.display_picture_number.val)).foldl
        (fun l t => retire_first F t l) L).countP
          (fun f => decide (f.display_picture_number.val = e.display_picture_number.val)) := by
    rw [List.countP_pos_iff]
    exact ⟨e, he, by simp⟩
  omega

/-! ### The arrays of the reference collection -/

theorem slots_from_congr {α : Type} (a b : Nat → α) (n : Nat) :
    ∀ i : Nat, (∀ k, i ≤ k → k < i + n → a k = b k) → slots_from a i n = slots_from b i n := by
  induction n with
  | zero => intro i _; rfl
  | succ n ih =>
    intro i h
    simp only [slots_from]
    rw [h i (le_refl _) (by omega), ih (i + 1) (fun k h1 h2 => h k (by omega) (by omega))]

theorem slots_from_snoc {α : Type} (a : Nat → α) (n : Nat) :
    ∀ i : Nat, slots_from a i (n + 1) = slots_from a i n ++ [a (i + n)] := by
  induction n with
  | zero => intro i; simp [slots_from]
  | succ n ih =>
    intro i
    rw [slots_from, ih (i + 1)]
    simp only [slots_from, List.cons_append]
    rw [show i + 1 + n = i + (n + 1) by omega]

theorem reference_frame_idx_loop_none (frames : Nat → AVFrame) (t : Int) (n : Nat) :
    ∀ i : Nat, reference_frame_idx_loop frames t n i = none →
      ∀ k, i ≤ k → k < i + n → (frames k).display_picture_number.val ≠ t := by
  induction n with
  | zero => intro i _ k h1 h2; omega
  | succ n ih =>
    intro i h k h1 h2
    simp only [reference_frame_idx_loop] at h
    split at h
    · exact absurd h (by simp)
    · rename_i hne
      by_cases hk : k = i
      · rw [hk]; exact hne
      · exact ih (i + 1) h k (by omega) (by omega)

theorem reference_frame_idx_loop_some (frames : Nat → AVFrame) (t : Int) (n : Nat) :
    ∀ i idx : Nat, reference_frame_idx_loop frames t n i = some idx →
      i ≤ idx ∧ idx < i + n ∧ (frames idx).display_picture_number.val = t ∧
      ∀ k, i ≤ k → k < idx → (frames k).display_picture_number.val ≠ t := by
  induction n with
  | zero => intro i idx h; simp [reference_frame_idx_loop] at h
  | succ n ih =>
    intro i idx h
    simp only [reference_frame_idx_loop] at h
    split at h
    · rename_i heq
      simp only [Option.some.injEq] at h
      subst h
      exact ⟨le_refl _, by omega, heq, fun k h1 h2 => by omega⟩
    · rename_i hne
      obtain ⟨q1, q2, q3, q4⟩ := ih (i + 1) idx h
      refine ⟨by omega, by omega, q3, ?_⟩
      intro k h1 h2
      by_cases hk : k = i
      · rw [hk]; exact hne
      · exact q4 k (by omega) h2

theorem retire_first_absent (F t : Int) (a : Nat → AVFrame) (n : Nat) :
    ∀ i : Nat, (∀ k, i ≤ k → k < i + n → (a k).display_picture_number.val ≠ t) →
      retire_first F t (slots_from a i n) = slots_from a i n := by
  induction n with
  | zero => intro i _; rfl
  | succ n ih =>
    intro i h
    simp only [slots_from, retire_first]
    rw [if_neg (h i (le_refl _) (by omega)), ih (i + 1) (fun k h1 h2 => h k (by omega) (by omega))]

theorem retire_first_defer (F t : Int) (a : Nat → AVFrame) (idx : Nat)
    (hm : (a idx).display_picture_number.val = t)
    (hF : (a idx).display_picture_number.val ≥ F) (n : Nat) :
    ∀ i : Nat, i ≤ idx → idx < i + n →
      (∀ k, i ≤ k → k < idx → (a k).display_picture_number.val ≠ t) →
      retire_first F t (slots_from a i n)
        = slots_from (Function.update a idx { a idx with reference := 0 }) i n := by
  induction n with
  | zero => intro i h1 h2 _; omega
  | succ n ih =>
    intro i h1 h2 h3
    simp only [slots_from, retire_first]
    by_cases hi : i = idx
    · subst hi
      rw [if_pos hm, if_pos hF, Function.update_same]
      congr 1
      apply slots_from_congr
      intro k q1 _
      rw [Function.update_noteq (by omega)]
    · rw [if_neg (h3 i (le_refl _) (by omega)), Function.update_noteq hi,
        ih (i + 1) (by omega) (by omega) (fun k q1 q2 => h3 k (by omega) q2)]

theorem retire_first_remove (F t : Int) (a g : Nat → AVFrame) (idx : Nat)
    (hm : (a idx).display_picture_number.val = t)
    (hF : ¬ (a idx).display_picture_number.val ≥ F) (n : Nat) :
    ∀ i : Nat, i ≤ idx → idx < i + n →
      (∀ k, i ≤ k → k < idx → (a k).display_picture_number.val ≠ t) →
      (∀ k, i ≤ k → k < idx → g k = a k) →
      (∀ k, idx ≤ k → k < i + n - 1 → g k = a (k + 1)) →
      retire_first F t (slots_from a i n) = slots_from g i (n - 1) := by
  induction n with
  | zero => intro i h1 h2; omega
  | succ n ih =>
    intro i h1 h2 h3 h4 h5
    simp only [slots_from, retire_first, Nat.add_sub_cancel]
    by_cases hi : i = idx
    · subst hi
      rw [if_pos hm, if_neg hF]
      have : ∀ m j, (∀ k, j ≤ k + 1 → k + 1 < j + m → g k = a (k + 1)) → 
          slots_from a j m = slots_from g (j - 1) m ∨ j = 0 := by
        intro m
        induction m with
        | zero => intro j _; left; rfl
        | succ m ihm =>
          intro j hj
          by_cases hj0 : j = 0
          · right; exact hj0
          · left
            obtain ⟨j1, rfl⟩ : ∃ j1, j = j1 + 1 := ⟨j - 1, by omega⟩
            simp only [slots_from, Nat.add_sub_cancel]
            rw [hj j1 (le_refl _) (by omega)]
            congr 1
            rcases ihm (j1 + 1 + 1) (fun k q1 q2 => hj k (by omega) (by omega)) with q | q
            · simpa using q
            · omega
      rcases this n (i + 1) (fun k q1 q2 => h5 k (by omega) (by omega)) with q | q
      · simpa using q
      · omega
    · rw [if_neg (h3 i (le_refl _) (by omega))]
      obtain ⟨m, rfl⟩ : ∃ m, n = m + 1 := ⟨n - 1, by omega⟩
      simp only [slots_from, Nat.add_sub_cancel] at ih ⊢
      rw [h4 i (le_refl _) (by omega)]
      congr 1
      have := ih (i + 1) (by omega) (by omega) (fun k q1 q2 => h3 k (by omega) q2)
        (fun k q1 q2 => h4 k (by omega) q2) (fun k q1 q2 => h5 k q1 (by omega))
      simpa [slots_from] using this

theorem refframes_shift_spec (n : Nat) :
    ∀ (j : Nat) (s : DiracContext),
      (∀ k, (refframes_shift n j s).refframes k
        = if j ≤ k ∧ k < j + n then s.refframes (k + 1) else s.refframes k) ∧
      (refframes_shift n j s).refcnt = s.refcnt ∧
      (refframes_shift n j s).retireframe = s.retireframe ∧
      (refframes_shift n j s).retirecnt = s.retirecnt ∧
      (refframes_shift n j s).picture = s.picture ∧
      ((refframes_shift n j s).oob = false → s.oob = false) := by
  induction n with
  | zero =>
    intro j s
    refine ⟨?_, rfl, rfl, rfl, rfl, fun h => h⟩
    intro k
    have : ¬ (j ≤ k ∧ k < j + 0) := by omega
    rw [if_neg this]
    rfl
  | succ n ih =>
    intro j s
    obtain ⟨q1, q2, q3, q4, q5, q6⟩ := ih (j + 1)
      { s with refframes := Function.update s.refframes j (s.refframes (j + 1))
               oob := s.oob || decide (REFFRAME_CNT ≤ j + 1) }
    simp only [refframes_shift]
    refine ⟨?_, q2, q3, q4, q5, ?_⟩
    · intro k
      rw [q1 k]
      simp only []
      by_cases h1 : j + 1 ≤ k ∧ k < j + 1 + n
      · have h2 : j ≤ k ∧ k < j + (n + 1) := by omega
        rw [if_pos h1, if_pos h2, Function.update_noteq (by omega)]
      · rw [if_neg h1]
        by_cases hk : k = j
        · subst hk
          have h2 : k ≤ k ∧ k < k + (n + 1) := by omega
          rw [if_pos h2, Function.update_same]
        · have h2 : ¬ (j ≤ k ∧ k < j + (n + 1)) := by omega
          rw [if_neg h2, Function.update_noteq hk]
    · intro h
      have := q6 h
      simp only [Bool.or_eq_false_iff] at this
      exact this.1

/-- One pass of the retire loop acts on the list of retained entries as the
retirement of the target's display number, and leaves the retire list and
the current picture alone. -/
theorem retire_frame_spec (F : Int) (s : DiracContext) (target : Nat) :
    refframes_list (retire_frame F s target)
      = retire_first F (u32_to_int target) (refframes_list s) ∧
    (retire_frame F s target).retireframe = s.retireframe ∧
    (retire_frame F s target).retirecnt = s.retirecnt ∧
    (retire_frame F s target).picture = s.picture ∧
    ((retire_frame F s target).oob = false → s.oob = false) := by
  unfold retire_frame reference_frame_idx
  cases hl : reference_frame_idx_loop s.refframes (u32_to_int target) s.refcnt 0 with
  | none =>
    refine ⟨?_, rfl, rfl, rfl, fun h => h⟩
    have := reference_frame_idx_loop_none _ _ _ 0 hl
    unfold refframes_list
    exact (retire_first_absent F _ s.refframes s.refcnt 0 this).symm
  | some idx =>
    obtain ⟨_, q2, q3, q4⟩ := reference_frame_idx_loop_some _ _ _ 0 idx hl
    simp only []
    by_cases hF : (s.refframes idx).display_picture_number.val ≥ F
    · rw [if_pos hF]
      refine ⟨?_, rfl, rfl, rfl, fun h => h⟩
      unfold refframes_list
      exact (retire_first_defer F _ s.refframes idx q3 hF s.refcnt 0 (by omega) (by omega) q4).symm
    · rw [if_neg hF]
      obtain ⟨r1, r2, r3, r4, r5, r6⟩ := refframes_shift_spec (s.refcnt - 1) idx
        { s with refcnt := s.refcnt - 1 }
      refine ⟨?_, r3, r4, r5, fun h => r6 h⟩
      unfold refframes_list
      rw [r2]
      refine (retire_first_remove F _ s.refframes _ idx q3 hF s.refcnt 0 (by omega) (by omega) q4
        ?_ ?_).symm
      · intro k _ h2
        rw [r1 k, if_neg (by omega)]
      · intro k h1 h2
        rw [r1 k, if_pos (by omega)]

theorem retire_loop_spec (F : Int) (n : Nat) :
    ∀ (i : Nat) (s : DiracContext),
      refframes_list (retire_loop F n i s)
        = (slots_from s.retireframe i n).foldl
            (fun l t => retire_first F (u32_to_int t) l) (refframes_list s) ∧
      (retire_loop F n i s).picture = s.picture ∧
      ((retire_loop F n i s).oob = false → s.oob = false) := by
  induction n with
  | zero => intro i s; exact ⟨rfl, rfl, fun h => h⟩
  | succ n ih =>
    intro i s
    obtain ⟨f1, f2, _, f4, f5⟩ := retire_frame_spec F s (s.retireframe i)
    obtain ⟨q1, q2, q3⟩ := ih (i + 1) (retire_frame F s (s.retireframe i))
    simp only [retire_loop, slots_from, List.foldl_cons]
    refine ⟨?_, ?_, fun h => f5 (q3 h)⟩
    · rw [q1, f1, f2]
    · rw [q2, f4]

theorem wrap_int_eq (z : Int) (h1 : -2147483648 ≤ z) (h2 : z < 2147483648) : wrap_int z = z := by
  unfold wrap_int u32_to_int int_to_u32
  split <;> omega

theorem u32_to_int_dpn (f : AVFrame) :
    u32_to_int (int_to_u32 f.display_picture_number.val) = f.display_picture_number.val := by
  have h := f.display_picture_number.property
  exact wrap_int_eq _ h.1 h.2

theorem retire_push_spec (s : DiracContext) (v : Nat) (h : (retire_push s v).oob = false) :
    retire_targets (retire_push s v) = retire_targets s ++ [v] ∧ s.oob = false := by
  unfold retire_push at h
  simp only [Bool.or_eq_false_iff, decide_eq_false_iff_not, not_or, not_lt, not_le] at h
  obtain ⟨h0, h1, h2⟩ := h
  have h2' : s.retirecnt < 20 := by simpa [REFFRAME_CNT] using h2
  refine ⟨?_, h0⟩
  unfold retire_targets retire_push
  simp only [if_pos h1]
  rw [wrap_int_eq _ (by omega) (by omega)]
  have e : (s.retirecnt + 1).toNat = s.retirecnt.toNat + 1 := by omega
  rw [e, slots_from_snoc, Nat.zero_add, Function.update_same]
  congr 1
  apply slots_from_congr
  intro k _ hk
  rw [Function.update_noteq (by omega)]

theorem retire_scan_spec (F : Int) (n : Nat) :
    ∀ (i : Nat) (s : DiracContext), (retire_scan F n i s).oob = false →
      (retire_scan F n i s).refframes = s.refframes ∧
      (retire_scan F n i s).refcnt = s.refcnt ∧
      (retire_scan F n i s).picture = s.picture ∧
      s.oob = false ∧
      retire_targets (retire_scan F n i s)
        = retire_targets s ++
          ((slots_from s.refframes i n).filter (fun f => decide (f.reference = 0 ∧
            f.display_picture_number.val < F))).map
              (fun f => int_to_u32 f.display_picture_number.val) := by
  induction n with
  | zero =>
    intro i s h
    exact ⟨rfl, rfl, rfl, h, by simp [retire_scan, slots_from]⟩
  | succ n ih =>
    intro i s h
    simp only [retire_scan] at h ⊢
    by_cases hx : (s.refframes i).reference = 0 ∧ (s.refframes i).display_picture_number.val < F
    · rw [if_pos hx] at h ⊢
      obtain ⟨q1, q2, q3, q4, q5⟩ := ih (i + 1) _ h
      obtain ⟨p1, p2⟩ := retire_push_spec s _ q4
      have e1 : (retire_push s (int_to_u32 (s.refframes i).display_picture_number.val)).refframes
          = s.refframes := rfl
      refine ⟨by rw [q1, e1], by rw [q2]; rfl, by rw [q3]; rfl, p2, ?_⟩
      rw [q5, p1, e1, slots_from, List.filter_cons_of_pos (by simpa using hx)]
      simp
    · rw [if_neg hx] at h ⊢
      obtain ⟨q1, q2, q3, q4, q5⟩ := ih (i + 1) _ h
      refine ⟨q1, q2, q3, q4, ?_⟩
      rw [q5, slots_from, List.filter_cons_of_neg (by simpa using hx)]

theorem refframes_append_list (s : DiracContext) :
    refframes_list (refframes_append s) = refframes_list s ++ [s.picture] := by
  unfold refframes_list refframes_append
  simp only []
  rw [slots_from_snoc, Nat.zero_add, Function.update_same]
  congr 1
  apply slots_from_congr
  intro k _ hk
  rw [Function.update_noteq (by omega)]

theorem references_hold_spec (s : DiracContext) (c : decode_call) :
    (refframes_list (references_hold s c) = refframes_list s ∨
      (refframes_list (references_hold s c) = refframes_list s ++ [s.picture] ∧
        c.frame_number < s.picture.display_picture_number.val)) ∧
    (references_hold s c).picture = s.picture ∧
    ((references_hold s c).oob = false → s.oob = false) := by
  unfold references_hold
  split
  · rename_i hc
    refine ⟨Or.inr ⟨refframes_append_list s, hc.1⟩, rfl, ?_⟩
    intro q
    simp only [refframes_append, Bool.or_eq_false_iff] at q
    exact q.1
  · exact ⟨Or.inl rfl, rfl, fun q => q⟩

/-- The retirement invariant on the bookkeeping part of `decode_frame`. -/
theorem decode_frame_references_retire (h : dirac_host) (s : DiracContext) (c : decode_call)
    (hok : ¬ ((s.picture.reference ≠ 0 ∨
        s.picture.display_picture_number.val ≠ c.frame_number) ∧
      s.refcnt + 1 = REFFRAME_CNT))
    (hoob : (decode_frame_references h s c).s.oob = false)
    (hdup : ∀ e1 ∈ refframes_list (references_store s c),
      ∀ e2 ∈ refframes_list (references_store s c),
      e1.display_picture_number.val = e2.display_picture_number.val →
      (e1.reference = 0 ↔ e2.reference = 0)) :
    (∀ e ∈ refframes_list (decode_frame_references h s c).s, ¬ expired c.frame_number e) ∧
    ∃ survivors held,
      refframes_list (decode_frame_references h s c).s = survivors ++ held ∧
      List.Sublist (survivors.map frame_key)
        ((refframes_list (references_store s c)).map frame_key) ∧
      (held = [] ∨ (held = [(references_store s c).picture] ∧
        c.frame_number < (references_store s c).picture.display_picture_number.val)) := by
  -- the stages of the bookkeeping
  let s1 := references_store s c
  let s2 := retire_scan c.frame_number s1.refcnt 0 s1
  let s3 := retire_loop c.frame_number s2.retirecnt.toNat 0 s2
  let s4 := references_hold s3 c
  have hfin : refframes_list (decode_frame_references h s c).s = refframes_list s4 ∧
      (decode_frame_references h s c).s.oob = s4.oob := by
    unfold decode_frame_references
    rw [if_neg hok]
    simp only []
    split <;> exact ⟨rfl, rfl⟩
  rw [hfin.2] at hoob
  rw [hfin.1]
  obtain ⟨k1, k2, k3⟩ := references_hold_spec s3 c
  have o3 : s3.oob = false := k3 hoob
  obtain ⟨l1, l2, l3⟩ := retire_loop_spec c.frame_number s2.retirecnt.toNat 0 s2
  have o2 : s2.oob = false := l3 o3
  obtain ⟨c1, c2, c3, _, c5⟩ := retire_scan_spec c.frame_number s1.refcnt 0 s1 o2
  have v2 : refframes_list s2 = refframes_list s1 := by
    unfold refframes_list
    rw [c1, c2]
  have t2 : (slots_from s2.retireframe 0 s2.retirecnt.toNat).map u32_to_int
      = (retire_targets s1).map u32_to_int ++
        ((refframes_list s1).filter (fun f => decide (f.reference = 0 ∧
          f.display_picture_number.val < c.frame_number))).map
            (fun f => f.display_picture_number.val) := by
    have : slots_from s2.retireframe 0 s2.retirecnt.toNat = retire_targets s2 := rfl
    rw [this, c5, List.map_append, List.map_map]
    congr 1
    apply List.map_congr_left
    intro f _
    exact u32_to_int_dpn f
  have v3 : refframes_list s3
      = ((retire_targets s1).map u32_to_int ++
        ((refframes_list s1).filter (fun f => decide (f.reference = 0 ∧
          f.display_picture_number.val < c.frame_number))).map
            (fun f => f.display_picture_number.val)).foldl
          (fun l t => retire_first c.frame_number t l) (refframes_list s1) := by
    rw [l1, v2, ← t2, List.foldl_map]
  have p3 : s3.picture = s1.picture := by rw [l2, c3]
  have noexp : ∀ e ∈ refframes_list s3, ¬ expired c.frame_number e := by
    intro e he
    rw [v3] at he
    exact retire_fold_no_expired c.frame_number (refframes_list s1) _ hdup e he
  have sub : List.Sublist ((refframes_list s3).map frame_key)
      ((refframes_list s1).map frame_key) := by
    rw [v3]
    exact retire_fold_sublist c.frame_number _ _
  rcases k1 with k1 | ⟨k1, k1b⟩
  · rw [k1]
    exact ⟨noexp, refframes_list s3, [], by simp, sub, Or.inl rfl⟩
  · rw [k1]
    refine ⟨?_, refframes_list s3, [s3.picture], rfl, sub, Or.inr ⟨by rw [p3], by rw [← p3]; exact k1b⟩⟩
    intro e he
    simp only [List.mem_append, List.mem_singleton] at he
    rcases he with he | he
    · exact noexp e he
    · rintro ⟨_, q⟩
      rw [he] at q
      omega

/-- A picture decoding call of `decode_frame` that does not return `-1` has
run the bookkeeping part on the decoded picture, past the capacity test. -/
theorem decode_frame_picture_success (h : dirac_host) (s : DiracContext) (c : decode_call)
    (hsize : c.buf_size ≠ 0) (hpic : c.parse_code &&& 0x08 = 0x08)
    (hret : (decode_frame h s c).ret ≠ -1) :
    decode_frame h s c
      = decode_frame_references h
          (decode_frame_decoded h { s with gb := { buffer := c.payload, index := 0 } } c) c ∧
    ¬ (((decode_frame_decoded h { s with gb := { buffer := c.payload, index := 0 } }
            c).picture.reference ≠ 0 ∨
        (decode_frame_decoded h { s with gb := { buffer := c.payload, index := 0 } }
            c).picture.display_picture_number.val ≠ c.frame_number) ∧
      (decode_frame_decoded h { s with gb := { buffer := c.payload, index := 0 } } c).refcnt + 1
        = REFFRAME_CNT) := by
  have hcode : ¬ c.parse_code = pc_access_unit_header := by
    intro q
    rw [q] at hpic
    exact absurd hpic (by decide)
  have e1 : decode_frame h s c
      = decode_frame_picture h { s with gb := { buffer := c.payload, index := 0 } } c := by
    unfold decode_frame
    rw [if_neg hsize]
    simp only []
    rw [if_neg hcode, if_neg (by simpa using hpic)]
  rw [e1] at hret ⊢
  unfold decode_frame_picture at hret ⊢
  simp only [] at hret ⊢
  split at hret
  · exact absurd rfl hret
  · split at hret
    · exact absurd rfl hret
    · split at hret
      · exact absurd rfl hret
      · rename_i n1 n2 n3
        rw [if_neg n1, if_neg n2, if_neg n3]
        refine ⟨rfl, ?_⟩
        intro hg
        unfold decode_frame_references at hret
        rw [if_pos hg] at hret
        exact absurd rfl hret

/-- C10 (amended): after a picture decoding call of `decode_frame` with host
frame number `F` that does not fail and accesses no array out of bounds, if
the entries present when the retire scan ran that share a display number
agree on being references, then no entry of the reference collection has
`reference == 0` and a display number below `F`; the entries that survive
are, in the same order, entries present when the scan ran, followed at most
by the decoded picture held for later display. -/
theorem decode_frame_retire_invariant (h : dirac_host) (s : DiracContext) (c : decode_call)
    (hsize : c.buf_size ≠ 0) (hpic : c.parse_code &&& 0x08 = 0x08)
    (hret : (decode_frame h s c).ret ≠ -1)
    (hoob : (decode_frame h s c).s.oob = false)
    (hdup : ∀ e1 ∈ refframes_list (decode_frame_at_scan h s c),
      ∀ e2 ∈ refframes_list (decode_frame_at_scan h s c),
      e1.display_picture_number.val = e2.display_picture_number.val →
      (e1.reference = 0 ↔ e2.reference = 0)) :
    (∀ e ∈ refframes_list (decode_frame h s c).s, ¬ expired c.frame_number e) ∧
    ∃ survivors held,
      refframes_list (decode_frame h s c).s = survivors ++ held ∧
      List.Sublist (survivors.map frame_key)
        ((refframes_list (decode_frame_at_scan h s c)).map frame_key) ∧
      (held = [] ∨ (held = [(decode_frame_at_scan h s c).picture] ∧
        c.frame_number < (decode_frame_at_scan h s c).picture.display_picture_number.val)) := by
  obtain ⟨e1, e2⟩ := decode_frame_picture_success h s c hsize hpic hret
  rw [e1] at hoob ⊢
  exact decode_frame_references_retire h _ c e2 hoob hdup

set_option maxRecDepth 100000 in
theorem decode_frame_retire_invariant_witness :
    refframes_list held_picture_context
      = [{ data0 := 1, display_picture_number := u32_to_c_int 1, reference := 0 },
         { data0 := 1, display_picture_number := u32_to_c_int 1, reference := 0 },
         { data0 := 3, display_picture_number := u32_to_c_int 2, reference := 1 }] ∧
    (decode_frame checking_host held_picture_context second_picture_call).ret = 64 ∧
    refframes_list (decode_frame checking_host held_picture_context second_picture_call).s
      = [{ data0 := 3, display_picture_number := u32_to_c_int 2, reference := 1 },
         { data0 := 4, display_picture_number := u32_to_c_int 3, reference := 0 },
         { data0 := 4, display_picture_number := u32_to_c_int 3, reference := 0 }] ∧
    ((∀ e ∈ refframes_list
          (decode_frame checking_host held_picture_context second_picture_call).s,
        ¬ expired second_picture_call.frame_number e) ∧
      ∃ survivors held,
        refframes_list (decode_frame checking_host held_picture_context second_picture_call).s
          = survivors ++ held ∧
        List.Sublist (survivors.map frame_key)
          ((refframes_list (decode_frame_at_scan checking_host held_picture_context
            second_picture_call)).map frame_key) ∧
        (held = [] ∨
          (held = [(decode_frame_at_scan checking_host held_picture_context
              second_picture_call).picture] ∧
            second_picture_call.frame_number <
              (decode_frame_at_scan checking_host held_picture_context
                second_picture_call).picture.display_picture_number.val))) :=
  ⟨by decide!, by decide!, by decide!,
    decode_frame_retire_invariant checking_host held_picture_context second_picture_call
      (by decide) (by decide) (by decide!) (by decide!) (by decide!)⟩

/-! ## Subband geometry and padding -/

theorem subband_width_level (a : Int) (d k : Nat) (hk : k < d) :
    subband_width (2 ^ d * a) d ((k : Int) + 1) = 2 ^ k * a := by
  unfold subband_width
  have h0 : ¬ ((k : Int) + 1 = 0) := by omega
  rw [if_neg h0]
  have h1 : ((d : Int) - ((k : Int) + 1) + 1).toNat = d - k := by omega
  rw [h1, Int.shiftRight_eq_div_pow]
  have h2 : (2 : Int) ^ d = 2 ^ (d - k) * 2 ^ k := by
    rw [← pow_add]; congr 1; omega
  rw [h2, mul_assoc]
  have h3 : ((2 : Int) ^ (d - k)) ≠ 0 := by positivity
  push_cast
  exact Int.mul_ediv_cancel_left _ h3

theorem subband_width_zero (a : Int) (d : Nat) :
    subband_width (2 ^ d * a) d 0 = a := by
  unfold subband_width
  rw [if_pos rfl, Int.shiftRight_eq_div_pow]
  have h3 : ((2 : Int) ^ d) ≠ 0 := by positivity
  push_cast
  exact Int.mul_ediv_cancel_left _ h3

theorem subband_height_eq (h : Int) (d : Nat) (l : Int) :
    subband_height h d l = subband_width h d l := rfl

theorem subband_area_partial (a b : Int) (d : Nat) :
    ∀ n : Nat, n ≤ d →
      a * b + ((List.range n).map (fun (k : Nat) =>
        subband_area (2 ^ d * a) (2 ^ d * b) d ((k : Int) + 1)
          + subband_area (2 ^ d * a) (2 ^ d * b) d ((k : Int) + 1)
          + subband_area (2 ^ d * a) (2 ^ d * b) d ((k : Int) + 1))).sum
        = 4 ^ n * (a * b) := by
  intro n
  induction n with
  | zero => intro _; simp
  | succ n ih =>
    intro hn
    rw [List.range_succ, List.map_append, List.sum_append, ← add_assoc, ih (by omega)]
    simp only [List.map_cons, List.map_nil, List.sum_cons, List.sum_nil, subband_area,
      subband_height_eq]
    rw [subband_width_level a d n (by omega), subband_width_level b d n (by omega)]
    have : (4 : Int) ^ n = 2 ^ n * 2 ^ n := by
      rw [← mul_pow]; norm_num
    rw [pow_succ, this]
    ring

/-- C15. For every wavelet depth `d` in `1..7` and every padded width and
height that are multiples of `2^d`, the areas of the HL, LH and HH subbands
of the levels `1..d` plus the area of the LL subband of level 0 add up to
`padded_width * padded_height`. -/
theorem subband_area_total_eq (padded_width padded_height : Int) (d : Nat)
    (_hd : 1 ≤ d ∧ d ≤ 7)
    (hw : (2 : Int) ^ d ∣ padded_width) (hh : (2 : Int) ^ d ∣ padded_height) :
    subband_area_total padded_width padded_height d = padded_width * padded_height := by
  obtain ⟨a, rfl⟩ := hw
  obtain ⟨b, rfl⟩ := hh
  unfold subband_area_total
  have h0 : subband_area (2 ^ d * a) (2 ^ d * b) d 0 = a * b := by
    simp only [subband_area, subband_height_eq, subband_width_zero]
  rw [h0, subband_area_partial a b d d (le_refl d)]
  have : (4 : Int) ^ d = 2 ^ d * 2 ^ d := by
    rw [← mul_pow]; norm_num
  rw [this]
  ring

theorem subband_area_total_eq_witness :
    (1 ≤ 3 ∧ 3 ≤ 7) ∧ subband_area_total 720 576 3 = 720 * 576 :=
  ⟨by decide, subband_area_total_eq 720 576 3 (by decide) (by decide) (by decide)⟩

theorem CALC_PADDING_eq (size depth : Nat) (hs : size + 2 ^ depth ≤ 2 ^ 32) :
    CALC_PADDING size depth = (size + 2 ^ depth - 1) / 2 ^ depth * 2 ^ depth := by
  have hp : 0 < 2 ^ depth := Nat.pow_pos (by decide)
  have hle : (size + 2 ^ depth - 1) / 2 ^ depth * 2 ^ depth ≤ size + 2 ^ depth - 1 :=
    Nat.div_mul_le_self _ _
  unfold CALC_PADDING
  have h1 : usub (u32 (size + u32 (2 ^ depth))) 1 = size + 2 ^ depth - 1 := by
    unfold u32 usub
    generalize 2 ^ depth = p at hs hp
    omega
  rw [h1]
  unfold u32
  apply Nat.mod_eq_of_lt
  omega

/-- C16 (amended). For `depth` in `0..7` and every size with
`size + 2^depth <= 2^32`, `CALC_PADDING(size, depth)` is the least multiple
of `2^depth` that is greater than or equal to `size`; it equals `size` when
`size` is such a multiple, and it is smaller than `size + 2^depth`. -/
theorem CALC_PADDING_least (size depth : Nat) (_hd : depth ≤ 7)
    (hs : size + 2 ^ depth ≤ 2 ^ 32) :
    2 ^ depth ∣ CALC_PADDING size depth ∧ size ≤ CALC_PADDING size depth ∧
      (∀ m : Nat, 2 ^ depth ∣ m → size ≤ m → CALC_PADDING size depth ≤ m) ∧
      (2 ^ depth ∣ size → CALC_PADDING size depth = size) ∧
      CALC_PADDING size depth < size + 2 ^ depth := by
  rw [CALC_PADDING_eq size depth hs]
  have hp : 0 < 2 ^ depth := Nat.pow_pos (by decide)
  generalize 2 ^ depth = p at hs hp
  have hdm := Nat.div_add_mod (size + p - 1) p
  have hml := Nat.mod_lt (size + p - 1) hp
  have hcomm : (size + p - 1) / p * p = p * ((size + p - 1) / p) := Nat.mul_comm _ _
  have hleast : ∀ m : Nat, p ∣ m → size ≤ m → (size + p - 1) / p * p ≤ m := by
    intro m hm hsm
    obtain ⟨k, rfl⟩ := hm
    rw [hcomm]
    apply Nat.mul_le_mul_left
    have hlt : p * ((size + p - 1) / p) < p * (k + 1) := by
      rw [Nat.mul_add, Nat.mul_one]; omega
    have := Nat.lt_of_mul_lt_mul_left hlt
    omega
  refine ⟨Dvd.intro_left _ rfl, by omega, hleast, ?_, by omega⟩
  intro hdvd
  have := hleast size hdvd (le_refl _)
  omega

theorem CALC_PADDING_least_witness :
    2 ^ 3 ∣ CALC_PADDING 717 3 ∧ 717 ≤ CALC_PADDING 717 3 ∧
      (∀ m : Nat, 2 ^ 3 ∣ m → 717 ≤ m → CALC_PADDING 717 3 ≤ m) ∧
      (2 ^ 3 ∣ 717 → CALC_PADDING 717 3 = 717) ∧
      CALC_PADDING 717 3 < 717 + 2 ^ 3 :=
  CALC_PADDING_least 717 3 (by decide) (by decide)

/-- C16 (counterexample). The size is an `unsigned int`: for the size
`4294967295` and depth 1 the sum `size + (1 << depth) - 1` wraps to 0, so
the macro gives 0, which is smaller than the size. -/
theorem CALC_PADDING_wraps :
    CALC_PADDING 4294967295 1 = 0 ∧ CALC_PADDING 4294967295 1 < 4294967295 := by
  decide

/-! ## Motion vector prediction -/

theorem mid_pred_eq_median3 (a b c : Int) : mid_pred a b c = median3 a b c := by
  unfold mid_pred median3
  rcases le_total a b with hab | hab <;> rcases le_total b c with hbc | hbc <;>
    rcases le_total a c with hac | hac <;>
    simp only [min_def, max_def] <;> split_ifs <;> omega

theorem motion_vector_prediction_inner (blmotion : Int → dirac_blockmotion) (blwidth : Int)
    (x y : Int) (ref dir : Nat) (hx : x > 0) (hy : y > 0) :
    motion_vector_prediction blmotion blwidth x y ref dir =
      (let hl := has_vector blmotion ref (y * blwidth + x - 1)
       let ht := has_vector blmotion ref (y * blwidth + x - blwidth)
       let hd := has_vector blmotion ref (y * blwidth + x - blwidth - 1)
       let left : Int := if hl then (blmotion (y * blwidth + x - 1)).vect ref dir else 0
       let top : Int := if ht then (blmotion (y * blwidth + x - blwidth)).vect ref dir else 0
       let lefttop : Int :=
         if hd then (blmotion (y * blwidth + x - blwidth - 1)).vect ref dir else 0
       let cnt : Nat := [hl, ht, hd].countP (fun b => b)
       if cnt = 0 then 0
       else if cnt = 1 then left + top + lefttop
       else if cnt = 2 then (left + top + lefttop + 1) >>> 1
       else mid_pred left top lefttop) := by
  have h1 : ¬ (x > 0 ∧ y = 0) := by omega
  have h2 : ¬ (y > 0 ∧ x = 0) := by omega
  have hx0 : ¬ x = 0 := by omega
  have hy0 : ¬ y = 0 := by omega
  unfold motion_vector_prediction has_vector
  simp only [h1, h2, if_false, hx, hy, decide_True, Bool.true_and]
  cases hl : ((blmotion (y * blwidth + x - 1)).use_ref &&& (ref + 1 ||| DIRAC_REF_MASK_GLOBAL)
      == ref + 1) <;>
    cases ht : ((blmotion (y * blwidth + x - blwidth)).use_ref
      &&& (ref + 1 ||| DIRAC_REF_MASK_GLOBAL) == ref + 1) <;>
    cases hd : ((blmotion (y * blwidth + x - blwidth - 1)).use_ref
      &&& (ref + 1 ||| DIRAC_REF_MASK_GLOBAL) == ref + 1) <;>
    simp [hx0, hy0]

/-- C13. At a block position with `x > 0` and `y > 0` where exactly two of
the left, top and top-left neighbours have a motion vector for the queried
reference, `motion_vector_prediction` returns `(a + b + 1) >> 1`, the sum
running over the vector components of those two neighbours. -/
theorem motion_vector_prediction_two (blmotion : Int → dirac_blockmotion) (blwidth : Int)
    (x y : Int) (ref dir : Nat) (hx : x > 0) (hy : y > 0)
    (htwo : [has_vector blmotion ref (y * blwidth + x - 1),
             has_vector blmotion ref (y * blwidth + x - blwidth),
             has_vector blmotion ref (y * blwidth + x - blwidth - 1)].countP (fun b => b) = 2) :
    motion_vector_prediction blmotion blwidth x y ref dir =
      ((if has_vector blmotion ref (y * blwidth + x - 1)
          then (blmotion (y * blwidth + x - 1)).vect ref dir else 0)
        + (if has_vector blmotion ref (y * blwidth + x - blwidth)
          then (blmotion (y * blwidth + x - blwidth)).vect ref dir else 0)
        + (if has_vector blmotion ref (y * blwidth + x - blwidth - 1)
          then (blmotion (y * blwidth + x - blwidth - 1)).vect ref dir else 0)
        + 1) >>> 1 := by
  rw [motion_vector_prediction_inner blmotion blwidth x y ref dir hx hy]
  simp only [htwo]
  simp

theorem motion_vector_prediction_two_witness :
    motion_vector_prediction sample_motion_field_two 2 1 1 0 0 = 48 :=
  motion_vector_prediction_two sample_motion_field_two 2 1 1 0 0 (by decide) (by decide)
    (by decide)

/-- C14. At a block position with `x > 0` and `y > 0` where the left, top and
top-left neighbours all have a motion vector for the queried reference,
`motion_vector_prediction` returns the median of the three vector
components; the components -5, 0 and 100 give 0; and at `x = 0`, `y = 0`
the function returns 0 whatever the motion field holds. -/
theorem motion_vector_prediction_three (blmotion : Int → dirac_blockmotion) (blwidth : Int)
    (x y : Int) (ref dir : Nat) (hx : x > 0) (hy : y > 0)
    (hl : has_vector blmotion ref (y * blwidth + x - 1) = true)
    (ht : has_vector blmotion ref (y * blwidth + x - blwidth) = true)
    (hd : has_vector blmotion ref (y * blwidth + x - blwidth - 1) = true) :
    motion_vector_prediction blmotion blwidth x y ref dir =
        median3 ((blmotion (y * blwidth + x - 1)).vect ref dir)
          ((blmotion (y * blwidth + x - blwidth)).vect ref dir)
          ((blmotion (y * blwidth + x - blwidth - 1)).vect ref dir)
      ∧ motion_vector_prediction sample_motion_field 2 1 1 0 0 = 0
      ∧ (∀ (field : Int → dirac_blockmotion) (w : Int) (r d : Nat),
          motion_vector_prediction field w 0 0 r d = 0) := by
  refine ⟨?_, by decide, ?_⟩
  · rw [motion_vector_prediction_inner blmotion blwidth x y ref dir hx hy]
    simp only [hl, ht, hd]
    simp [mid_pred_eq_median3]
  · intro field w r d
    simp [motion_vector_prediction]

theorem motion_vector_prediction_three_witness :
    motion_vector_prediction sample_motion_field 2 1 1 0 0 = median3 100 0 (-5) :=
  (motion_vector_prediction_three sample_motion_field 2 1 1 0 0 (by decide) (by decide)
    (by decide) (by decide) (by decide)).1

/-! ## Superblock replication -/

theorem foldl_flatMap_eq {α β γ : Type} (f : γ → β → γ) (g : α → List β) :
    ∀ (l : List α) (init : γ),
      (l.flatMap g).foldl f init = l.foldl (fun acc a => (g a).foldl f acc) init := by
  intro l
  induction l with
  | nil => intro init; rfl
  | cons a l ih =>
    intro init
    rw [List.flatMap_cons, List.foldl_append, ih]
    rfl

theorem foldl_copy_spec {β : Type} (o : Int) :
    ∀ (idxs : List Int) (bl : Int → β) (c : Int),
      (idxs.foldl (fun b k => Function.update b k (b o)) bl) c
        = if c ∈ idxs then bl o else bl c := by
  intro idxs
  induction idxs with
  | nil => intro bl c; simp
  | cons k idxs ih =>
    intro bl c
    rw [List.foldl_cons, ih]
    have ho : Function.update bl k (bl o) o = bl o := by
      by_cases h : o = k
      · subst h; simp
      · simp [Function.update_noteq h]
    rw [ho]
    by_cases hc : c ∈ idxs
    · simp [hc]
    · by_cases hk : c = k
      · subst hk; simp
      · simp [hc, hk, Function.update_noteq hk]

theorem propagate_block_data_spec {β : Type} (blmotion : Int → β) (blwidth step x y : Int)
    (c : Int) :
    propagate_block_data blmotion blwidth step x y c
      = if c ∈ propagate_cells blwidth step x y then blmotion (y * blwidth + x)
        else blmotion c := by
  rw [← foldl_copy_spec (y * blwidth + x) (propagate_cells blwidth step x y) blmotion c]
  unfold propagate_block_data propagate_cells
  rw [foldl_flatMap_eq]
  simp only [List.foldl_map]

theorem mem_propagate_cells (blwidth step x y c : Int) :
    c ∈ propagate_cells blwidth step x y ↔
      ∃ dj di : Nat, dj < step.toNat ∧ di < step.toNat
        ∧ c = (y + (dj : Int)) * blwidth + (x + (di : Int)) := by
  unfold propagate_cells
  simp only [List.mem_flatMap, List.mem_map, List.mem_range]
  constructor
  · rintro ⟨dj, hdj, di, hdi, rfl⟩
    exact ⟨dj, di, hdj, hdi, rfl⟩
  · rintro ⟨dj, di, hdj, hdi, rfl⟩
    exact ⟨dj, hdj, di, hdi, rfl⟩

theorem unpack_unit_spec {σ β : Type} (dec : block_decoder σ β) (blwidth step x y : Int)
    (hstep : 1 ≤ step) (p : σ × (Int → β)) (c : Int) :
    (unpack_unit dec blwidth step x y p).2 c
      = if c ∈ propagate_cells blwidth step x y then (dec.run p.1 p.2 x y).2 else p.2 c := by
  unfold unpack_unit
  simp only
  rw [propagate_block_data_spec]
  by_cases hc : c ∈ propagate_cells blwidth step x y
  · simp [hc]
  · have : c ≠ y * blwidth + x := by
      intro h
      apply hc
      rw [mem_propagate_cells]
      exact ⟨0, 0, by omega, by omega, by simp [h]⟩
    simp [hc, Function.update_noteq this]

theorem unpack_pass_eq_foldl {σ β : Type} (dec : block_decoder σ β) (sbwidth sbheight : Nat)
    (sbsplit : Int → Int) (p : σ × (Int → β)) :
    unpack_pass dec sbwidth sbheight sbsplit p
      = (pass_units sbwidth sbheight sbsplit).foldl (fun acc u =>
          unpack_unit dec ((sbwidth : Int) * 4) (u.2.2 : Int) (u.1 : Int) (u.2.1 : Int) acc) p := by
  unfold unpack_pass pass_units unpack_superblock
  simp only [foldl_flatMap_eq, List.foldl_map]
  push_cast
  rfl

theorem block_index_inj (sbwidth r k r1 k1 : Nat) (hk : k < 4 * sbwidth)
    (hk1 : k1 < 4 * sbwidth) (h : block_index sbwidth r k = block_index sbwidth r1 k1) :
    r = r1 ∧ k = k1 := by
  unfold block_index at h
  have h2 : r * (sbwidth * 4) + k = r1 * (sbwidth * 4) + k1 := by exact_mod_cast h
  rcases Nat.lt_trichotomy r r1 with hlt | heq | hgt
  · have := Nat.mul_le_mul_right (sbwidth * 4) (Nat.succ_le_of_lt hlt)
    rw [Nat.succ_mul] at this
    omega
  · subst heq
    exact ⟨rfl, by omega⟩
  · have := Nat.mul_le_mul_right (sbwidth * 4) (Nat.succ_le_of_lt hgt)
    rw [Nat.succ_mul] at this
    omega

theorem mem_unit_cells (sbwidth ux uy st r k : Nat) (hu : ux + st ≤ 4 * sbwidth)
    (hk : k < 4 * sbwidth) :
    block_index sbwidth r k ∈ propagate_cells ((sbwidth : Int) * 4) (st : Int) (ux : Int) (uy : Int)
      ↔ (uy ≤ r ∧ r < uy + st ∧ ux ≤ k ∧ k < ux + st) := by
  rw [mem_propagate_cells]
  simp only [Int.toNat_ofNat]
  constructor
  · rintro ⟨dj, di, hdj, hdi, h⟩
    have h1 : block_index sbwidth r k = block_index sbwidth (uy + dj) (ux + di) := by
      rw [h]; unfold block_index; push_cast; rfl
    have := block_index_inj sbwidth r k (uy + dj) (ux + di) hk (by omega) h1
    omega
  · rintro ⟨h1, h2, h3, h4⟩
    refine ⟨r - uy, k - ux, by omega, by omega, ?_⟩
    unfold block_index
    have e1 : ((uy : Int) + ((r - uy : Nat) : Int)) = (r : Int) := by omega
    have e2 : ((ux : Int) + ((k - ux : Nat) : Int)) = (k : Int) := by omega
    rw [e1, e2]

theorem shift_cases (s : Nat) (hs : s ≤ 2) :
    (1 <<< s = 1 ∧ 4 >>> s = 4) ∨ (1 <<< s = 2 ∧ 4 >>> s = 2) ∨ (1 <<< s = 4 ∧ 4 >>> s = 1) := by
  interval_cases s
  · exact Or.inl ⟨rfl, rfl⟩
  · exact Or.inr (Or.inl ⟨rfl, rfl⟩)
  · exact Or.inr (Or.inr ⟨rfl, rfl⟩)

theorem covering_unit_iff (sbwidth : Nat) (sbsplit : Int → Int)
    (hs : ∀ idx : Int, (sbsplit idx).toNat ≤ 2) (sx sy pp q r k : Nat)
    (hq : q < 1 <<< (sbsplit ((sy : Int) * sbwidth + sx)).toNat)
    (hp : pp < 1 <<< (sbsplit ((sy : Int) * sbwidth + sx)).toNat) :
    ((unit_at sbwidth sbsplit sx sy pp q).2.1 ≤ r
      ∧ r < (unit_at sbwidth sbsplit sx sy pp q).2.1 + (unit_at sbwidth sbsplit sx sy pp q).2.2
      ∧ (unit_at sbwidth sbsplit sx sy pp q).1 ≤ k
      ∧ k < (unit_at sbwidth sbsplit sx sy pp q).1 + (unit_at sbwidth sbsplit sx sy pp q).2.2)
    ↔ covering_unit sbwidth sbsplit r k
        = ((unit_at sbwidth sbsplit sx sy pp q).2.1, (unit_at sbwidth sbsplit sx sy pp q).1) := by
  unfold unit_at covering_unit block_step
  simp only [Prod.mk.injEq]
  have hs1 := shift_cases _ (hs ((sy : Int) * sbwidth + sx))
  have hs2 := shift_cases _ (hs (((r / 4 : Nat) : Int) * sbwidth + ((k / 4 : Nat) : Int)))
  constructor
  · rintro ⟨h1, h2, h3, h4⟩
    have hr : r / 4 = sy := by
      rcases hs1 with ⟨a, b⟩ | ⟨a, b⟩ | ⟨a, b⟩ <;> rw [b] at h1 h2 <;> rw [a] at hq <;> omega
    have hk : k / 4 = sx := by
      rcases hs1 with ⟨a, b⟩ | ⟨a, b⟩ | ⟨a, b⟩ <;> rw [b] at h3 h4 <;> rw [a] at hp <;> omega
    rw [hr, hk]
    rcases hs1 with ⟨a, b⟩ | ⟨a, b⟩ | ⟨a, b⟩ <;> rw [b] at h1 h2 h3 h4 ⊢ <;> omega
  · rintro ⟨h1, h2⟩
    have hr : r / 4 = sy := by
      rcases hs1 with ⟨a, b⟩ | ⟨a, b⟩ | ⟨a, b⟩ <;> rcases hs2 with ⟨a2, b2⟩ | ⟨a2, b2⟩ | ⟨a2, b2⟩ <;>
        rw [b, b2] at h1 <;> rw [a] at hq <;> omega
    have hk : k / 4 = sx := by
      rcases hs1 with ⟨a, b⟩ | ⟨a, b⟩ | ⟨a, b⟩ <;> rcases hs2 with ⟨a2, b2⟩ | ⟨a2, b2⟩ | ⟨a2, b2⟩ <;>
        rw [b, b2] at h2 <;> rw [a] at hp <;> omega
    rw [hr, hk] at h1 h2
    rcases hs1 with ⟨a, b⟩ | ⟨a, b⟩ | ⟨a, b⟩ <;> rw [b] at h1 h2 ⊢ <;> omega

theorem block_step_congr (sbwidth : Nat) (sbsplit : Int → Int) (r k r1 k1 : Nat)
    (hr : r1 / 4 = r / 4) (hk : k1 / 4 = k / 4) :
    block_step sbwidth sbsplit r1 k1 = block_step sbwidth sbsplit r k := by
  unfold block_step
  rw [hr, hk]

theorem covering_unit_idem (sbwidth : Nat) (sbsplit : Int → Int)
    (hs : ∀ idx : Int, (sbsplit idx).toNat ≤ 2) (r k : Nat) :
    covering_unit sbwidth sbsplit (covering_unit sbwidth sbsplit r k).1
        (covering_unit sbwidth sbsplit r k).2 = covering_unit sbwidth sbsplit r k
      ∧ (covering_unit sbwidth sbsplit r k).2 ≤ k := by
  have hs2 := shift_cases _ (hs (((r / 4 : Nat) : Int) * sbwidth + ((k / 4 : Nat) : Int)))
  have hst : block_step sbwidth sbsplit r k = 4 ∨ block_step sbwidth sbsplit r k = 2
      ∨ block_step sbwidth sbsplit r k = 1 := by
    unfold block_step
    rcases hs2 with ⟨_, b⟩ | ⟨_, b⟩ | ⟨_, b⟩
    · exact Or.inl b
    · exact Or.inr (Or.inl b)
    · exact Or.inr (Or.inr b)
  have hr : (r / block_step sbwidth sbsplit r k * block_step sbwidth sbsplit r k) / 4 = r / 4 := by
    rcases hst with h | h | h <;> rw [h] <;> omega
  have hk : (k / block_step sbwidth sbsplit r k * block_step sbwidth sbsplit r k) / 4 = k / 4 := by
    rcases hst with h | h | h <;> rw [h] <;> omega
  have hb : block_step sbwidth sbsplit
      (r / block_step sbwidth sbsplit r k * block_step sbwidth sbsplit r k)
      (k / block_step sbwidth sbsplit r k * block_step sbwidth sbsplit r k)
      = block_step sbwidth sbsplit r k := block_step_congr sbwidth sbsplit _ _ _ _ hr hk
  constructor
  · unfold covering_unit
    simp only [hb, Prod.mk.injEq]
    rcases hst with h | h | h <;> rw [h] <;> omega
  · unfold covering_unit
    simp only
    exact Nat.div_mul_le_self _ _

theorem is_unit_bounds (sbwidth : Nat) (sbsplit : Int → Int)
    (hs : ∀ idx : Int, (sbsplit idx).toNat ≤ 2) (u : Nat × Nat × Nat)
    (hu : is_unit sbwidth sbsplit u) : 1 ≤ u.2.2 ∧ u.1 + u.2.2 ≤ 4 * sbwidth := by
  obtain ⟨sx, sy, pp, q, hsx, hq, hp, rfl⟩ := hu
  unfold unit_at
  simp only
  rcases shift_cases _ (hs ((sy : Int) * sbwidth + sx)) with ⟨a, b⟩ | ⟨a, b⟩ | ⟨a, b⟩ <;>
    rw [a] at hp <;> rw [b] <;> omega

theorem pass_fold_inv {σ β : Type} (dec : block_decoder σ β) (sbwidth : Nat)
    (sbsplit : Int → Int) (hs : ∀ idx : Int, (sbsplit idx).toNat ≤ 2)
    (p : σ × (Int → β)) (units : List (Nat × Nat × Nat)) :
    (∀ u ∈ units, is_unit sbwidth sbsplit u) →
    ∀ r k : Nat, k < 4 * sbwidth →
      (∃ u ∈ units, covering_unit sbwidth sbsplit r k = (u.2.1, u.1)) →
      (units.foldl (fun acc u =>
          unpack_unit dec ((sbwidth : Int) * 4) (u.2.2 : Int) (u.1 : Int) (u.2.1 : Int) acc) p).2
          (block_index sbwidth r k)
        = (units.foldl (fun acc u =>
          unpack_unit dec ((sbwidth : Int) * 4) (u.2.2 : Int) (u.1 : Int) (u.2.1 : Int) acc) p).2
          (block_index sbwidth (covering_unit sbwidth sbsplit r k).1
            (covering_unit sbwidth sbsplit r k).2) := by
  induction units using List.reverseRecOn with
  | nil => intro _ r k _ h; obtain ⟨u, hu, _⟩ := h; simp at hu
  | append_singleton units u ih =>
    intro hall r k hk hex
    have hu : is_unit sbwidth sbsplit u := hall u (by simp)
    have hb := is_unit_bounds sbwidth sbsplit hs u hu
    have hidem := covering_unit_idem sbwidth sbsplit hs r k
    rw [List.foldl_append, List.foldl_cons, List.foldl_nil]
    rw [unpack_unit_spec dec _ _ _ _ (by omega), unpack_unit_spec dec _ _ _ _ (by omega)]
    have m1 := mem_unit_cells sbwidth u.1 u.2.1 u.2.2 r k hb.2 hk
    have m2 := mem_unit_cells sbwidth u.1 u.2.1 u.2.2 (covering_unit sbwidth sbsplit r k).1
      (covering_unit sbwidth sbsplit r k).2 hb.2 (by omega)
    obtain ⟨sx, sy, pp, q, hsx, hq, hp, hueq⟩ := hu
    have c1 := covering_unit_iff sbwidth sbsplit hs sx sy pp q r k hq hp
    have c2 := covering_unit_iff sbwidth sbsplit hs sx sy pp q
      (covering_unit sbwidth sbsplit r k).1 (covering_unit sbwidth sbsplit r k).2 hq hp
    rw [← hueq] at c1 c2
    rw [hidem.1] at c2
    by_cases hc : covering_unit sbwidth sbsplit r k = (u.2.1, u.1)
    · rw [if_pos (m1.2 (c1.2 hc)), if_pos (m2.2 (c2.2 hc))]
    · have n1 := fun h => hc (c1.1 (m1.1 h))
      have n2 := fun h => hc (c2.1 (m2.1 h))
      rw [if_neg n1, if_neg n2]
      apply ih (fun v hv => hall v (by simp [hv])) r k hk
      obtain ⟨v, hv, hveq⟩ := hex
      rcases List.mem_append.1 hv with h | h
      · exact ⟨v, h, hveq⟩
      · simp at h
        subst h
        exact absurd hveq hc

theorem mem_pass_units (sbwidth sbheight : Nat) (sbsplit : Int → Int) (u : Nat × Nat × Nat) :
    u ∈ pass_units sbwidth sbheight sbsplit ↔
      ∃ sy sx q pp : Nat, sy < sbheight ∧ sx < sbwidth
        ∧ q < 1 <<< (sbsplit ((sy : Int) * sbwidth + sx)).toNat
        ∧ pp < 1 <<< (sbsplit ((sy : Int) * sbwidth + sx)).toNat
        ∧ u = unit_at sbwidth sbsplit sx sy pp q := by
  unfold pass_units unit_at
  simp only [List.mem_flatMap, List.mem_map, List.mem_range]
  constructor
  · rintro ⟨sy, hsy, sx, hsx, q, hq, pp, hp, rfl⟩
    exact ⟨sy, sx, q, pp, hsy, hsx, hq, hp, rfl⟩
  · rintro ⟨sy, sx, q, pp, hsy, hsx, hq, hp, rfl⟩
    exact ⟨sy, hsy, sx, hsx, q, hq, pp, hp, rfl⟩

theorem superblock_cells_cover :
    ∀ s : Nat, s < 3 → (superblock_cells s).length = 16
      ∧ ∀ c : Nat, c < 16 → (superblock_cells s).count (c : Int) = 1 := by
  decide

theorem unpack_pass_covering {σ β : Type} (dec : block_decoder σ β) (sbwidth sbheight : Nat)
    (sbsplit : Int → Int) (hs : ∀ idx : Int, (sbsplit idx).toNat ≤ 2)
    (p : σ × (Int → β)) (r k : Nat) (hr : r < 4 * sbheight) (hk : k < 4 * sbwidth) :
    (unpack_pass dec sbwidth sbheight sbsplit p).2 (block_index sbwidth r k)
      = (unpack_pass dec sbwidth sbheight sbsplit p).2
          (block_index sbwidth (covering_unit sbwidth sbsplit r k).1
            (covering_unit sbwidth sbsplit r k).2) := by
  rw [unpack_pass_eq_foldl]
  apply pass_fold_inv dec sbwidth sbsplit hs p
  · intro u hu
    rw [mem_pass_units] at hu
    obtain ⟨sy, sx, q, pp, _, hsx, hq, hp, rfl⟩ := hu
    exact ⟨sx, sy, pp, q, hsx, hq, hp, rfl⟩
  · exact hk
  · have hsc := shift_cases _ (hs (((r / 4 : Nat) : Int) * sbwidth + ((k / 4 : Nat) : Int)))
    refine ⟨unit_at sbwidth sbsplit (k / 4) (r / 4)
      (k % 4 / block_step sbwidth sbsplit r k) (r % 4 / block_step sbwidth sbsplit r k), ?_, ?_⟩
    · rw [mem_pass_units]
      refine ⟨r / 4, k / 4, _, _, by omega, by omega, ?_, ?_, rfl⟩
      · unfold block_step
        rcases hsc with ⟨a, b⟩ | ⟨a, b⟩ | ⟨a, b⟩ <;> rw [a, b] <;> omega
      · unfold block_step
        rcases hsc with ⟨a, b⟩ | ⟨a, b⟩ | ⟨a, b⟩ <;> rw [a, b] <;> omega
    · unfold covering_unit unit_at block_step
      simp only [Prod.mk.injEq]
      rcases hsc with ⟨a, b⟩ | ⟨a, b⟩ | ⟨a, b⟩ <;> rw [b] <;> omega

/-- C12. For every split value in `{0, 1, 2}` the coded units of a
superblock, each followed by `propagate_block_data`, assign each of the 16
sub-positions of the superblock exactly once; and after a pass over the
superblocks every block entry of every superblock equals the entry of the
coded unit that covers it, the unit at the multiples of `step = 4 >> split`
below its sub-position. -/
theorem unpack_pass_replicates {σ β : Type} (dec : block_decoder σ β) (sbwidth sbheight : Nat)
    (sbsplit : Int → Int) (hs : ∀ idx : Int, 0 ≤ sbsplit idx ∧ sbsplit idx ≤ 2)
    (p : σ × (Int → β)) :
    (∀ s : Nat, s < 3 → (superblock_cells s).length = 16
        ∧ ∀ c : Nat, c < 16 → (superblock_cells s).count (c : Int) = 1)
      ∧ ∀ sx sy i j : Nat, sx < sbwidth → sy < sbheight → i < 4 → j < 4 →
          (unpack_pass dec sbwidth sbheight sbsplit p).2
              (block_index sbwidth (4 * sy + j) (4 * sx + i))
            = (unpack_pass dec sbwidth sbheight sbsplit p).2
              (block_index sbwidth
                (4 * sy + j / (4 >>> (sbsplit ((sy : Int) * sbwidth + sx)).toNat)
                  * (4 >>> (sbsplit ((sy : Int) * sbwidth + sx)).toNat))
                (4 * sx + i / (4 >>> (sbsplit ((sy : Int) * sbwidth + sx)).toNat)
                  * (4 >>> (sbsplit ((sy : Int) * sbwidth + sx)).toNat))) := by
  have hs2 : ∀ idx : Int, (sbsplit idx).toNat ≤ 2 := by
    intro idx
    have := hs idx
    omega
  refine ⟨superblock_cells_cover, ?_⟩
  intro sx sy i j hsx hsy hi hj
  rw [unpack_pass_covering dec sbwidth sbheight sbsplit hs2 p (4 * sy + j) (4 * sx + i)
    (by omega) (by omega)]
  have hr : (4 * sy + j) / 4 = sy := by omega
  have hk : (4 * sx + i) / 4 = sx := by omega
  have hst : block_step sbwidth sbsplit (4 * sy + j) (4 * sx + i)
      = 4 >>> (sbsplit ((sy : Int) * sbwidth + sx)).toNat := by
    unfold block_step
    rw [hr, hk]
  have hc : covering_unit sbwidth sbsplit (4 * sy + j) (4 * sx + i)
      = (4 * sy + j / (4 >>> (sbsplit ((sy : Int) * sbwidth + sx)).toNat)
            * (4 >>> (sbsplit ((sy : Int) * sbwidth + sx)).toNat),
         4 * sx + i / (4 >>> (sbsplit ((sy : Int) * sbwidth + sx)).toNat)
            * (4 >>> (sbsplit ((sy : Int) * sbwidth + sx)).toNat)) := by
    unfold covering_unit
    rw [hst]
    simp only [Prod.mk.injEq]
    rcases shift_cases _ (hs2 ((sy : Int) * sbwidth + sx)) with ⟨_, b⟩ | ⟨_, b⟩ | ⟨_, b⟩ <;>
      rw [b] <;> omega
  rw [hc]

set_option maxRecDepth 100000 in
theorem unpack_pass_replicates_witness :
    (unpack_pass sample_block_decoder 2 1 sample_sbsplit (0, fun _ => 0)).2
        (block_index 2 3 5)
      = (unpack_pass sample_block_decoder 2 1 sample_sbsplit (0, fun _ => 0)).2
        (block_index 2 2 4)
    ∧ (unpack_pass sample_block_decoder 2 1 sample_sbsplit (0, fun _ => 0)).2
        (block_index 2 2 4) = 4 :=
  ⟨(unpack_pass_replicates sample_block_decoder 2 1 sample_sbsplit
      (by intro idx; unfold sample_sbsplit; omega) (0, fun _ => 0)).2 1 0 1 3
      (by decide) (by decide) (by decide) (by decide), by decide⟩

/-! ## Rows of the inverse wavelet transform -/

theorem foldl_inv {α β : Type} (P : β → Prop) (f : β → α → β) :
    ∀ (l : List α) (b0 : β), (∀ b a, a ∈ l → P b → P (f b a)) → P b0 → P (l.foldl f b0) := by
  intro l
  induction l with
  | nil => intro b0 _ h0; exact h0
  | cons a l ih =>
    intro b0 h h0
    rw [List.foldl_cons]
    apply ih
    · intro b a1 ha1 hb
      exact h b a1 (List.mem_cons_of_mem a ha1) hb
    · exact h b0 a (List.mem_cons_self a l) h0

theorem rows_in_range_append (height dc : Int) (rows : List (Int × Int)) (level : Nat)
    (new : List Int) (hlev : (level : Int) < dc) (h : rows_in_range height dc rows)
    (hn : ∀ r ∈ new, 0 ≤ r ∧ r ≤ height >>> level - 1) :
    rows_in_range height dc (rows ++ new.map (fun r => (height >>> level, r))) := by
  intro p hp
  rcases List.mem_append.1 hp with h1 | h1
  · exact h p h1
  · obtain ⟨r, hr, rfl⟩ := List.mem_map.1 h1
    exact ⟨hn r hr, level, hlev, rfl⟩

theorem spatial_compose_rows_ok (type : dwt_type) (cs : DWTCompose) (hl : Int)
    (hmin : dwt_min_height type ≤ hl) (hlow : dwt_low_y type ≤ cs.y) (hy : cs.y ≤ hl) :
    ∀ r ∈ spatial_compose_rows type cs hl, 0 ≤ r ∧ r ≤ hl - 1 := by
  intro r hr
  cases type <;>
    simp only [spatial_compose_rows, spatial_compose_step, spatial_compose_dd97i_dy,
      spatial_compose_dirac53i_dy, spatial_compose_dd137i_dy, spatial_compose_haari_dy,
      spatial_compose_daub97i_dy, dwt_min_height, dwt_low_y, List.mem_cons,
      List.mem_singleton, List.not_mem_nil, or_false, mirror, extend, extend_odd] at hr hmin hlow <;>
    first
    | exact absurd hr id
    | (rcases hr with rfl | rfl <;> split_ifs <;> omega)

theorem idwt_init_rows_ok (type : dwt_type) (hl : Int) (hmin : dwt_min_height type ≤ hl) :
    (∀ r ∈ (spatial_compose_dd97i_init hl).b, type = dwt_type.DWT_DIRAC_DD9_7 →
        0 ≤ r ∧ r ≤ hl - 1)
      ∧ (∀ r ∈ (spatial_compose53i_init hl).b, type = dwt_type.DWT_DIRAC_LEGALL5_3 →
        0 ≤ r ∧ r ≤ hl - 1)
      ∧ (∀ r ∈ (spatial_compose_dd137i_init hl).b, type = dwt_type.DWT_DIRAC_DD13_7 →
        0 ≤ r ∧ r ≤ hl - 1)
      ∧ (∀ r ∈ (spatial_compose97i_init hl).b, type = dwt_type.DWT_DIRAC_DAUB9_7 →
        0 ≤ r ∧ r ≤ hl - 1) := by
  refine ⟨?_, ?_, ?_, ?_⟩ <;> intro r hr ht <;> subst ht <;>
    simp only [spatial_compose_dd97i_init, spatial_compose53i_init, spatial_compose_dd137i_init,
      spatial_compose97i_init, dwt_min_height, List.mem_cons, List.mem_singleton,
      List.not_mem_nil, or_false, mirror, extend, extend_odd] at hr hmin <;>
    rcases hr with rfl | rfl | rfl | rfl | rfl | rfl | rfl | rfl <;> split_ifs <;> omega

theorem spatial_compose_y (d : DWTContext) (level : Nat) (hl : Int) (l : Nat) :
    ((spatial_compose d level hl).cs l).y
      = if l = level then (d.cs level).y + 2 else (d.cs l).y := by
  unfold spatial_compose
  by_cases h : l = level
  · subst h
    simp only [Function.update_same, if_true]
    cases d.type <;> rfl
  · simp only [Function.update_noteq h, if_neg h]

theorem spatial_compose_inv (type : dwt_type) (height dc : Int) (d : DWTContext)
    (level : Nat) (hlev : (level : Int) < dc) (hmin : dwt_min_height type ≤ height >>> level)
    (hy : (d.cs level).y ≤ height >>> level) (h : idwt_inv type height dc d) :
    idwt_inv type height dc (spatial_compose d level (height >>> level)) := by
  obtain ⟨h1, h2, h3, h4, h5, h6⟩ := h
  refine ⟨h1, h2, h3, h4, ?_, ?_⟩
  · unfold spatial_compose
    simp only
    apply rows_in_range_append _ _ _ _ _ hlev h5
    rw [h1]
    exact spatial_compose_rows_ok type (d.cs level) _ hmin (h6 level) hy
  · intro l
    rw [spatial_compose_y]
    have := h6 l
    have := h6 level
    split_ifs <;> omega

theorem idwt_slice_while_inv (type : dwt_type) (height dc : Int) (level : Nat) (y : Int)
    (hlev : (level : Int) < dc) (hmin : dwt_min_height type ≤ height >>> level) :
    ∀ (fuel : Nat) (d : DWTContext), idwt_inv type height dc d →
      idwt_inv type height dc (idwt_slice_while level y (height >>> level) fuel d) := by
  intro fuel
  induction fuel with
  | zero => intro d h; exact h
  | succ fuel ih =>
    intro d h
    unfold idwt_slice_while
    split_ifs with hc
    · apply ih
      apply spatial_compose_inv type height dc d level hlev hmin _ h
      have := min_le_right ((y >>> level) + d.support) (height >>> level)
      omega
    · exact h

theorem idwt_slice_while_exit (level : Nat) (y hl : Int) :
    ∀ (fuel : Nat) (d : DWTContext),
      min ((y >>> level) + d.support) hl - (d.cs level).y + 2 ≤ 2 * (fuel : Int) + 1 →
      ¬ ((idwt_slice_while level y hl fuel d).cs level).y
          ≤ min ((y >>> level) + (idwt_slice_while level y hl fuel d).support) hl := by
  intro fuel
  induction fuel with
  | zero =>
    intro d h
    unfold idwt_slice_while
    push_cast at h
    omega
  | succ fuel ih =>
    intro d h
    unfold idwt_slice_while
    split_ifs with hc
    · apply ih
      rw [spatial_compose_y, if_pos rfl]
      have hs : (spatial_compose d level hl).support = d.support := rfl
      rw [hs]
      push_cast at h
      omega
    · exact hc

theorem idwt_slice_passes_enough (d : DWTContext) (level : Nat) (y hl : Int) :
    ¬ ((idwt_slice_while level y hl (idwt_slice_passes d level y hl) d).cs level).y
        ≤ min ((y >>> level) + (idwt_slice_while level y hl
            (idwt_slice_passes d level y hl) d).support) hl := by
  apply idwt_slice_while_exit
  unfold idwt_slice_passes
  omega

theorem level_height_ge (height : Int) (thr : Int) (hthr : 0 ≤ thr) (m level : Nat)
    (hle : level ≤ m) (h : thr ≤ height >>> m) : thr ≤ height >>> level := by
  rw [Int.shiftRight_eq_div_pow] at h ⊢
  have hpos : (0 : Int) < ((2 ^ m : Nat) : Int) := by positivity
  have hh : 0 ≤ height := by
    by_contra hneg
    have : height / ((2 ^ m : Nat) : Int) < 0 := Int.ediv_neg' (by omega) hpos
    omega
  obtain ⟨n, rfl⟩ := Int.eq_ofNat_of_zero_le hh
  have h1 : n / 2 ^ m ≤ n / 2 ^ level :=
    Nat.div_le_div_left (Nat.pow_le_pow_right (by decide) hle) (Nat.pow_pos (by decide))
  have h2 : ((n : Int) / ((2 ^ m : Nat) : Int)) ≤ ((n : Int) / ((2 ^ level : Nat) : Int)) := by
    exact_mod_cast h1
  omega

theorem mem_idwt_levels (dc : Int) (level : Nat) (h : level ∈ idwt_levels dc) :
    level ≤ (dc - 1).toNat ∧ (level : Int) < dc := by
  unfold idwt_levels at h
  rw [List.mem_reverse, List.mem_range] at h
  omega

theorem dwt_min_height_nonneg (type : dwt_type) : 0 ≤ dwt_min_height type := by
  cases type <;> simp [dwt_min_height]

theorem idwt_init_level_inv (type : dwt_type) (height dc : Int) (d : DWTContext) (level : Nat)
    (hlev : (level : Int) < dc) (hmin : dwt_min_height type ≤ height >>> level) (h : idwt_inv type height dc d) :
    idwt_inv type height dc (idwt_init_level type height d level) := by
  obtain ⟨h1, h2, h3, h4, h5, h6⟩ := h
  have hr := idwt_init_rows_ok type (height >>> level) hmin
  refine ⟨h1, h2, h3, h4, ?_, ?_⟩
  · unfold idwt_init_level
    simp only
    apply rows_in_range_append _ _ _ _ _ hlev h5
    intro r hrm
    cases type
    · exact hr.1 r hrm rfl
    · exact hr.2.1 r hrm rfl
    · exact hr.2.2.1 r hrm rfl
    · simp at hrm
    · simp at hrm
    · exact hr.2.2.2 r hrm rfl
  · intro l
    unfold idwt_init_level
    simp only
    by_cases hl : l = level
    · subst hl
      simp only [Function.update_same]
      cases type <;> simp [dwt_low_y, spatial_compose_dd97i_init, spatial_compose53i_init,
        spatial_compose_dd137i_init, spatial_compose97i_init]
    · simp only [Function.update_noteq hl]
      exact h6 l

theorem ff_spatial_idwt_init2_inv (type : dwt_type) (height dc : Int)
    (hmin : dwt_min_height type ≤ height >>> (dc - 1).toNat) :
    idwt_inv type height dc (ff_spatial_idwt_init2 height type dc) := by
  unfold ff_spatial_idwt_init2
  apply foldl_inv (idwt_inv type height dc)
  · intro d level hlev hd
    apply idwt_init_level_inv type height dc d level (mem_idwt_levels dc level hlev).2 _ hd
    exact level_height_ge height _ (dwt_min_height_nonneg type) _ level
      (mem_idwt_levels dc level hlev).1 hmin
  · refine ⟨rfl, rfl, rfl, rfl, ?_, ?_⟩
    · intro p hp; simp at hp
    · intro l
      cases type <;> simp [dwt_low_y]

theorem ff_spatial_idwt_slice2_inv (type : dwt_type) (height dc : Int)
    (hmin : dwt_min_height type ≤ height >>> (dc - 1).toNat) (d : DWTContext) (y : Int)
    (h : idwt_inv type height dc d) :
    idwt_inv type height dc (ff_spatial_idwt_slice2 d y) := by
  unfold ff_spatial_idwt_slice2
  rw [h.2.2.2.1]
  apply foldl_inv (idwt_inv type height dc)
  · intro d1 level hlev hd1
    rw [hd1.2.2.1]
    apply idwt_slice_while_inv type height dc level y (mem_idwt_levels dc level hlev).2 _ _ _ hd1
    exact level_height_ge height _ (dwt_min_height_nonneg type) _ level
      (mem_idwt_levels dc level hlev).1 hmin
  · exact h

theorem ff_spatial_idwt2_inv (type : dwt_type) (height dc : Int)
    (hmin : dwt_min_height type ≤ height >>> (dc - 1).toNat) :
    idwt_inv type height dc (ff_spatial_idwt2 height type dc) := by
  unfold ff_spatial_idwt2
  apply foldl_inv (idwt_inv type height dc)
  · intro d i _ hd
    exact ff_spatial_idwt_slice2_inv type height dc hmin d _ hd
  · exact ff_spatial_idwt_init2_inv type height dc hmin

/-- C17 (amended). For every supported kernel, every `decomposition_count`
of at least 1 and every height whose smallest level height
`height >> (decomposition_count - 1)` is at least 8 for Deslauriers-Dubuc
9/7, 4 for LeGall 5/3, 2 for Deslauriers-Dubuc 13/7, 6 for Daubechies 9/7
and 0 for Haar, each row that `mirror`, `extend` or `extend_odd` returns in
the init functions and in the `spatial_compose_*_dy` steps of
`ff_spatial_idwt2` lies in `[0, h_l - 1]`, with `h_l = height >> level` the
height of its level. -/
theorem ff_spatial_idwt2_rows_in_range (type : dwt_type) (height dc : Int) (_hdc : 1 ≤ dc)
    (hmin : dwt_min_height type ≤ height >>> (dc - 1).toNat) :
    ∀ p ∈ (ff_spatial_idwt2 height type dc).rows,
      (0 ≤ p.2 ∧ p.2 ≤ p.1 - 1)
        ∧ ∃ level : Nat, (level : Int) < dc ∧ p.1 = height >>> level :=
  (ff_spatial_idwt2_inv type height dc hmin).2.2.2.2.1

set_option maxRecDepth 100000 in
theorem ff_spatial_idwt2_rows_in_range_witness :
    rows_in_range 64 4 (ff_spatial_idwt2 64 dwt_type.DWT_DIRAC_DD9_7 4).rows
      ∧ (ff_spatial_idwt2 64 dwt_type.DWT_DIRAC_DD9_7 4).rows.length = 168 :=
  ⟨ff_spatial_idwt2_rows_in_range dwt_type.DWT_DIRAC_DD9_7 64 4 (by decide) (by decide),
    by decide⟩

set_option maxRecDepth 100000 in
/-- C17 (counterexample). For the Deslauriers-Dubuc 9/7 kernel, a buffer of
height 48 and 4 levels, the level 3 has the height 6, and the step
`spatial_compose_dd97i_dy` at `y = 5` computes the row
`mirror(11, 5) = -1`. -/
theorem ff_spatial_idwt2_row_below_zero :
    ((6 : Int), (-1 : Int)) ∈ (ff_spatial_idwt2 48 dwt_type.DWT_DIRAC_DD9_7 4).rows
      ∧ (48 : Int) >>> 3 = 6 := by
  decide

/-! ## MMX dequantisers -/

set_option maxRecDepth 100000 in
/-- C18 (divergence). An intra block without adaptive intra coding at
`qscale` 16 (`qmul` 32, `qadd` 15) holds the level -2048 at the indices 1
and 8 and the level 3 at the index 9. The scalar loop replaces the level at
the index 1 by `-2048*32 - 15`, which is -15 in 16 bits (the word 65521);
the `asm` loop turns the same level at the index 8 into 0, since it takes a
coefficient for zero when `level*qmul` is 0 in 16 bits; the level 3 becomes
`3*32 + 15 = 111`. -/
theorem dct_unquantize_h263_mmx_drops_level :
    s16 (sample_h263_block 1) = -2048 ∧ s16 (sample_h263_block 8) = -2048
      ∧ to_u16 (-2048 * 32 - 15) = 65521
      ∧ dct_unquantize_h263_mmx (fun _ => 64) sample_h263_context sample_h263_block 0 16 1
          = 65521
      ∧ dct_unquantize_h263_mmx (fun _ => 64) sample_h263_context sample_h263_block 0 16 8 = 0
      ∧ dct_unquantize_h263_mmx (fun _ => 64) sample_h263_context sample_h263_block 0 16 9
          = 111 := by
  decide

theorem testBit_mmx_word (r i j : Nat) :
    (mmx_word r i).testBit j = (decide (j < 16) && r.testBit (16 * i + j)) := by
  unfold mmx_word
  have : (65536 : Nat) = 2 ^ 16 := by norm_num
  rw [this, Nat.testBit_mod_two_pow, Nat.testBit_shiftRight]

theorem mmx_word_lt (r i : Nat) : mmx_word r i < 65536 := by
  unfold mmx_word
  exact Nat.mod_lt _ (by norm_num)

theorem mmx_word_pack (w0 w1 w2 w3 : Nat) :
    mmx_word (mmx_pack w0 w1 w2 w3) 0 = w0 % 65536
      ∧ mmx_word (mmx_pack w0 w1 w2 w3) 1 = w1 % 65536
      ∧ mmx_word (mmx_pack w0 w1 w2 w3) 2 = w2 % 65536
      ∧ mmx_word (mmx_pack w0 w1 w2 w3) 3 = w3 % 65536 := by
  unfold mmx_word mmx_pack
  simp only [Nat.shiftRight_eq_div_pow]
  refine ⟨?_, ?_, ?_, ?_⟩ <;> norm_num <;> omega

theorem fold_bit_words (q : Nat) :
    fold_bit q = Bool.xor (Bool.xor (Bool.xor ((mmx_word q 0).testBit 0)
      ((mmx_word q 1).testBit 0)) ((mmx_word q 2).testBit 0)) ((mmx_word q 3).testBit 0) := by
  unfold fold_bit
  simp only [testBit_mmx_word]
  rfl

theorem fold_bit_xor (a b : Nat) : fold_bit (a ^^^ b) = Bool.xor (fold_bit a) (fold_bit b) := by
  unfold fold_bit
  simp only [Nat.testBit_xor]
  cases a.testBit 0 <;> cases a.testBit 16 <;> cases a.testBit 32 <;> cases a.testBit 48 <;>
    cases b.testBit 0 <;> cases b.testBit 16 <;> cases b.testBit 32 <;> cases b.testBit 48 <;>
    rfl

theorem movq_store_pair (mem : Int → Nat) (c : Int) (r1 r2 : Nat) (k : Int) :
    movq_store (movq_store mem (2 * c) r1) (8 + 2 * c) r2 k =
      if k = c then mmx_word r1 0 else if k = c + 1 then mmx_word r1 1
      else if k = c + 2 then mmx_word r1 2 else if k = c + 3 then mmx_word r1 3
      else if k = c + 4 then mmx_word r2 0 else if k = c + 5 then mmx_word r2 1
      else if k = c + 6 then mmx_word r2 2 else if k = c + 7 then mmx_word r2 3
      else mem k := by
  unfold movq_store
  have h1 : 2 * c / 2 = c := by omega
  have h2 : (8 + 2 * c) / 2 = c + 4 := by omega
  rw [h1, h2]
  have hcase : k = c ∨ k = c + 1 ∨ k = c + 2 ∨ k = c + 3 ∨ k = c + 4 ∨ k = c + 5 ∨ k = c + 6
      ∨ k = c + 7 ∨ (k < c ∨ c + 8 ≤ k) := by omega
  rcases hcase with h | h | h | h | h | h | h | h | h
  · subst h; simp [add_assoc]
  · subst h; simp [add_assoc]
  · subst h; simp [add_assoc]
  · subst h; simp [add_assoc]
  · subst h; simp [add_assoc]
  · subst h; simp [add_assoc]
  · subst h; simp [add_assoc]
  · subst h; simp [add_assoc]
  · have n0 : k ≠ c := by omega
    have n1 : k ≠ c + 1 := by omega
    have n2 : k ≠ c + 2 := by omega
    have n3 : k ≠ c + 3 := by omega
    have n4 : k ≠ c + 4 := by omega
    have n5 : k ≠ c + 4 + 1 := by omega
    have n6 : k ≠ c + 4 + 2 := by omega
    have n7 : k ≠ c + 4 + 3 := by omega
    have m5 : k ≠ c + 5 := by omega
    have m6 : k ≠ c + 6 := by omega
    have m7 : k ≠ c + 7 := by omega
    simp only [n0, n1, n2, n3, n4, n5, n6, n7, m5, m6, m7, if_false]

theorem low_bits_xor_congr (m1 m2 : Int → Nat) (start : Int) :
    ∀ n : Nat, (∀ k : Int, start ≤ k → k < start + n → m1 k = m2 k) →
      low_bits_xor m1 start n = low_bits_xor m2 start n := by
  intro n
  induction n with
  | zero => intro _; rfl
  | succ n ih =>
    intro h
    unfold low_bits_xor
    rw [ih (fun k h1 h2 => h k h1 (by push_cast; omega)), h (start + n) (by omega)
      (by push_cast; omega)]

theorem low_bits_xor_add (m : Int → Nat) (start : Int) (a : Nat) :
    ∀ b : Nat, low_bits_xor m start (a + b)
      = Bool.xor (low_bits_xor m start a) (low_bits_xor m (start + a) b) := by
  intro b
  induction b with
  | zero => simp [low_bits_xor]
  | succ b ih =>
    have e : start + ((a + b : Nat) : Int) = start + (a : Int) + (b : Int) := by
      push_cast; omega
    rw [← Nat.add_assoc]
    simp only [low_bits_xor, ih, Bool.xor_assoc, e]

theorem low_bits_xor_zero (m : Int → Nat) (start : Int) :
    ∀ n : Nat, (∀ k : Int, start ≤ k → k < start + n → m k = 0) →
      low_bits_xor m start n = false := by
  intro n
  induction n with
  | zero => intro _; rfl
  | succ n ih =>
    intro h
    unfold low_bits_xor
    rw [ih (fun k h1 h2 => h k h1 (by push_cast; omega)), h (start + n) (by omega)
      (by push_cast; omega)]
    rfl

theorem mpeg2_inter_asm_body_spec (mm6 : Nat) (quant_matrix : Int → Nat) (base eax c : Int)
    (hc : base + eax = 2 * c) (st : Nat × (Int → Nat)) :
    (∀ k : Int, (k < c ∨ c + 8 ≤ k) →
        (mpeg2_inter_asm_body mm6 quant_matrix base eax st).2 k = st.2 k)
      ∧ (∀ k : Int, c ≤ k → k < c + 8 →
        (mpeg2_inter_asm_body mm6 quant_matrix base eax st).2 k < 65536)
      ∧ fold_bit (mpeg2_inter_asm_body mm6 quant_matrix base eax st).1
        = Bool.xor (fold_bit st.1)
            (low_bits_xor (mpeg2_inter_asm_body mm6 quant_matrix base eax st).2 c 8) := by
  unfold mpeg2_inter_asm_body
  simp only
  generalize mpeg2_inter_asm_words mm6 quant_matrix base eax st.2 = r
  have e1 : 8 + base + eax = 8 + 2 * c := by omega
  rw [hc, e1]
  refine ⟨?_, ?_, ?_⟩
  · intro k hk
    rw [movq_store_pair]
    split_ifs <;> first | rfl | omega
  · intro k h1 h2
    rw [movq_store_pair]
    split_ifs <;> first | exact mmx_word_lt _ _ | omega
  · simp only [low_bits_xor, movq_store_pair, pxor, fold_bit_xor]
    rw [fold_bit_words r.1, fold_bit_words r.2]
    have i0 : c + ((0 : Nat) : Int) = c := by simp
    simp only [i0]
    norm_num

theorem asm_loop_passes_pos (index : Int) : 1 ≤ asm_loop_passes index := by
  unfold asm_loop_passes
  exact le_max_left _ _

theorem asm_loop_passes_step (index : Int) (h : index + 16 < 0) :
    asm_loop_passes index = asm_loop_passes (index + 16) + 1 := by
  unfold asm_loop_passes
  have h1 : (15 - index) / 16 = (15 - (index + 16)) / 16 + 1 := by omega
  have h2 : 1 ≤ (15 - (index + 16)) / 16 := by omega
  rw [h1]
  have h3 : ((15 - (index + 16)) / 16 + 1).toNat = ((15 - (index + 16)) / 16).toNat + 1 := by
    omega
  rw [h3]
  have h4 : 1 ≤ ((15 - (index + 16)) / 16).toNat := by omega
  rw [max_eq_right (by omega), max_eq_right h4]

theorem asm_loop_passes_last (index : Int) (h : ¬ index + 16 < 0) (h0 : index ≤ 0) :
    asm_loop_passes index = 1 := by
  unfold asm_loop_passes
  have h1 : ((15 - index) / 16).toNat ≤ 1 := by omega
  exact max_eq_left h1

theorem mpeg2_inter_asm_loop_spec (mm6 : Nat) (quant_matrix : Int → Nat) (base : Int) :
    ∀ (fuel : Nat) (index c : Int) (st : Nat × (Int → Nat)),
      fuel = asm_loop_passes index → index ≤ 0 → base + index = 2 * c →
      (∀ k : Int, (k < c ∨ c + 8 * (fuel : Int) ≤ k) →
          (asm_loop (mpeg2_inter_asm_body mm6 quant_matrix base) fuel index st).2 k = st.2 k)
        ∧ (∀ k : Int, c ≤ k → k < c + 8 * (fuel : Int) →
          (asm_loop (mpeg2_inter_asm_body mm6 quant_matrix base) fuel index st).2 k < 65536)
        ∧ fold_bit (asm_loop (mpeg2_inter_asm_body mm6 quant_matrix base) fuel index st).1
          = Bool.xor (fold_bit st.1)
              (low_bits_xor (asm_loop (mpeg2_inter_asm_body mm6 quant_matrix base) fuel index st).2
                c (8 * fuel)) := by
  intro fuel
  induction fuel with
  | zero =>
    intro index c st hf _ _
    have := asm_loop_passes_pos index
    omega
  | succ fuel ih =>
    intro index c st hf h0 hc
    have hb := mpeg2_inter_asm_body_spec mm6 quant_matrix base index c hc st
    unfold asm_loop
    by_cases hneg : index + 16 < 0
    · rw [if_pos hneg]
      have hf1 : fuel = asm_loop_passes (index + 16) := by
        rw [asm_loop_passes_step index hneg] at hf
        omega
      have hi := ih (index + 16) (c + 8) (mpeg2_inter_asm_body mm6 quant_matrix base index st)
        hf1 (by omega) (by omega)
      obtain ⟨i1, i2, i3⟩ := hi
      obtain ⟨b1, b2, b3⟩ := hb
      refine ⟨?_, ?_, ?_⟩
      · intro k hk
        rw [i1 k (by push_cast at hk; omega), b1 k (by push_cast at hk; omega)]
      · intro k hk1 hk2
        by_cases hk : k < c + 8
        · rw [i1 k (Or.inl hk)]
          exact b2 k hk1 hk
        · exact i2 k (by omega) (by push_cast at hk2; omega)
      · rw [i3, b3]
        have e8 : 8 * (fuel + 1) = 8 + 8 * fuel := by omega
        rw [e8, low_bits_xor_add, Bool.xor_assoc]
        congr 2
        · apply low_bits_xor_congr
          intro k hk1 hk2
          exact (i1 k (Or.inl (by push_cast at hk2; omega))).symm
    · rw [if_neg hneg]
      have hf1 : fuel = 0 := by
        rw [asm_loop_passes_last index hneg h0] at hf
        omega
      subst hf1
      obtain ⟨b1, b2, b3⟩ := hb
      exact ⟨fun k hk => b1 k (by push_cast at hk; omega),
        fun k hk1 hk2 => b2 k hk1 (by push_cast at hk2; omega), b3⟩

theorem testBit_of_lt_65536 (x j : Nat) (hx : x < 65536) (hj : 16 ≤ j) : x.testBit j = false := by
  apply Nat.testBit_lt_two_pow
  calc x < 2 ^ 16 := by norm_num; exact hx
    _ ≤ 2 ^ j := Nat.pow_le_pow_right (by decide) hj

theorem testBit_add_mul (n a b k : Nat) (ha : a < 2 ^ n) :
    (a + 2 ^ n * b).testBit k = if k < n then a.testBit k else b.testBit (k - n) := by
  rw [Nat.add_comm]
  exact Nat.testBit_mul_pow_two_add b ha k

theorem pslld_31_testBit (t k : Nat) (hk : k < 63) :
    (pslld 31 t).testBit k = (decide (k = 31) && t.testBit 0) := by
  unfold pslld mmx_dword
  have p32 : (4294967296 : Nat) = 2 ^ 32 := by norm_num
  rw [p32, testBit_add_mul 32 _ _ k (Nat.mod_lt _ (by norm_num))]
  split_ifs with h
  · rw [Nat.testBit_mod_two_pow, Nat.testBit_shiftLeft, Nat.testBit_mod_two_pow,
      Nat.testBit_shiftRight]
    by_cases h31 : k = 31
    · subst h31; simp
    · have : ¬ k ≥ 31 := by omega
      simp [this, h31]
  · rw [Nat.testBit_mod_two_pow, Nat.testBit_shiftLeft]
    have : ¬ k - 32 ≥ 31 := by omega
    have h31 : ¬ k = 31 := by omega
    simp [this, h31]

theorem parity_tail_testBit (q j : Nat) (hj : j < 32) :
    (psrlq 15 (pslld 31 (pxor (pxor q (psrlq 32 q)) (psrlq 16 (pxor q (psrlq 32 q)))))).testBit j
      = (decide (j = 16) && fold_bit q) := by
  unfold psrlq
  rw [Nat.testBit_shiftRight, pslld_31_testBit _ _ (by omega)]
  unfold pxor fold_bit
  by_cases h16 : j = 16
  · subst h16
    simp only [Nat.testBit_shiftRight, Nat.testBit_xor]
    norm_num
    generalize decide (q % 2 = 1) = b0
    cases b0 <;> cases q.testBit 16 <;> cases q.testBit 32 <;> cases q.testBit 48 <;> rfl
  · have : ¬ 15 + j = 31 := by omega
    simp [this, h16]

theorem mpeg2_inter_asm_tail_spec (st : Nat × (Int → Nat)) (h62 : st.2 62 < 65536)
    (h63 : st.2 63 < 65536) (k : Int) :
    mpeg2_inter_asm_tail 124 st k
      = if k = 63 then st.2 63 ^^^ (if fold_bit st.1 then 1 else 0) else st.2 k := by
  unfold mpeg2_inter_asm_tail movd_store movd_load
  have a : (124 : Int) / 2 = 62 := by norm_num
  have a1 : (62 : Int) + 1 = 63 := by norm_num
  rw [a, a1]
  have p16 : (65536 : Nat) = 2 ^ 16 := by norm_num
  have m62 : st.2 62 % 65536 = st.2 62 := Nat.mod_eq_of_lt h62
  have m63 : st.2 63 % 65536 = st.2 63 := Nat.mod_eq_of_lt h63
  rw [m62, m63]
  by_cases k62 : k = 62
  · subst k62
    rw [if_pos rfl, if_neg (by norm_num)]
    apply Nat.eq_of_testBit_eq
    intro j
    rw [testBit_mmx_word]
    by_cases hj : j < 16
    · have ht := parity_tail_testBit st.1 (16 * 0 + j) (by omega)
      generalize (psrlq 15 (pslld 31 (pxor (pxor st.1 (psrlq 32 st.1))
        (psrlq 16 (pxor st.1 (psrlq 32 st.1)))))) = T at ht ⊢
      unfold pxor
      rw [Nat.testBit_xor, ht, p16, testBit_add_mul 16 _ _ _ (by rw [← p16]; exact h62)]
      have e : 16 * 0 + j = j := by omega
      have n16 : ¬ j = 16 := by omega
      simp [e, hj, n16]
    · rw [testBit_of_lt_65536 _ _ h62 (by omega)]
      simp [hj]
  · rw [if_neg k62]
    by_cases k63 : k = 63
    · subst k63
      rw [if_pos rfl, if_pos rfl]
      apply Nat.eq_of_testBit_eq
      intro j
      rw [testBit_mmx_word]
      by_cases hj : j < 16
      · have ht := parity_tail_testBit st.1 (16 * 1 + j) (by omega)
        generalize (psrlq 15 (pslld 31 (pxor (pxor st.1 (psrlq 32 st.1))
          (psrlq 16 (pxor st.1 (psrlq 32 st.1)))))) = T at ht ⊢
        unfold pxor
        rw [Nat.testBit_xor, Nat.testBit_xor, ht, p16,
          testBit_add_mul 16 _ _ _ (by rw [← p16]; exact h62)]
        have e : 16 * 1 + j - 16 = j := by omega
        have n16 : ¬ 16 * 1 + j < 16 := by omega
        rw [if_neg n16, e]
        by_cases j0 : j = 0
        · subst j0
          cases fold_bit st.1 <;> simp
        · have : ¬ 16 * 1 + j = 16 := by omega
          have hb : (if fold_bit st.1 = true then 1 else 0 : Nat).testBit j = false := by
            apply Nat.testBit_lt_two_pow
            have : (2 : Nat) ^ 1 ≤ 2 ^ j := Nat.pow_le_pow_right (by decide) (by omega)
            split_ifs <;> omega
          simp [this, hj, hb]
      · have hb : (st.2 63 ^^^ (if fold_bit st.1 = true then 1 else 0 : Nat)).testBit j = false := by
          rw [Nat.testBit_xor, testBit_of_lt_65536 _ _ h63 (by omega)]
          have : ((if fold_bit st.1 = true then 1 else 0 : Nat)).testBit j = false := by
            apply Nat.testBit_lt_two_pow
            have : (2 : Nat) ^ 1 ≤ 2 ^ j := Nat.pow_le_pow_right (by decide) (by omega)
            split_ifs <;> omega
          rw [this]
          rfl
        rw [hb]
        simp [hj]
    · rw [if_neg k63, if_neg k63]

theorem xor_bit_div_two (x : Nat) (b : Bool) : (x ^^^ (if b = true then 1 else 0)) / 2 = x / 2 := by
  cases b
  · simp
  · apply Nat.eq_of_testBit_eq
    intro j
    rw [← Nat.testBit_succ, ← Nat.testBit_succ, Nat.testBit_xor]
    have : (if true = true then 1 else 0 : Nat).testBit (j + 1) = false := by
      apply Nat.testBit_lt_two_pow
      have : (2 : Nat) ^ 1 ≤ 2 ^ (j + 1) := Nat.pow_le_pow_right (by decide) (by omega)
      simp only [if_true]
      omega
    rw [this]
    simp

theorem xor_bit_testBit_zero (x : Nat) (b : Bool) :
    (x ^^^ (if b = true then 1 else 0)).testBit 0 = Bool.xor (x.testBit 0) b := by
  rw [Nat.testBit_xor]
  cases b <;> simp

theorem mpeg2_emitted_bounds (nCoeffs : Int) (h0 : 0 ≤ nCoeffs) (h64 : nCoeffs ≤ 64) :
    wrap_int (-2 * nCoeffs) = -2 * nCoeffs ∧ nCoeffs ≤ (mpeg2_emitted nCoeffs : Int)
      ∧ mpeg2_emitted nCoeffs ≤ 64 := by
  have hw : wrap_int (-2 * nCoeffs) = -2 * nCoeffs := wrap_int_eq _ (by omega) (by omega)
  unfold mpeg2_emitted asm_loop_passes
  rw [hw]
  refine ⟨rfl, ?_, ?_⟩
  · rcases le_total 1 ((15 - -2 * nCoeffs) / 16).toNat with h | h
    · rw [max_eq_right h]; omega
    · rw [max_eq_left h]; omega
  · rcases le_total 1 ((15 - -2 * nCoeffs) / 16).toNat with h | h
    · rw [max_eq_right h]; omega
    · rw [max_eq_left h]; omega

/-- The block of `dct_unquantize_mpeg2_mmx` on a non-intra block: the
block stored by the loop with the low bit of the coefficient 63 changed
when the XOR of the low bits of the stored coefficients is 0. -/
theorem dct_unquantize_mpeg2_mmx_inter (zigzag_end : Int → Int) (s : MpegEncContext)
    (block : Int → Nat) (n qscale : Int) (hinter : s.mb_intra = 0)
    (hn : 0 ≤ mpeg2_nCoeffs zigzag_end s n ∧ mpeg2_nCoeffs zigzag_end s n ≤ 64)
    (hw : ∀ k : Int, block k < 65536) :
    (∀ k : Int, dct_unquantize_mpeg2_mmx zigzag_end s block n qscale k
        = if k = 63 then
            (mpeg2_inter_asm_loop block s.non_intra_matrix (mpeg2_nCoeffs zigzag_end s n) qscale).2 63
              ^^^ (if (!low_bits_xor (mpeg2_inter_asm_loop block s.non_intra_matrix
                    (mpeg2_nCoeffs zigzag_end s n) qscale).2 0
                    (mpeg2_emitted (mpeg2_nCoeffs zigzag_end s n))) = true then 1 else 0)
          else (mpeg2_inter_asm_loop block s.non_intra_matrix
            (mpeg2_nCoeffs zigzag_end s n) qscale).2 k)
      ∧ (∀ k : Int, (k < 0 ∨ (mpeg2_emitted (mpeg2_nCoeffs zigzag_end s n) : Int) ≤ k) →
          (mpeg2_inter_asm_loop block s.non_intra_matrix
            (mpeg2_nCoeffs zigzag_end s n) qscale).2 k = block k) := by
  obtain ⟨hb1, hb2, hb3⟩ := mpeg2_emitted_bounds _ hn.1 hn.2
  have hloop := mpeg2_inter_asm_loop_spec (mpeg2_asm_qscale qscale) s.non_intra_matrix
    (2 * mpeg2_nCoeffs zigzag_end s n)
    (asm_loop_passes (wrap_int (-2 * mpeg2_nCoeffs zigzag_end s n)))
    (wrap_int (-2 * mpeg2_nCoeffs zigzag_end s n)) 0 (psrlq 48 (pcmpeqw 0 0), block) rfl
    (by rw [hb1]; omega) (by rw [hb1]; omega)
  obtain ⟨i1, i2, i3⟩ := hloop
  have hL : ∀ k : Int, (mpeg2_inter_asm_loop block s.non_intra_matrix
      (mpeg2_nCoeffs zigzag_end s n) qscale).2 k < 65536 := by
    intro k
    unfold mpeg2_inter_asm_loop
    by_cases hk : 0 ≤ k ∧ k < 0 + 8 * (asm_loop_passes
        (wrap_int (-2 * mpeg2_nCoeffs zigzag_end s n)) : Int)
    · exact i2 k hk.1 hk.2
    · rw [i1 k (by omega)]
      exact hw k
  have hinit : fold_bit (psrlq 48 (pcmpeqw 0 0)) = true := by decide
  constructor
  · intro k
    unfold dct_unquantize_mpeg2_mmx
    have hm : ¬ s.mb_intra ≠ 0 := by simp [hinter]
    simp only [if_neg hm]
    have ha : 124 + 2 * (if s.alternate_scan ≠ 0 then 64 else zigzag_end (s.block_last_index n))
        + wrap_int (-2 * (if s.alternate_scan ≠ 0 then 64
          else zigzag_end (s.block_last_index n))) = 124 := by
      have := hb1
      unfold mpeg2_nCoeffs at this
      rw [this]
      omega
    rw [ha]
    have ht := mpeg2_inter_asm_tail_spec (mpeg2_inter_asm_loop block s.non_intra_matrix
      (mpeg2_nCoeffs zigzag_end s n) qscale) (hL 62) (hL 63) k
    have hf : fold_bit (mpeg2_inter_asm_loop block s.non_intra_matrix
        (mpeg2_nCoeffs zigzag_end s n) qscale).1
        = !low_bits_xor (mpeg2_inter_asm_loop block s.non_intra_matrix
          (mpeg2_nCoeffs zigzag_end s n) qscale).2 0
          (mpeg2_emitted (mpeg2_nCoeffs zigzag_end s n)) := by
      unfold mpeg2_inter_asm_loop mpeg2_emitted
      simp only
      rw [i3, hinit]
      simp
    rw [hf] at ht
    exact ht
  · intro k hk
    unfold mpeg2_inter_asm_loop
    apply i1 k
    unfold mpeg2_emitted at hk
    push_cast at hk
    omega

theorem low_bits_xor_succ (m : Int → Nat) (start : Int) (n : Nat) :
    low_bits_xor m start (n + 1)
      = Bool.xor (low_bits_xor m start n) ((m (start + (n : Int))).testBit 0) := rfl

theorem mmx_word_lanes (f : Nat → Nat → Nat) (src dst i : Nat) (hi : i < 4) :
    mmx_word (mmx_lanes f src dst) i = f (mmx_word dst i) (mmx_word src i) % 65536 := by
  unfold mmx_lanes
  have h := mmx_word_pack (f (mmx_word dst 0) (mmx_word src 0)) (f (mmx_word dst 1) (mmx_word src 1))
    (f (mmx_word dst 2) (mmx_word src 2)) (f (mmx_word dst 3) (mmx_word src 3))
  interval_cases i
  · exact h.1
  · exact h.2.1
  · exact h.2.2.1
  · exact h.2.2.2

theorem mmx_word_pxor (a b i : Nat) :
    mmx_word (pxor a b) i = mmx_word b i ^^^ mmx_word a i := by
  apply Nat.eq_of_testBit_eq
  intro j
  unfold pxor
  rw [Nat.testBit_xor, testBit_mmx_word, testBit_mmx_word, testBit_mmx_word, Nat.testBit_xor]
  by_cases hj : j < 16 <;> simp [hj]

theorem mmx_word_pandn (s d i : Nat) (hi : i < 4) :
    mmx_word (pandn s d) i = (mmx_word d i ^^^ 65535) &&& mmx_word s i := by
  apply Nat.eq_of_testBit_eq
  intro j
  unfold pandn
  have e64 : (18446744073709551615 : Nat) = 2 ^ 64 - 1 := by norm_num
  have e16 : (65535 : Nat) = 2 ^ 16 - 1 := by norm_num
  rw [Nat.testBit_and, testBit_mmx_word, Nat.testBit_and, Nat.testBit_xor, Nat.testBit_xor,
    testBit_mmx_word, testBit_mmx_word, e64, e16, Nat.testBit_two_pow_sub_one,
    Nat.testBit_two_pow_sub_one]
  by_cases hj : j < 16
  · have : 16 * i + j < 64 := by omega
    simp [hj, this]
  · simp [hj]

theorem mmx_word_movq_load (mem : Int → Nat) (addr : Int) (i : Nat) (hi : i < 4) :
    mmx_word (movq_load mem addr) i = mem (addr / 2 + (i : Int)) % 65536 := by
  unfold movq_load
  have h := mmx_word_pack (mem (addr / 2)) (mem (addr / 2 + 1)) (mem (addr / 2 + 2))
    (mem (addr / 2 + 3))
  interval_cases i
  · simpa using h.1
  · simpa using h.2.1
  · simpa using h.2.2.1
  · simpa using h.2.2.2

theorem mmx_word_zero (i : Nat) : mmx_word 0 i = 0 := by
  unfold mmx_word
  simp

theorem mpeg2_inter_asm_words_lane (mm6 : Nat) (quant_matrix : Int → Nat) (base eax c : Int)
    (hc : base + eax = 2 * c) (block : Int → Nat) (i : Nat) (hi : i < 4) :
    mmx_word (mpeg2_inter_asm_words mm6 quant_matrix base eax block).1 i
        = mpeg2_inter_coeff (mmx_word mm6 i) (block (c + (i : Int))) (quant_matrix (c + (i : Int)))
      ∧ mmx_word (mpeg2_inter_asm_words mm6 quant_matrix base eax block).2 i
        = mpeg2_inter_coeff (mmx_word mm6 i) (block (c + 4 + (i : Int)))
            (quant_matrix (c + 4 + (i : Int))) := by
  have e1 : 8 + base + eax = 2 * (c + 4) := by omega
  have d1 : (2 * c) / 2 = c := by omega
  have d2 : (2 * (c + 4)) / 2 = c + 4 := by omega
  have m : ∀ (p : Prop) [Decidable p],
      (if p then 65535 else 0) % 65536 = if p then 65535 else 0 := by
    intro p _
    split_ifs <;> rfl
  unfold mpeg2_inter_asm_words mpeg2_inter_coeff
  simp only [hc, e1, paddw, psubw, pmullw, pcmpgtw, pcmpeqw, psrlw]
  simp only [mmx_word_pandn _ _ _ hi, mmx_word_lanes _ _ _ _ hi, mmx_word_pxor,
    mmx_word_movq_load _ _ _ hi, mmx_word_zero, d1, d2, Nat.mod_mod, Nat.xor_self, m]
  constructor <;> trivial

theorem mpeg2_inter_coeff_zero (q quant : Nat) : mpeg2_inter_coeff q 0 quant = 0 := by
  unfold mpeg2_inter_coeff
  simp

theorem mmx_dword_pack (a b c d : Nat) :
    mmx_dword (mmx_pack a b c d) 0 = a % 65536 + 65536 * (b % 65536)
      ∧ mmx_dword (mmx_pack a b c d) 1 = c % 65536 + 65536 * (d % 65536) := by
  unfold mmx_dword mmx_pack
  simp only [Nat.shiftRight_eq_div_pow]
  constructor <;> norm_num <;> omega

theorem sat16_lt (d : Nat) (hd : d < 4294967296) : sat16 d < 65536 := by
  unfold sat16
  split_ifs <;> omega

theorem mpeg2_asm_qscale_words (qscale : Int) (i : Nat) (hi : i < 4) :
    mmx_word (mpeg2_asm_qscale qscale) i = mpeg2_qscale_word qscale := by
  unfold mpeg2_qscale_word mpeg2_asm_qscale packssdw
  simp only [mmx_dword_pack]
  generalize sat16 (mmx_dword (movd qscale) 0) = a
  generalize sat16 (mmx_dword (movd qscale) 1) = b
  have h := mmx_word_pack (sat16 (a % 65536 + 65536 * (b % 65536)))
    (sat16 (a % 65536 + 65536 * (b % 65536))) (sat16 (a % 65536 + 65536 * (b % 65536)))
    (sat16 (a % 65536 + 65536 * (b % 65536)))
  interval_cases i
  · rfl
  · rw [h.2.1, h.1]
  · rw [h.2.2.1, h.1]
  · rw [h.2.2.2, h.1]

theorem mpeg2_inter_asm_body_coeff (mm6 q : Nat) (hq : ∀ i : Nat, i < 4 → mmx_word mm6 i = q)
    (quant_matrix : Int → Nat) (base eax c : Int) (hc : base + eax = 2 * c)
    (st : Nat × (Int → Nat)) (k : Int) (h1 : c ≤ k) (h2 : k < c + 8) :
    (mpeg2_inter_asm_body mm6 quant_matrix base eax st).2 k
      = mpeg2_inter_coeff q (st.2 k) (quant_matrix k) := by
  have l0 := mpeg2_inter_asm_words_lane mm6 quant_matrix base eax c hc st.2 0 (by omega)
  have l1 := mpeg2_inter_asm_words_lane mm6 quant_matrix base eax c hc st.2 1 (by omega)
  have l2 := mpeg2_inter_asm_words_lane mm6 quant_matrix base eax c hc st.2 2 (by omega)
  have l3 := mpeg2_inter_asm_words_lane mm6 quant_matrix base eax c hc st.2 3 (by omega)
  rw [hq 0 (by omega)] at l0
  rw [hq 1 (by omega)] at l1
  rw [hq 2 (by omega)] at l2
  rw [hq 3 (by omega)] at l3
  unfold mpeg2_inter_asm_body
  simp only
  have e1 : 8 + base + eax = 8 + 2 * c := by omega
  rw [hc, e1, movq_store_pair]
  have hcase : k = c ∨ k = c + 1 ∨ k = c + 2 ∨ k = c + 3 ∨ k = c + 4 ∨ k = c + 5 ∨ k = c + 6
      ∨ k = c + 7 := by omega
  rcases hcase with h | h | h | h | h | h | h | h <;> subst h
  · simpa using l0.1
  · simpa using l1.1
  · simpa using l2.1
  · simpa using l3.1
  · simpa [add_assoc] using l0.2
  · simpa [add_assoc] using l1.2
  · simpa [add_assoc] using l2.2
  · simpa [add_assoc] using l3.2

theorem mpeg2_inter_asm_loop_coeff (mm6 q : Nat) (hq : ∀ i : Nat, i < 4 → mmx_word mm6 i = q)
    (quant_matrix : Int → Nat) (base : Int) :
    ∀ (fuel : Nat) (index c : Int) (st : Nat × (Int → Nat)),
      fuel = asm_loop_passes index → index ≤ 0 → base + index = 2 * c →
      ∀ k : Int, c ≤ k → k < c + 8 * (fuel : Int) →
        (asm_loop (mpeg2_inter_asm_body mm6 quant_matrix base) fuel index st).2 k
          = mpeg2_inter_coeff q (st.2 k) (quant_matrix k) := by
  intro fuel
  induction fuel with
  | zero =>
    intro index c st hf _ _
    have := asm_loop_passes_pos index
    omega
  | succ fuel ih =>
    intro index c st hf h0 hc k hk1 hk2
    have hb := mpeg2_inter_asm_body_spec mm6 quant_matrix base index c hc st
    unfold asm_loop
    by_cases hneg : index + 16 < 0
    · rw [if_pos hneg]
      have hf1 : fuel = asm_loop_passes (index + 16) := by
        rw [asm_loop_passes_step index hneg] at hf
        omega
      have hc1 : base + (index + 16) = 2 * (c + 8) := by omega
      have hs := mpeg2_inter_asm_loop_spec mm6 quant_matrix base fuel (index + 16) (c + 8)
        (mpeg2_inter_asm_body mm6 quant_matrix base index st) hf1 (by omega) hc1
      by_cases hk : k < c + 8
      · rw [hs.1 k (Or.inl hk)]
        exact mpeg2_inter_asm_body_coeff mm6 q hq quant_matrix base index c hc st k hk1 hk
      · rw [ih (index + 16) (c + 8) _ hf1 (by omega) hc1 k (by omega) (by push_cast at hk2; omega),
          hb.1 k (Or.inr (by omega))]
    · rw [if_neg hneg]
      have hl := asm_loop_passes_last index hneg h0
      have hf0 : fuel = 0 := by omega
      subst hf0
      exact mpeg2_inter_asm_body_coeff mm6 q hq quant_matrix base index c hc st k hk1
        (by push_cast at hk2; omega)

/-- The block stored by the loop of the non-intra branch of
`dct_unquantize_mpeg2_mmx`: each of the 64 coefficients is the
dequantisation `mpeg2_inter_coeff` of its level, when the levels from
`nCoeffs` on are zero. -/
theorem mpeg2_inter_asm_loop_coeffs (block quant_matrix : Int → Nat) (nCoeffs qscale : Int)
    (hn : 0 ≤ nCoeffs ∧ nCoeffs ≤ 64)
    (hz : ∀ k : Int, nCoeffs ≤ k → k < 64 → block k = 0) (k : Int) (h0 : 0 ≤ k) (h64 : k < 64) :
    (mpeg2_inter_asm_loop block quant_matrix nCoeffs qscale).2 k
      = mpeg2_inter_coeff (mpeg2_qscale_word qscale) (block k) (quant_matrix k) := by
  obtain ⟨hb1, hb2, hb3⟩ := mpeg2_emitted_bounds nCoeffs hn.1 hn.2
  unfold mpeg2_inter_asm_loop
  simp only
  by_cases hk : k < (mpeg2_emitted nCoeffs : Int)
  · exact mpeg2_inter_asm_loop_coeff (mpeg2_asm_qscale qscale) (mpeg2_qscale_word qscale)
      (mpeg2_asm_qscale_words qscale) quant_matrix (2 * nCoeffs)
      (asm_loop_passes (wrap_int (-2 * nCoeffs))) (wrap_int (-2 * nCoeffs)) 0
      (psrlq 48 (pcmpeqw 0 0), block) rfl (by rw [hb1]; omega) (by rw [hb1]; omega) k h0
      (by unfold mpeg2_emitted at hk; push_cast at hk; omega)
  · have hs := mpeg2_inter_asm_loop_spec (mpeg2_asm_qscale qscale) quant_matrix (2 * nCoeffs)
      (asm_loop_passes (wrap_int (-2 * nCoeffs))) (wrap_int (-2 * nCoeffs)) 0
      (psrlq 48 (pcmpeqw 0 0), block) rfl (by rw [hb1]; omega) (by rw [hb1]; omega)
    rw [hs.1 k (Or.inr (by unfold mpeg2_emitted at hk; push_cast at hk; omega))]
    show block k = _
    rw [hz k (by omega) h64, mpeg2_inter_coeff_zero]

/-- C19. After `dct_unquantize_mpeg2_mmx` on a non-intra block whose
coefficients at the indices from `nCoeffs` on are zero, the XOR of the low
bits of the 64 coefficients is 1; every coefficient from 0 to 62 is the
dequantisation `mpeg2_inter_coeff` of its level, the coefficient 63 differs
from the dequantisation of its level in its low bit at most, and the words
outside the block are as they were. -/
theorem dct_unquantize_mpeg2_mmx_parity (zigzag_end : Int → Int) (s : MpegEncContext)
    (block : Int → Nat) (n qscale : Int) (hinter : s.mb_intra = 0)
    (hn : 0 ≤ mpeg2_nCoeffs zigzag_end s n ∧ mpeg2_nCoeffs zigzag_end s n ≤ 64)
    (hw : ∀ k : Int, block k < 65536)
    (hz : ∀ k : Int, mpeg2_nCoeffs zigzag_end s n ≤ k → k < 64 → block k = 0) :
    low_bits_xor (dct_unquantize_mpeg2_mmx zigzag_end s block n qscale) 0 64 = true
      ∧ (∀ k : Int, 0 ≤ k → k < 63 → dct_unquantize_mpeg2_mmx zigzag_end s block n qscale k
          = mpeg2_inter_coeff (mpeg2_qscale_word qscale) (block k) (s.non_intra_matrix k))
      ∧ dct_unquantize_mpeg2_mmx zigzag_end s block n qscale 63 / 2
          = mpeg2_inter_coeff (mpeg2_qscale_word qscale) (block 63) (s.non_intra_matrix 63) / 2
      ∧ (∀ k : Int, (k < 0 ∨ 64 ≤ k) →
          dct_unquantize_mpeg2_mmx zigzag_end s block n qscale k = block k) := by
  obtain ⟨hF, hL⟩ := dct_unquantize_mpeg2_mmx_inter zigzag_end s block n qscale hinter hn hw
  obtain ⟨_, hb2, hb3⟩ := mpeg2_emitted_bounds _ hn.1 hn.2
  have hC := mpeg2_inter_asm_loop_coeffs block s.non_intra_matrix (mpeg2_nCoeffs zigzag_end s n)
    qscale hn hz
  generalize mpeg2_inter_asm_loop block s.non_intra_matrix
    (mpeg2_nCoeffs zigzag_end s n) qscale = st at hF hL hC
  generalize dct_unquantize_mpeg2_mmx zigzag_end s block n qscale = F at hF
  generalize hE : mpeg2_emitted (mpeg2_nCoeffs zigzag_end s n) = e at hF hL hb2 hb3
  refine ⟨?_, ?_, ?_, ?_⟩
  · have h64 : (64 : Nat) = 63 + 1 := rfl
    have e1 : low_bits_xor F 0 63 = low_bits_xor st.2 0 63 := by
      apply low_bits_xor_congr
      intro k _ hk2
      rw [hF k, if_neg (by omega)]
    have e2 : Bool.xor (low_bits_xor st.2 0 63) ((st.2 63).testBit 0) = low_bits_xor st.2 0 e := by
      have hsplit : (64 : Nat) = e + (64 - e) := by omega
      have h1 : low_bits_xor st.2 0 64 = Bool.xor (low_bits_xor st.2 0 63) ((st.2 63).testBit 0) := by
        show low_bits_xor st.2 0 (63 + 1) = _
        rw [low_bits_xor_succ]
        norm_num
      rw [← h1, hsplit, low_bits_xor_add]
      have hzero : low_bits_xor st.2 (0 + (e : Int)) (64 - e) = false := by
        apply low_bits_xor_zero
        intro k hk1 hk2
        rw [hL k (Or.inr (by omega))]
        exact hz k (by omega) (by omega)
      rw [hzero]
      simp
    show low_bits_xor F 0 (63 + 1) = true
    rw [low_bits_xor_succ]
    have c63 : (0 : Int) + ((63 : Nat) : Int) = 63 := by norm_num
    rw [c63, e1, hF 63, if_pos rfl, xor_bit_testBit_zero, ← Bool.xor_assoc, e2]
    cases low_bits_xor st.2 0 e <;> rfl
  · intro k hk0 hk
    rw [hF k, if_neg (by omega)]
    exact hC k hk0 (by omega)
  · rw [hF 63, if_pos rfl, ← hC 63 (by omega) (by omega)]
    exact xor_bit_div_two _ _
  · intro k hk
    rw [hF k, if_neg (by omega)]
    exact hL k (by omega)

set_option maxRecDepth 100000 in
theorem dct_unquantize_mpeg2_mmx_parity_witness :
    low_bits_xor (dct_unquantize_mpeg2_mmx (fun _ => 8) sample_mpeg2_context
        sample_mpeg2_block 0 2) 0 64 = true
      ∧ dct_unquantize_mpeg2_mmx (fun _ => 8) sample_mpeg2_context sample_mpeg2_block 0 2 0
        = mpeg2_inter_coeff 2 1 16
      ∧ mpeg2_inter_coeff 2 1 16 = 6 ∧ mpeg2_qscale_word 2 = 2 :=
  have h := dct_unquantize_mpeg2_mmx_parity (fun _ => 8) sample_mpeg2_context
    sample_mpeg2_block 0 2
    rfl (by decide) (by intro k; unfold sample_mpeg2_block; split_ifs <;> omega)
    (by
      intro k h1 _
      have h8 : (8 : Int) ≤ k := h1
      unfold sample_mpeg2_block
      rw [if_neg (by omega)])
  ⟨h.1, h.2.1 0 (by decide) (by decide), by decide, by decide⟩

/-- C20 (amended). In the non-intra path of `dct_unquantize_mpeg2_mmx` the
parity correction flips the low bit of the coefficient 63 exactly when the
XOR of the low bits of the coefficients stored by the dequantisation loop
is 0, and leaves the coefficient 63 as it is when that XOR is 1; no other
coefficient is changed. -/
theorem dct_unquantize_mpeg2_mmx_flip (zigzag_end : Int → Int) (s : MpegEncContext)
    (block : Int → Nat) (n qscale : Int) (hinter : s.mb_intra = 0)
    (hn : 0 ≤ mpeg2_nCoeffs zigzag_end s n ∧ mpeg2_nCoeffs zigzag_end s n ≤ 64)
    (hw : ∀ k : Int, block k < 65536) :
    (low_bits_xor (mpeg2_inter_asm_loop block s.non_intra_matrix
          (mpeg2_nCoeffs zigzag_end s n) qscale).2 0
          (mpeg2_emitted (mpeg2_nCoeffs zigzag_end s n)) = false →
        dct_unquantize_mpeg2_mmx zigzag_end s block n qscale 63
          = (mpeg2_inter_asm_loop block s.non_intra_matrix
              (mpeg2_nCoeffs zigzag_end s n) qscale).2 63 ^^^ 1)
      ∧ (low_bits_xor (mpeg2_inter_asm_loop block s.non_intra_matrix
          (mpeg2_nCoeffs zigzag_end s n) qscale).2 0
          (mpeg2_emitted (mpeg2_nCoeffs zigzag_end s n)) = true →
        dct_unquantize_mpeg2_mmx zigzag_end s block n qscale 63
          = (mpeg2_inter_asm_loop block s.non_intra_matrix
              (mpeg2_nCoeffs zigzag_end s n) qscale).2 63)
      ∧ (∀ k : Int, k ≠ 63 → dct_unquantize_mpeg2_mmx zigzag_end s block n qscale k
          = (mpeg2_inter_asm_loop block s.non_intra_matrix
              (mpeg2_nCoeffs zigzag_end s n) qscale).2 k) := by
  obtain ⟨hF, _⟩ := dct_unquantize_mpeg2_mmx_inter zigzag_end s block n qscale hinter hn hw
  refine ⟨?_, ?_, ?_⟩
  · intro h
    rw [hF 63, if_pos rfl, h]
    rfl
  · intro h
    rw [hF 63, if_pos rfl, h]
    simp
  · intro k hk
    rw [hF k, if_neg hk]

set_option maxRecDepth 100000 in
theorem dct_unquantize_mpeg2_mmx_flip_witness :
    dct_unquantize_mpeg2_mmx (fun _ => 8) sample_mpeg2_context sample_mpeg2_block 0 2 63
      = (mpeg2_inter_asm_loop sample_mpeg2_block sample_mpeg2_context.non_intra_matrix
          (mpeg2_nCoeffs (fun _ => 8) sample_mpeg2_context 0) 2).2 63 ^^^ 1 :=
  (dct_unquantize_mpeg2_mmx_flip (fun _ => 8) sample_mpeg2_context sample_mpeg2_block 0 2
    rfl (by decide) (by intro k; unfold sample_mpeg2_block; split_ifs <;> omega)).1 (by decide)

set_option maxRecDepth 100000 in
/-- C20 (counterexample). For the block with the level 1 at the index 0,
the matrix entry 16 and `nCoeffs = 8`: at `qscale` 2 the loop stores the
coefficient 6, the XOR of the low bits is 0 and the coefficient 63 is
changed from 0 to 1; at `qscale` 1 the loop stores the coefficient 3, the
XOR of the low bits is 1 and the coefficient 63 stays 0. -/
theorem dct_unquantize_mpeg2_mmx_flips_on_even :
    (mpeg2_inter_asm_loop sample_mpeg2_block (fun _ => 16) 8 2).2 0 = 6
      ∧ low_bits_xor (mpeg2_inter_asm_loop sample_mpeg2_block (fun _ => 16) 8 2).2 0 8 = false
      ∧ (mpeg2_inter_asm_loop sample_mpeg2_block (fun _ => 16) 8 2).2 63 = 0
      ∧ dct_unquantize_mpeg2_mmx (fun _ => 8) sample_mpeg2_context sample_mpeg2_block 0 2 63 = 1
      ∧ (mpeg2_inter_asm_loop sample_mpeg2_block (fun _ => 16) 8 1).2 0 = 3
      ∧ low_bits_xor (mpeg2_inter_asm_loop sample_mpeg2_block (fun _ => 16) 8 1).2 0 8 = true
      ∧ dct_unquantize_mpeg2_mmx (fun _ => 8) sample_mpeg2_context sample_mpeg2_block 0 1 63 = 0 := by
  decide

/-! ## Motion compensation -/

/-- C11 (divergence). A luma component of 32 x 32 pixels with blocks of
length 24 and separation 16, full-pixel vectors, the picture weights of one
reference, every block on reference 1 with the vector `(0, 0)` and a zero
residual: `total_wt_bits` is 8, and for a reference frame of the constant
value 200 the sum `200 * 256` does not fit the `int16_t` buffer `mcpic`, so
the coefficient at `(14, 14)` gets `-56` instead of 200. For the constant
value 100 it gets 100, and with blocks of length 12 and separation 8 the
value 200 gives 200. -/
theorem dirac_motion_compensation_overflow :
    mc_total_wt_bits (mc_setup sample_mc_sequence sample_mc_decoding 1 1 4 32 0) = 8
      ∧ (dirac_motion_compensation sample_host sample_mc_sequence sample_mc_decoding 1 1 4 32
          (fun _ _ => 200) sample_mc_field (fun _ => 0) 0).2 (32 * 14 + 14) = -56
      ∧ (dirac_motion_compensation sample_host sample_mc_sequence sample_mc_decoding 1 1 4 32
          (fun _ _ => 100) sample_mc_field (fun _ => 0) 0).2 (32 * 14 + 14) = 100
      ∧ (dirac_motion_compensation sample_host sample_mc_sequence sample_mc_decoding_small 1 1 4
          32 (fun _ _ => 200) sample_mc_field (fun _ => 0) 0).2 (32 * 14 + 14) = 200 := by
  decide!

/-! ## Theorems: intra DC prediction -/

/-- C24. At an interior position the function `intra_dc_coeff_prediction`
returns `(s + 1) / 3` for a sum `s > 0` of the left, top and top-left
coefficients and `-((-s + 1) / 3)` for `s <= 0`, the division truncating;
in the first row it returns the left coefficient, in the first column the
top coefficient and at `(0, 0)` it returns 0. -/
theorem intra_dc_coeff_prediction_eq (padded_width : Int) (data : Int → Int) (pos x y : Int) :
    (x > 0 → y > 0 →
      intra_dc_coeff_prediction padded_width data pos x y
        = (if data (pos - 1) + data (pos - padded_width) + data (pos - padded_width - 1) > 0
            then Int.tdiv (data (pos - 1) + data (pos - padded_width)
              + data (pos - padded_width - 1) + 1) 3
            else -(Int.tdiv (-(data (pos - 1) + data (pos - padded_width)
              + data (pos - padded_width - 1)) + 1) 3)))
      ∧ (x > 0 → y = 0 → intra_dc_coeff_prediction padded_width data pos x y = data (pos - 1))
      ∧ (x = 0 → y > 0 →
          intra_dc_coeff_prediction padded_width data pos x y = data (pos - padded_width))
      ∧ (x = 0 → y = 0 → intra_dc_coeff_prediction padded_width data pos x y = 0) := by
  refine ⟨?_, ?_, ?_, ?_⟩
  · intro hx hy
    unfold intra_dc_coeff_prediction
    simp only [hx, hy, and_self, if_true]
    split_ifs
    · rfl
    · rw [Int.neg_tdiv]
  · intro hx hy
    unfold intra_dc_coeff_prediction
    have h1 : ¬ (x > 0 ∧ y > 0) := by omega
    rw [if_neg h1, if_pos hx]
  · intro hx hy
    unfold intra_dc_coeff_prediction
    have h1 : ¬ (x > 0 ∧ y > 0) := by omega
    have h2 : ¬ x > 0 := by omega
    rw [if_neg h1, if_neg h2, if_pos hy]
  · intro hx hy
    unfold intra_dc_coeff_prediction
    have h1 : ¬ (x > 0 ∧ y > 0) := by omega
    have h2 : ¬ x > 0 := by omega
    have h3 : ¬ y > 0 := by omega
    rw [if_neg h1, if_neg h2, if_neg h3]

theorem intra_dc_coeff_prediction_eq_witness :
    intra_dc_coeff_prediction 8 sample_dc_band 9 1 1 = 10922
      ∧ intra_dc_coeff_prediction 8 (fun k => if k = 8 then -4 else 0) 9 1 1 = -1
      ∧ intra_dc_coeff_prediction 8 sample_dc_band 1 1 0 = 32767 :=
  ⟨by
    rw [(intra_dc_coeff_prediction_eq 8 sample_dc_band 9 1 1).1 (by decide) (by decide)]
    decide, by decide, by decide⟩

theorem to_int16_range (z : Int) : -32768 ≤ to_int16 z ∧ to_int16 z ≤ 32767 := by
  unfold to_int16 s16 to_u16
  split_ifs <;> omega

theorem to_int16_sub_add (a p : Int) (h1 : -32768 ≤ a) (h2 : a ≤ 32767) :
    to_int16 (to_int16 (a - p) + p) = a := by
  unfold to_int16 s16 to_u16
  split_ifs <;> omega

theorem intra_dc_coeff_prediction_congr (padded_width : Int) (d1 d2 : Int → Int) (pos x y : Int)
    (h1 : d1 (pos - 1) = d2 (pos - 1)) (h2 : d1 (pos - padded_width) = d2 (pos - padded_width))
    (h3 : d1 (pos - padded_width - 1) = d2 (pos - padded_width - 1)) :
    intra_dc_coeff_prediction padded_width d1 pos x y
      = intra_dc_coeff_prediction padded_width d2 pos x y := by
  unfold intra_dc_coeff_prediction
  rw [h1, h2, h3]

/-- A fold of steps `e` over a list, followed by a fold over the reverse
list of steps `d` that undo them, gives the first state again. -/
theorem foldl_undo {α ι : Type} (P : α → Prop) (e d : α → ι → α)
    (h : ∀ a i, P a → d (e a i) i = a ∧ P (e a i)) :
    ∀ (l : List ι) (a : α), P a → l.reverse.foldl d (l.foldl e a) = a := by
  intro l
  induction l with
  | nil => intro a _; rfl
  | cons i l ih =>
    intro a ha
    rw [List.reverse_cons, List.foldl_cons, List.foldl_append, ih (e a i) (h a i ha).2]
    exact (h a i ha).1

theorem loop_down_eq (n : Int) : loop_down n = (loop_range 0 n).reverse := by
  unfold loop_down loop_range
  rw [← List.map_reverse]
  simp

/-- The cell step of `intra_dc_coding` followed by the cell step of
`intra_dc_prediction` at the same position gives the array again. -/
theorem intra_dc_cell_undo (padded_width : Int) (hp : 1 ≤ padded_width) (line y : Int)
    (d : Int → Int) (x : Int) (hd : ∀ k, -32768 ≤ d k ∧ d k ≤ 32767) :
    (fun (d : Int → Int) (x : Int) =>
        Function.update d (line + x)
          (to_int16 (d (line + x) + intra_dc_coeff_prediction padded_width d (line + x) x y)))
      ((fun (d : Int → Int) (x : Int) =>
        Function.update d (line + x)
          (to_int16 (d (line + x) - intra_dc_coeff_prediction padded_width d (line + x) x y)))
        d x) x = d
      ∧ ∀ k, -32768 ≤ (fun (d : Int → Int) (x : Int) =>
        Function.update d (line + x)
          (to_int16 (d (line + x) - intra_dc_coeff_prediction padded_width d (line + x) x y)))
        d x k ∧ (fun (d : Int → Int) (x : Int) =>
        Function.update d (line + x)
          (to_int16 (d (line + x) - intra_dc_coeff_prediction padded_width d (line + x) x y)))
        d x k ≤ 32767 := by
  constructor
  · simp only [Function.update_same, Function.update_idem]
    have hc : intra_dc_coeff_prediction padded_width
        (Function.update d (line + x) (to_int16 (d (line + x)
          - intra_dc_coeff_prediction padded_width d (line + x) x y))) (line + x) x y
        = intra_dc_coeff_prediction padded_width d (line + x) x y := by
      apply intra_dc_coeff_prediction_congr
      · exact Function.update_noteq (by omega) _ _
      · exact Function.update_noteq (by omega) _ _
      · exact Function.update_noteq (by omega) _ _
    rw [hc, to_int16_sub_add _ _ (hd _).1 (hd _).2]
    exact Function.update_eq_self _ _
  · intro k
    simp only
    by_cases hk : k = line + x
    · subst hk
      rw [Function.update_same]
      exact to_int16_range _
    · rw [Function.update_noteq hk]
      exact hd k

/-- The row loop of `intra_dc_coding` followed by the row loop of
`intra_dc_prediction` on the same row gives the array again. -/
theorem intra_dc_line_undo (padded_width width : Int) (hp : 1 ≤ padded_width) (line y : Int)
    (d : Int → Int) (hd : ∀ k, -32768 ≤ d k ∧ d k ≤ 32767) :
    intra_dc_prediction_line padded_width width
        (intra_dc_coding_line padded_width width d line y) line y = d
      ∧ ∀ k, -32768 ≤ intra_dc_coding_line padded_width width d line y k
          ∧ intra_dc_coding_line padded_width width d line y k ≤ 32767 := by
  unfold intra_dc_prediction_line intra_dc_coding_line
  rw [loop_down_eq]
  constructor
  · have h := foldl_undo (fun (d : Int → Int) => ∀ k, -32768 ≤ d k ∧ d k ≤ 32767)
      (fun (d : Int → Int) (x : Int) =>
        Function.update d (line + x)
          (to_int16 (d (line + x) - intra_dc_coeff_prediction padded_width d (line + x) x y)))
      (fun (d : Int → Int) (x : Int) =>
        Function.update d (line + x)
          (to_int16 (d (line + x) + intra_dc_coeff_prediction padded_width d (line + x) x y)))
      (fun a i ha => intra_dc_cell_undo padded_width hp line y a i ha)
      (loop_range 0 width).reverse d hd
    rw [List.reverse_reverse] at h
    exact h
  · apply foldl_inv (fun (d : Int → Int) => ∀ k, -32768 ≤ d k ∧ d k ≤ 32767)
    · intro b a _ hb
      exact (intra_dc_cell_undo padded_width hp line y b a hb).2
    · exact hd

/-- The pointer `line` of the outer loop of `intra_dc_prediction` is at the
offset `y * padded_width` in the row `y`. -/
theorem fold_line_up {α : Type} (R : α → Int → Int → α) (pw : Int) :
    ∀ (n : Nat) (a : α),
      ((List.range n).map (fun (k : Nat) => (0 : Int) + (k : Int))).foldl
          (fun (st : α × Int) (y : Int) => (R st.1 st.2 y, st.2 + pw)) (a, 0)
        = (((List.range n).map (fun (k : Nat) => (0 : Int) + (k : Int))).foldl
            (fun (a : α) (y : Int) => R a (y * pw) y) a, (n : Int) * pw) := by
  intro n
  induction n with
  | zero => intro a; simp
  | succ n ih =>
    intro a
    rw [List.range_succ, List.map_append, List.foldl_append, List.foldl_append, ih]
    simp only [List.map_cons, List.map_nil, List.foldl_cons, List.foldl_nil, zero_add]
    congr 1
    push_cast
    ring

/-- The pointer `line` of the outer loop of `intra_dc_coding` is at the
offset `y * padded_width` in the row `y`. -/
theorem fold_line_down {α : Type} (R : α → Int → Int → α) (pw : Int) :
    ∀ (n : Nat) (a : α) (c : Int), (n ≠ 0 → c = ((n : Int) - 1) * pw) →
      (((List.range n).reverse.map (fun (k : Nat) => (k : Int))).foldl
          (fun (st : α × Int) (y : Int) => (R st.1 st.2 y, st.2 - pw)) (a, c)).1
        = ((List.range n).reverse.map (fun (k : Nat) => (k : Int))).foldl
            (fun (a : α) (y : Int) => R a (y * pw) y) a := by
  intro n
  induction n with
  | zero => intro a c _; simp
  | succ n ih =>
    intro a c hc
    have hc1 : c = (n : Int) * pw := by
      rw [hc (by omega)]
      push_cast
      ring
    rw [List.range_succ, List.reverse_append]
    simp only [List.reverse_cons, List.reverse_nil, List.nil_append, List.singleton_append,
      List.map_cons, List.foldl_cons]
    rw [ih _ _ (by intro _; rw [hc1]; ring), hc1]

/-- C21. Round trip of the intra DC prediction: `intra_dc_prediction`
after `intra_dc_coding` gives the array of `int16_t` coefficients again,
for every padded size and wavelet depth. -/
theorem intra_dc_round_trip (padded_width padded_height : Int) (wavelet_depth : Nat)
    (data : Int → Int) (hd : ∀ k, -32768 ≤ data k ∧ data k ≤ 32767) :
    intra_dc_prediction padded_width padded_height wavelet_depth
      (intra_dc_coding padded_width padded_height wavelet_depth data) = data := by
  unfold intra_dc_prediction intra_dc_coding
  generalize hw : subband_width padded_width wavelet_depth 0 = w
  generalize subband_height padded_height wavelet_depth 0 = h
  have e1 := fold_line_down (fun (d : Int → Int) (line y : Int) =>
    intra_dc_coding_line padded_width w d line y) padded_width h.toNat data
    ((h - 1) * padded_width) (by intro hn; rw [Int.toNat_of_nonneg (by omega)])
  unfold loop_down
  rw [e1]
  unfold loop_range
  simp only [sub_zero]
  rw [fold_line_up (fun (d : Int → Int) (line y : Int) =>
    intra_dc_prediction_line padded_width w d line y) padded_width h.toNat]
  simp only [zero_add]
  by_cases hp : 1 ≤ padded_width
  · have h := foldl_undo (fun (d : Int → Int) => ∀ k, -32768 ≤ d k ∧ d k ≤ 32767)
      (fun (d : Int → Int) (y : Int) => intra_dc_coding_line padded_width w d (y * padded_width) y)
      (fun (d : Int → Int) (y : Int) =>
        intra_dc_prediction_line padded_width w d (y * padded_width) y)
      (fun a i ha => intra_dc_line_undo padded_width w hp (i * padded_width) i a ha)
      ((List.range h.toNat).reverse.map (fun (k : Nat) => (k : Int))) data hd
    rw [← List.map_reverse, List.reverse_reverse] at h
    exact h
  · have hw0 : w.toNat = 0 := by
      rw [← hw]
      unfold subband_width
      simp only [if_true]
      rw [Int.shiftRight_eq_div_pow]
      have hpos : (0 : Int) < ((2 ^ wavelet_depth : Nat) : Int) := by positivity
      have hle : padded_width / ((2 ^ wavelet_depth : Nat) : Int) ≤ 0 := by
        have := Int.ediv_le_ediv hpos (show padded_width ≤ 0 by omega)
        simpa using this
      omega
    have hc : ∀ (d : Int → Int) (line y : Int),
        intra_dc_coding_line padded_width w d line y = d := by
      intro d line y
      unfold intra_dc_coding_line loop_down
      rw [hw0]
      rfl
    have hq : ∀ (d : Int → Int) (line y : Int),
        intra_dc_prediction_line padded_width w d line y = d := by
      intro d line y
      unfold intra_dc_prediction_line loop_range
      simp only [sub_zero]
      rw [hw0]
      rfl
    simp only [hc, hq]
    have hid : ∀ (l : List Int) (d : Int → Int), l.foldl (fun (a : Int → Int) (_ : Int) => a) d = d := by
      intro l
      induction l with
      | nil => intro d; rfl
      | cons a l ih => intro d; exact ih d
    rw [hid, hid]

theorem intra_dc_round_trip_witness :
    intra_dc_prediction 8 4 1 (intra_dc_coding 8 4 1 sample_dc_band) = sample_dc_band
      ∧ intra_dc_coding 8 4 1 sample_dc_band 1 = 1
      ∧ intra_dc_coding 8 4 1 sample_dc_band 9 = 21844 :=
  ⟨intra_dc_round_trip 8 4 1 sample_dc_band
    (by intro k; unfold sample_dc_band; split_ifs <;> omega), by decide, by decide⟩

/-! ## Theorems: adaptation and the registers of the arithmetic decoder -/

set_option maxRecDepth 100000 in
theorem arith_lookup_all_pos :
    (List.range 256).all (fun j => decide (j = 0 ∨ 0 < arith_lookup_at j)) = true
      ∧ arith_lookup_at 0 = 0 := by
  decide

theorem arith_lookup_at_pos (j : Nat) (h0 : j ≠ 0) (h : j < 256) : 0 < arith_lookup_at j := by
  have h1 := arith_lookup_all_pos.1
  rw [List.all_eq_true] at h1
  have h2 := of_decide_eq_true (h1 j (List.mem_range.mpr h))
  omega

/-- One adaptation step of a probability below `0x10000`: the new value
without the wrap of the `unsigned int` operations. -/
theorem arith_adapt_eq (p : Nat) (hp : p < 65536) :
    arith_adapt 1 p = p - arith_lookup_at (p / 256)
      ∧ arith_adapt 0 p = p + arith_lookup_at (255 - p / 256) := by
  obtain ⟨_, h2, _, h4, h5⟩ := arith_adapt_facts p hp
  unfold arith_adapt
  constructor
  · rw [if_pos (by decide)]
    unfold usub
    omega
  · rw [if_neg (by decide), h2]
    unfold u32
    omega

theorem arith_adapt_one_iterate (p : Nat) (hp : p < 65536) :
    ∀ n : Nat, (arith_adapt 1)^[n + 1] p ≤ (arith_adapt 1)^[n] p ∧ (arith_adapt 1)^[n] p ≤ p := by
  intro n
  induction n with
  | zero =>
    simp only [Function.iterate_zero, Function.iterate_succ, Function.comp, id, zero_add]
    rw [(arith_adapt_eq p hp).1]
    omega
  | succ n ih =>
    have hlt : (arith_adapt 1)^[n + 1] p < 65536 := by omega
    constructor
    · rw [Function.iterate_succ_apply' (arith_adapt 1) (n + 1) p,
        (arith_adapt_eq _ hlt).1]
      omega
    · omega

theorem arith_adapt_zero_iterate (p : Nat) (hp : p < 65536) :
    ∀ n : Nat, (arith_adapt 0)^[n] p ≤ (arith_adapt 0)^[n + 1] p ∧ p ≤ (arith_adapt 0)^[n] p
      ∧ (arith_adapt 0)^[n] p < 65536 := by
  intro n
  induction n with
  | zero =>
    simp only [Function.iterate_zero, Function.iterate_succ, Function.comp, id, zero_add]
    rw [(arith_adapt_eq p hp).2]
    omega
  | succ n ih =>
    have hlt : (arith_adapt 0)^[n + 1] p < 65536 := by
      rw [Function.iterate_succ_apply' (arith_adapt 0) n p]
      exact arith_adapt_lt 0 _ ih.2.2
    refine ⟨?_, by omega, hlt⟩
    rw [Function.iterate_succ_apply' (arith_adapt 0) (n + 1) p, (arith_adapt_eq _ hlt).2]
    omega

theorem arith_adapt_one_fixed (p : Nat) :
    p < 65536 → ∃ n : Nat, (arith_adapt 1)^[n] p / 256 = 0 := by
  induction p using Nat.strong_induction_on with
  | _ p ih =>
    intro hp
    by_cases h0 : p / 256 = 0
    · exact ⟨0, h0⟩
    · have hl := arith_lookup_at_pos (p / 256) h0 (by omega)
      have he := (arith_adapt_eq p hp).1
      obtain ⟨_, _, _, h4, _⟩ := arith_adapt_facts p hp
      obtain ⟨n, hn⟩ := ih (arith_adapt 1 p) (by omega) (by omega)
      exact ⟨n + 1, by rw [Function.iterate_succ_apply]; exact hn⟩

theorem arith_adapt_zero_fixed (k : Nat) :
    ∀ p : Nat, p < 65536 → 65535 - p ≤ k → ∃ n : Nat, (arith_adapt 0)^[n] p / 256 = 255 := by
  induction k with
  | zero =>
    intro p hp hk
    exact ⟨0, by simp only [Function.iterate_zero, id]; omega⟩
  | succ k ih =>
    intro p hp hk
    by_cases h0 : p / 256 = 255
    · exact ⟨0, h0⟩
    · have hl := arith_lookup_at_pos (255 - p / 256) (by omega) (by omega)
      have he := (arith_adapt_eq p hp).2
      obtain ⟨_, _, _, _, h5⟩ := arith_adapt_facts p hp
      obtain ⟨n, hn⟩ := ih (arith_adapt 0 p) (by omega) (by omega)
      exact ⟨n + 1, by rw [Function.iterate_succ_apply]; exact hn⟩

/-- C23. For a context probability `p` below `0x10000`: after the bit 1 the
new probability is at most `p`, smaller unless `p >> 8 = 0`, where it is
`p`; after the bit 0 it is at least `p` and below `0x10000`, greater unless
`p >> 8 = 255`, where it is `p`. Under repeated bits 1 the probabilities
never grow and reach a value with `p >> 8 = 0`; under repeated bits 0 they
never fall, stay below `0x10000` and reach a value with `p >> 8 = 255`. -/
theorem arith_adapt_monotone (p : Nat) (hp : p < 65536) :
    arith_adapt 1 p ≤ p
      ∧ (p / 256 ≠ 0 → arith_adapt 1 p < p)
      ∧ (p / 256 = 0 → arith_adapt 1 p = p)
      ∧ p ≤ arith_adapt 0 p
      ∧ arith_adapt 0 p < 65536
      ∧ (p / 256 ≠ 255 → p < arith_adapt 0 p)
      ∧ (p / 256 = 255 → arith_adapt 0 p = p)
      ∧ (∀ n : Nat, (arith_adapt 1)^[n + 1] p ≤ (arith_adapt 1)^[n] p)
      ∧ (∃ n : Nat, (arith_adapt 1)^[n] p / 256 = 0)
      ∧ (∀ n : Nat, (arith_adapt 0)^[n] p ≤ (arith_adapt 0)^[n + 1] p
          ∧ (arith_adapt 0)^[n] p < 65536)
      ∧ (∃ n : Nat, (arith_adapt 0)^[n] p / 256 = 255) := by
  obtain ⟨e1, e0⟩ := arith_adapt_eq p hp
  obtain ⟨_, _, _, h4, h5⟩ := arith_adapt_facts p hp
  have z : arith_lookup_at 0 = 0 := arith_lookup_all_pos.2
  refine ⟨by omega, ?_, ?_, by omega, by omega, ?_, ?_, ?_, arith_adapt_one_fixed p hp, ?_,
    arith_adapt_zero_fixed (65535 - p) p hp (le_refl _)⟩
  · intro h0
    have := arith_lookup_at_pos (p / 256) h0 (by omega)
    omega
  · intro h0
    rw [e1, h0, z]
    rfl
  · intro h0
    have := arith_lookup_at_pos (255 - p / 256) (by omega) (by omega)
    omega
  · intro h0
    rw [e0, h0, z]
    rfl
  · intro n
    exact (arith_adapt_one_iterate p hp n).1
  · intro n
    exact ⟨(arith_adapt_zero_iterate p hp n).1, (arith_adapt_zero_iterate p hp n).2.2⟩

set_option maxRecDepth 100000 in
theorem arith_adapt_monotone_witness :
    arith_adapt 1 32768 ≤ 32768 ∧ arith_adapt 1 32768 = 30833 ∧ arith_adapt 0 32768 = 34688
      ∧ arith_adapt 1 255 = 255 ∧ arith_adapt 0 65280 = 65280 :=
  ⟨(arith_adapt_monotone 32768 (by decide)).1, by decide, by decide, by decide, by decide⟩

theorem ge_32768_iff_testBit (z : Nat) (hz : z < 65536) : 32768 ≤ z ↔ z.testBit 15 = true := by
  rw [Nat.testBit_to_div_mod]
  simp only [decide_eq_true_eq]
  norm_num
  omega

theorem xor_ge_32768 (x y : Nat) (hx : x < 65536) (hy : y < 65536) :
    32768 ≤ x ^^^ y ↔ ((32768 ≤ x ∧ y < 32768) ∨ (x < 32768 ∧ 32768 ≤ y)) := by
  have hxy : x ^^^ y < 65536 := by
    have := @Nat.xor_lt_two_pow x y 16 (by norm_num; exact hx) (by norm_num; exact hy)
    norm_num at this
    exact this
  rw [ge_32768_iff_testBit _ hxy, Nat.testBit_xor]
  have h1 := ge_32768_iff_testBit x hx
  have h2 := ge_32768_iff_testBit y hy
  cases hbx : x.testBit 15 <;> cases hby : y.testBit 15 <;> simp [hbx, hby] at h1 h2 ⊢ <;> omega

theorem xor_16384 (x : Nat) (h1 : 16384 ≤ x) (h2 : x < 32768) : x ^^^ 16384 = x - 16384 := by
  obtain ⟨r, rfl⟩ : ∃ r, x = r + 2 ^ 14 * 1 := ⟨x - 16384, by omega⟩
  have hr : r < 2 ^ 14 := by omega
  have e : r + 2 ^ 14 * 1 - 16384 = r := by omega
  rw [e]
  apply Nat.eq_of_testBit_eq
  intro i
  have p : (16384 : Nat) = 2 ^ 14 := by norm_num
  have q : Nat.testBit 16384 i = decide (i = 14) := by
    rw [p, Nat.testBit_two_pow]
    simp [eq_comm]
  rw [Nat.testBit_xor, testBit_add_mul 14 r 1 i hr, q]
  by_cases h : i < 14
  · have h14 : ¬ i = 14 := by omega
    simp [h, h14]
  · have hz : r.testBit i = false := by
      apply Nat.testBit_lt_two_pow
      calc r < 2 ^ 14 := hr
        _ ≤ 2 ^ i := Nat.pow_le_pow_right (by decide) (by omega)
    rw [hz, if_neg h]
    by_cases h14 : i = 14
    · subst h14
      simp
    · have : Nat.testBit 1 (i - 14) = false := by
        apply Nat.testBit_lt_two_pow
        calc 1 < 2 ^ 1 := by norm_num
          _ ≤ 2 ^ (i - 14) := Nat.pow_le_pow_right (by decide) (by omega)
      simp [this, h14]

/-- A pass of the renormalisation loop keeps the interval inside
`[0, 0x10000]` and the code below `0x10000`. -/
theorem arith_renorm_step_regs (a : dirac_arith_state) (h0 : 0 < a.range)
    (h1 : a.range ≤ 16384) (hl : a.low + a.range ≤ 65536) :
    (arith_renorm_step a).low + (arith_renorm_step a).range ≤ 65536
      ∧ (arith_renorm_step a).code < 65536 := by
  have hand : ∀ x : Nat, x &&& 0xFFFF = x % 65536 := by
    intro x
    have := Nat.and_pow_two_sub_one_eq_mod x 16
    simpa using this
  have hcode : ∀ x : Nat, x &&& 0xffff < 65536 := by
    intro x
    rw [hand]
    omega
  have ht : usub (u32 (a.low + a.range)) 1 = a.low + a.range - 1 := by
    unfold usub u32
    omega
  have hx := xor_ge_32768 (a.low + a.range - 1) a.low (by omega) (by omega)
  have hlow : (if decide ((usub (u32 (a.low + a.range)) 1) ^^^ a.low ≥ 0x8000) = true
      then a.low ^^^ 0x4000 else a.low) * 2 % 65536 + a.range * 2 ≤ 65536 := by
    rw [ht]
    by_cases hc : (a.low + a.range - 1) ^^^ a.low ≥ 0x8000
    · rw [if_pos (by simpa using hc)]
      have hc1 := hx.mp hc
      have e := xor_16384 a.low (by omega) (by omega)
      have e2 : a.low ^^^ 0x4000 = a.low - 16384 := e
      rw [e2]
      omega
    · rw [if_neg (by simpa using hc)]
      have hc1 : ¬ ((32768 ≤ a.low + a.range - 1 ∧ a.low < 32768)
          ∨ (a.low + a.range - 1 < 32768 ∧ 32768 ≤ a.low)) := fun h => hc (hx.mpr h)
      omega
  unfold arith_renorm_step
  simp only []
  split
  · simp only [hand, u32] at hlow ⊢
    refine ⟨by omega, ?_⟩
    omega
  · simp only [hand, u32] at hlow ⊢
    refine ⟨by omega, ?_⟩
    omega

theorem arith_renorm_regs (n : Nat) :
    ∀ a a1 : dirac_arith_state, 0 < a.range → a.low + a.range ≤ 65536 → a.code < 65536 →
      arith_renorm n a = some a1 → a1.low + a1.range ≤ 65536 ∧ a1.code < 65536 := by
  induction n with
  | zero =>
    intro a a1 _ hl hc h
    simp only [arith_renorm] at h
    split at h
    · exact absurd h (by simp)
    · simp only [Option.some.injEq] at h
      subst h
      exact ⟨hl, hc⟩
  | succ n ih =>
    intro a a1 h0 hl hc h
    simp only [arith_renorm] at h
    split at h
    · rename_i hr
      have hs := arith_renorm_step_regs a h0 hr hl
      have hrange : (arith_renorm_step a).range = a.range * 2 := by
        rw [arith_renorm_step_range]
        unfold u32
        omega
      exact ih _ a1 (by omega) hs.1 hs.2 h
    · simp only [Option.some.injEq] at h
      subst h
      exact ⟨hl, hc⟩

theorem arith_split_regs (a : dirac_arith_state) (c : Nat) (h0 : 0 < a.range)
    (hr : a.range ≤ 65536) (hp : a.contexts c < 65536) (hl : a.low + a.range ≤ 65536) :
    (arith_split a c).2.low + (arith_split a c).2.range ≤ 65536
      ∧ (arith_split a c).2.code = a.code := by
  have h := range_times_prob_lt a.range (a.contexts c) h0 hr hp
  simp only [u32] at h
  constructor
  · unfold arith_split
    simp only []
    split
    · simp only [usub, u32]
      omega
    · simp only [u32]
      omega
  · unfold arith_split
    simp only []
    split <;> rfl

theorem get_bits_lt (gb : GetBitContext) (n : Nat) : (get_bits gb n).1 < 2 ^ n := by
  induction n with
  | zero => simp [get_bits]
  | succ n ih =>
    simp only [get_bits, get_bits1]
    rw [Nat.pow_succ]
    split <;> omega

theorem dirac_arith_init_regs (gb : GetBitContext) (length : Int) :
    arith_regs (dirac_arith_init gb length) := by
  refine ⟨dirac_arith_init_ok gb length, ?_, ?_⟩
  · simp [dirac_arith_init]
  · have h := get_bits_lt (align_get_bits gb) 16
    simpa [dirac_arith_init, get_bits_long] using h

theorem dirac_arith_get_bit_regs (a : dirac_arith_state) (c : Nat) (h : arith_regs a) :
    ∃ b a1, dirac_arith_get_bit a c = some (b, a1) ∧ b < 2 ∧ arith_regs a1 := by
  obtain ⟨hok, hl, hc⟩ := h
  obtain ⟨b, a1, e1, hb, hok1⟩ := dirac_arith_get_bit_ok a c hok
  refine ⟨b, a1, e1, hb, hok1, ?_⟩
  obtain ⟨h1, h2, h3⟩ := hok
  have hs := arith_split_regs a c (by omega) h2 (h3 c) hl
  have hr := arith_split_range a c (by omega) h2 (h3 c)
  unfold dirac_arith_get_bit at e1
  simp only [Option.map_eq_some'] at e1
  obtain ⟨x, hx, hx2⟩ := e1
  simp only [Prod.mk.injEq] at hx2
  rw [← hx2.2]
  have hcode : (arith_update_context (arith_split a c).1 (arith_split a c).2 c).code
      < 65536 := by
    show (arith_split a c).2.code < 65536
    rw [hs.2]
    exact hc
  exact arith_renorm_regs 16 (arith_update_context (arith_split a c).1 (arith_split a c).2 c) x
    hr.1 hs.1 hcode hx

theorem arith_get_bits_regs (cs : List Nat) :
    ∀ a : dirac_arith_state, arith_regs a →
      ∃ bs a1, arith_get_bits a cs = some (bs, a1) ∧ bs.length = cs.length ∧ arith_regs a1 := by
  induction cs with
  | nil => intro a h; exact ⟨[], a, rfl, rfl, h⟩
  | cons c cs ih =>
    intro a h
    obtain ⟨b, a1, e1, _, h1⟩ := dirac_arith_get_bit_regs a c h
    obtain ⟨bs, a2, e2, e3, h2⟩ := ih a1 h1
    refine ⟨b :: bs, a2, ?_, by simp [e3], h2⟩
    simp [arith_get_bits, e1, e2]

/-- C30. After `dirac_arith_init` every run of `dirac_arith_get_bit` calls,
on any contexts and any input bits, returns (the renormalisation loop of
each call ends), and after it `0x4000 < range <= 0x10000`,
`low < 0x10000`, `code < 0x10000` and every context probability is below
`0x10000`; the range is not 0. -/
theorem dirac_arith_get_bit_registers (gb : GetBitContext) (length : Int) (cs : List Nat) :
    ∃ bs a1, arith_get_bits (dirac_arith_init gb length) cs = some (bs, a1)
      ∧ bs.length = cs.length
      ∧ 0x4000 < a1.range ∧ a1.range ≤ 0x10000 ∧ a1.range ≠ 0
      ∧ a1.low < 0x10000 ∧ a1.low + a1.range ≤ 0x10000 ∧ a1.code < 0x10000
      ∧ ∀ c, a1.contexts c < 0x10000 := by
  obtain ⟨bs, a1, e1, e2, ⟨h1, h2, h3⟩, h4, h5⟩ := arith_get_bits_regs cs
    (dirac_arith_init gb length) (dirac_arith_init_regs gb length)
  exact ⟨bs, a1, e1, e2, h1, h2, by omega, by omega, h4, h5, h3⟩

/-! ## Theorems: the wavelet filter of the encoder -/

theorem parse_frame_codeblocks_wavelet_idx (h : dirac_host) :
    ∀ (n i : Nat) (s : DiracContext),
      (parse_frame_codeblocks h n i s).wavelet_idx = s.wavelet_idx := by
  intro n
  induction n with
  | zero => intro i s; rfl
  | succ n ih =>
    intro i s
    simp only [parse_frame_codeblocks]
    rw [ih]

theorem parse_frame_codeblock_defaults_wavelet_idx :
    ∀ (n i : Nat) (s : DiracContext),
      (parse_frame_codeblock_defaults n i s).wavelet_idx = s.wavelet_idx := by
  intro n
  induction n with
  | zero => intro i s; rfl
  | succ n ih =>
    intro i s
    simp only [parse_frame_codeblock_defaults]
    rw [ih]

/-- The index `wavelet_idx` after `parse_frame_wavelet` is the index read
after a set override flag. -/
theorem parse_frame_wavelet_idx (h : dirac_host) (s : DiracContext)
    (h1 : (get_bits1 s.gb).1 ≠ 0) :
    (parse_frame_wavelet h s).2.wavelet_idx
      = int_to_u32 (h.svq3_get_ue_golomb (get_bits1 s.gb).2).1 := by
  unfold parse_frame_wavelet
  simp only [if_pos h1]
  split_ifs <;>
    simp only [parse_frame_codeblocks_wavelet_idx, parse_frame_codeblock_defaults_wavelet_idx]

/-- C22 (code defect). Under its comment "Set the default filter to
Deslauriers-Debuc" the picture header of `dirac_encode_frame` sets the
override flag and writes the filter index 1; for the index 1 `dirac_idwt`
calls `dirac_subband_idwt_53`, the LeGall (5,3) transform, and it calls
`dirac_subband_idwt_95`, the Deslauriers-Dubuc transform, for the index 0
only; the forward transform `dirac_dwt` of the encoder calls
`dirac_subband_dwt_53`. -/
theorem dirac_encode_frame_index_not_deslauriers :
    encoded_wavelet_filter 1 = [put_op.put_bits 1 1, put_op.dirac_set_ue_golomb 1]
      ∧ dirac_idwt 16 16 1 1 = [wavelet_call.dirac_subband_idwt_53 8 8 16 1]
      ∧ dirac_idwt 16 16 1 0 = [wavelet_call.dirac_subband_idwt_95 8 8 16 1]
      ∧ dirac_idwt 16 16 1 1 ≠ dirac_idwt 16 16 1 0
      ∧ dirac_dwt 16 16 1 = [wavelet_call.dirac_subband_dwt_53 8 8 16 1] := by
  decide

/-- What the code does with the filter index of the encoder, for every
frame number, reader and size: the header sets the override flag and
writes the index 1; `parse_frame` sets `wavelet_idx` to 1 when it reads
that flag and that index; for the index 1 `dirac_idwt` calls
`dirac_subband_idwt_53` at every level, and `dirac_dwt` calls
`dirac_subband_dwt_53` at the same levels in the opposite order, with the
same sizes. -/
theorem dirac_encode_frame_writes_index_one :
    (∀ frame_number : Int, encoded_wavelet_filter frame_number
        = [put_op.put_bits 1 1, put_op.dirac_set_ue_golomb 1])
      ∧ (∀ (h : dirac_host) (s : DiracContext), (get_bits1 s.gb).1 = 1 →
          (h.svq3_get_ue_golomb (get_bits1 s.gb).2).1 = 1 →
          (parse_frame_wavelet h s).2.wavelet_idx = 1)
      ∧ (∀ (padded_width padded_height : Int) (wavelet_depth : Nat),
          dirac_idwt padded_width padded_height wavelet_depth 1
            = (loop_range 1 ((wavelet_depth : Int) + 1)).map (fun (level : Int) =>
                wavelet_call.dirac_subband_idwt_53
                  (subband_width padded_width wavelet_depth level)
                  (subband_height padded_height wavelet_depth level) padded_width level))
      ∧ (∀ (padded_width padded_height : Int) (wavelet_depth : Nat),
          dirac_dwt padded_width padded_height wavelet_depth
            = (loop_range 1 ((wavelet_depth : Int) + 1)).reverse.map (fun (level : Int) =>
                wavelet_call.dirac_subband_dwt_53
                  (subband_width padded_width wavelet_depth level)
                  (subband_height padded_height wavelet_depth level) padded_width level)) := by
  refine ⟨fun _ => rfl, ?_, ?_, fun _ _ _ => rfl⟩
  · intro h s h1 h2
    rw [parse_frame_wavelet_idx h s (by omega), h2]
    rfl
  · intro pw ph d
    unfold dirac_idwt
    simp

/-! ## Theorems: `cavsdata.h` -/

/-- C28 (counterexample). The entry `dequant_shift[16]` is 13, not
`14 - 16 / 8 = 12`. -/
theorem dequant_shift_16 : dequant_shift_at 16 = 13 ∧ 14 - 16 / 8 = 12 := by
  decide

theorem dequant_shift_all :
    (List.range 64).all (fun qp => decide (
      (dequant_shift_at qp = if qp = 16 ∨ qp = 32 ∨ qp = 40 ∨ qp = 48 then 15 - qp / 8
        else 14 - qp / 8)
      ∧ 7 ≤ dequant_shift_at qp ∧ dequant_shift_at qp ≤ 14
      ∧ (qp + 1 < 64 → dequant_shift_at (qp + 1) ≤ dequant_shift_at qp))) = true := by
  decide

/-- C28 (amended). For every `qp` in 0..63 the entry `dequant_shift[qp]` is
`14 - qp / 8`, but for `qp` 16, 32, 40 and 48, where it is `15 - qp / 8`;
the entries lie in 7..14 and do not grow with `qp`. -/
theorem dequant_shift_eq (qp : Nat) (h : qp < 64) :
    (dequant_shift_at qp = if qp = 16 ∨ qp = 32 ∨ qp = 40 ∨ qp = 48 then 15 - qp / 8
        else 14 - qp / 8)
      ∧ 7 ≤ dequant_shift_at qp ∧ dequant_shift_at qp ≤ 14
      ∧ (qp + 1 < 64 → dequant_shift_at (qp + 1) ≤ dequant_shift_at qp) := by
  have h1 := dequant_shift_all
  rw [List.all_eq_true] at h1
  have h2 := h1 qp (List.mem_range.mpr h)
  exact of_decide_eq_true h2

theorem dequant_shift_eq_witness :
    dequant_shift_at 40 = 15 - 40 / 8 ∧ dequant_shift_at 41 = 14 - 41 / 8 :=
  ⟨by simpa using (dequant_shift_eq 40 (by decide)).1,
   by decide⟩

/-- C29 (counterexample). The enumerator `MV_FWD_X3` is 10. -/
theorem MV_FWD_X3_eq : MV_FWD_X3 = 10 ∧ ¬ MV_FWD_X3 ≤ 9 := by
  decide

/-- C29 (amended). The forward enumerators of `enum mv_loc_t` take the
values 0 to 6 and 8 to 10, all below `MV_BWD_OFFS = 12`; each backward
enumerator is the forward one plus `MV_BWD_OFFS`; `mv_scan` lists
`MV_FWD_X0` to `MV_FWD_X3`, the cells (1, 1), (1, 2), (2, 1) and (2, 2) of
the cache of `MV_STRIDE = 4` slots to a row, in raster order. -/
theorem mv_loc_layout :
    mv_loc_fwd = [0, 1, 2, 3, 4, 5, 6, 8, 9, 10]
      ∧ MV_BWD_OFFS = 12
      ∧ mv_loc_bwd = mv_loc_fwd.map (fun v => v + MV_BWD_OFFS)
      ∧ mv_scan = [MV_FWD_X0, MV_FWD_X1, MV_FWD_X2, MV_FWD_X3]
      ∧ mv_scan.map mv_slot_cell = [(1, 1), (1, 2), (2, 1), (2, 2)] := by
  decide

/-! ## Theorems: `epzs_motion_search` -/

set_option maxRecDepth 100000 in
/-- C25 (counterexample). In the first row of macroblocks, with zero
predictors and the score 100 of the zero vector, `epzs_motion_search` does
not leave early: the flag `skip` stays 0 and the small diamond search
enters the four neighbours of the zero vector in the map. In the second
row the same call leaves early with the flag `skip` set, and the
neighbours are not in the map. -/
theorem epzs_first_row_searches :
    (sample_epzs 0).map (fun r => (r.ret, r.mx, r.my, r.skip)) = some (100, 0, 0, 0)
      ∧ (sample_epzs 0).map (fun r => [r.map 1, r.map 63, r.map 8, r.map 56])
          = some [4097, 4095, 6144, 2048]
      ∧ (sample_epzs 1).map (fun r => (r.ret, r.mx, r.my, r.skip)) = some (100, 0, 0, 1)
      ∧ (sample_epzs 1).map (fun r => [r.map 1, r.map 63, r.map 8, r.map 56])
          = some [0, 0, 0, 0] := by
  decide!

theorem int_lor_zero : Int.lor 0 0 = 0 := by
  decide

/-- C25 (amended). Below the first row of macroblocks (`mb_y != 0`), when
the left, top and top-right predictors are zero and the score of the zero
vector is below 256, `epzs_motion_search` returns that score with the
vector `(0, 0)` and the flag `skip` set, and the only entry of the map and
of the score map that it writes is the entry 0 of the zero vector; in the
first row (`mb_y == 0`) the flag `skip` is as it was whenever the function
returns. -/
theorem epzs_motion_search_early_out (h : me_host) (fuel : Nat) (s : me_context)
    (P_LEFT P_TOP P_TOPRIGHT P_MEDIAN : Nat → Int) (pred_x pred_y : Int)
    (xmin ymin xmax ymax : Int) (last_mv : Int → Nat → Int) (ref_mv_scale : Int)
    (mv_penalty : Int → Int)
    (hd : h.cmp 0 0 < 256)
    (hz : P_LEFT 0 = 0 ∧ P_LEFT 1 = 0 ∧ P_TOP 0 = 0 ∧ P_TOP 1 = 0 ∧ P_TOPRIGHT 0 = 0
      ∧ P_TOPRIGHT 1 = 0) :
    (s.mb_y ≠ 0 →
      epzs_motion_search h fuel s P_LEFT P_TOP P_TOPRIGHT P_MEDIAN pred_x pred_y xmin ymin xmax
          ymax last_mv ref_mv_scale mv_penalty
        = some { ret := h.cmp 0 0, mx := 0, my := 0, skip := 1,
                 map := Function.update (h.update_map_generation s.map).2 0
                   (int_to_u32 (h.update_map_generation s.map).1),
                 score_map := Function.update s.score_map 0 (int_to_u32 (h.cmp 0 0)) })
      ∧ (s.mb_y = 0 → ∀ r : epzs_result,
          epzs_motion_search h fuel s P_LEFT P_TOP P_TOPRIGHT P_MEDIAN pred_x pred_y xmin ymin
              xmax ymax last_mv ref_mv_scale mv_penalty = some r → r.skip = s.skip) := by
  obtain ⟨z1, z2, z3, z4, z5, z6⟩ := hz
  constructor
  · intro hy
    unfold epzs_motion_search
    simp only [if_neg hy, z1, z2, z3, z4, z5, z6, int_lor_zero, hd, and_self, if_true]
  · intro hy r hr
    unfold epzs_motion_search at hr
    simp only [if_pos hy] at hr
    unfold epzs_search_tail at hr
    simp only [Option.map_eq_some'] at hr
    obtain ⟨st, _, rfl⟩ := hr
    rfl

theorem epzs_motion_search_early_out_witness :
    sample_epzs 1
      = some (epzs_result.mk 100 0 0 1 (Function.update (fun _ => 0) 0 (int_to_u32 4096))
          (Function.update (fun _ => 0) 0 (int_to_u32 100))) :=
  (epzs_motion_search_early_out sample_me_host 8 (sample_me_context 1) (fun _ => 0) (fun _ => 0)
    (fun _ => 0) (fun _ => 0) 0 0 (-16) (-16) 15 15 (fun _ _ => 0) 0 (fun _ => 0)
    (by decide) (by decide)).1 (by decide)

/-! ## Theorems: the spatial weighting matrix -/

theorem foldl_update_notin {ι : Type} (key : ι → Int) (val : ι → Int) (k : Int) :
    ∀ (l : List ι) (t : Int → Int), (∀ a ∈ l, key a ≠ k) →
      (l.foldl (fun (t : Int → Int) (a : ι) => Function.update t (key a) (val a)) t) k = t k := by
  intro l
  induction l with
  | nil => intro t _; rfl
  | cons a l ih =>
    intro t h
    rw [List.foldl_cons, ih _ (fun b hb => h b (List.mem_cons_of_mem a hb))]
    exact Function.update_noteq (Ne.symm (h a (List.mem_cons_self a l))) _ _

theorem foldl_update_spec {ι : Type} (key : ι → Int) (val : ι → Int) (k v : Int) :
    ∀ (l : List ι) (t : Int → Int), (∀ a ∈ l, key a = k → val a = v) → (∃ a ∈ l, key a = k) →
      (l.foldl (fun (t : Int → Int) (a : ι) => Function.update t (key a) (val a)) t) k = v := by
  intro l
  induction l with
  | nil =>
    intro t _ h
    obtain ⟨a, ha, _⟩ := h
    exact absurd ha (List.not_mem_nil a)
  | cons a l ih =>
    intro t h1 h2
    rw [List.foldl_cons]
    by_cases hl : ∃ b ∈ l, key b = k
    · exact ih _ (fun b hb => h1 b (List.mem_cons_of_mem a hb)) hl
    · have hn : ∀ b ∈ l, key b ≠ k := fun b hb hk => hl ⟨b, hb, hk⟩
      rw [foldl_update_notin key val k l _ hn]
      obtain ⟨b, hb, hk⟩ := h2
      rcases List.mem_cons.mp hb with rfl | hb'
      · rw [← hk, Function.update_same]
        exact h1 b (List.mem_cons_self b l) hk
      · exact absurd hk (hn b hb')

theorem mem_loop_range (start stop x : Int) : x ∈ loop_range start stop ↔ start ≤ x ∧ x < stop := by
  unfold loop_range
  simp only [List.mem_map, List.mem_range]
  constructor
  · rintro ⟨k, hk, rfl⟩
    omega
  · rintro ⟨h1, h2⟩
    exact ⟨(x - start).toNat, by omega, by omega⟩

theorem to_u16_to_int16 (z : Int) : ((to_u16 (to_int16 z) : Nat) : Int) = z % 65536 := by
  unfold to_int16 s16 to_u16
  split_ifs <;> omega

/-- The element `cx + cy * xblen` of the spatial weighting matrix after the
loops that set it up. -/
theorem spatialwt_loops_at (xblen yblen xbsep ybsep : Int) (table : Int → Int) (cx cy : Int)
    (hx : 0 ≤ cx ∧ cx < xblen) (hy : 0 ≤ cy ∧ cy < yblen) :
    spatialwt_loops xblen yblen xbsep ybsep table (cx + cy * xblen)
      = to_int16 (av_clip (xblen - FFABS (2 * cx - (xblen - 1))) 0 (2 * (xblen - xbsep))
          * av_clip (yblen - FFABS (2 * cy - (yblen - 1))) 0 (2 * (yblen - ybsep))) := by
  unfold spatialwt_loops
  have e := foldl_flatMap_eq
    (fun (t : Int → Int) (p : Int × Int) => Function.update t (p.1 + p.2 * xblen)
      (to_int16 (av_clip (xblen - FFABS (2 * p.1 - (xblen - 1))) 0 (2 * (xblen - xbsep))
        * av_clip (yblen - FFABS (2 * p.2 - (yblen - 1))) 0 (2 * (yblen - ybsep)))))
    (fun (x : Int) => (loop_range 0 yblen).map (fun (y : Int) => (x, y)))
    (loop_range 0 xblen) table
  simp only [List.foldl_map] at e
  rw [← e]
  apply foldl_update_spec (fun (p : Int × Int) => p.1 + p.2 * xblen)
  · rintro ⟨x, y⟩ hp hk
    simp only [List.mem_flatMap, List.mem_map, mem_loop_range, Prod.mk.injEq] at hp
    obtain ⟨x1, hx1, y1, hy1, rfl, rfl⟩ := hp
    simp only at hk
    have hyy : x1 = cx ∧ y1 = cy := by
      have h1 : (y1 - cy) * xblen = cx - x1 := by linarith
      rcases lt_trichotomy y1 cy with h | h | h
      · have : (cy - y1) * xblen ≥ 1 * xblen := by
          apply Int.mul_le_mul_of_nonneg_right (by omega) (by omega)
        nlinarith
      · subst h
        simp at h1
        omega
      · have : (y1 - cy) * xblen ≥ 1 * xblen := by
          apply Int.mul_le_mul_of_nonneg_right (by omega) (by omega)
        nlinarith
    rw [hyy.1, hyy.2]
  · refine ⟨(cx, cy), ?_, rfl⟩
    simp only [List.mem_flatMap, List.mem_map, mem_loop_range, Prod.mk.injEq]
    exact ⟨cx, ⟨by omega, hx.2⟩, cy, ⟨by omega, hy.2⟩, rfl, rfl⟩

theorem spatial_wt_interior (i cx bsep blen offset blocks : Int) (hi : 0 < i ∧ i < blocks - 1) :
    spatial_wt i (i * bsep - offset + cx) bsep blen offset blocks
      = av_clip (blen - FFABS (2 * cx - (blen - 1))) 0 (2 * (blen - bsep)) := by
  unfold spatial_wt
  have e : i * bsep - offset + cx - (i * bsep - offset) = cx := by ring
  simp only [e]
  have h1 : ¬ i = 0 := by omega
  have h2 : ¬ i = blocks - 1 := by omega
  simp [h1, h2]

theorem av_clip_bounds (a amax : Int) (h : 0 ≤ amax) : 0 ≤ av_clip a 0 amax ∧ av_clip a 0 amax ≤ amax := by
  unfold av_clip
  split_ifs <;> omega

/-- For an interior block `(i, j)` and an offset `(cx, cy)` inside the
block, for block lengths of any size: the element
`spatialwt[cx + cy * xblen]` that the block functions read through their
`uint16_t` pointer is the product of the two values of `spatial_wt`
reduced modulo `0x10000`, and the product itself when that is below
`0x10000`. -/
theorem spatialwt_read_mod (xblen yblen xbsep ybsep xoffset yoffset : Int)
    (blwidth blheight : Int) (table : Int → Int) (i j cx cy : Int)
    (hxb : xbsep ≤ xblen) (hyb : ybsep ≤ yblen)
    (hi : 0 < i ∧ i < blwidth - 1) (hj : 0 < j ∧ j < blheight - 1)
    (hx : 0 ≤ cx ∧ cx < xblen) (hy : 0 ≤ cy ∧ cy < yblen) :
    spatial_wt i (i * xbsep - xoffset + cx) xbsep xblen xoffset blwidth
        = av_clip (xblen - FFABS (2 * cx - (xblen - 1))) 0 (2 * (xblen - xbsep))
      ∧ spatial_wt j (j * ybsep - yoffset + cy) ybsep yblen yoffset blheight
        = av_clip (yblen - FFABS (2 * cy - (yblen - 1))) 0 (2 * (yblen - ybsep))
      ∧ spatialwt_read (spatialwt_loops xblen yblen xbsep ybsep table) (cx + cy * xblen)
        = (spatial_wt i (i * xbsep - xoffset + cx) xbsep xblen xoffset blwidth
            * spatial_wt j (j * ybsep - yoffset + cy) ybsep yblen yoffset blheight) % 65536
      ∧ (spatial_wt i (i * xbsep - xoffset + cx) xbsep xblen xoffset blwidth
            * spatial_wt j (j * ybsep - yoffset + cy) ybsep yblen yoffset blheight < 65536 →
          spatialwt_read (spatialwt_loops xblen yblen xbsep ybsep table) (cx + cy * xblen)
            = spatial_wt i (i * xbsep - xoffset + cx) xbsep xblen xoffset blwidth
              * spatial_wt j (j * ybsep - yoffset + cy) ybsep yblen yoffset blheight) := by
  have e1 := spatial_wt_interior i cx xbsep xblen xoffset blwidth hi
  have e2 := spatial_wt_interior j cy ybsep yblen yoffset blheight hj
  have e3 : spatialwt_read (spatialwt_loops xblen yblen xbsep ybsep table) (cx + cy * xblen)
      = (spatial_wt i (i * xbsep - xoffset + cx) xbsep xblen xoffset blwidth
          * spatial_wt j (j * ybsep - yoffset + cy) ybsep yblen yoffset blheight) % 65536 := by
    unfold spatialwt_read
    rw [spatialwt_loops_at xblen yblen xbsep ybsep table cx cy hx hy, to_u16_to_int16, e1, e2]
  refine ⟨e1, e2, e3, ?_⟩
  intro hlt
  rw [e3]
  apply Int.emod_eq_of_lt _ hlt
  rw [e1, e2]
  exact Int.mul_nonneg (av_clip_bounds _ _ (by omega)).1 (av_clip_bounds _ _ (by omega)).1

/-- The table `mc_spatialwt` is the array that the loops of
`dirac_motion_compensation` set up, for a positive block length. -/
theorem spatialwt_loops_eq (xblen yblen xbsep ybsep : Int) (table : Int → Int) (k : Int)
    (hx : 0 < xblen) (hk : 0 ≤ k ∧ k < xblen * yblen) :
    spatialwt_loops xblen yblen xbsep ybsep table k = mc_spatialwt xblen yblen xbsep ybsep k := by
  have hm := Int.emod_nonneg k (by omega : xblen ≠ 0)
  have hm2 := Int.emod_lt_of_pos k hx
  have hd := Int.emod_add_ediv k xblen
  have hq0 : 0 ≤ k / xblen := Int.ediv_nonneg hk.1 (le_of_lt hx)
  have hq1 : k / xblen < yblen := by
    apply Int.ediv_lt_of_lt_mul hx
    rw [mul_comm]
    exact hk.2
  have e := spatialwt_loops_at xblen yblen xbsep ybsep table (k % xblen) (k / xblen)
    ⟨hm, hm2⟩ ⟨hq0, hq1⟩
  have ek : k % xblen + k / xblen * xblen = k := by
    rw [mul_comm]
    exact hd
  rw [ek] at e
  rw [e]
  unfold mc_spatialwt
  rw [if_pos hk]

theorem av_clip_le_of_le (a amax b : Int) (hb : 0 ≤ b) (ha : a ≤ b) :
    av_clip a 0 amax ≤ b := by
  unfold av_clip
  split_ifs <;> omega

theorem spatial_window_le (blen bsep cx : Int) (hb : 0 ≤ blen) :
    av_clip (blen - FFABS (2 * cx - (blen - 1))) 0 (2 * (blen - bsep)) ≤ blen := by
  apply av_clip_le_of_le _ _ _ hb
  unfold FFABS
  split_ifs <;> omega

/-- The block lengths that `dirac_motion_compensation` loads from the
`uint8_t` members of the frame parameters are below 256. -/
theorem mc_setup_blen_lt (sequence : sequence_parameters) (frame_decoding : decoding_parameters)
    (chroma_hshift chroma_vshift : Nat) (blwidth padded_width comp : Int) :
    (mc_setup sequence frame_decoding chroma_hshift chroma_vshift blwidth padded_width comp).xblen
        < 256
      ∧ (mc_setup sequence frame_decoding chroma_hshift chroma_vshift blwidth padded_width
          comp).yblen < 256 := by
  have h1 := frame_decoding.luma_xblen.property
  have h2 := frame_decoding.chroma_xblen.property
  have h3 := frame_decoding.luma_yblen.property
  have h4 := frame_decoding.chroma_yblen.property
  unfold mc_setup
  dsimp only
  constructor <;> split_ifs <;> omega

/-- C27. For the block geometry that `dirac_motion_compensation` sets up
from the frame parameters (block lengths are `uint8_t` members), with
`xblen >= xbsep` and `yblen >= ybsep`, every interior block `(i, j)` and
every offset `(cx, cy)` inside the block: the two calls of `spatial_wt`
give the clipped windows; the element `spatialwt[cx + cy * xblen]` that
the loops of `dirac_motion_compensation` store and the block functions
read is the product of the horizontal and the vertical value of
`spatial_wt`; and the weight that the block functions use with the table
(`border` set) is the weight they compute without it. -/
theorem spatialwt_matches_spatial_wt (sequence : sequence_parameters)
    (frame_decoding : decoding_parameters) (chroma_hshift chroma_vshift : Nat)
    (blwidth padded_width comp : Int) (s : mc_context)
    (hs : s = mc_setup sequence frame_decoding chroma_hshift chroma_vshift blwidth padded_width
      comp)
    (table : Int → Int) (i j cx cy : Int)
    (hxb : s.xbsep ≤ s.xblen) (hyb : s.ybsep ≤ s.yblen)
    (hi : 0 < i ∧ i < s.current_blwidth - 1) (hj : 0 < j ∧ j < s.current_blheight - 1)
    (hx : 0 ≤ cx ∧ cx < s.xblen) (hy : 0 ≤ cy ∧ cy < s.yblen) :
    spatial_wt i (i * s.xbsep - s.xoffset + cx) s.xbsep s.xblen s.xoffset s.current_blwidth
        = av_clip (s.xblen - FFABS (2 * cx - (s.xblen - 1))) 0 (2 * (s.xblen - s.xbsep))
      ∧ spatial_wt j (j * s.ybsep - s.yoffset + cy) s.ybsep s.yblen s.yoffset s.current_blheight
        = av_clip (s.yblen - FFABS (2 * cy - (s.yblen - 1))) 0 (2 * (s.yblen - s.ybsep))
      ∧ spatialwt_read (spatialwt_loops s.xblen s.yblen s.xbsep s.ybsep table)
          (cx + cy * s.xblen)
        = spatial_wt i (i * s.xbsep - s.xoffset + cx) s.xbsep s.xblen s.xoffset s.current_blwidth
          * spatial_wt j (j * s.ybsep - s.yoffset + cy) s.ybsep s.yblen s.yoffset
              s.current_blheight
      ∧ mc_weight s i j (i * s.xbsep - s.xoffset) (j * s.ybsep - s.yoffset)
          (i * s.xbsep - s.xoffset + cx) (j * s.ybsep - s.yoffset + cy) 1
        = mc_weight s i j (i * s.xbsep - s.xoffset) (j * s.ybsep - s.yoffset)
          (i * s.xbsep - s.xoffset + cx) (j * s.ybsep - s.yoffset + cy) 0 := by
  have hlt := mc_setup_blen_lt sequence frame_decoding chroma_hshift chroma_vshift blwidth
    padded_width comp
  rw [← hs] at hlt
  have hsw : s.spatialwt = mc_spatialwt s.xblen s.yblen s.xbsep s.ybsep := by
    rw [hs]
    rfl
  obtain ⟨e1, e2, -, e4⟩ := spatialwt_read_mod s.xblen s.yblen s.xbsep s.ybsep s.xoffset
    s.yoffset s.current_blwidth s.current_blheight table i j cx cy hxb hyb hi hj hx hy
  have b1 := av_clip_bounds (s.xblen - FFABS (2 * cx - (s.xblen - 1))) (2 * (s.xblen - s.xbsep))
    (by omega)
  have b2 := av_clip_bounds (s.yblen - FFABS (2 * cy - (s.yblen - 1))) (2 * (s.yblen - s.ybsep))
    (by omega)
  have c1 := spatial_window_le s.xblen s.xbsep cx (by omega)
  have c2 := spatial_window_le s.yblen s.ybsep cy (by omega)
  have hprod : spatial_wt i (i * s.xbsep - s.xoffset + cx) s.xbsep s.xblen s.xoffset
        s.current_blwidth
      * spatial_wt j (j * s.ybsep - s.yoffset + cy) s.ybsep s.yblen s.yoffset
        s.current_blheight < 65536 := by
    rw [e1, e2]
    have : av_clip (s.xblen - FFABS (2 * cx - (s.xblen - 1))) 0 (2 * (s.xblen - s.xbsep))
        * av_clip (s.yblen - FFABS (2 * cy - (s.yblen - 1))) 0 (2 * (s.yblen - s.ybsep))
        ≤ 255 * 255 :=
      Int.mul_le_mul (by omega) (by omega) b2.1 (by omega)
    omega
  have e3 := e4 hprod
  refine ⟨e1, e2, e3, ?_⟩
  unfold mc_weight
  rw [if_pos (by decide), if_neg (by decide), hsw, ← e3]
  have hk : s.xblen * (j * s.ybsep - s.yoffset + cy - (j * s.ybsep - s.yoffset))
      + (i * s.xbsep - s.xoffset + cx - (i * s.xbsep - s.xoffset)) = cx + cy * s.xblen := by
    ring
  rw [hk]
  unfold spatialwt_read
  rw [spatialwt_loops_eq s.xblen s.yblen s.xbsep s.ybsep table (cx + cy * s.xblen) (by omega)]
  constructor
  · have := Int.mul_nonneg hy.1 (by omega : (0 : Int) ≤ s.xblen)
    omega
  · have h1 : cy + 1 ≤ s.yblen := by omega
    have h2 : (cy + 1) * s.xblen ≤ s.yblen * s.xblen :=
      Int.mul_le_mul_of_nonneg_right h1 (by omega)
    have h3 : (cy + 1) * s.xblen = cy * s.xblen + s.xblen := by ring
    have h4 : s.yblen * s.xblen = s.xblen * s.yblen := by ring
    omega

set_option maxRecDepth 100000 in
theorem spatialwt_matches_spatial_wt_witness :
    spatialwt_read
        (spatialwt_loops sample_mc_large.xblen sample_mc_large.yblen sample_mc_large.xbsep
          sample_mc_large.ybsep (fun _ => 0)) (124 + 124 * sample_mc_large.xblen)
        = spatial_wt 1 (1 * sample_mc_large.xbsep - sample_mc_large.xoffset + 124)
            sample_mc_large.xbsep sample_mc_large.xblen sample_mc_large.xoffset
            sample_mc_large.current_blwidth
          * spatial_wt 1 (1 * sample_mc_large.ybsep - sample_mc_large.yoffset + 124)
            sample_mc_large.ybsep sample_mc_large.yblen sample_mc_large.yoffset
            sample_mc_large.current_blheight
      ∧ spatial_wt 1 (1 * sample_mc_large.xbsep - sample_mc_large.xoffset + 124)
          sample_mc_large.xbsep sample_mc_large.xblen sample_mc_large.xoffset
          sample_mc_large.current_blwidth = 249
      ∧ to_int16 (249 * 249) = -3535 :=
  ⟨(spatialwt_matches_spatial_wt _ _ 1 1 7 640 0 sample_mc_large rfl (fun _ => 0) 1 1 124 124
      (by decide!) (by decide!) (by decide!) (by decide!) (by decide!) (by decide!)).2.2.1,
    by decide!, by decide!⟩

set_option maxRecDepth 100000 in
/-- C26 (divergence). Eighth-pel vectors, the picture weights 0 and 1 and
a second reference whose pixels grow by 4 from row to row, at the pixel
`(10, 10)` of the interior block `(1, 1)`, where the spatial weight is 64.
With the second vector `(0, 2)` the block of two references adds
`352 * 64`, as with the vector `(0, 0)`: the vertical phase 2 is not used;
the block of one reference adds `356 * 64` for that vector. With the
second vector `(2, 0)` the block of two references adds `356 * 64`: the
horizontal phase 2 is used for the rows also; the block of one reference
adds `352 * 64`. -/
theorem motion_comp_block2refs_vertical_phase :
    (mc_block (mc_setup sample_mc_sequence sample_mc_decoding_eighth 1 1 4 32 0)
        sample_mc_refdata (fun _ => sample_block_vect2 3 0 2) 0 (fun _ => 0) 1 1) (32 * 10 + 10)
        = 352 * 64
      ∧ (mc_block (mc_setup sample_mc_sequence sample_mc_decoding_eighth 1 1 4 32 0)
        sample_mc_refdata (fun _ => sample_block_vect2 3 0 0) 0 (fun _ => 0) 1 1) (32 * 10 + 10)
        = 352 * 64
      ∧ (mc_block (mc_setup sample_mc_sequence sample_mc_decoding_eighth 1 1 4 32 0)
        sample_mc_refdata (fun _ => sample_block_vect2 2 0 2) 0 (fun _ => 0) 1 1) (32 * 10 + 10)
        = 356 * 64
      ∧ (mc_block (mc_setup sample_mc_sequence sample_mc_decoding_eighth 1 1 4 32 0)
        sample_mc_refdata (fun _ => sample_block_vect2 3 2 0) 0 (fun _ => 0) 1 1) (32 * 10 + 10)
        = 356 * 64
      ∧ (mc_block (mc_setup sample_mc_sequence sample_mc_decoding_eighth 1 1 4 32 0)
        sample_mc_refdata (fun _ => sample_block_vect2 2 2 0) 0 (fun _ => 0) 1 1) (32 * 10 + 10)
        = 352 * 64
      ∧ weight_at eighthpel_weights (Int.lor (Int.land 0 3 * 4) (Int.land 2 3)) 2 = 8
      ∧ weight_at eighthpel_weights (Int.lor (Int.land 0 3 * 4) (Int.land 0 3)) 2 = 0 := by
  decide!

/-! ## Theorems: quantisers -/

/-- C34. At the quantiser index 0 `coeff_quant_factor` is 4 and
`coeff_quant_offset` is 1 for intra and inter pictures, `subband` and
`subband_dc` pass `qfactor = 4` and `qoffset = 3`, and `coeff_dequant`
with them returns `c` for every `c` from 0 to `2^29 - 1`, the range in
which `c * 4 + 3` is an `int`; 0 is the index that `encode_subband`
writes. -/
theorem coeff_dequant_identity (refs : Nat) (c : Int) (h0 : 0 ≤ c) (h1 : c < 536870912) :
    coeff_quant_factor 0 = 4
      ∧ coeff_quant_offset refs 0 = 1
      ∧ subband_quant refs (int_to_u32 encode_subband_quant) = (4, 3)
      ∧ coeff_dequant c (u32_to_int (subband_quant refs 0).2) (u32_to_int (subband_quant refs 0).1)
          = c := by
  have e1 : coeff_quant_factor 0 = 4 := by decide
  have e2 : coeff_quant_offset refs 0 = 1 := by
    unfold coeff_quant_offset
    simp
  have e3 : subband_quant refs 0 = (4, 3) := by
    unfold subband_quant
    have z : u32_to_int 0 = 0 := by decide
    rw [z, e1, e2]
    decide
  refine ⟨e1, e2, e3, ?_⟩
  rw [e3]
  have a4 : u32_to_int 4 = 4 := by decide
  have a3 : u32_to_int 3 = 3 := by decide
  simp only [a4, a3]
  unfold coeff_dequant
  split_ifs with hc
  · omega
  · have w1 : wrap_int (c * 4) = c * 4 := by
      unfold wrap_int u32_to_int int_to_u32
      split_ifs <;> omega
    have w2 : wrap_int (c * 4 + 3) = c * 4 + 3 := by
      unfold wrap_int u32_to_int int_to_u32
      split_ifs <;> omega
    rw [w1, w2]
    have e := Int.shiftRight_eq_div_pow (c * 4 + 3) 2
    rw [e]
    omega

theorem coeff_dequant_identity_witness :
    coeff_dequant 1234 (u32_to_int (subband_quant 0 0).2) (u32_to_int (subband_quant 0 0).1)
        = 1234
      ∧ coeff_dequant 1234 (u32_to_int (subband_quant 1 4).2) (u32_to_int (subband_quant 1 4).1)
        = 2469 :=
  ⟨(coeff_dequant_identity 0 1234 (by decide) (by decide)).2.2.2, by decide⟩

/-! ## Theorems: codeblocks -/

theorem codeblock_bound_eq (W n x : Nat) (hx : x ≤ n)
    (hr : (W : Int) * n < 2147483648) :
    codeblock_bound W n x = ((W * x / n : Nat) : Int) := by
  have h1 : W * x ≤ W * n := Nat.mul_le_mul_left W hx
  have h2 : W * n < 2147483648 := by exact_mod_cast hr
  have h3 : W * x / n ≤ W * x := Nat.div_le_self _ _
  unfold codeblock_bound
  have e : (W : Int) * x = ((W * x : Nat) : Int) := by push_cast; rfl
  rw [e, wrap_int_eq _ (by omega) (by omega)]
  have h4 : int_to_u32 ((W * x : Nat) : Int) = W * x := by
    unfold int_to_u32
    omega
  rw [h4]
  unfold u32_to_int
  have h5 : W * x / n % 4294967296 = W * x / n := Nat.mod_eq_of_lt (by omega)
  rw [h5, if_pos (by omega)]

theorem codeblock_index_iff (W n x h : Nat) (hn : 1 ≤ n) :
    (W * x / n ≤ h ∧ h < W * (x + 1) / n)
      ↔ (W * x < n * (h + 1) ∧ n * (h + 1) ≤ W * (x + 1)) := by
  have a : W * x / n ≤ h ↔ W * x < n * (h + 1) := by
    rw [← Nat.lt_succ_iff, Nat.div_lt_iff_lt_mul (by omega), Nat.mul_comm (h.succ) n]
  have b : h < W * (x + 1) / n ↔ n * (h + 1) ≤ W * (x + 1) := by
    rw [← Nat.succ_le_iff, Nat.le_div_iff_mul_le (by omega), Nat.mul_comm]
  rw [a, b]

theorem codeblock_index_unique (W n x z h : Nat)
    (hx : W * x < n * (h + 1) ∧ n * (h + 1) ≤ W * (x + 1))
    (hz : W * z < n * (h + 1) ∧ n * (h + 1) ≤ W * (z + 1)) : x = z := by
  rcases Nat.lt_trichotomy x z with hlt | heq | hgt
  · have := Nat.mul_le_mul_left W (show x + 1 ≤ z from hlt)
    omega
  · exact heq
  · have := Nat.mul_le_mul_left W (show z + 1 ≤ x from hgt)
    omega

theorem codeblock_index_exists (W n h : Nat) (hn : 1 ≤ n) (hh : h < W) :
    (n * (h + 1) - 1) / W < n
      ∧ W * ((n * (h + 1) - 1) / W) < n * (h + 1)
      ∧ n * (h + 1) ≤ W * ((n * (h + 1) - 1) / W + 1) := by
  have hW : 0 < W := by omega
  have hA : 1 ≤ n * (h + 1) := Nat.mul_pos (by omega) (by omega)
  have h1 : W * ((n * (h + 1) - 1) / W) ≤ n * (h + 1) - 1 := Nat.mul_div_le _ _
  have h2 : n * (h + 1) - 1 < W * ((n * (h + 1) - 1) / W + 1) := Nat.lt_mul_div_succ _ hW
  have h3 : n * (h + 1) ≤ n * W := Nat.mul_le_mul_left n (by omega)
  refine ⟨?_, by omega, by omega⟩
  rw [Nat.div_lt_iff_lt_mul hW]
  omega

theorem codeblock_index_range (W n x h : Nat) (hx : x < n)
    (hc : W * x < n * (h + 1) ∧ n * (h + 1) ≤ W * (x + 1)) : h < W := by
  have h1 : W * (x + 1) ≤ W * n := Nat.mul_le_mul_left W hx
  have h2 : n * (h + 1) ≤ n * W := by rw [Nat.mul_comm n W]; omega
  have hn : 0 < n := by omega
  have := Nat.le_of_mul_le_mul_left h2 hn
  omega

theorem codeblock_axis_iff (W n x : Nat) (hn : 1 ≤ n) (hx : x < n)
    (hr : (W : Int) * n < 2147483648) (h : Int) :
    (codeblock_bound W n x ≤ h ∧ h < codeblock_bound W n ((x : Int) + 1))
      ↔ (0 ≤ h ∧ W * x < n * (h.toNat + 1) ∧ n * (h.toNat + 1) ≤ W * (x + 1)) := by
  have e : ((x : Int) + 1) = ((x + 1 : Nat) : Int) := by push_cast; rfl
  rw [e, codeblock_bound_eq W n x (by omega) hr, codeblock_bound_eq W n (x + 1) (by omega) hr,
    ← codeblock_index_iff W n x h.toNat hn]
  generalize W * x / n = p
  generalize W * (x + 1) / n = q
  omega

theorem mem_codeblock_cells (width height : Int) (nh nv : Nat) (x y v h : Int) :
    (v, h) ∈ codeblock_cells width height nh nv x y
      ↔ (codeblock_bound width nh x ≤ h ∧ h < codeblock_bound width nh (x + 1))
        ∧ (codeblock_bound height nv y ≤ v ∧ v < codeblock_bound height nv (y + 1)) := by
  unfold codeblock_cells
  simp only [List.mem_flatMap, List.mem_map, mem_loop_range, Prod.mk.injEq]
  constructor
  · rintro ⟨a, ha, b, hb, rfl, rfl⟩
    exact ⟨hb, ha⟩
  · rintro ⟨hb, ha⟩
    exact ⟨v, ha, h, hb, rfl, rfl⟩

/-- C35. For a subband of `width >= 0` columns and `height >= 0` rows
and codeblock counts `nh >= 1`, `nv >= 1` whose products with the sizes
are `int` values, a position `(v, h)` is visited by the loops of exactly
one codeblock `(x, y)` with `x < nh`, `y < nv` when it lies in
`[0, height) x [0, width)`, and by none otherwise: the rectangles of
`codeblock` and `encode_codeblock` are disjoint and cover the subband. -/
theorem codeblocks_tile (width height : Int) (nh nv : Nat) (hW : 0 ≤ width) (hH : 0 ≤ height)
    (hnh : 1 ≤ nh) (hnv : 1 ≤ nv) (hWr : width * nh < 2147483648)
    (hHr : height * nv < 2147483648) (v h : Int) :
    (0 ≤ h ∧ h < width ∧ 0 ≤ v ∧ v < height)
      ↔ ∃! p : Nat × Nat, p.1 < nh ∧ p.2 < nv
          ∧ (v, h) ∈ codeblock_cells width height nh nv p.1 p.2 := by
  obtain ⟨W, rfl⟩ := Int.eq_ofNat_of_zero_le hW
  obtain ⟨H, rfl⟩ := Int.eq_ofNat_of_zero_le hH
  constructor
  · rintro ⟨h0, h1, v0, v1⟩
    obtain ⟨a, rfl⟩ := Int.eq_ofNat_of_zero_le h0
    obtain ⟨b, rfl⟩ := Int.eq_ofNat_of_zero_le v0
    have ha : a < W := by exact_mod_cast h1
    have hb : b < H := by exact_mod_cast v1
    obtain ⟨x1, x2, x3⟩ := codeblock_index_exists W nh a hnh ha
    obtain ⟨y1, y2, y3⟩ := codeblock_index_exists H nv b hnv hb
    refine ⟨((nh * (a + 1) - 1) / W, (nv * (b + 1) - 1) / H), ⟨x1, y1, ?_⟩, ?_⟩
    · rw [mem_codeblock_cells, codeblock_axis_iff W nh _ hnh x1 hWr,
        codeblock_axis_iff H nv _ hnv y1 hHr]
      simp only [Int.toNat_ofNat]
      exact ⟨⟨h0, x2, x3⟩, ⟨v0, y2, y3⟩⟩
    · rintro ⟨x, y⟩ ⟨hx, hy, hm⟩
      simp only at hx hy hm
      rw [mem_codeblock_cells, codeblock_axis_iff W nh _ hnh hx hWr,
        codeblock_axis_iff H nv _ hnv hy hHr] at hm
      simp only [Int.toNat_ofNat] at hm
      rw [Prod.mk.injEq]
      exact ⟨codeblock_index_unique W nh _ _ a ⟨hm.1.2.1, hm.1.2.2⟩ ⟨x2, x3⟩,
        codeblock_index_unique H nv _ _ b ⟨hm.2.2.1, hm.2.2.2⟩ ⟨y2, y3⟩⟩
  · rintro ⟨⟨x, y⟩, ⟨hx, hy, hm⟩, -⟩
    simp only at hx hy hm
    rw [mem_codeblock_cells, codeblock_axis_iff W nh _ hnh hx hWr,
      codeblock_axis_iff H nv _ hnv hy hHr] at hm
    have r1 := codeblock_index_range W nh x h.toNat hx ⟨hm.1.2.1, hm.1.2.2⟩
    have r2 := codeblock_index_range H nv y v.toNat hy ⟨hm.2.2.1, hm.2.2.2⟩
    have := hm.1.1
    have := hm.2.1
    omega

theorem codeblocks_tile_witness :
    (∃! p : Nat × Nat, p.1 < 4 ∧ p.2 < 3 ∧ ((7 : Int), (5 : Int)) ∈ codeblock_cells 10 9 4 3 p.1 p.2)
      ∧ codeblock_cells 10 9 4 3 2 2 = [(6, 5), (6, 6), (7, 5), (7, 6), (8, 5), (8, 6)] :=
  ⟨(codeblocks_tile 10 9 4 3 (by decide) (by decide) (by decide) (by decide) (by decide)
      (by decide) 7 5).1 (by decide), by decide⟩

/-! ## Theorems: sum of the block weights -/

theorem filter_sum_two (f : Int → Int) (p : Int → Bool) (a n : Int)
    (hp : ∀ i, p i = true → i = a ∨ i = a + 1) :
    (((loop_range 0 n).filter p).map f).sum
      = (if 0 ≤ a ∧ a < n ∧ p a = true then f a else 0)
        + (if 0 ≤ a + 1 ∧ a + 1 < n ∧ p (a + 1) = true then f (a + 1) else 0) := by
  have key : ∀ m : Nat,
      ((((List.range m).map (fun (k : Nat) => (0 : Int) + (k : Int))).filter p).map f).sum
        = (if 0 ≤ a ∧ a < (m : Int) ∧ p a = true then f a else 0)
          + (if 0 ≤ a + 1 ∧ a + 1 < (m : Int) ∧ p (a + 1) = true then f (a + 1) else 0) := by
    intro m
    induction m with
    | zero =>
      have h1 : ¬ (0 ≤ a ∧ a < ((0 : Nat) : Int) ∧ p a = true) := by
        rintro ⟨h, h2, -⟩
        simp at h2
        omega
      have h2 : ¬ (0 ≤ a + 1 ∧ a + 1 < ((0 : Nat) : Int) ∧ p (a + 1) = true) := by
        rintro ⟨h, h2, -⟩
        simp at h2
        omega
      rw [if_neg h1, if_neg h2]
      rfl
    | succ m ih =>
      rw [List.range_succ, List.map_append, List.filter_append, List.map_append,
        List.sum_append, ih]
      simp only [List.map_cons, List.map_nil, zero_add]
      by_cases hm : p (m : Int) = true
      · rw [List.filter_cons_of_pos hm]
        simp only [List.filter_nil, List.map_cons, List.map_nil, List.sum_cons, List.sum_nil,
          add_zero]
        rcases hp _ hm with e | e
        · have c1 : ¬ (0 ≤ a ∧ a < (m : Int) ∧ p a = true) := by omega
          have c2 : ¬ (0 ≤ a + 1 ∧ a + 1 < (m : Int) ∧ p (a + 1) = true) := by omega
          have c3 : (0 ≤ a ∧ a < ((m + 1 : Nat) : Int) ∧ p a = true) := by
            refine ⟨by omega, by push_cast; omega, ?_⟩
            rw [← e]
            exact hm
          have c4 : ¬ (0 ≤ a + 1 ∧ a + 1 < ((m + 1 : Nat) : Int) ∧ p (a + 1) = true) := by
            push_cast
            omega
          rw [if_neg c1, if_neg c2, if_pos c3, if_neg c4, ← e]
          ring
        · have c2 : ¬ (0 ≤ a + 1 ∧ a + 1 < (m : Int) ∧ p (a + 1) = true) := by omega
          have c4 : (0 ≤ a + 1 ∧ a + 1 < ((m + 1 : Nat) : Int) ∧ p (a + 1) = true) := by
            refine ⟨by omega, by push_cast; omega, ?_⟩
            rw [← e]
            exact hm
          have c13 : (0 ≤ a ∧ a < (m : Int) ∧ p a = true)
              ↔ (0 ≤ a ∧ a < ((m + 1 : Nat) : Int) ∧ p a = true) := by
            push_cast
            constructor
            · rintro ⟨h1, h2, h3⟩
              exact ⟨h1, by omega, h3⟩
            · rintro ⟨h1, h2, h3⟩
              exact ⟨h1, by omega, h3⟩
          rw [if_neg c2, if_pos c4, ← e]
          simp only [c13]
          ring
      · rw [List.filter_cons_of_neg hm]
        simp only [List.filter_nil, List.map_nil, List.sum_nil, add_zero]
        have c13 : (0 ≤ a ∧ a < (m : Int) ∧ p a = true)
            ↔ (0 ≤ a ∧ a < ((m + 1 : Nat) : Int) ∧ p a = true) := by
          push_cast
          constructor
          · rintro ⟨h1, h2, h3⟩
            exact ⟨h1, by omega, h3⟩
          · rintro ⟨h1, h2, h3⟩
            refine ⟨h1, ?_, h3⟩
            rcases lt_or_eq_of_le (show a ≤ (m : Int) by omega) with h | h
            · exact h
            · rw [h] at h3
              exact absurd h3 hm
        have c24 : (0 ≤ a + 1 ∧ a + 1 < (m : Int) ∧ p (a + 1) = true)
            ↔ (0 ≤ a + 1 ∧ a + 1 < ((m + 1 : Nat) : Int) ∧ p (a + 1) = true) := by
          push_cast
          constructor
          · rintro ⟨h1, h2, h3⟩
            exact ⟨h1, by omega, h3⟩
          · rintro ⟨h1, h2, h3⟩
            refine ⟨h1, ?_, h3⟩
            rcases lt_or_eq_of_le (show a + 1 ≤ (m : Int) by omega) with h | h
            · exact h
            · rw [h] at h3
              exact absurd h3 hm
        simp only [c13, c24]
  have h := key n.toNat
  unfold loop_range
  simp only [sub_zero]
  rw [h]
  by_cases hn : 0 ≤ n
  · rw [Int.toNat_of_nonneg hn]
  · have e : ((n.toNat : Nat) : Int) = 0 := by omega
    rw [e]
    have c1 : ¬ (0 ≤ a ∧ a < (0 : Int) ∧ p a = true) := by omega
    have c2 : ¬ (0 ≤ a + 1 ∧ a + 1 < (0 : Int) ∧ p (a + 1) = true) := by omega
    have c3 : ¬ (0 ≤ a ∧ a < n ∧ p a = true) := by omega
    have c4 : ¬ (0 ≤ a + 1 ∧ a + 1 < n ∧ p (a + 1) = true) := by omega
    rw [if_neg c1, if_neg c2, if_neg c3, if_neg c4]

theorem tdiv_above_neg (z d : Int) (hd : 0 < d) (hz : -d < z) :
    Int.tdiv z d = if 0 ≤ z then z / d else 0 := by
  split_ifs with h
  · exact Int.tdiv_eq_ediv h (le_of_lt hd)
  · have e : z = -(-z) := by ring
    rw [e, Int.neg_tdiv, Int.tdiv_eq_zero_of_lt (by omega) (by omega)]
    rfl

theorem mc_cover_iff (a b x width : Int) (hx : 0 ≤ x ∧ x < width) :
    (FFMAX a 0 ≤ x ∧ x < FFMIN b width) ↔ (a ≤ x ∧ x < b) := by
  unfold FFMAX FFMIN
  split_ifs <;> omega

theorem spatial_wt_sum_8_4 (width x : Int) (hx : 0 ≤ x ∧ x < width) :
    spatial_wt_sum width 8 4 x = 8 := by
  unfold spatial_wt_sum
  have e1 : Int.tdiv ((8 : Int) - 4) 2 = 2 := by decide
  simp only [e1, mc_cover_iff _ _ _ _ hx]
  rw [tdiv_above_neg (width - 2) 4 (by decide) (by omega)]
  rw [filter_sum_two _ _ ((x + 2) / 4 - 1) _ (by
    intro i hi
    simp only [decide_eq_true_eq] at hi
    omega)]
  have e2 : (8 : Int) >>> (1 : Int) = 4 := by rfl
  simp only [decide_eq_true_eq, spatial_wt, FFABS, av_clip, e2]
  omega

theorem spatial_wt_sum_12_8 (width x : Int) (hx : 0 ≤ x ∧ x < width) :
    spatial_wt_sum width 12 8 x = 8 := by
  unfold spatial_wt_sum
  have e1 : Int.tdiv ((12 : Int) - 8) 2 = 2 := by decide
  simp only [e1, mc_cover_iff _ _ _ _ hx]
  rw [tdiv_above_neg (width - 2) 8 (by decide) (by omega)]
  rw [filter_sum_two _ _ ((x + 2) / 8 - 1) _ (by
    intro i hi
    simp only [decide_eq_true_eq] at hi
    omega)]
  have e2 : (12 : Int) >>> (1 : Int) = 6 := by rfl
  simp only [decide_eq_true_eq, spatial_wt, FFABS, av_clip, e2]
  omega

theorem spatial_wt_sum_16_12 (width x : Int) (hx : 0 ≤ x ∧ x < width) :
    spatial_wt_sum width 16 12 x = 8 := by
  unfold spatial_wt_sum
  have e1 : Int.tdiv ((16 : Int) - 12) 2 = 2 := by decide
  simp only [e1, mc_cover_iff _ _ _ _ hx]
  rw [tdiv_above_neg (width - 2) 12 (by decide) (by omega)]
  rw [filter_sum_two _ _ ((x + 2) / 12 - 1) _ (by
    intro i hi
    simp only [decide_eq_true_eq] at hi
    omega)]
  have e2 : (16 : Int) >>> (1 : Int) = 8 := by rfl
  simp only [decide_eq_true_eq, spatial_wt, FFABS, av_clip, e2]
  omega

theorem spatial_wt_sum_24_16 (width x : Int) (hx : 0 ≤ x ∧ x < width) :
    spatial_wt_sum width 24 16 x = 16 := by
  unfold spatial_wt_sum
  have e1 : Int.tdiv ((24 : Int) - 16) 2 = 4 := by decide
  simp only [e1, mc_cover_iff _ _ _ _ hx]
  rw [tdiv_above_neg (width - 4) 16 (by decide) (by omega)]
  rw [filter_sum_two _ _ ((x + 4) / 16 - 1) _ (by
    intro i hi
    simp only [decide_eq_true_eq] at hi
    omega)]
  have e2 : (24 : Int) >>> (1 : Int) = 12 := by rfl
  simp only [decide_eq_true_eq, spatial_wt, FFABS, av_clip, e2]
  omega

/-- C36. For each of the four block geometries of `block_param_defaults`
and every column `x` of a component of `width` columns, the horizontal
weights `spatial_wt` of the blocks of `dirac_motion_compensation` that
hold `x` add up to `2^hbits`, where `hbits = av_log2(xoffset) + 2` is the
share of one axis in `total_wt_bits`; the same holds for the rows with
the vertical geometry. -/
theorem spatial_wt_partition (width xblen xbsep x : Int) (hp : (xblen, xbsep) ∈ block_presets)
    (hx : 0 ≤ x ∧ x < width) :
    spatial_wt_sum width xblen xbsep x
      = 2 ^ (av_log2 (Int.tdiv (xblen - xbsep) 2) + 2).toNat := by
  unfold block_presets at hp
  simp only [List.mem_cons, Prod.mk.injEq, List.mem_singleton, List.mem_nil_iff, or_false] at hp
  rcases hp with ⟨rfl, rfl⟩ | ⟨rfl, rfl⟩ | ⟨rfl, rfl⟩ | ⟨rfl, rfl⟩
  · rw [spatial_wt_sum_8_4 width x hx]
    decide
  · rw [spatial_wt_sum_12_8 width x hx]
    decide
  · rw [spatial_wt_sum_16_12 width x hx]
    decide
  · rw [spatial_wt_sum_24_16 width x hx]
    decide

theorem spatial_wt_partition_witness :
    spatial_wt_sum 35 24 16 13 = 16
      ∧ spatial_wt 0 13 16 24 4 2 = 13 ∧ spatial_wt 1 13 16 24 4 2 = 3 :=
  ⟨spatial_wt_partition 35 24 16 13 (by decide) (by decide), by decide, by decide⟩

/-! ## Theorems: sub-pel interpolation -/

/-- C37. The rows of `qpel_weights` and `eighthpel_weights` are the
bilinear products of the phases on a grid of 2 resp. 4 steps and add up
to 4 resp. 16. When the four samples all have the value `v`, the
interpolated sample of `motion_comp_block1ref` is `v` for
`mv_precision` 2, but `2 * v` for `mv_precision` 3, for every row of
weights: the sum `4 + 16 * v` is shifted by 3 bits only. -/
theorem mc_sample_constant (s : mc_context) (v refline x vx xfix : Int) (i : Fin 4)
    (j : Fin 16) :
    weights_bilinear qpel_weights 2 4 = true
      ∧ weights_bilinear eighthpel_weights 4 16 = true
      ∧ mc_sample { s with mv_precision := 2 } (fun _ => v) refline x vx
          (weight_at qpel_weights ((i : Nat) : Int)) xfix = v
      ∧ mc_sample { s with mv_precision := 3 } (fun _ => v) refline x vx
          (weight_at eighthpel_weights ((j : Nat) : Int)) xfix = 2 * v := by
  refine ⟨by decide, by decide, ?_, ?_⟩
  · have h : ∀ k : Int, (2 + k * 4) >>> (2 : Nat) = k := by
      intro k
      rw [Int.shiftRight_eq_div_pow]
      norm_num
      omega
    fin_cases i <;>
      simp [mc_sample, weight_at, qpel_weights] <;>
      (refine Eq.trans (congrArg (fun z : Int => z >>> (2 : Nat)) (?_ : _ = 2 + v * 4)) (h v); ring)
  · have h : ∀ k : Int, (4 + k * 16) >>> (3 : Nat) = 2 * k := by
      intro k
      rw [Int.shiftRight_eq_div_pow]
      norm_num
      omega
    fin_cases j <;>
      simp [mc_sample, weight_at, eighthpel_weights] <;>
      (refine Eq.trans (congrArg (fun z : Int => z >>> (3 : Nat)) (?_ : _ = 4 + v * 16)) (h v); ring)

/-! ## Theorems: segment framing -/

theorem arith_renorm_step_bits (a : dirac_arith_state) :
    (arith_renorm_step a).gb.index + (arith_renorm_step a).bits_left = a.gb.index + a.bits_left
      ∧ (arith_renorm_step a).gb.index = a.gb.index + (if a.bits_left > 0 then 1 else 0)
      ∧ (arith_renorm_step a).bits_left = a.bits_left - 1 := by
  have hi : (arith_renorm_step a).gb.index = a.gb.index + (if a.bits_left > 0 then 1 else 0) := by
    unfold arith_renorm_step
    by_cases h : a.bits_left > 0 <;> simp [h, get_bits_index]
  have hb : (arith_renorm_step a).bits_left = a.bits_left - 1 := by
    unfold arith_renorm_step
    by_cases h : a.bits_left > 0
    · simp [h]
    · simp only [h, if_false]
      omega
  refine ⟨?_, hi, hb⟩
  rw [hi, hb]
  split_ifs <;> omega

theorem arith_split_bits (a : dirac_arith_state) (c : Nat) :
    (arith_split a c).2.gb = a.gb ∧ (arith_split a c).2.bits_left = a.bits_left := by
  unfold arith_split
  dsimp only
  split_ifs <;> exact ⟨rfl, rfl⟩

theorem arith_renorm_bits (fuel : Nat) :
    ∀ a a1 : dirac_arith_state, arith_renorm fuel a = some a1 →
      a1.gb.index + a1.bits_left = a.gb.index + a.bits_left := by
  induction fuel with
  | zero =>
    intro a a1 h
    unfold arith_renorm at h
    split_ifs at h
    cases h
    rfl
  | succ n ih =>
    intro a a1 h
    unfold arith_renorm at h
    split_ifs at h
    · rw [ih _ _ h, (arith_renorm_step_bits a).1]
    · cases h
      rfl

theorem dirac_arith_get_bit_bits (a : dirac_arith_state) (c b : Nat) (a1 : dirac_arith_state)
    (h : dirac_arith_get_bit a c = some (b, a1)) :
    a1.gb.index + a1.bits_left = a.gb.index + a.bits_left := by
  unfold dirac_arith_get_bit at h
  simp only [Option.map_eq_some'] at h
  obtain ⟨a2, h2, h3⟩ := h
  cases h3
  rw [arith_renorm_bits _ _ _ h2]
  show (arith_split a c).2.gb.index + (arith_split a c).2.bits_left = _
  rw [(arith_split_bits a c).1, (arith_split_bits a c).2]

theorem arith_get_bits_bits (cs : List Nat) :
    ∀ (a : dirac_arith_state) (bs : List Nat) (a1 : dirac_arith_state),
      arith_get_bits a cs = some (bs, a1) →
        a1.gb.index + a1.bits_left = a.gb.index + a.bits_left := by
  induction cs with
  | nil =>
    intro a bs a1 h
    simp only [arith_get_bits, Option.some.injEq, Prod.mk.injEq] at h
    rw [h.2]
  | cons c cs ih =>
    intro a bs a1 h
    unfold arith_get_bits at h
    cases h1 : dirac_arith_get_bit a c with
    | none => simp [h1] at h
    | some r =>
      obtain ⟨b, a2⟩ := r
      simp only [h1] at h
      cases h2 : arith_get_bits a2 cs with
      | none => simp [h2] at h
      | some r2 =>
        obtain ⟨bs2, a3⟩ := r2
        simp only [h2, Option.some.injEq, Prod.mk.injEq] at h
        rw [← h.2, ih _ _ _ h2, dirac_arith_get_bit_bits _ _ _ _ h1]

theorem dirac_arith_read_uint_bits (fuel : Nat) (a : dirac_arith_state)
    (cs : dirac_arith_context_set) (v : Nat) (a1 : dirac_arith_state)
    (h : dirac_arith_read_uint fuel a cs = some (v, a1)) :
    a1.gb.index + a1.bits_left = a.gb.index + a.bits_left := by
  unfold dirac_arith_read_uint at h
  obtain ⟨ds, -, h2, -⟩ := (read_uint_loop_iff cs fuel a 1 0 v a1).1 h
  exact arith_get_bits_bits _ _ _ _ h2

theorem dirac_arith_read_int_bits (fuel : Nat) (a : dirac_arith_state)
    (cs : dirac_arith_context_set) (v : Int) (a1 : dirac_arith_state)
    (h : dirac_arith_read_int fuel a cs = some (v, a1)) :
    a1.gb.index + a1.bits_left = a.gb.index + a.bits_left := by
  unfold dirac_arith_read_int at h
  cases h1 : dirac_arith_read_uint fuel a cs with
  | none => simp [h1] at h
  | some r =>
    obtain ⟨u, a2⟩ := r
    have e1 := dirac_arith_read_uint_bits _ _ _ _ _ h1
    simp only [h1] at h
    split_ifs at h with hz
    · cases h2 : dirac_arith_get_bit a2 cs.sign with
      | none => simp [h2] at h
      | some r2 =>
        obtain ⟨b, a3⟩ := r2
        simp only [h2, Option.some.injEq, Prod.mk.injEq] at h
        rw [← h.2, dirac_arith_get_bit_bits _ _ _ _ h2, e1]
    · simp only [Option.some.injEq, Prod.mk.injEq] at h
      rw [← h.2, e1]

theorem arith_call_run_bits (fuel : Nat) (a : dirac_arith_state) (c : arith_call)
    (a1 : dirac_arith_state) (h : arith_call_run fuel a c = some a1) :
    a1.gb.index + a1.bits_left = a.gb.index + a.bits_left := by
  cases c with
  | get_bit context =>
    simp only [arith_call_run, Option.map_eq_some'] at h
    obtain ⟨⟨b, a2⟩, h1, h2⟩ := h
    cases h2
    exact dirac_arith_get_bit_bits _ _ _ _ h1
  | read_uint cs =>
    simp only [arith_call_run, Option.map_eq_some'] at h
    obtain ⟨⟨b, a2⟩, h1, h2⟩ := h
    cases h2
    exact dirac_arith_read_uint_bits _ _ _ _ _ h1
  | read_int cs =>
    simp only [arith_call_run, Option.map_eq_some'] at h
    obtain ⟨⟨b, a2⟩, h1, h2⟩ := h
    cases h2
    exact dirac_arith_read_int_bits _ _ _ _ _ h1

theorem arith_calls_bits (fuel : Nat) (calls : List arith_call) :
    ∀ (a a1 : dirac_arith_state), arith_calls fuel a calls = some a1 →
      a1.gb.index + a1.bits_left = a.gb.index + a.bits_left := by
  induction calls with
  | nil =>
    intro a a1 h
    simp only [arith_calls, Option.some.injEq] at h
    rw [h]
  | cons c cs ih =>
    intro a a1 h
    unfold arith_calls at h
    cases h1 : arith_call_run fuel a c with
    | none => simp [h1] at h
    | some a2 =>
      simp only [h1] at h
      rw [ih _ _ h, arith_call_run_bits _ _ _ _ h1]

theorem arith_calls_get_bit_some (fuel : Nat) (cs : List Nat) :
    ∀ a : dirac_arith_state, arith_ok a →
      ∃ a1, arith_calls fuel a (cs.map arith_call.get_bit) = some a1 := by
  induction cs with
  | nil => intro a _; exact ⟨a, rfl⟩
  | cons c cs ih =>
    intro a h
    obtain ⟨b, a1, e1, _, h1⟩ := dirac_arith_get_bit_ok a c h
    obtain ⟨a2, e2⟩ := ih a1 h1
    refine ⟨a2, ?_⟩
    simp only [List.map_cons, arith_calls, arith_call_run, e1, Option.map_some']
    exact e2

/-- C31. For a segment of `length` bytes, `2 <= length < 2^28` (so that
`8 * length` is an `int`), and every sequence of calls of
`dirac_arith_get_bit`, `dirac_arith_read_uint` and `dirac_arith_read_int`
after `dirac_arith_init`: the cursor has moved 16 bits from the byte
boundary after the initialisation; the position of the cursor plus
`bits_left` stays at `8 * length` bits after the boundary, a pass of the
renormalisation loop reading one bit exactly when `bits_left > 0` and
counting `bits_left` down no further than 0; after `dirac_arith_flush`
the cursor is `8 * length` bits after the boundary and `bits_left` is 0.
A sequence of `dirac_arith_get_bit` calls always returns. -/
theorem arith_segment_framing (gb : GetBitContext) (length : Int) (hl : 2 ≤ length)
    (hmax : length < 268435456) (fuel : Nat) (calls : List arith_call) (a : dirac_arith_state)
    (h : arith_calls fuel (dirac_arith_init gb length) calls = some a) :
    (dirac_arith_init gb length).gb.index = (align_get_bits gb).index + 16
      ∧ a.gb.index + a.bits_left = (align_get_bits gb).index + (8 * length).toNat
      ∧ (∀ s : dirac_arith_state,
          (arith_renorm_step s).gb.index = s.gb.index + (if s.bits_left > 0 then 1 else 0)
            ∧ (arith_renorm_step s).bits_left = s.bits_left - 1)
      ∧ (dirac_arith_flush a).gb.index = (align_get_bits gb).index + (8 * length).toNat
      ∧ (dirac_arith_flush a).bits_left = 0
      ∧ (∀ cs : List Nat, ∃ a1,
          arith_calls fuel (dirac_arith_init gb length) (cs.map arith_call.get_bit) = some a1) := by
  have h0 : (dirac_arith_init gb length).gb.index = (align_get_bits gb).index + 16 := by
    simp [dirac_arith_init, get_bits_long, get_bits_index]
  have hb : (dirac_arith_init gb length).bits_left = (8 * length).toNat - 16 := by
    simp only [dirac_arith_init, int_to_u32]
    omega
  have h1 := arith_calls_bits fuel calls _ _ h
  rw [h0, hb] at h1
  refine ⟨h0, by omega, fun s => (arith_renorm_step_bits s).2, ?_, rfl, ?_⟩
  · show a.gb.index + a.bits_left = _
    omega
  · intro cs
    exact arith_calls_get_bit_some fuel cs _ (dirac_arith_init_ok gb length)

theorem arith_segment_framing_witness :
    ∃ a, arith_calls 8 (dirac_arith_init sample_gb 3) sample_arith_calls = some a
      ∧ a.gb.index + a.bits_left = 32
      ∧ (dirac_arith_flush a).gb.index = 32
      ∧ (dirac_arith_flush a).bits_left = 0 := by
  have hs : (arith_calls 8 (dirac_arith_init sample_gb 3) sample_arith_calls).isSome = true := by
    decide!
  obtain ⟨a, ha⟩ := Option.isSome_iff_exists.1 hs
  have t := arith_segment_framing sample_gb 3 (by decide) (by decide) 8 _ a ha
  exact ⟨a, ha, t.2.1, t.2.2.2.1, t.2.2.2.2.1⟩

/-! ## Theorems: header parser, state after a failure -/

theorem parse_source_interlace_records (s : DiracContext) :
    header_records (parse_source_interlace s) = header_records s := by
  unfold parse_source_interlace
  dsimp only
  split_ifs <;> rfl

theorem parse_source_frame_rate_records (h : dirac_host) (s : DiracContext) :
    header_records (parse_source_frame_rate h s).2 = header_records s := by
  unfold parse_source_frame_rate
  dsimp only
  split_ifs <;> rfl

theorem parse_source_aspect_ratio_records (h : dirac_host) (s : DiracContext) :
    header_records (parse_source_aspect_ratio h s).2 = header_records s := by
  unfold parse_source_aspect_ratio
  dsimp only
  split_ifs <;> rfl

theorem parse_source_signal_range_records (h : dirac_host) (s : DiracContext) :
    header_records (parse_source_signal_range h s).2 = header_records s := by
  unfold parse_source_signal_range
  dsimp only
  split_ifs <;> rfl

theorem parse_source_primaries_records (h : dirac_host) (s : DiracContext) :
    header_records (parse_source_primaries h s).2 = header_records s := by
  unfold parse_source_primaries
  dsimp only
  split_ifs <;> rfl

theorem parse_source_matrix_records (h : dirac_host) (s : DiracContext) :
    header_records (parse_source_matrix h s).2 = header_records s := by
  unfold parse_source_matrix
  dsimp only
  split_ifs <;> rfl

theorem parse_source_transfer_records (h : dirac_host) (s : DiracContext) :
    header_records (parse_source_transfer h s).2 = header_records s := by
  unfold parse_source_transfer
  dsimp only
  split_ifs <;> rfl

theorem parse_source_clean_area_records (h : dirac_host) (s : DiracContext) :
    header_records (parse_source_clean_area h s) = header_records s := by
  unfold parse_source_clean_area
  dsimp only
  split_ifs <;> rfl

theorem parse_source_color_spec_records (h : dirac_host) (s : DiracContext) :
    header_records (parse_source_color_spec h s).2 = header_records s := by
  unfold parse_source_color_spec
  dsimp only
  split_ifs <;>
    simp only [parse_source_transfer_records, parse_source_matrix_records,
      parse_source_primaries_records] <;> rfl

theorem parse_source_parameters_records (h : dirac_host) (s : DiracContext) :
    header_records (parse_source_parameters h s).2 = header_records s := by
  unfold parse_source_parameters
  dsimp only
  split_ifs <;>
    simp only [parse_source_color_spec_records, parse_source_signal_range_records,
      parse_source_clean_area_records, parse_source_aspect_ratio_records,
      parse_source_frame_rate_records, parse_source_interlace_records]

/-- C32 (amended). When `parse_access_unit_header` returns `-1`, the
record `s->decoding` is as before the call. With a video format greater
than 12 the records `s->sequence` and `s->source` and the two chroma
shifts are as before the call as well. With a video format within the
tables (the failure is in `parse_source_parameters`), `s->sequence` and
the chroma shifts are the ones that `parse_sequence_parameters` has set
from the defaults of the video format and the overrides of the header. -/
theorem parse_access_unit_header_failure_records (h : dirac_host) (s : DiracContext)
    (hfail : (parse_access_unit_header h s).1 = -1) :
    (parse_access_unit_header h s).2.decoding = s.decoding
      ∧ (12 < (access_unit_parse_parameters h s).1 →
          (parse_access_unit_header h s).2.sequence = s.sequence
            ∧ (parse_access_unit_header h s).2.source = s.source
            ∧ (parse_access_unit_header h s).2.chroma_hshift = s.chroma_hshift
            ∧ (parse_access_unit_header h s).2.chroma_vshift = s.chroma_vshift)
      ∧ ((access_unit_parse_parameters h s).1 ≤ 12 →
          (parse_access_unit_header h s).2.sequence = (access_unit_sequence h s).sequence
            ∧ (parse_access_unit_header h s).2.chroma_hshift
                = (access_unit_sequence h s).chroma_hshift
            ∧ (parse_access_unit_header h s).2.chroma_vshift
                = (access_unit_sequence h s).chroma_vshift) := by
  have hdef : parse_access_unit_header h s
      = if (access_unit_parse_parameters h s).1 > 12 then
          (-1, (access_unit_parse_parameters h s).2)
        else if (parse_source_parameters h
            { access_unit_sequence h s with
              source := source_parameters_defaults.getD (access_unit_parse_parameters h s).1
                          source_parameters_zero }).1 ≠ 0 then
          (-1, (parse_source_parameters h
            { access_unit_sequence h s with
              source := source_parameters_defaults.getD (access_unit_parse_parameters h s).1
                          source_parameters_zero }).2)
        else
          (0, { (parse_source_parameters h
            { access_unit_sequence h s with
              source := source_parameters_defaults.getD (access_unit_parse_parameters h s).1
                          source_parameters_zero }).2 with
                decoding := decoding_parameters_defaults.getD (access_unit_parse_parameters h s).1
                              decoding_parameters_zero }) := rfl
  have hseq : (access_unit_sequence h s).decoding = s.decoding := by
    unfold access_unit_sequence parse_sequence_parameters
    dsimp only
    split_ifs <;> rfl
  have hrec := parse_source_parameters_records h
    { access_unit_sequence h s with
      source := source_parameters_defaults.getD (access_unit_parse_parameters h s).1
                  source_parameters_zero }
  unfold header_records at hrec
  simp only [Prod.mk.injEq] at hrec
  obtain ⟨r1, r2, r3, r4⟩ := hrec
  rw [hdef] at hfail ⊢
  split_ifs at hfail ⊢ with c1 c2
  · refine ⟨rfl, fun _ => ⟨rfl, rfl, rfl, rfl⟩, fun hle => ?_⟩
    omega
  · refine ⟨?_, fun hgt => ?_, fun _ => ⟨r2, r3, r4⟩⟩
    · rw [r1]
      exact hseq
    · omega

set_option maxRecDepth 100000 in
/-- C32 (counterexample). A decoder that holds the parameters of a
320x240 sequence at 25 frames per second reads a header of video format
0 whose frame rate index is 9: the call returns `-1`, and the sequence
parameters are those of the defaults of video format 0 (640x480), the
frame rate and the clean area of the source parameters are the defaults
(30/1, 640x480), not the values before the call. -/
theorem parse_access_unit_header_not_atomic :
    (parse_access_unit_header sample_host sample_bad_header_context).1 = -1
      ∧ sample_bad_header_context.sequence.luma_width = 320
      ∧ (parse_access_unit_header sample_host sample_bad_header_context).2.sequence.luma_width
          = 640
      ∧ sample_bad_header_context.sequence.chroma_width = 160
      ∧ (parse_access_unit_header sample_host sample_bad_header_context).2.sequence.chroma_width
          = 320
      ∧ sample_bad_header_context.source.frame_rate = ⟨25, 1⟩
      ∧ (parse_access_unit_header sample_host sample_bad_header_context).2.source.frame_rate
          = ⟨30, 1⟩
      ∧ sample_bad_header_context.source.clean_width = 320
      ∧ (parse_access_unit_header sample_host sample_bad_header_context).2.source.clean_width
          = 640 := by
  decide!

set_option maxRecDepth 100000 in
theorem parse_access_unit_header_failure_records_witness :
    (parse_access_unit_header sample_host sample_bad_header_context).2.decoding
        = sample_bad_header_context.decoding
      ∧ (parse_access_unit_header sample_host sample_bad_header_context).2.sequence
        = (access_unit_sequence sample_host sample_bad_header_context).sequence :=
  ⟨(parse_access_unit_header_failure_records sample_host sample_bad_header_context
      (by decide!)).1,
    ((parse_access_unit_header_failure_records sample_host sample_bad_header_context
      (by decide!)).2.2 (by decide!)).1⟩

/-! ## Theorems: access unit header of the encoder -/

set_option maxRecDepth 100000 in
/-- C33. For a picture of 640x480, the size of the defaults of video
format 0, `dirac_encode_source_parameters` writes the flag of the clean
area as 1 and no values after it: `parse_access_unit_header` takes the
bits that follow (the flags of the signal range and of the colour
specification and the padding) for the four values of the clean area,
reads beyond the 29 bits of the header and stores a clean area that is
not the 640x480 of the encoder. For a picture of 320x240 with the same time base the parsed
sequence, source and decoding parameters are those of the encoder. -/
theorem dirac_encode_access_unit_header_clean_area :
    (dirac_encode_source_parameters (sample_avctx 640 480)).2
        = [put_op.put_bits 1 0,
           put_op.put_bits 1 1, put_op.dirac_set_ue_golomb 0, put_op.dirac_set_ue_golomb 25,
           put_op.dirac_set_ue_golomb 1,
           put_op.put_bits 1 0,
           put_op.put_bits 1 1,
           put_op.put_bits 1 0,
           put_op.put_bits 1 0]
      ∧ ((dirac_encode_access_unit_header (sample_avctx 640 480)).writes.foldl
          sample_put []).length = 29
      ∧ (parse_encoded_header (sample_avctx 640 480)).1 = 0
      ∧ (parse_encoded_header (sample_avctx 640 480)).2.gb.index = 277
      ∧ (dirac_encode_access_unit_header (sample_avctx 640 480)).source.clean_width = 640
      ∧ (parse_encoded_header (sample_avctx 640 480)).2.source.clean_width = 65535
      ∧ (parse_encoded_header (sample_avctx 640 480)).2.sequence
          = (dirac_encode_access_unit_header (sample_avctx 640 480)).sequence
      ∧ (parse_encoded_header (sample_avctx 320 240)).1 = 0
      ∧ (parse_encoded_header (sample_avctx 320 240)).2.sequence
          = (dirac_encode_access_unit_header (sample_avctx 320 240)).sequence
      ∧ (parse_encoded_header (sample_avctx 320 240)).2.source
          = (dirac_encode_access_unit_header (sample_avctx 320 240)).source
      ∧ (parse_encoded_header (sample_avctx 320 240)).2.decoding
          = (dirac_encode_access_unit_header (sample_avctx 320 240)).decoding := by
  decide!

/-! ## Theorems: quarter-pel parabolic fit -/

/-- C38. For all integer costs `t`, `l`, `r`, `b`, `c` and `tl` the five
conditions asserted in `qpel_motion_search` hold for the coefficients it
has just computed, in exact integer arithmetic: the sum `cx + cy` is a
multiple of 4, so its truncating division loses nothing. -/
theorem qpel_fit_asserts_hold (t l r b c tl : Int) :
    qpel_fit_asserts (qpel_fit_coeffs t l r b c tl) t l r b c tl
      = [true, true, true, true, true] := by
  have h : Int.tdiv (4 * (r - l) + 4 * (b - t)) 4 = (r - l) + (b - t) := by
    rw [← mul_add]
    exact Int.mul_tdiv_cancel_left _ (by decide)
  unfold qpel_fit_asserts qpel_fit_coeffs
  simp only [h]
  simp only [List.cons.injEq, decide_eq_true_eq, and_true]
  refine ⟨?_, ?_, ?_, ?_, ?_⟩ <;> ring

/-! ## Theorems: half-pel refinement -/

theorem CHECK_HALF_MV_near (cmp_hpel : Int → Int → Int → Int → Int) (a : hpel_args)
    (d0 mx my : Int) (st : Int × Int × Int) (dx dy x y : Int) (h : hpel_near d0 mx my st)
    (hx : 2 * mx - 1 ≤ 2 * x + dx ∧ 2 * x + dx ≤ 2 * mx + 1)
    (hy : 2 * my - 1 ≤ 2 * y + dy ∧ 2 * y + dy ≤ 2 * my + 1) :
    hpel_near d0 mx my (CHECK_HALF_MV cmp_hpel a st dx dy x y) := by
  unfold CHECK_HALF_MV
  dsimp only
  split_ifs with c
  · unfold hpel_near at h ⊢
    dsimp only
    exact ⟨by omega, hx.1, hx.2, hy.1, hy.2⟩
  · exact h

/-- C39. For a full-pel vector `(mx, my)` inside the window
`[xmin, xmax] x [ymin, ymax]`, any scores and `s->me.skip == 0`,
`hpel_motion_search` leaves a vector `(bx, by)` with
`2 * xmin <= bx <= 2 * xmax`, `2 * ymin <= by <= 2 * ymax`,
`|bx - 2 * mx| <= 1` and `|by - 2 * my| <= 1`; the condition of its
`assert` holds, and the returned score is at most the score of the
full-pel vector (the argument `dmin`, or the score computed again when
the two comparison functions differ). -/
theorem hpel_motion_search_window (h : me_host) (cmp_hpel : Int → Int → Int → Int → Int)
    (a : hpel_args) (hx : a.xmin ≤ a.mx ∧ a.mx ≤ a.xmax) (hy : a.ymin ≤ a.my ∧ a.my ≤ a.ymax)
    (hskip : a.skip = 0) :
    2 * a.xmin ≤ (hpel_motion_search h cmp_hpel a).mx
      ∧ (hpel_motion_search h cmp_hpel a).mx ≤ 2 * a.xmax
      ∧ 2 * a.ymin ≤ (hpel_motion_search h cmp_hpel a).my
      ∧ (hpel_motion_search h cmp_hpel a).my ≤ 2 * a.ymax
      ∧ |(hpel_motion_search h cmp_hpel a).mx - 2 * a.mx| ≤ 1
      ∧ |(hpel_motion_search h cmp_hpel a).my - 2 * a.my| ≤ 1
      ∧ (hpel_motion_search h cmp_hpel a).window_assert = true
      ∧ (hpel_motion_search h cmp_hpel a).dmin ≤ hpel_start_dmin cmp_hpel a := by
  unfold hpel_motion_search
  dsimp only
  rw [if_neg (by simp [hskip])]
  by_cases hw : a.mx > a.xmin ∧ a.mx < a.xmax ∧ a.my > a.ymin ∧ a.my < a.ymax
  · rw [if_pos hw]
    have base : hpel_near (hpel_start_dmin cmp_hpel a) a.mx a.my
        (hpel_start_dmin cmp_hpel a, 2 * a.mx, 2 * a.my) := by
      unfold hpel_near
      dsimp only
      omega
    have key : ∀ st : Int × Int × Int, hpel_near (hpel_start_dmin cmp_hpel a) a.mx a.my st →
        2 * a.xmin ≤ st.2.1 ∧ st.2.1 ≤ 2 * a.xmax ∧ 2 * a.ymin ≤ st.2.2 ∧ st.2.2 ≤ 2 * a.ymax
          ∧ |st.2.1 - 2 * a.mx| ≤ 1 ∧ |st.2.2 - 2 * a.my| ≤ 1
          ∧ decide (st.2.1 ≥ a.xmin * 2 ∧ st.2.1 ≤ a.xmax * 2
              ∧ st.2.2 ≥ a.ymin * 2 ∧ st.2.2 ≤ a.ymax * 2) = true
          ∧ st.1 ≤ hpel_start_dmin cmp_hpel a := by
      intro st hst
      unfold hpel_near at hst
      obtain ⟨h1, h2, h3, h4, h5⟩ := hst
      refine ⟨by omega, by omega, by omega, by omega, ?_, ?_, ?_, h1⟩
      · rw [abs_le]
        omega
      · rw [abs_le]
        omega
      · rw [decide_eq_true_eq]
        omega
    apply key
    split_ifs <;>
      repeat (first
        | exact base
        | (apply CHECK_HALF_MV_near _ _ _ _ _ _ _ _ _ _ ?_ (by omega) (by omega)))
  · rw [if_neg hw]
    dsimp only
    refine ⟨by omega, by omega, by omega, by omega, ?_, ?_, rfl, le_refl _⟩
    · simp
    · simp

set_option maxRecDepth 100000 in
theorem hpel_motion_search_window_witness :
    hpel_motion_search sample_me_host sample_cmp_hpel sample_hpel_args
        = hpel_result.mk 3 (-1) 0 true
      ∧ hpel_start_dmin sample_cmp_hpel sample_hpel_args = 10
      ∧ |(hpel_motion_search sample_me_host sample_cmp_hpel sample_hpel_args).mx
          - 2 * sample_hpel_args.mx| ≤ 1
      ∧ (hpel_motion_search sample_me_host sample_cmp_hpel sample_hpel_args).dmin
          ≤ hpel_start_dmin sample_cmp_hpel sample_hpel_args :=
  ⟨by decide!, by decide!,
    (hpel_motion_search_window sample_me_host sample_cmp_hpel sample_hpel_args
      (by decide) (by decide) rfl).2.2.2.2.1,
    (hpel_motion_search_window sample_me_host sample_cmp_hpel sample_hpel_args
      (by decide) (by decide) rfl).2.2.2.2.2.2.2⟩

/-! ## Theorems: small diamond search -/

theorem small_diamond_loop_succ (h : me_host) (a : me_args) (fuel : Nat) (dir : Int)
    (st : me_search) :
    small_diamond_loop h a (fuel + 1) dir st
      = if (small_diamond_pass h a dir st).2 = -1 then some (small_diamond_pass h a dir st).1
        else small_diamond_loop h a fuel (small_diamond_pass h a dir st).2
          (small_diamond_pass h a dir st).1 := rfl

theorem CHECK_MV_DIR_inv (h : me_host) (a : me_args) (d0 : Int) (p : me_search × Int)
    (x y new_dir : Int) (hp : me_pass_inv h a d0 p)
    (hw : a.xmin ≤ x ∧ x ≤ a.xmax ∧ a.ymin ≤ y ∧ y ≤ a.ymax) :
    me_pass_inv h a d0 (CHECK_MV_DIR h a p x y new_dir) := by
  obtain ⟨h1, h2, h3⟩ := hp
  unfold CHECK_MV_DIR
  dsimp only
  split_ifs with c1 c2
  · refine ⟨?_, hw, fun _ => ⟨?_, rfl⟩⟩
    · show me_score h a x y ≤ d0
      omega
    · show me_score h a x y < d0
      omega
  · exact ⟨h1, h2, h3⟩
  · exact ⟨h1, h2, h3⟩

theorem small_diamond_pass_inv (h : me_host) (a : me_args) (dir : Int) (st : me_search)
    (hw : me_in_window a st) : me_pass_inv h a st.dmin (small_diamond_pass h a dir st) := by
  have base : me_pass_inv h a st.dmin (st, -1) := ⟨le_refl _, hw, fun c => absurd rfl c⟩
  unfold me_in_window at hw
  unfold small_diamond_pass
  dsimp only
  split_ifs <;>
    repeat (first
      | exact base
      | (apply CHECK_MV_DIR_inv _ _ _ _ _ _ _ ?_ (by omega)))

theorem countP_lt_of_witness {α : Type} (l : List α) (p q : α → Bool) (x : α) (hx : x ∈ l)
    (hpq : ∀ y, p y = true → q y = true) (hq : q x = true) (hp : p x = false) :
    l.countP p < l.countP q := by
  induction l with
  | nil => simp at hx
  | cons b l ih =>
    have hle : l.countP p ≤ l.countP q := List.countP_mono_left (fun y _ => hpq y)
    rcases List.mem_cons.1 hx with e | e
    · subst e
      rw [List.countP_cons_of_pos _ _ hq, List.countP_cons_of_neg _ _ (by simp [hp])]
      omega
    · have := ih e
      by_cases hb : p b = true
      · rw [List.countP_cons_of_pos _ _ hb, List.countP_cons_of_pos _ _ (hpq b hb)]
        omega
      · rw [List.countP_cons_of_neg _ _ hb]
        by_cases hb2 : q b = true
        · rw [List.countP_cons_of_pos _ _ hb2]
          omega
        · rw [List.countP_cons_of_neg _ _ hb2]
          exact this

theorem mem_me_window (a : me_args) (x y : Int) :
    (x, y) ∈ me_window a ↔ a.xmin ≤ x ∧ x ≤ a.xmax ∧ a.ymin ≤ y ∧ y ≤ a.ymax := by
  unfold me_window
  simp only [List.mem_flatMap, List.mem_map, mem_loop_range, Prod.mk.injEq]
  constructor
  · rintro ⟨c, hc, d, hd, rfl, rfl⟩
    omega
  · rintro ⟨h1, h2, h3, h4⟩
    exact ⟨x, ⟨h1, by omega⟩, y, ⟨h3, by omega⟩, rfl, rfl⟩

theorem me_below_lt (h : me_host) (a : me_args) (d0 : Int) (st : me_search)
    (hw : me_in_window a st) (hlt : st.dmin < d0)
    (he : st.dmin = me_score h a st.best0 st.best1) :
    me_below h a st.dmin < me_below h a d0 := by
  unfold me_below
  apply countP_lt_of_witness _ _ _ (st.best0, st.best1) ((mem_me_window a _ _).2 hw)
  · intro y hy
    simp only [decide_eq_true_eq] at hy ⊢
    omega
  · simp only [decide_eq_true_eq]
    omega
  · simp only [decide_eq_false_iff_not]
    omega

theorem small_diamond_loop_some (h : me_host) (a : me_args) (fuel : Nat) :
    ∀ (dir : Int) (st : me_search), me_in_window a st → me_below h a st.dmin < fuel →
      ∃ r, small_diamond_loop h a fuel dir st = some r ∧ r.dmin ≤ st.dmin
        ∧ me_in_window a r := by
  induction fuel with
  | zero =>
    intro dir st _ hlt
    omega
  | succ n ih =>
    intro dir st hw hlt
    obtain ⟨q1, q2, q3⟩ := small_diamond_pass_inv h a dir st hw
    rw [small_diamond_loop_succ]
    split_ifs with c
    · exact ⟨_, rfl, q1, q2⟩
    · obtain ⟨r1, r2⟩ := q3 c
      have hm := me_below_lt h a st.dmin _ q2 r1 r2
      obtain ⟨r, e1, e2, e3⟩ := ih (small_diamond_pass h a dir st).2
        (small_diamond_pass h a dir st).1 q2 (by omega)
      exact ⟨r, e1, by omega, e3⟩

/-- C40. For every window, every score function and every start vector
`best` inside the window, the loop of `small_diamond_search` ends: a pass
that is not the last one (`next_dir != -1` after it) leaves a `dmin` that
is below the one before it and is the score of a vector of the window, so
there are at most as many such passes as the window has vectors; the
function returns, with a `dmin` that is not above the argument and a
vector `best` inside the window. -/
theorem small_diamond_search_terminates (h : me_host) (a : me_args) (st : me_search)
    (hw : me_in_window a st) :
    (∀ (dir : Int) (s1 : me_search), me_in_window a s1 →
        (small_diamond_pass h a dir s1).2 ≠ -1 →
          (small_diamond_pass h a dir s1).1.dmin < s1.dmin)
      ∧ ∀ fuel : Nat, (me_window a).length < fuel →
          ∃ r, small_diamond_search h a fuel st = some r ∧ r.dmin ≤ st.dmin
            ∧ me_in_window a r := by
  constructor
  · intro dir s1 h1 h2
    exact ((small_diamond_pass_inv h a dir s1 h1).2.2 h2).1
  · intro fuel hf
    have hb : ∀ d, me_below h a d ≤ (me_window a).length := by
      intro d
      unfold me_below
      exact List.countP_le_length _
    unfold small_diamond_search
    dsimp only
    split_ifs with c
    · have := small_diamond_loop_some h a fuel (-1)
        { st with
          score_map := Function.update st.score_map (me_index h st.best0 st.best1)
            (int_to_u32 (h.cmp st.best0 st.best1))
          map := Function.update st.map (me_index h st.best0 st.best1)
            (me_key h a st.best0 st.best1) } hw (by have := hb st.dmin; dsimp only; omega)
      exact this
    · exact small_diamond_loop_some h a fuel (-1) st hw (by have := hb st.dmin; omega)

set_option maxRecDepth 100000 in
theorem small_diamond_search_terminates_witness :
    (∃ r, small_diamond_search sample_diamond_host sample_diamond_args 50 sample_diamond_start
          = some r
        ∧ r.dmin ≤ sample_diamond_start.dmin ∧ me_in_window sample_diamond_args r)
      ∧ (small_diamond_search sample_diamond_host sample_diamond_args 50
            sample_diamond_start).map (fun r => (r.best0, r.best1, r.dmin))
          = some (2, -1, 0)
      ∧ (small_diamond_search sample_diamond_host sample_diamond_args 3
            sample_diamond_start).map (fun r => (r.best0, r.best1, r.dmin))
          = none :=
  ⟨(small_diamond_search_terminates sample_diamond_host sample_diamond_args sample_diamond_start
      (by unfold me_in_window; decide)).2 50 (by decide!), by decide!, by decide!⟩

end Dirac
